import Mathlib

/-!
# OIS protocol endpoints (serial_host_cpp/oisdevice.h)

A shallow embedding of the OIS codec and of the two endpoint classes:
`OisDevice` (used on the host to talk to a device) and `OisHost` (used on the
device to talk to a host).

Conventions of the embedding

* A byte is a natural number below 256; a `char*` is the list of the bytes from
  the pointer to the end of the line or frame.  C string functions stop at the
  first zero byte.
* Machine integers are `Nat`/`Int` with explicit wrap-around (`toU16`, `toI16`, ...).
* The transport `m_port` is an external object; the endpoint state keeps the
  list of the calls made on it, oldest first.
* `m_commandBuffer` holds the `m_commandLength` bytes that are buffered.
* The logging hooks `OIS_INFO`, `OIS_WARN` and the assertions have no effect on
  the endpoint state and are left out.
* `OisDevice::ProcessAscii` passes the string object `m_gameName` through the
  variable arguments of `FormatTemp`, which the language leaves to the
  implementation; the bytes that `%s` then reads are a datum of the endpoint
  (`m_gameNameObject`).
* The union `Value` is a sum of its three members.  The `float` member is
  idealised as an exact rational: rounding of binary32 arithmetic is outside
  the model.
-/

namespace Ois

/-! ## Bytes, text and machine integers -/

/-- The bytes of a text literal. -/
def bytes (s : String) : List Nat := s.toList.map Char.toNat

/-- Conversion to `uint8_t`. -/
def toU8 (x : Int) : Nat := (x % 256).toNat

/-- Conversion to `uint16_t`. -/
def toU16 (x : Int) : Nat := (x % 65536).toNat

/-- Conversion to `uint32_t`. -/
def toU32 (x : Int) : Nat := (x % 4294967296).toNat

/-- Conversion to `int16_t` (two's complement wrap). -/
def toI16 (x : Int) : Int := (x + 32768) % 65536 - 32768

/-- Conversion to `int32_t` (two's complement wrap). -/
def toI32 (x : Int) : Int := (x + 2147483648) % 4294967296 - 2147483648

/-- Value of `OIS_MAX_NAME_LENGTH`. -/
def OIS_MAX_NAME_LENGTH : Nat := 120

/-- Value of `OIS_MAX_COMMAND_LENGTH`. -/
def OIS_MAX_COMMAND_LENGTH : Nat := 4 + 6 + OIS_MAX_NAME_LENGTH + 1

/-- The macro `OIS_FOURCC`: four bytes packed little-endian into a 32-bit tag. -/
def OIS_FOURCC (str : List Nat) : Nat :=
  (str.getD 0 0 % 256) ||| ((str.getD 1 0 % 256) <<< 8) |||
  ((str.getD 2 0 % 256) <<< 16) ||| ((str.getD 3 0 % 256) <<< 24)

/-! ## Data model (class OisState) -/

/-- The enum `NumericType`. -/
inductive NumericType
  | Boolean
  | Number
  | Fraction
  deriving DecidableEq, Repr

/-- The union `Value`: `bool boolean; int32_t number; float fraction`. -/
inductive Value
  | boolean (b : Bool)
  | number (n : Int)
  | fraction (f : ℚ)
  deriving DecidableEq

/-- Read of the member `boolean`.  A union that holds another member is read
through the little-endian overlay of integers (low byte non-zero); only the
zero pattern of the float member is modelled. -/
def Value.getBoolean : Value → Bool
  | .boolean b => b
  | .number n => decide (n % 256 ≠ 0)
  | .fraction _ => false

/-- Read of the member `number`.  A stored `bool` reads as 0 or 1; only the zero
pattern of the float member is modelled. -/
def Value.getNumber : Value → Int
  | .boolean b => if b then 1 else 0
  | .number n => n
  | .fraction _ => 0

/-- Read of the member `fraction`.  Only the zero pattern of the integer members
is modelled. -/
def Value.getFraction : Value → ℚ
  | .boolean _ => 0
  | .number _ => 0
  | .fraction f => f

/-- The struct `NumericValue`. -/
structure NumericValue where
  name : List Nat
  channel : Nat
  active : Bool
  type : NumericType
  value : Value
  deriving DecidableEq

/-- The struct `Event`. -/
structure Event where
  channel : Nat
  name : List Nat
  deriving DecidableEq

/-- The enum `DeviceState`. -/
inductive DeviceState
  | Handshaking
  | Synchronisation
  | Active
  deriving DecidableEq, Repr

/-- Numeric value of a `DeviceState` enumerator. -/
def DeviceState.toNat : DeviceState → Nat
  | .Handshaking => 0
  | .Synchronisation => 1
  | .Active => 2

/-! ### enum ClientCommandsAscii -/

def SYN : Nat := OIS_FOURCC [83, 89, 78, 61]
def CMD : Nat := OIS_FOURCC [67, 77, 68, 61]
def NIB : Nat := OIS_FOURCC [78, 73, 66, 61]
def NIN : Nat := OIS_FOURCC [78, 73, 78, 61]
def NIF : Nat := OIS_FOURCC [78, 73, 70, 61]
def ACT : Nat := OIS_FOURCC [65, 67, 84, 0]
def EXC : Nat := OIS_FOURCC [69, 88, 67, 61]
def DBG : Nat := OIS_FOURCC [68, 66, 71, 61]
def NOB : Nat := OIS_FOURCC [78, 79, 66, 61]
def NON : Nat := OIS_FOURCC [78, 79, 78, 61]
def NOF : Nat := OIS_FOURCC [78, 79, 70, 61]
def TNI : Nat := OIS_FOURCC [84, 78, 73, 61]
def PID : Nat := OIS_FOURCC [80, 73, 68, 61]
def END : Nat := OIS_FOURCC [69, 78, 68, 0]

/-! ### enum ClientCommandsBin -/

def CL_NUL : Nat := 0x00
def CL_CMD : Nat := 0x01
def CL_NIO : Nat := 0x02
def CL_ACT : Nat := 0x03
def CL_SYN_ : Nat := 0x53
def CL_DBG : Nat := 0x04
def CL_451_ : Nat := 0x34
def CL_END_ : Nat := 0x45
def CL_TNI : Nat := 0x05
def CL_PID : Nat := 0x06
def CL_END : Nat := 0x07
def CL_VAL_1 : Nat := 0x08
def CL_VAL_2 : Nat := 0x09
def CL_VAL_3 : Nat := 0x0A
def CL_VAL_4 : Nat := 0x0B
def CL_EXC_0 : Nat := 0x0C
def CL_EXC_1 : Nat := 0x0D
def CL_EXC_2 : Nat := 0x0E
def CL_COMMAND_MASK : Nat := 0x0F
def CL_PAYLOAD_SHIFT : Nat := 4
def CL_N_PAYLOAD_N : Nat := 0x10
def CL_N_PAYLOAD_F : Nat := 0x20
def CL_N_PAYLOAD_O : Nat := 0x40
def CL_TNI_PAYLOAD_T : Nat := 0x10

/-! ### enum ServerCommandsBin -/

def SV_NUL : Nat := 0x00
def SV_VAL_1 : Nat := 0x01
def SV_VAL_2 : Nat := 0x02
def SV_VAL_3 : Nat := 0x03
def SV_VAL_4 : Nat := 0x04
def SV_END_ : Nat := 0x45
def SV_COMMAND_MASK : Nat := 0x07
def SV_PAYLOAD_SHIFT : Nat := 3

/-! ## Static helpers of OisState -/

/-- The template `OisState::Clamp`, at `int`. -/
def Clamp (x min max : Int) : Int :=
  if x < min then min else (if x > max then max else x)

/-- The conversion `(int)f` of a float: truncation toward zero. -/
def truncToInt (f : ℚ) : Int := Int.tdiv f.num f.den

/-- The function `OisState::ToRawValue`; the result is a `uint16_t`. -/
def ToRawValue (type : NumericType) (value : Value) : Nat :=
  match type with
  | .Boolean => if value.getBoolean then 1 else 0
  | .Number => toU16 (toI16 (Clamp value.getNumber (-32768) 32767))
  | .Fraction => toU16 (toI16 (Clamp (truncToInt (value.getFraction * 100)) (-32768) 32767))

/-- The function `OisState::FromRawValue`; the parameter `value` is a `uint16_t`. -/
def FromRawValue (type : NumericType) (value : Nat) : Value :=
  match type with
  | .Boolean => .boolean (decide (value ≠ 0))
  | .Number => .number (value : Int)
  | .Fraction => .fraction ((value : ℚ) / 100)

/-- The function `OisState::PackNumericValueCommand`: the returned pair is
`cmdLength` and the first `cmdLength` bytes written to `cmd`. -/
def PackNumericValueCommand (v : NumericValue)
    (PAYLOAD_SHIFT VAL_1 VAL_2 VAL_3 VAL_4 : Nat) : Nat × List Nat :=
  let data : Int := toI16 (ToRawValue v.type v.value)
  let u : Nat := toU16 data
  let extraBits := 8 - PAYLOAD_SHIFT
  let valueLimit1 := 1 <<< extraBits
  let valueLimit2 := 1 <<< (8 + extraBits)
  let channelLimit3 := 1 <<< (8 + extraBits)
  if v.channel < 256 ∧ u < valueLimit1 then
    (2, [0xFF &&& (VAL_1 ||| (u <<< PAYLOAD_SHIFT)),
         0xFF &&& v.channel])
  else if v.channel < 256 ∧ u < valueLimit2 then
    (3, [0xFF &&& (VAL_2 ||| ((u >>> 8) <<< PAYLOAD_SHIFT)),
         0xFF &&& u,
         0xFF &&& v.channel])
  else if v.channel < channelLimit3 then
    (4, [0xFF &&& (VAL_3 ||| ((v.channel >>> 8) <<< PAYLOAD_SHIFT)),
         0xFF &&& u,
         0xFF &&& (u >>> 8),
         0xFF &&& v.channel])
  else
    (5, [VAL_4 % 256,
         0xFF &&& u,
         0xFF &&& (u >>> 8),
         0xFF &&& v.channel,
         0xFF &&& (v.channel >>> 8)])

/-! ## C strings and the C library -/

/-- The C string at a `char*`: the bytes before the first zero byte. -/
def cstr : List Nat → List Nat
  | [] => []
  | c :: cs => if c = 0 then [] else c :: cstr cs

/-- The C library's `isdigit`. -/
def isdigit (c : Nat) : Bool := decide (48 ≤ c ∧ c ≤ 57)

/-- The C library's `isspace` in the C locale. -/
def isspace (c : Nat) : Bool := decide (c = 32 ∨ (9 ≤ c ∧ c ≤ 13))

/-- The digit loop of `atoi`: accumulates decimal digits up to the first byte
that is not a digit. -/
def atoiDigits : List Nat → Nat → Nat
  | [], acc => acc
  | c :: cs, acc => if isdigit c then atoiDigits cs (acc * 10 + (c - 48)) else acc

/-- The blank-skipping loop of `atoi`. -/
def skipSpaces : List Nat → List Nat
  | [] => []
  | c :: cs => if isspace c then skipSpaces cs else c :: cs

/-- The C library's `atoi`: optional blanks, optional sign, decimal digits.  A
result outside the range of `int` is undefined in C; the model keeps the exact
integer. -/
def atoi (str : List Nat) : Int :=
  let s := skipSpaces str
  if s.head? = some 45 then - (atoiDigits s.tail 0 : Int)
  else if s.head? = some 43 then (atoiDigits s.tail 0 : Int)
  else (atoiDigits s 0 : Int)

/-- Digits of the conversion `%d` for a natural number, most significant first,
prepended to `acc`. -/
def decimalAux : Nat → Nat → List Nat → List Nat
  | 0, _, acc => acc
  | fuel + 1, n, acc =>
    if n < 10 then (48 + n) :: acc
    else decimalAux fuel (n / 10) ((48 + n % 10) :: acc)

/-- The decimal text of a natural number. -/
def decimal (n : Nat) : List Nat := decimalAux (n + 1) n []

/-- The text written by the conversion `%d` of the printf family. -/
def fmt_d (x : Int) : List Nat :=
  if x < 0 then 45 :: decimal (-x).toNat else decimal x.toNat

/-- The function `OisState::ZeroDelimiter`.  The first component is the C string
at `str` after the call (the delimiter, when found, has been overwritten by a
zero byte); the second is the bytes at the returned pointer. -/
def ZeroDelimiter : List Nat → Nat → List Nat × List Nat
  | [], _ => ([], [])
  | c :: cs, delimiter =>
    if c = 0 then ([], c :: cs)
    else if c = delimiter then ([], cs)
    else ((c :: (ZeroDelimiter cs delimiter).1), (ZeroDelimiter cs delimiter).2)

/-- The loop of `OisState::CmdStrLength` over the bytes from `c` to `end`: the
final `length` and `foundNull`. -/
def CmdStrLengthLoop : List Nat → Nat → Nat × Bool
  | [], _ => (0, false)
  | b :: bs, terminator =>
    if b = terminator then (1, true)
    else ((CmdStrLengthLoop bs terminator).1 + 1, (CmdStrLengthLoop bs terminator).2)

/-- The function `OisState::CmdStrLength`. -/
def CmdStrLength (c : List Nat) (terminator : Nat) : Nat :=
  (CmdStrLengthLoop c terminator).1 +
    (if (CmdStrLengthLoop c terminator).2 then 0 else OIS_MAX_COMMAND_LENGTH * 2)

/-- Entries that carry a channel number (the template parameter of `FindChannel`). -/
class HasChannel (α : Type) where
  channel : α → Nat

instance : HasChannel NumericValue := ⟨NumericValue.channel⟩

instance : HasChannel Event := ⟨Event.channel⟩

/-- The template `OisState::FindChannel`: the position of the first entry whose
channel equals the `int` argument, or `none` for `nullptr`. -/
def FindChannel {α : Type} [HasChannel α] : List α → Int → Option Nat
  | [], _ => none
  | v :: vs, channel =>
    if (HasChannel.channel v : Int) = channel then some 0
    else (FindChannel vs channel).map (· + 1)

/-- Byte read `*(uint8_t*)(start+i)`. -/
def readU8 (start : List Nat) (i : Nat) : Nat := start.getD i 0 % 256

/-- Little-endian read `*(uint16_t*)(start+i)`. -/
def readU16 (start : List Nat) (i : Nat) : Nat :=
  readU8 start i + 256 * readU8 start (i + 1)

/-- Little-endian read `*(uint32_t*)(start+i)`. -/
def readU32 (start : List Nat) (i : Nat) : Nat :=
  readU16 start i + 65536 * readU16 start (i + 2)

/-- The conversion of a `char` to `uint32_t`.  Whether `char` is signed is
implementation-defined; a signed `char` holding a byte of 0x80 or more is
negative and converts to a value with the 24 high bits set. -/
def charToU32 (charSigned : Bool) (b : Nat) : Nat :=
  if charSigned ∧ 128 ≤ b % 256 then b % 256 + 0xFFFFFF00 else b % 256

/-- Assignment through the pointer returned by `FindChannel`: the entry at
position `i` is replaced by `f` of it. -/
def updateAt {α : Type} : List α → Nat → (α → α) → List α
  | [], _, _ => []
  | v :: vs, 0, f => f v :: vs
  | v :: vs, i + 1, f => v :: updateAt vs i f

/-- The state mask `1 << state`. -/
def stateBit (state : DeviceState) : Nat := 1 <<< state.toNat

/-- The text built by `sb.FormatTemp("ACK=%d,%s\n", m_gameVersion, m_gameName)`.
The last argument of the call is the `OIS_STRING` object itself, not
`m_gameName.c_str()`: `object` is the bytes that the conversion `%s` finds where
it expects the characters, and it copies them up to the first zero byte. -/
def formatAck (gameVersion : Nat) (object : List Nat) : List Nat :=
  bytes "ACK=" ++ fmt_d (toI32 gameVersion) ++ bytes "," ++ cstr object ++ bytes "\n"

/-! ## Text of the ASCII lines -/

/-- The ASCII line `SYN=<version>` (no mode) or `SYN=<version>,<mode>`. -/
def synLine (version : List Nat) (mode : Option (List Nat)) : List Nat :=
  match mode with
  | none => bytes "SYN=" ++ version
  | some m => bytes "SYN=" ++ version ++ 44 :: m

/-- Whether the mode text of a SYN line begins with the letter B. -/
def modeIsBinary (mode : Option (List Nat)) : Bool :=
  match mode with
  | none => false
  | some m => decide (m.head? = some 66)

/-- The letter I or O of a numeric declaration. -/
def directionLetter (output : Bool) : Nat := if output then 79 else 73

/-- The letter B, N or F of a numeric declaration. -/
def typeLetter : NumericType → Nat
  | .Boolean => 66
  | .Number => 78
  | .Fraction => 70

/-- The ASCII line `N<d><t>=<name>,<channel>`. -/
def numericLine (output : Bool) (t : NumericType) (name : List Nat) (channel : Nat) :
    List Nat :=
  78 :: directionLetter output :: typeLetter t :: 61 :: (name ++ 44 :: decimal channel)

/-! ## The transport -/

/-- A call made on the transport `m_port`. -/
inductive PortOp
  | Connect
  | Disconnect
  | Write (data : List Nat)
  deriving DecidableEq

/-! ## OisDevice: the class used on the host -/

/-- The data members of `OisDevice` (with those of `OisBase<OisDevice>`).  The
field `m_gameNameObject` is not a member of its own: it is the object
`m_gameName` as a `%s` conversion reads it when the object is passed through
variable arguments, that is the bytes found where the characters are expected
(with `std::string` of g++ the bytes of the object, which begins with a pointer).
The language leaves them to the implementation; they are given when the
endpoint is constructed. -/
structure OisDevice where
  m_port : List PortOp
  m_deviceName : List Nat
  m_gameVersion : Nat
  m_gameName : List Nat
  m_gameNameObject : List Nat
  m_protocolVersion : Nat
  m_binary : Bool
  m_pid : Nat
  m_vid : Nat
  m_connectionState : DeviceState
  m_commandBuffer : List Nat
  m_numericInputs : List NumericValue
  m_numericOutputs : List NumericValue
  m_events : List Event
  m_deviceNameOverride : List Nat
  m_queuedInputs : List Nat
  m_eventBuffer : List Nat

namespace OisDevice

/-- The function `OisDevice::ClearState`. -/
def ClearState (self : OisDevice) : OisDevice :=
  { self with
    m_connectionState := .Handshaking
    m_protocolVersion := 1
    m_binary := false
    m_pid := OIS_FOURCC [78, 85, 76, 76]
    m_vid := OIS_FOURCC [79, 73, 83, 0]
    m_deviceNameOverride := []
    m_commandBuffer := []
    m_numericInputs := []
    m_numericOutputs := []
    m_queuedInputs := []
    m_events := []
    m_eventBuffer := [] }

/-- The constructor of `OisDevice`; `gameNameObject` is what the implementation
makes of the string object built from `gameName` (see `m_gameNameObject`). -/
def init (name : List Nat) (gameVersion : Nat) (gameName : List Nat)
    (gameNameObject : List Nat) : OisDevice :=
  ClearState
    { m_port := []
      m_deviceName := name
      m_gameVersion := gameVersion
      m_gameName := cstr gameName
      m_gameNameObject := gameNameObject
      m_protocolVersion := 1
      m_binary := false
      m_pid := 0
      m_vid := 0
      m_connectionState := .Handshaking
      m_commandBuffer := []
      m_numericInputs := []
      m_numericOutputs := []
      m_events := []
      m_deviceNameOverride := []
      m_queuedInputs := []
      m_eventBuffer := [] }

/-- The function `OisBase::SendText`: writes `strlen(cmd)` bytes. -/
def SendText (self : OisDevice) (cmd : List Nat) : OisDevice :=
  { self with m_port := self.m_port ++ [PortOp.Write (cstr cmd)] }

/-- The function `OisBase::SendData`. -/
def SendData (self : OisDevice) (cmd : List Nat) (length : Nat) : OisDevice :=
  { self with m_port := self.m_port ++ [PortOp.Write (cmd.take length)] }

/-- The function `OisBase::ExpectState`.  The arguments `cmd` and `version`
only reach the log. -/
def ExpectState (self : OisDevice) (state : Nat) (_cmd : List Nat) (_version : Nat) :
    Bool × OisDevice :=
  let badState := decide (0 = ((1 <<< self.m_connectionState.toNat) &&& state))
  if badState then
    if self.m_connectionState = .Handshaking then
      (false, (self.ClearState).SendText (bytes "END\n"))
    else (false, self)
  else (true, self)

/-- The key=value branch of `OisDevice::ProcessAscii`. -/
def ProcessAscii_KeyVal (self : OisDevice) (cmd : List Nat) : Bool × OisDevice :=
  let r := self.ExpectState (stateBit .Active) cmd 2
  if !r.1 then (false, r.2)
  else
    let self := r.2
    let z := ZeroDelimiter cmd 61
    let payload := z.2
    let channel := atoi z.1
    match FindChannel self.m_numericOutputs channel with
    | some i =>
      (true, { self with
        m_numericOutputs := updateAt self.m_numericOutputs i
          (fun v => { v with value := FromRawValue v.type (toU16 (atoi payload)) }) })
    | none => (true, self)

/-- The `case SYN` of `OisDevice::ProcessAscii`. -/
def ProcessAscii_SYN (self : OisDevice) (cmd payload : List Nat) : Bool × OisDevice :=
  let r := self.ExpectState (stateBit .Handshaking) cmd 1
  let self := if !r.1 then r.2.ClearState else r.2
  let z := ZeroDelimiter payload 44
  let mode := z.2
  let binary := decide (mode.getD 0 0 = 66)
  let version := atoi z.1
  if !(decide (version = 1) && binary) ∧ version ≥ 1 ∧ version ≤ 2 then
    let self := { self with
      m_binary := binary
      m_protocolVersion := version.toNat
      m_connectionState := .Synchronisation }
    if version = 1 then (true, self.SendText (bytes "ACK\n"))
    else (true, self.SendText (formatAck self.m_gameVersion self.m_gameNameObject))
  else
    (true, (self.SendText (bytes "DEN\n")).ClearState)

/-- The `case PID` of `OisDevice::ProcessAscii`. -/
def ProcessAscii_PID (self : OisDevice) (cmd payload : List Nat) : Bool × OisDevice :=
  let self := (self.ExpectState (stateBit .Synchronisation) cmd 2).2
  let z1 := ZeroDelimiter payload 44
  let pid := z1.1
  let z2 := ZeroDelimiter z1.2 44
  let vid := z2.1
  let name := z2.2
  (true, { self with
    m_pid := toU32 (atoi pid)
    m_vid := toU32 (atoi vid)
    m_deviceNameOverride := cstr name })

/-- The `case CMD` of `OisDevice::ProcessAscii`. -/
def ProcessAscii_CMD (self : OisDevice) (cmd payload : List Nat) : Bool × OisDevice :=
  let r := self.ExpectState
    (stateBit .Synchronisation ||| (if self.m_protocolVersion > 1 then stateBit .Active else 0))
    cmd 1
  if !r.1 then (false, r.2)
  else
    let self := r.2
    let z := ZeroDelimiter payload 44
    let name := z.1
    let channel := toU16 (atoi z.2)
    (true, { self with m_events := self.m_events ++ [{ channel := channel, name := name }] })

/-- The `case NIN ... case NOB` of `OisDevice::ProcessAscii`. -/
def ProcessAscii_Numeric (self : OisDevice) (type : Nat) (cmd payload : List Nat) :
    Bool × OisDevice :=
  let output := decide (type = NON ∨ type = NOF ∨ type = NOB)
  let nt : NumericType :=
    if type = NON ∨ type = NIN then .Number
    else if type = NOF ∨ type = NIF then .Fraction
    else .Boolean
  let r := self.ExpectState
    (stateBit .Synchronisation ||| (if self.m_protocolVersion > 1 then stateBit .Active else 0))
    cmd (if output then 2 else 1)
  if !r.1 then (false, r.2)
  else
    let self := r.2
    let z := ZeroDelimiter payload 44
    let name := z.1
    let channel := atoi z.2
    let channel16 := toU16 channel
    let entry : NumericValue :=
      { name := name, channel := channel16, active := true, type := nt, value := .number 0 }
    if output then (true, { self with m_numericOutputs := self.m_numericOutputs ++ [entry] })
    else (true, { self with m_numericInputs := self.m_numericInputs ++ [entry] })

/-- The `case ACT` of `OisDevice::ProcessAscii`. -/
def ProcessAscii_ACT (self : OisDevice) (cmd : List Nat) : Bool × OisDevice :=
  let self := (self.ExpectState (stateBit .Synchronisation) cmd 1).2
  (true, { self with m_connectionState := .Active })

/-- The `case TNI` of `OisDevice::ProcessAscii`; it has no `break` and runs into
`case ACT`. -/
def ProcessAscii_TNI (self : OisDevice) (cmd payload : List Nat) : Bool × OisDevice :=
  let self := (self.ExpectState (stateBit .Synchronisation ||| stateBit .Active) cmd 2).2
  let z := ZeroDelimiter payload 44
  let active := z.2
  let channel := atoi z.1
  let self :=
    match FindChannel self.m_numericInputs channel with
    | some i =>
      { self with
        m_numericInputs := updateAt self.m_numericInputs i
          (fun v => { v with active := decide (atoi active ≠ 0) }) }
    | none => self
  ProcessAscii_ACT self cmd

/-- The `case EXC` of `OisDevice::ProcessAscii`. -/
def ProcessAscii_EXC (self : OisDevice) (cmd payload : List Nat) : Bool × OisDevice :=
  let self := (self.ExpectState (stateBit .Active) cmd 1).2
  let channel := atoi payload
  match FindChannel self.m_events channel with
  | some _ => (true, { self with m_eventBuffer := self.m_eventBuffer ++ [toU16 channel] })
  | none => (true, self)

/-- The `case END` of `OisDevice::ProcessAscii`. -/
def ProcessAscii_END (self : OisDevice) : Bool × OisDevice :=
  let self := if self.m_connectionState ≠ .Handshaking then self.ClearState else self
  (true, { self with m_port := self.m_port ++ [PortOp.Disconnect] })

/-- The `switch (type)` of `OisDevice::ProcessAscii`. -/
def ProcessAscii_Switch (self : OisDevice) (type : Nat) (cmd payload : List Nat) :
    Bool × OisDevice :=
  if type = SYN then ProcessAscii_SYN self cmd payload
  else if type = PID then ProcessAscii_PID self cmd payload
  else if type = CMD then ProcessAscii_CMD self cmd payload
  else if type = NIN ∨ type = NIF ∨ type = NIB ∨ type = NON ∨ type = NOF ∨ type = NOB then
    ProcessAscii_Numeric self type cmd payload
  else if type = TNI then ProcessAscii_TNI self cmd payload
  else if type = ACT then ProcessAscii_ACT self cmd
  else if type = EXC then ProcessAscii_EXC self cmd payload
  else if type = DBG then (true, self)
  else if type = END then ProcessAscii_END self
  else (true, self)

/-- The function `OisDevice::ProcessAscii`.  The argument `cmd` is the line in
the command buffer, its line feed replaced by the terminating zero byte. -/
def ProcessAscii (self : OisDevice) (cmd : List Nat) : Bool × OisDevice :=
  if cmd.getD 0 0 = 0 then (false, self)
  else
    let type : Nat := if cmd.getD 1 0 ≠ 0 ∧ cmd.getD 2 0 ≠ 0 then OIS_FOURCC cmd else 0
    let isKeyVal := isdigit (cmd.getD 0 0)
    if isKeyVal then ProcessAscii_KeyVal self cmd
    else
      let payload := cmd.drop 4
      ProcessAscii_Switch self type cmd payload

/-- The first `switch` of `OisDevice::ProcessBinary`: the value of `cmdLength`
after it, the bytes at `startString` (`none` for a null pointer) and
`strTerminator`. -/
def binaryHeader (payload command : Nat) (start : List Nat) :
    Nat × Option (List Nat) × Nat :=
  if payload = CL_SYN_ ∨ payload = CL_451_ then (0, some start, 10)
  else if command = CL_ACT ∨ command = CL_END ∨ command = CL_EXC_0 then (1, none, 0)
  else if command = CL_CMD ∨ command = CL_NIO then (1 + 2, some (start.drop (1 + 2)), 0)
  else if command = CL_DBG then (1, some (start.drop 1), 0)
  else if command = CL_PID then (1 + 8, some (start.drop (1 + 8)), 0)
  else if command = CL_EXC_1 ∨ command = CL_VAL_1 then (1 + 1, none, 0)
  else if command = CL_TNI ∨ command = CL_EXC_2 ∨ command = CL_VAL_2 then (1 + 2, none, 0)
  else if command = CL_VAL_3 then (1 + 3, none, 0)
  else if command = CL_VAL_4 then (1 + 4, none, 0)
  else (1, none, 0)

/-- The `case CL_PID` of `OisDevice::ProcessBinary`. -/
def ProcessBinary_PID (self : OisDevice) (start : List Nat) (cmdLength : Nat) :
    Int × OisDevice :=
  let self := (self.ExpectState (stateBit .Synchronisation) (bytes "PID") 2).2
  (cmdLength, { self with
    m_pid := readU32 start 1
    m_vid := readU32 start 5
    m_deviceNameOverride := cstr (start.drop 9) })

/-- The `case CL_CMD` of `OisDevice::ProcessBinary`. -/
def ProcessBinary_CMD (self : OisDevice) (start : List Nat) (cmdLength : Nat) :
    Int × OisDevice :=
  let r := self.ExpectState (stateBit .Synchronisation ||| stateBit .Active) (bytes "CMD") 2
  if !r.1 then (0, r.2)
  else
    let self := r.2
    let channel := readU16 start 1
    let name := cstr (start.drop 3)
    (cmdLength, { self with
      m_events := self.m_events ++ [{ channel := channel, name := name }] })

/-- The `case CL_NIO` of `OisDevice::ProcessBinary`. -/
def ProcessBinary_Declare (self : OisDevice) (payload : Nat) (start : List Nat)
    (cmdLength : Nat) : Int × OisDevice :=
  let r := self.ExpectState
    (stateBit .Synchronisation ||| (if self.m_protocolVersion > 1 then stateBit .Active else 0))
    (bytes "NIO") 2
  if !r.1 then (0, r.2)
  else
    let self := r.2
    let output := decide (payload &&& CL_N_PAYLOAD_O ≠ 0)
    let nt : NumericType :=
      if payload &&& CL_N_PAYLOAD_F ≠ 0 then .Fraction
      else if payload &&& CL_N_PAYLOAD_N ≠ 0 then .Number
      else .Boolean
    let channel := readU16 start 1
    let name := cstr (start.drop 3)
    let entry : NumericValue :=
      { name := name, channel := channel, active := true, type := nt, value := .number 0 }
    if output then
      (cmdLength, { self with m_numericOutputs := self.m_numericOutputs ++ [entry] })
    else
      (cmdLength, { self with m_numericInputs := self.m_numericInputs ++ [entry] })

/-- The `case CL_ACT` of `OisDevice::ProcessBinary`. -/
def ProcessBinary_ACT (self : OisDevice) (cmdLength : Nat) : Int × OisDevice :=
  let self := (self.ExpectState (stateBit .Synchronisation) (bytes "ACT") 2).2
  (cmdLength, { self with m_connectionState := .Active })

/-- The `case CL_TNI` of `OisDevice::ProcessBinary`. -/
def ProcessBinary_TNI (self : OisDevice) (payload : Nat) (start : List Nat)
    (cmdLength : Nat) : Int × OisDevice :=
  let self :=
    (self.ExpectState (stateBit .Synchronisation ||| stateBit .Active) (bytes "TNI") 2).2
  let channel := readU16 start 1
  match FindChannel self.m_numericInputs channel with
  | some i =>
    (cmdLength, { self with
      m_numericInputs := updateAt self.m_numericInputs i
        (fun v => { v with active := decide (payload &&& CL_TNI_PAYLOAD_T ≠ 0) }) })
  | none => (cmdLength, self)

/-- The `case CL_EXC_0 ... CL_EXC_2` of `OisDevice::ProcessBinary`. -/
def ProcessBinary_EXC (self : OisDevice) (payload command : Nat) (start : List Nat)
    (cmdLength : Nat) : Int × OisDevice :=
  let self := (self.ExpectState (stateBit .Active) (bytes "EXC") 2).2
  let extra := toU16 ((payload >>> CL_PAYLOAD_SHIFT : Nat) : Int)
  let channel : Nat :=
    if command = CL_EXC_0 then extra
    else if command = CL_EXC_1 then toU16 ((readU8 start 1 ||| (extra <<< 8) : Nat) : Int)
    else readU16 start 1
  match FindChannel self.m_events channel with
  | some _ => (cmdLength, { self with m_eventBuffer := self.m_eventBuffer ++ [channel] })
  | none => (cmdLength, self)

/-- The `case CL_VAL_1 ... CL_VAL_4` of `OisDevice::ProcessBinary`. -/
def ProcessBinary_VAL (self : OisDevice) (payload command : Nat) (start : List Nat)
    (cmdLength : Nat) : Int × OisDevice :=
  let r := self.ExpectState (stateBit .Active) (bytes "VAL") 2
  if !r.1 then (0, r.2)
  else
    let self := r.2
    let extra := payload >>> CL_PAYLOAD_SHIFT
    let value : Int :=
      if command = CL_VAL_1 then toI16 (extra : Int)
      else if command = CL_VAL_2 then
        toI16 ((readU8 start 1 ||| (extra <<< 8) % 4294967296 : Nat) : Int)
      else toI16 (readU16 start 1 : Int)
    let channel : Int :=
      if command = CL_VAL_1 then toI16 (readU8 start 1 : Int)
      else if command = CL_VAL_2 then toI16 (readU8 start 2 : Int)
      else if command = CL_VAL_3 then
        toI16 ((readU8 start 3 ||| (extra <<< 8) % 4294967296 : Nat) : Int)
      else toI16 (readU16 start 3 : Int)
    match FindChannel self.m_numericOutputs channel with
    | some i =>
      (cmdLength, { self with
        m_numericOutputs := updateAt self.m_numericOutputs i
          (fun v => { v with value := FromRawValue v.type (toU16 value) }) })
    | none => (cmdLength, self)

/-- The `case CL_END` of `OisDevice::ProcessBinary`. -/
def ProcessBinary_END (self : OisDevice) (cmdLength : Nat) : Int × OisDevice :=
  let self := if self.m_connectionState ≠ .Handshaking then self.ClearState else self
  (cmdLength, { self with m_port := self.m_port ++ [PortOp.Disconnect] })

/-- The second `switch` of `OisDevice::ProcessBinary`, on a complete frame of
`cmdLength` bytes. -/
def ProcessBinary_Switch (self : OisDevice) (payload command : Nat) (start : List Nat)
    (cmdLength : Nat) : Int × OisDevice :=
  if command = CL_PID then ProcessBinary_PID self start cmdLength
  else if command = CL_CMD then ProcessBinary_CMD self start cmdLength
  else if command = CL_NIO then ProcessBinary_Declare self payload start cmdLength
  else if command = CL_ACT then ProcessBinary_ACT self cmdLength
  else if command = CL_TNI then ProcessBinary_TNI self payload start cmdLength
  else if command = CL_DBG then (cmdLength, self)
  else if command = CL_EXC_0 ∨ command = CL_EXC_1 ∨ command = CL_EXC_2 then
    ProcessBinary_EXC self payload command start cmdLength
  else if command = CL_VAL_1 ∨ command = CL_VAL_2 ∨ command = CL_VAL_3 ∨ command = CL_VAL_4 then
    ProcessBinary_VAL self payload command start cmdLength
  else if command = CL_END then ProcessBinary_END self cmdLength
  else (cmdLength, self)

/-- The function `OisDevice::ProcessBinary`.  The argument `start` is the bytes
from `start` to `end`; `charSigned` tells whether `char` is a signed type. -/
def ProcessBinary (self : OisDevice) (charSigned : Bool) (start : List Nat) :
    Int × OisDevice :=
  if start = [] then (0, self)
  else
    let bufferLength := start.length
    let payload := charToU32 charSigned (start.getD 0 0)
    let command := payload &&& CL_COMMAND_MASK
    let hdr := binaryHeader payload command start
    let startString := hdr.2.1
    let strTerminator := hdr.2.2
    if startString = some [] then (0, self)
    else
      let cmdLength :=
        match startString with
        | some str => hdr.1 + CmdStrLength str strTerminator
        | none => hdr.1
      if bufferLength < cmdLength then (0, self)
      else if (payload = CL_SYN_ ∧ cstr start = bytes "SYN") ∨
          (payload = CL_451_ ∧ cstr start = bytes "451") then (-1, self)
      else ProcessBinary_Switch self payload command start cmdLength

/-- The function `OisState::SetValueAndEnqueue`, called on the members of an
`OisDevice`.  The reference `input` is given by its offset from
`values.front()`.  The parameter `queue` is passed by value: the index pushed
on it is lost when the function returns, so only the result and `values` come
back. -/
def SetValueAndEnqueue (input : Nat) (value : Value) (values : List NumericValue)
    (_queue : List Nat) : Bool × List NumericValue :=
  if values.isEmpty then (false, values)
  else
    let index := input
    if index ≥ values.length then (false, values)
    else if ((values.getD index
        { name := [], channel := 0, active := false, type := .Number, value := .number 0 }
        ).value.getNumber ≠ value.getNumber) then
      (true, updateAt values index (fun v => { v with value := value }))
    else (true, values)

/-- The function `OisDevice::SetInput`. -/
def SetInput (self : OisDevice) (input : Nat) (value : Value) : Bool × OisDevice :=
  let r := SetValueAndEnqueue input value self.m_numericInputs self.m_queuedInputs
  (r.1, { self with m_numericInputs := r.2 })

/-- The loop of `OisDevice::PopEvents`: the events handed to `fn`, in order. -/
def PopEventsCalls (events : List Event) : List Nat → List Event
  | [] => []
  | channel :: rest =>
    match FindChannel events (channel : Int) with
    | some i =>
      (events.getD i { channel := 0, name := [] }) :: PopEventsCalls events rest
    | none => PopEventsCalls events rest

/-- The template `OisDevice::PopEvents`: the result, the arguments of the calls
of `fn`, and the endpoint afterwards. -/
def PopEvents (self : OisDevice) : Bool × List Event × OisDevice :=
  if self.m_eventBuffer.isEmpty then (false, [], self)
  else (true, PopEventsCalls self.m_events self.m_eventBuffer, { self with m_eventBuffer := [] })

/-- The endpoint states that calls of the member functions can produce from a
newly constructed `OisDevice`.  The step `transport` stands for what `Poll` does around
the parsers: calls on the transport, a change of the buffered bytes, and the
clearing of `m_queuedInputs`. -/
inductive Reachable : OisDevice → Prop
  | init (name : List Nat) (gameVersion : Nat) (gameName gameNameObject : List Nat) :
      Reachable (init name gameVersion gameName gameNameObject)
  | ascii (s : OisDevice) (cmd : List Nat) :
      Reachable s → Reachable (s.ProcessAscii cmd).2
  | binary (s : OisDevice) (charSigned : Bool) (start : List Nat) :
      Reachable s → Reachable (s.ProcessBinary charSigned start).2
  | clear (s : OisDevice) : Reachable s → Reachable s.ClearState
  | transport (s : OisDevice) (ops : List PortOp) (buffer : List Nat) :
      Reachable s →
      Reachable { s with m_port := s.m_port ++ ops, m_commandBuffer := buffer, m_queuedInputs := [] }
  | setInput (s : OisDevice) (input : Nat) (value : Value) :
      Reachable s → Reachable (s.SetInput input value).2
  | popEvents (s : OisDevice) : Reachable s → Reachable s.PopEvents.2.2

/-- The endpoint holds no negotiated framing or version, no catalog and no
received event. -/
def Blank (s : OisDevice) : Prop :=
  s.m_binary = false ∧ s.m_protocolVersion = 1 ∧ s.m_numericInputs = [] ∧
    s.m_numericOutputs = [] ∧ s.m_events = [] ∧ s.m_eventBuffer = []

/-- The function `OisBase::SendValue`, for `OisDevice`. -/
def SendValue (self : OisDevice) (v : NumericValue)
    (PAYLOAD_SHIFT VAL_1 VAL_2 VAL_3 VAL_4 : Nat) : OisDevice :=
  if self.m_binary then
    let r := PackNumericValueCommand v PAYLOAD_SHIFT VAL_1 VAL_2 VAL_3 VAL_4
    self.SendData r.2 r.1
  else
    let data : Int := toI16 (ToRawValue v.type v.value)
    self.SendText (fmt_d v.channel ++ bytes "=" ++ fmt_d data ++ bytes "\n")

/-- The function `OisBase::ReadCommands`, for `OisDevice`.  The argument `data`
is the bytes that `m_port.Read` stored behind the buffered ones; its length is
the result `len` of `Read`, which the transport keeps within the size it was
given, `2 * OIS_MAX_COMMAND_LENGTH - m_commandLength`. -/
def ReadCommands (self : OisDevice) (data : List Nat) : Bool × OisDevice :=
  let len := data.length
  if len = 0 then (false, self)
  else (true, { self with m_commandBuffer := self.m_commandBuffer ++ data })

/-- The `for` loop of the ASCII branch of `OisBase::ProcessCommands`: `line` is
the bytes from `start` to `c`, the list is the bytes from `c` to `end`.  The
result is the endpoint and the bytes from `start` to `end` after the loop. -/
def asciiLoop : OisDevice → List Nat → List Nat → OisDevice × List Nat
  | self, line, [] => (self, line)
  | self, line, c :: cs =>
    if c ≠ 10 then asciiLoop self (line ++ [c]) cs
    else asciiLoop (self.ProcessAscii line).2 [] cs

/-- The `while` loop of the binary branch of `OisBase::ProcessCommands`, run for
at most `fuel` iterations (each iteration that goes on consumes at least one
byte, so the number of buffered bytes is enough fuel).  The result is the
endpoint and the bytes from `start` to `end` after the loop, or `none` when the
function returned from inside the loop. -/
def binaryLoop (charSigned : Bool) : Nat → OisDevice → List Nat → OisDevice × Option (List Nat)
  | 0, self, start => (self, some start)
  | fuel + 1, self, start =>
    if start = [] then (self, some start)
    else if (self.ProcessBinary charSigned start).1 = 0 then
      ((self.ProcessBinary charSigned start).2, some start)
    else if (self.ProcessBinary charSigned start).1 < 0 then
      ((self.ProcessBinary charSigned start).2.ClearState, none)
    else
      binaryLoop charSigned fuel (self.ProcessBinary charSigned start).2
        (start.drop (self.ProcessBinary charSigned start).1.toNat)

/-- The end of `OisBase::ProcessCommands`: `buffer` is the buffered bytes, `rest`
the bytes from `start` to `end` after the loop. -/
def ProcessCommands_End (self : OisDevice) (buffer rest : List Nat) : OisDevice :=
  if rest.length = buffer.length ∧ buffer.length = OIS_MAX_COMMAND_LENGTH * 2 then
    (self.SendText (bytes "END\n")).ClearState
  else { self with m_commandBuffer := rest }

/-- The function `OisBase::ProcessCommands`, for `OisDevice`. -/
def ProcessCommands (self : OisDevice) (charSigned : Bool) : OisDevice :=
  let buffer := self.m_commandBuffer
  if self.m_binary then
    match binaryLoop charSigned buffer.length self buffer with
    | (self1, none) => self1
    | (self1, some rest) => ProcessCommands_End self1 buffer rest
  else
    ProcessCommands_End (asciiLoop self [] buffer).1 buffer (asciiLoop self [] buffer).2

/-- The `for (;;)` loop of `OisBase::ConnectAndPoll`: `reads` is what the
successive calls of `m_port.Read` deliver; after them `Read` returns 0. -/
def pollLoop (charSigned : Bool) : OisDevice → List (List Nat) → OisDevice
  | self, [] => self
  | self, data :: reads =>
    if !(self.ReadCommands data).1 then (self.ReadCommands data).2
    else pollLoop charSigned ((self.ReadCommands data).2.ProcessCommands charSigned) reads

/-- The function `OisBase::ConnectAndPoll`, for `OisDevice`; `connected` is the
result of `m_port.IsConnected()`. -/
def ConnectAndPoll (self : OisDevice) (charSigned : Bool) (connected : Bool)
    (reads : List (List Nat)) : OisDevice :=
  if !connected then
    let self := if self.m_connectionState ≠ .Handshaking then self.ClearState else self
    { self with m_port := self.m_port ++ [PortOp.Connect] }
  else pollLoop charSigned self reads

/-- The function `OisDevice::Poll`.  An index of `m_queuedInputs` outside
`m_numericInputs` is undefined in the source and sends nothing here. -/
def Poll (self : OisDevice) (charSigned : Bool) (connected : Bool)
    (reads : List (List Nat)) : OisDevice :=
  let self := self.ConnectAndPoll charSigned connected reads
  let self := self.m_queuedInputs.foldl
    (fun s index =>
      match s.m_numericInputs[index]? with
      | some v => s.SendValue v SV_PAYLOAD_SHIFT SV_VAL_1 SV_VAL_2 SV_VAL_3 SV_VAL_4
      | none => s) self
  { self with m_queuedInputs := [] }

/-- The endpoint stays in ASCII framing after every complete line of the bytes:
the arguments are those of `asciiLoop`. -/
def StaysAscii : OisDevice → List Nat → List Nat → Bool
  | _, _, [] => true
  | self, line, c :: cs =>
    if c ≠ 10 then StaysAscii self (line ++ [c]) cs
    else !(self.ProcessAscii line).2.m_binary && StaysAscii (self.ProcessAscii line).2 [] cs

/-- The length computation of `OisDevice::ProcessBinary`: the value of
`cmdLength` when the function reaches the test `bufferLength < cmdLength`, or
`none` when it has returned 0 before that (no byte at all, or no byte of the
trailing string yet). -/
def frameLength (charSigned : Bool) (start : List Nat) : Option Nat :=
  if start = [] then none
  else
    let payload := charToU32 charSigned (start.getD 0 0)
    let command := payload &&& CL_COMMAND_MASK
    let hdr := binaryHeader payload command start
    match hdr.2.1 with
    | some [] => none
    | some str => some (hdr.1 + CmdStrLength str hdr.2.2)
    | none => some hdr.1

/-- The endpoint keeps ASCII framing up to the end of the bytes: a line that
changes the framing has no byte behind it.  The arguments are those of
`asciiLoop`. -/
def AsciiToEnd : OisDevice → List Nat → List Nat → Bool
  | _, _, [] => true
  | self, line, c :: cs =>
    if c ≠ 10 then AsciiToEnd self (line ++ [c]) cs
    else (cs.isEmpty || !(self.ProcessAscii line).2.m_binary) &&
      AsciiToEnd (self.ProcessAscii line).2 [] cs

/-- The endpoint keeps binary framing up to the end of the bytes: a frame that
changes the framing, and a text that the decoder rejects, ends with the last
of the bytes (its length, as the decoder computes it, is the number of bytes
from its first byte on).  The arguments are those of `binaryLoop`. -/
def BinaryToEnd (charSigned : Bool) : Nat → OisDevice → List Nat → Bool
  | 0, _, _ => true
  | fuel + 1, self, start =>
    if start = [] then true
    else if (self.ProcessBinary charSigned start).1 = 0 then
      (self.ProcessBinary charSigned start).2.m_binary ||
        decide (frameLength charSigned start = some start.length)
    else if (self.ProcessBinary charSigned start).1 < 0 then
      decide (frameLength charSigned start = some start.length)
    else
      ((self.ProcessBinary charSigned start).2.m_binary ||
          decide (frameLength charSigned start = some start.length)) &&
        BinaryToEnd charSigned fuel (self.ProcessBinary charSigned start).2
          (start.drop (self.ProcessBinary charSigned start).1.toNat)

/-- Whether the operation `f` resets the endpoint `self`, that is runs
`ClearState`.  `ClearState` is the only statement of the parsers, of `SetInput`
and of `PopEvents` that assigns `m_commandLength`, and it makes it zero; so the
reset is seen, on the endpoint with a byte in its command buffer (whenever
`ProcessCommands` calls a parser the command lies in the buffer), by the buffer
being empty afterwards. -/
def Resets (f : OisDevice → OisDevice) (self : OisDevice) : Bool :=
  decide ((f { self with m_commandBuffer := [0] }).m_commandBuffer = [])

/-- What identifies a declared numeric entry: its name, channel and type. -/
def entryKey (v : NumericValue) : List Nat × Nat × NumericType := (v.name, v.channel, v.type)

/-- One step of a catalog list, seen through `key`: the entries keep their keys
in place, or one entry is appended at the end. -/
def Grows {α β : Type} (key : α → β) (l l' : List α) : Prop :=
  l'.map key = l.map key ∨ ∃ e, l' = l ++ [e]

/-- The three catalogs are kept from `s` to `s'`: every numeric entry keeps its
name, channel and type, every event is unchanged, and each list is as before or
has one more entry at its end. -/
def CatalogsKept (s s' : OisDevice) : Prop :=
  Grows entryKey s.m_numericInputs s'.m_numericInputs ∧
  Grows entryKey s.m_numericOutputs s'.m_numericOutputs ∧
  Grows (fun e : Event => e) s.m_events s'.m_events

/-- The three catalogs are empty, as a reset leaves them. -/
def CatalogsCleared (s : OisDevice) : Prop :=
  s.m_numericInputs = [] ∧ s.m_numericOutputs = [] ∧ s.m_events = []

/-- No two inputs share a channel and no two outputs share a channel. -/
def UniqueChannels (s : OisDevice) : Prop :=
  (s.m_numericInputs.map NumericValue.channel).Nodup ∧
  (s.m_numericOutputs.map NumericValue.channel).Nodup

/-- The step from `s` to `s'` does not append to the inputs, or to the outputs,
an entry whose channel is already in that list. -/
def FreshStep (s s' : OisDevice) : Prop :=
  (∀ e, s'.m_numericInputs = s.m_numericInputs ++ [e] →
    e.channel ∉ s.m_numericInputs.map NumericValue.channel) ∧
  (∀ e, s'.m_numericOutputs = s.m_numericOutputs ++ [e] →
    e.channel ∉ s.m_numericOutputs.map NumericValue.channel)

/-- The endpoint states reachable from a newly constructed `OisDevice` by
inbound commands of which none declares a numeric entry on a channel that its
list already holds. -/
inductive ReachableFresh : OisDevice → Prop
  | init (name : List Nat) (gameVersion : Nat) (gameName gameNameObject : List Nat) :
      ReachableFresh (init name gameVersion gameName gameNameObject)
  | ascii (s : OisDevice) (cmd : List Nat) :
      ReachableFresh s → FreshStep s (s.ProcessAscii cmd).2 →
      ReachableFresh (s.ProcessAscii cmd).2
  | binary (s : OisDevice) (charSigned : Bool) (start : List Nat) :
      ReachableFresh s → FreshStep s (s.ProcessBinary charSigned start).2 →
      ReachableFresh (s.ProcessBinary charSigned start).2

/-- The endpoint with its command buffer emptied: what an inbound command does
is the same on two endpoints that differ in the buffered bytes only. -/
def eraseBuffer (s : OisDevice) : OisDevice := { s with m_commandBuffer := [] }

/-- Every declared event has a 16-bit channel, and every channel in the
received-event buffer is the channel of a declared event. -/
def EventsDeclared (s : OisDevice) : Prop :=
  (∀ e ∈ s.m_events, e.channel < 65536) ∧
    (∀ c ∈ s.m_eventBuffer, ∃ e ∈ s.m_events, e.channel = c)

end OisDevice

/-! ## OisHost: the class used on the device -/

/-- The data members of `OisHost` (with those of `OisBase<OisHost>`). -/
structure OisHost where
  m_port : List PortOp
  m_deviceName : List Nat
  m_gameVersion : Nat
  m_gameName : List Nat
  m_protocolVersion : Nat
  m_binary : Bool
  m_pid : Nat
  m_vid : Nat
  m_connectionState : DeviceState
  m_commandBuffer : List Nat
  m_numericInputs : List NumericValue
  m_numericOutputs : List NumericValue
  m_events : List Event
  m_queuedOutputs : List Nat
  m_eventBuffer : List Nat

namespace OisHost

/-- The function `OisHost::ClearState`. -/
def ClearState (self : OisHost) : OisHost :=
  { self with
    m_connectionState := .Handshaking
    m_protocolVersion := 1
    m_binary := false
    m_gameVersion := 0
    m_gameName := []
    m_commandBuffer := []
    m_queuedOutputs := []
    m_eventBuffer := [] }

/-- The constructor of `OisHost`. -/
def init (name : List Nat) (pid vid : Nat) : OisHost :=
  ClearState
    { m_port := []
      m_deviceName := name
      m_gameVersion := 0
      m_gameName := []
      m_protocolVersion := 1
      m_binary := false
      m_pid := pid
      m_vid := vid
      m_connectionState := .Handshaking
      m_commandBuffer := []
      m_numericInputs := []
      m_numericOutputs := []
      m_events := []
      m_queuedOutputs := []
      m_eventBuffer := [] }

/-- The function `OisBase::SendText`: writes `strlen(cmd)` bytes. -/
def SendText (self : OisHost) (cmd : List Nat) : OisHost :=
  { self with m_port := self.m_port ++ [PortOp.Write (cstr cmd)] }

/-- The function `OisBase::ExpectState`.  The arguments `cmd` and `version`
only reach the log. -/
def ExpectState (self : OisHost) (state : Nat) (_cmd : List Nat) (_version : Nat) :
    Bool × OisHost :=
  let badState := decide (0 = ((1 <<< self.m_connectionState.toNat) &&& state))
  if badState then
    if self.m_connectionState = .Handshaking then
      (false, (self.ClearState).SendText (bytes "END\n"))
    else (false, self)
  else (true, self)

/-- The two `switch` statements of `OisHost::ProcessBinary`, for a first byte
`payload` with the command code `command`. -/
def ProcessBinary_Switch (self : OisHost) (payload command : Nat) (start : List Nat) :
    Int × OisHost :=
  let bufferLength := start.length
  let cmdLength : Nat :=
    if command = SV_END_ then 1
    else if command = SV_VAL_1 then 1 + 1
    else if command = SV_VAL_2 then 1 + 2
    else if command = SV_VAL_3 then 1 + 3
    else if command = SV_VAL_4 then 1 + 4
    else 1
  if bufferLength < cmdLength then (0, self)
  else if command = SV_VAL_1 ∨ command = SV_VAL_2 ∨ command = SV_VAL_3 ∨ command = SV_VAL_4 then
    let r := self.ExpectState (stateBit .Active) (bytes "VAL") 2
    if !r.1 then (0, r.2)
    else
      let self := r.2
      let extra := payload >>> SV_PAYLOAD_SHIFT
      let value : Int :=
        if command = SV_VAL_1 then toI16 (extra : Int)
        else if command = SV_VAL_2 then
          toI16 ((readU8 start 1 ||| (extra <<< 8) % 4294967296 : Nat) : Int)
        else toI16 (readU16 start 1 : Int)
      let channel : Int :=
        if command = SV_VAL_1 then toI16 (readU8 start 1 : Int)
        else if command = SV_VAL_2 then toI16 (readU8 start 2 : Int)
        else if command = SV_VAL_3 then
          toI16 ((readU8 start 3 ||| (extra <<< 8) % 4294967296 : Nat) : Int)
        else toI16 (readU16 start 3 : Int)
      match FindChannel self.m_numericInputs channel with
      | some i =>
        (cmdLength, { self with
          m_numericInputs := updateAt self.m_numericInputs i
            (fun v => { v with value := FromRawValue v.type (toU16 value) }) })
      | none => (cmdLength, self)
  else if command = SV_END_ then
    let self := if self.m_connectionState ≠ .Handshaking then self.ClearState else self
    (cmdLength, { self with m_port := self.m_port ++ [PortOp.Disconnect] })
  else (cmdLength, self)

/-- The function `OisHost::ProcessBinary`.  The argument `start` is the bytes
from `start` to `end`; `charSigned` tells whether `char` is a signed type. -/
def ProcessBinary (self : OisHost) (charSigned : Bool) (start : List Nat) : Int × OisHost :=
  if start = [] then (0, self)
  else
    let payload := charToU32 charSigned (start.getD 0 0)
    let command := payload &&& SV_COMMAND_MASK
    ProcessBinary_Switch self payload command start

/-- The function `OisHost::ProcessAscii`.  The argument `cmd` is the line in
the command buffer, its line feed replaced by the terminating zero byte. -/
def ProcessAscii (self : OisHost) (cmd : List Nat) : Bool × OisHost :=
  if cmd.getD 0 0 = 0 then (false, self)
  else
    let type : Nat := if cmd.getD 1 0 ≠ 0 ∧ cmd.getD 2 0 ≠ 0 then OIS_FOURCC cmd else 0
    let isKeyVal := isdigit (cmd.getD 0 0)
    if isKeyVal then
      let r := self.ExpectState (stateBit .Active) cmd 2
      if !r.1 then (false, r.2)
      else
        let self := r.2
        let z := ZeroDelimiter cmd 61
        let payload := z.2
        let channel := atoi z.1
        match FindChannel self.m_numericInputs channel with
        | some i =>
          (true, { self with
            m_numericInputs := updateAt self.m_numericInputs i
              (fun v => { v with value := FromRawValue v.type (toU16 (atoi payload)) }) })
        | none => (true, self)
    else if type = END then
      let self := if self.m_connectionState ≠ .Handshaking then self.ClearState else self
      (true, { self with m_port := self.m_port ++ [PortOp.Disconnect] })
    else (true, self)

/-- The function `OisBase::SendData`. -/
def SendData (self : OisHost) (cmd : List Nat) (length : Nat) : OisHost :=
  { self with m_port := self.m_port ++ [PortOp.Write (cmd.take length)] }

/-- The binary branch of the event loop of `OisHost::Poll`, for an event of the
given channel: `cmdLength` and the bytes written to `cmd`. -/
def Poll_EventCommand (channel : Nat) : Nat × List Nat :=
  let extraBits := 8 - CL_PAYLOAD_SHIFT
  let channelLimit1 := 1 <<< extraBits
  let channelLimit2 := 1 <<< (8 + extraBits)
  if channel < channelLimit1 then
    (1, [(CL_EXC_0 ||| (channel <<< CL_PAYLOAD_SHIFT) % 256) % 256])
  else if channel < channelLimit2 then
    (2, [(CL_EXC_1 ||| ((channel >>> 8) <<< CL_PAYLOAD_SHIFT) % 256) % 256,
         (channel &&& 0xFF) % 256])
  else
    (3, [CL_EXC_2 % 256,
         (channel &&& 0xFF) % 256,
         ((channel >>> 8) &&& 0xFF) % 256])

/-- The body of the event loop of `OisHost::Poll`, for one index of
`m_eventBuffer`.  An index outside `m_events` is undefined in the source and
sends nothing here. -/
def Poll_Event (self : OisHost) (index : Nat) : OisHost :=
  match self.m_events[index]? with
  | some e =>
    if self.m_binary then
      self.SendData (Poll_EventCommand e.channel).2 (Poll_EventCommand e.channel).1
    else self.SendText (bytes "EXC=" ++ fmt_d e.channel ++ bytes "\n")
  | none => self

/-- The function `OisHost::Connecting`. -/
def Connecting (self : OisHost) : Bool := decide (self.m_connectionState ≠ .Handshaking)

/-- The function `OisHost::Connected`. -/
def Connected (self : OisHost) : Bool := decide (self.m_connectionState = .Active)

/-- The function `OisBase::ReadCommands`, for `OisHost`.  The argument `data` is
the bytes that `m_port.Read` stored behind the buffered ones. -/
def ReadCommands (self : OisHost) (data : List Nat) : Bool × OisHost :=
  let len := data.length
  if len = 0 then (false, self)
  else (true, { self with m_commandBuffer := self.m_commandBuffer ++ data })

/-- The `for` loop of the ASCII branch of `OisBase::ProcessCommands`, for
`OisHost`: `line` is the bytes from `start` to `c`, the list is the bytes from
`c` to `end`. -/
def asciiLoop : OisHost → List Nat → List Nat → OisHost × List Nat
  | self, line, [] => (self, line)
  | self, line, c :: cs =>
    if c ≠ 10 then asciiLoop self (line ++ [c]) cs
    else asciiLoop (self.ProcessAscii line).2 [] cs

/-- The `while` loop of the binary branch of `OisBase::ProcessCommands`, for
`OisHost`, run for at most `fuel` iterations.  The result is the endpoint and
the bytes from `start` to `end` after the loop, or `none` when the function
returned from inside the loop. -/
def binaryLoop (charSigned : Bool) : Nat → OisHost → List Nat → OisHost × Option (List Nat)
  | 0, self, start => (self, some start)
  | fuel + 1, self, start =>
    if start = [] then (self, some start)
    else if (self.ProcessBinary charSigned start).1 = 0 then
      ((self.ProcessBinary charSigned start).2, some start)
    else if (self.ProcessBinary charSigned start).1 < 0 then
      ((self.ProcessBinary charSigned start).2.ClearState, none)
    else
      binaryLoop charSigned fuel (self.ProcessBinary charSigned start).2
        (start.drop (self.ProcessBinary charSigned start).1.toNat)

/-- The end of `OisBase::ProcessCommands`, for `OisHost`. -/
def ProcessCommands_End (self : OisHost) (buffer rest : List Nat) : OisHost :=
  if rest.length = buffer.length ∧ buffer.length = OIS_MAX_COMMAND_LENGTH * 2 then
    (self.SendText (bytes "END\n")).ClearState
  else { self with m_commandBuffer := rest }

/-- The function `OisBase::ProcessCommands`, for `OisHost`. -/
def ProcessCommands (self : OisHost) (charSigned : Bool) : OisHost :=
  let buffer := self.m_commandBuffer
  if self.m_binary then
    match binaryLoop charSigned buffer.length self buffer with
    | (self1, none) => self1
    | (self1, some rest) => ProcessCommands_End self1 buffer rest
  else
    ProcessCommands_End (asciiLoop self [] buffer).1 buffer (asciiLoop self [] buffer).2

/-- The `for (;;)` loop of `OisBase::ConnectAndPoll`, for `OisHost`. -/
def pollLoop (charSigned : Bool) : OisHost → List (List Nat) → OisHost
  | self, [] => self
  | self, data :: reads =>
    if !(self.ReadCommands data).1 then (self.ReadCommands data).2
    else pollLoop charSigned ((self.ReadCommands data).2.ProcessCommands charSigned) reads

/-- The function `OisBase::ConnectAndPoll`, for `OisHost`. -/
def ConnectAndPoll (self : OisHost) (charSigned : Bool) (connected : Bool)
    (reads : List (List Nat)) : OisHost :=
  if !connected then
    let self := if self.m_connectionState ≠ .Handshaking then self.ClearState else self
    { self with m_port := self.m_port ++ [PortOp.Connect] }
  else pollLoop charSigned self reads

/-- The function `OisBase::SendValue`, for `OisHost`. -/
def SendValue (self : OisHost) (v : NumericValue)
    (PAYLOAD_SHIFT VAL_1 VAL_2 VAL_3 VAL_4 : Nat) : OisHost :=
  if self.m_binary then
    let r := PackNumericValueCommand v PAYLOAD_SHIFT VAL_1 VAL_2 VAL_3 VAL_4
    self.SendData r.2 r.1
  else
    let data : Int := toI16 (ToRawValue v.type v.value)
    self.SendText (fmt_d v.channel ++ bytes "=" ++ fmt_d data ++ bytes "\n")

/-- The function `OisHost::SetOutput`.  The reference `output` is given by its
offset from the front of `m_numericOutputs`. -/
def SetOutput (self : OisHost) (output : Nat) (value : Value) : Bool × OisHost :=
  let r := OisDevice.SetValueAndEnqueue output value self.m_numericOutputs
    self.m_queuedOutputs
  (r.1, { self with m_numericOutputs := r.2 })

/-- The function `OisHost::Poll`.  An index of `m_queuedOutputs` outside
`m_numericOutputs` is undefined in the source and sends nothing here. -/
def Poll (self : OisHost) (charSigned : Bool) (connected : Bool)
    (reads : List (List Nat)) : OisHost :=
  let self := self.ConnectAndPoll charSigned connected reads
  let self := self.m_queuedOutputs.foldl
    (fun s index =>
      match s.m_numericOutputs[index]? with
      | some v => s.SendValue v CL_PAYLOAD_SHIFT CL_VAL_1 CL_VAL_2 CL_VAL_3 CL_VAL_4
      | none => s) self
  let self := { self with m_queuedOutputs := [] }
  let self := self.m_eventBuffer.foldl Poll_Event self
  { self with m_eventBuffer := [] }

/-- The endpoint states that calls of the member functions can produce from a
newly constructed `OisHost`: the parsers on any line and any frame, `SetOutput`
and `Poll`.  The step `queued` stands for `Activate`, which the class declares
and the source does not define: it covers every change of the events waiting to
be sent. -/
inductive Reachable : OisHost → Prop
  | init (name : List Nat) (pid vid : Nat) : Reachable (init name pid vid)
  | ascii (s : OisHost) (cmd : List Nat) : Reachable s → Reachable (s.ProcessAscii cmd).2
  | binary (s : OisHost) (charSigned : Bool) (start : List Nat) :
      Reachable s → Reachable (s.ProcessBinary charSigned start).2
  | setOutput (s : OisHost) (output : Nat) (value : Value) :
      Reachable s → Reachable (s.SetOutput output value).2
  | poll (s : OisHost) (charSigned connected : Bool) (reads : List (List Nat)) :
      Reachable s → Reachable (s.Poll charSigned connected reads)
  | queued (s : OisHost) (events : List Nat) :
      Reachable s → Reachable { s with m_eventBuffer := events }

end OisHost

/-! ## The binary loop of OisBase, counted -/

namespace OisBase

/-- The number of iterations of the `while` loop of the binary branch of
`OisBase::ProcessCommands`, that is of calls of `_ProcessBinary`, counted for at
most `fuel` iterations; `processBinary` is the decoder of the endpoint class. -/
def binaryCalls {σ : Type} (processBinary : σ → List Nat → Int × σ) :
    Nat → σ → List Nat → Nat
  | 0, _, _ => 0
  | fuel + 1, self, start =>
    if start = [] then 0
    else if (processBinary self start).1 = 0 then 1
    else if (processBinary self start).1 < 0 then 1
    else
      1 + binaryCalls processBinary fuel (processBinary self start).2
        (start.drop (processBinary self start).1.toNat)

/-- The distance `start - m_commandBuffer` when the `while` loop of the binary
branch of `OisBase::ProcessCommands` ends: the sum of the command lengths added
to `start`, over at most `fuel` iterations. -/
def binaryOffset {σ : Type} (processBinary : σ → List Nat → Int × σ) :
    Nat → σ → List Nat → Nat
  | 0, _, _ => 0
  | fuel + 1, self, start =>
    if start = [] then 0
    else if (processBinary self start).1 = 0 then 0
    else if (processBinary self start).1 < 0 then 0
    else
      (processBinary self start).1.toNat +
        binaryOffset processBinary fuel (processBinary self start).2
          (start.drop (processBinary self start).1.toNat)

end OisBase

/-! ## Sample endpoints -/

/-- A string object holding the name OisHub as g++ lays it out: a pointer to the
characters (here 0x00007FFD4C2E1A90), the length 6, and the characters in the
small buffer of the object. -/
def hubNameObject : List Nat :=
  [0x90, 0x1A, 0x2E, 0x4C, 0xFD, 0x7F, 0, 0] ++ [6, 0, 0, 0, 0, 0, 0, 0] ++
    bytes "OisHub" ++ [0, 0, 0, 0, 0, 0, 0, 0, 0, 0]

/-- A host endpoint newly constructed for the game OisHub, version 1. -/
def hubStart : OisDevice := OisDevice.init (bytes "COM3") 1 (bytes "OisHub") hubNameObject

/-- The host endpoint after the line `SYN=1`. -/
def hubSync : OisDevice := (hubStart.ProcessAscii (bytes "SYN=1")).2

/-- The host endpoint after the declarations `CMD=Fire,7`, `NIB=Lamp,3` and
`NON=Knob,5`. -/
def hubCatalog : OisDevice :=
  (((hubSync.ProcessAscii (bytes "CMD=Fire,7")).2.ProcessAscii (bytes "NIB=Lamp,3")).2.ProcessAscii
    (bytes "NON=Knob,5")).2

/-- The host endpoint after the line `ACT`. -/
def hubActive : OisDevice := (hubCatalog.ProcessAscii (bytes "ACT")).2

/-- A Number entry named Far on channel 40000. -/
def far (n : Int) : NumericValue :=
  { name := bytes "Far", channel := 40000, active := true, type := .Number, value := .number n }

/-- A Number entry named Knob on channel 5. -/
def knob (n : Int) : NumericValue :=
  { name := bytes "Knob", channel := 5, active := true, type := .Number, value := .number n }

/-- A host endpoint in binary framing: after the line `SYN=2,B`, the binary
declarations (code 0x02, Number, output) of Knob on channel 5 and of Far on
channel 40000, and the binary ACT frame. -/
def hubBinary : OisDevice :=
  ((((hubStart.ProcessAscii (bytes "SYN=2,B")).2.ProcessBinary false
    ([0x52, 0x05, 0x00] ++ bytes "Knob" ++ [0])).2.ProcessBinary false
    ([0x52, 0x40, 0x9C] ++ bytes "Far" ++ [0])).2.ProcessBinary false [0x03]).2

/-- A device endpoint put in the Active state with the input Knob declared. -/
def panelActive : OisHost :=
  { OisHost.init (bytes "COM3") 0 0 with
    m_connectionState := .Active
    m_numericInputs := [knob 0] }

/-- The host endpoint in Active after the lines `SYN=1`, `NIN=Dial,4` and `ACT`:
its catalog holds the Number input Dial on channel 4. -/
def hubDial : OisDevice :=
  (((hubStart.ProcessAscii (bytes "SYN=1")).2.ProcessAscii (bytes "NIN=Dial,4")).2.ProcessAscii
    (bytes "ACT")).2

/-- A Number entry named Dial on channel 4. -/
def dial (n : Int) : NumericValue :=
  { name := bytes "Dial", channel := 4, active := true, type := .Number, value := .number n }

/-- A host endpoint in binary framing and Active, with the events Low, Mid and
High declared by binary CMD frames on the channels 8, 2048 and 40000. -/
def hubEvents : OisDevice :=
  (((((hubStart.ProcessAscii (bytes "SYN=2,B")).2.ProcessBinary false
    ([0x01, 0x08, 0x00] ++ bytes "Low" ++ [0])).2.ProcessBinary false
    ([0x01, 0x00, 0x08] ++ bytes "Mid" ++ [0])).2.ProcessBinary false
    ([0x01, 0x40, 0x9C] ++ bytes "High" ++ [0])).2.ProcessBinary false [0x03]).2

/-- A full command buffer that the binary decoder rejects: the text `SYN`, a
zero byte, a line feed and 257 zero bytes. -/
def stray : List Nat := [83, 89, 78, 0, 10] ++ List.replicate 257 0

/-- The binary declaration of the Number output Knob on channel 10; its second
byte is a line feed. -/
def declTen : List Nat := [0x52, 0x0A, 0x00] ++ bytes "Knob" ++ [0]

/-- A host endpoint in binary framing and Synchronisation: after the line
`SYN=2,B` and the binary declarations of the event Fire on channel 7 and of the
Number output Knob on channel 5. -/
def hubBinarySync : OisDevice :=
  (((hubStart.ProcessAscii (bytes "SYN=2,B")).2.ProcessBinary false
    ([0x01, 0x07, 0x00] ++ bytes "Fire" ++ [0])).2.ProcessBinary false
    ([0x52, 0x05, 0x00] ++ bytes "Knob" ++ [0])).2

/-- A device endpoint newly constructed for the port COM3. -/
def panelStart : OisHost := OisHost.init (bytes "COM3") 0 0

/-! # Theorems -/

/-! ## C strings and decimal text -/

theorem cstr_of_no_zero (l : List Nat) (h : ∀ c ∈ l, c ≠ 0) : cstr l = l := by
  induction l with
  | nil => rfl
  | cons c cs ih =>
    have hc : c ≠ 0 := h c (List.mem_cons_self _ _)
    simp [cstr, hc, ih (fun x hx => h x (List.mem_cons_of_mem _ hx))]

theorem ZeroDelimiter_append (l rest : List Nat) (d : Nat)
    (h : ∀ c ∈ l, c ≠ 0 ∧ c ≠ d) (hd : d ≠ 0) :
    ZeroDelimiter (l ++ d :: rest) d = (l, rest) := by
  induction l with
  | nil => simp [ZeroDelimiter, hd]
  | cons c cs ih =>
    have hc := h c (List.mem_cons_self _ _)
    have ih := ih (fun x hx => h x (List.mem_cons_of_mem _ hx))
    simp [ZeroDelimiter, hc.1, hc.2, ih]

theorem ZeroDelimiter_none (l : List Nat) (d : Nat)
    (h : ∀ c ∈ l, c ≠ 0 ∧ c ≠ d) :
    ZeroDelimiter l d = (l, []) := by
  induction l with
  | nil => simp [ZeroDelimiter]
  | cons c cs ih =>
    have hc := h c (List.mem_cons_self _ _)
    have ih := ih (fun x hx => h x (List.mem_cons_of_mem _ hx))
    simp [ZeroDelimiter, hc.1, hc.2, ih]

theorem decimalAux_append (fuel n : Nat) (acc rest : List Nat) :
    decimalAux fuel n acc ++ rest = decimalAux fuel n (acc ++ rest) := by
  induction fuel generalizing n acc with
  | zero => simp [decimalAux]
  | succ f ih =>
    unfold decimalAux
    split
    · simp
    · rw [ih]; simp

theorem atoiDigits_decimalAux (fuel : Nat) :
    ∀ n, n < fuel → ∃ k, ∀ acc a,
      atoiDigits (decimalAux fuel n acc) a = atoiDigits acc (a * 10 ^ k + n) := by
  induction fuel with
  | zero => intro n h; omega
  | succ f ih =>
    intro n hn
    by_cases h10 : n < 10
    · refine ⟨1, fun acc a => ?_⟩
      have hd : isdigit (48 + n) = true := by simp [isdigit]; omega
      simp [decimalAux, h10, atoiDigits, hd]
    · obtain ⟨k, hk⟩ := ih (n / 10) (by omega)
      refine ⟨k + 1, fun acc a => ?_⟩
      have hd : isdigit (48 + n % 10) = true := by simp [isdigit]; omega
      simp only [decimalAux, h10, if_false, hk, atoiDigits, hd, if_true]
      congr 1
      have : 48 + n % 10 - 48 = n % 10 := by omega
      rw [this, pow_succ]
      have := Nat.div_add_mod n 10
      nlinarith [this]

/-- Every byte of a decimal text is a digit. -/
theorem decimalAux_digits (fuel : Nat) :
    ∀ n acc, (∀ c ∈ acc, 48 ≤ c ∧ c ≤ 57) → ∀ c ∈ decimalAux fuel n acc, 48 ≤ c ∧ c ≤ 57 := by
  induction fuel with
  | zero => intro n acc h; simpa [decimalAux] using h
  | succ f ih =>
    intro n acc h
    unfold decimalAux
    split
    · intro c hc
      rcases List.mem_cons.1 hc with rfl | hc
      · omega
      · exact h c hc
    · apply ih
      intro c hc
      rcases List.mem_cons.1 hc with rfl | hc
      · omega
      · exact h c hc

theorem decimalAux_ne_nil (fuel n : Nat) (acc : List Nat) (h : n < fuel) :
    decimalAux fuel n acc ≠ [] := by
  induction fuel generalizing n acc with
  | zero => omega
  | succ f ih =>
    unfold decimalAux
    split
    · simp
    · apply ih; omega

theorem atoiDigits_stop (rest : List Nat) (a : Nat)
    (h : ∀ c, rest.head? = some c → isdigit c = false) : atoiDigits rest a = a := by
  cases rest with
  | nil => rfl
  | cons c cs => simp [atoiDigits, h c rfl]

theorem decimal_digits (n : Nat) : ∀ c ∈ decimal n, 48 ≤ c ∧ c ≤ 57 :=
  decimalAux_digits (n + 1) n [] (by simp)

theorem decimal_ne_nil (n : Nat) : decimal n ≠ [] :=
  decimalAux_ne_nil (n + 1) n [] (Nat.lt_succ_self n)

theorem atoiDigits_decimal (n : Nat) (rest : List Nat)
    (h : ∀ c, rest.head? = some c → isdigit c = false) :
    atoiDigits (decimal n ++ rest) 0 = n := by
  obtain ⟨k, hk⟩ := atoiDigits_decimalAux (n + 1) n (Nat.lt_succ_self n)
  rw [decimal, decimalAux_append, hk, List.nil_append, atoiDigits_stop _ _ h]
  simp

theorem atoi_of_digit_head (d : Nat) (ds : List Nat) (hd : 48 ≤ d ∧ d ≤ 57) :
    atoi (d :: ds) = (atoiDigits (d :: ds) 0 : Int) := by
  have h1 : isspace d = false := by simp [isspace]; omega
  have h2 : d ≠ 45 := by omega
  have h3 : d ≠ 43 := by omega
  simp [atoi, skipSpaces, h1, h2, h3]

theorem atoi_decimal (n : Nat) (rest : List Nat)
    (h : ∀ c, rest.head? = some c → isdigit c = false) :
    atoi (decimal n ++ rest) = (n : Int) := by
  have hne := decimal_ne_nil n
  have hdig := decimal_digits n
  have key := atoiDigits_decimal n rest h
  cases hdn : decimal n with
  | nil => exact absurd hdn hne
  | cons d ds =>
    rw [hdn] at hdig key
    have hd := hdig d (List.mem_cons_self _ _)
    rw [List.cons_append, atoi_of_digit_head d _ hd]
    rw [List.cons_append] at key
    exact_mod_cast key

theorem atoi_fmt_d (x : Int) (rest : List Nat)
    (h : ∀ c, rest.head? = some c → isdigit c = false) :
    atoi (fmt_d x ++ rest) = x := by
  unfold fmt_d
  split
  · rename_i hx
    have h1 : isspace 45 = false := by decide
    have := atoiDigits_decimal (-x).toNat rest h
    simp [atoi, skipSpaces, h1, this]
    omega
  · rename_i hx
    rw [atoi_decimal _ _ h]
    omega

theorem decimal_no_zero (n : Nat) : ∀ c ∈ decimal n, c ≠ 0 ∧ c ≠ 44 ∧ c ≠ 61 := by
  intro c hc
  have := decimal_digits n c hc
  omega

theorem OIS_FOURCC_cons4 (a b c d : Nat) (rest : List Nat) :
    OIS_FOURCC (a :: b :: c :: d :: rest) = OIS_FOURCC [a, b, c, d] := rfl

theorem bytes_SYN : bytes "SYN=" = [83, 89, 78, 61] := by decide

theorem head_decimal_append (n : Nat) (rest : List Nat) :
    ∃ d ds, decimal n ++ rest = d :: ds ∧ 48 ≤ d ∧ d ≤ 57 := by
  have hne := decimal_ne_nil n
  have hdig := decimal_digits n
  cases hdn : decimal n with
  | nil => exact absurd hdn hne
  | cons d ds =>
    rw [hdn] at hdig
    exact ⟨d, ds ++ rest, rfl, hdig d (List.mem_cons_self _ _)⟩

theorem fmt_d_toI32 (n : Nat) (h : n < 2147483648) : fmt_d (toI32 n) = decimal n := by
  have h1 : toI32 (n : Int) = n := by
    unfold toI32
    omega
  rw [h1]
  simp [fmt_d]

theorem cstr_no_zero (l : List Nat) : ∀ c ∈ cstr l, c ≠ 0 := by
  induction l with
  | nil => simp [cstr]
  | cons a as ih =>
    unfold cstr
    split
    · simp
    · rename_i ha
      intro c hc
      rcases List.mem_cons.1 hc with rfl | hc
      · exact ha
      · exact ih c hc

theorem fmt_d_no_zero (x : Int) : ∀ c ∈ fmt_d x, c ≠ 0 := by
  unfold fmt_d
  split
  · intro c hc
    rcases List.mem_cons.1 hc with rfl | hc
    · decide
    · exact (decimal_no_zero _ c hc).1
  · exact fun c hc => (decimal_no_zero _ c hc).1

/-- The text of the ACK reply holds no zero byte, so `strlen` covers all of it. -/
theorem cstr_formatAck (gv : Nat) (name : List Nat) :
    cstr (formatAck gv name) = formatAck gv name := by
  apply cstr_of_no_zero
  unfold formatAck
  intro c hc
  simp only [List.mem_append] at hc
  rcases hc with (((hc | hc) | hc) | hc) | hc
  · revert c; decide
  · exact fmt_d_no_zero _ c hc
  · revert c; decide
  · exact cstr_no_zero name c hc
  · revert c; decide

namespace OisDevice

/-! ## State checks and dispatch of the host endpoint -/

theorem ExpectState_ok (s : OisDevice) (mask : Nat) (cmd : List Nat) (v : Nat)
    (h : (1 <<< s.m_connectionState.toNat) &&& mask ≠ 0) :
    s.ExpectState mask cmd v = (true, s) := by
  have h' : ¬ (0 = (1 <<< s.m_connectionState.toNat) &&& mask) := fun e => h e.symm
  simp [ExpectState, h']

theorem ExpectState_bad (s : OisDevice) (mask : Nat) (cmd : List Nat) (v : Nat)
    (h : (1 <<< s.m_connectionState.toNat) &&& mask = 0)
    (hs : s.m_connectionState ≠ .Handshaking) :
    s.ExpectState mask cmd v = (false, s) := by
  simp [ExpectState, h, hs]

theorem ExpectState_reset (s : OisDevice) (mask : Nat) (cmd : List Nat) (v : Nat)
    (h : (1 <<< s.m_connectionState.toNat) &&& mask = 0)
    (hs : s.m_connectionState = .Handshaking) :
    s.ExpectState mask cmd v = (false, (s.ClearState).SendText (bytes "END\n")) := by
  rw [hs] at h
  simp [ExpectState, h, hs]

theorem ProcessAscii_SYN_line (s : OisDevice) (rest : List Nat) :
    s.ProcessAscii (83 :: 89 :: 78 :: 61 :: rest) =
      ProcessAscii_SYN s (83 :: 89 :: 78 :: 61 :: rest) rest := by
  unfold ProcessAscii
  simp only [List.getD_cons_zero, List.getD_cons_succ, OIS_FOURCC_cons4]
  simp [isdigit, ProcessAscii_Switch]
  simp [OIS_FOURCC, SYN]

/-- The state left by `ClearState` is blank. -/
theorem Blank_ClearState (s : OisDevice) : Blank s.ClearState := by
  simp [Blank, ClearState]

theorem updateAt_nil_iff {α : Type} (l : List α) (i : Nat) (f : α → α) :
    updateAt l i f = [] ↔ l = [] := by
  cases l with
  | nil => simp [updateAt]
  | cons a as => cases i <;> simp [updateAt]

theorem FindChannel_nil {α : Type} [HasChannel α] (c : Int) :
    FindChannel ([] : List α) c = none := rfl

theorem ExpectState_inv (s : OisDevice) (mask : Nat) (cmd : List Nat) (v : Nat)
    (h : s.m_connectionState = .Handshaking → Blank s) :
    (s.ExpectState mask cmd v).2.m_connectionState = .Handshaking →
      Blank (s.ExpectState mask cmd v).2 := by
  unfold ExpectState
  cases hst : s.m_connectionState <;> simp only [hst] at h ⊢ <;> split <;>
    simp_all [Blank, ClearState, SendText]

theorem ExpectState_state (s : OisDevice) (mask : Nat) (cmd : List Nat) (v : Nat) :
    (s.ExpectState mask cmd v).2.m_connectionState = s.m_connectionState := by
  unfold ExpectState
  cases hst : s.m_connectionState <;> simp only [hst] <;> split <;>
    simp_all [ClearState, SendText]

theorem ExpectState_true (s : OisDevice) (mask : Nat) (cmd : List Nat) (v : Nat)
    (h : (s.ExpectState mask cmd v).1 = true) :
    (s.ExpectState mask cmd v).2 = s ∧ (1 <<< s.m_connectionState.toNat) &&& mask ≠ 0 := by
  unfold ExpectState at h ⊢
  by_cases hb : 0 = (1 <<< s.m_connectionState.toNat) &&& mask
  · simp [hb.symm] at h
    split at h <;> simp at h
  · simp [hb]
    exact fun e => hb e.symm

theorem ProcessAscii_ACT_inv (s : OisDevice) (cmd : List Nat) :
    (ProcessAscii_ACT s cmd).2.m_connectionState ≠ .Handshaking := by
  simp [ProcessAscii_ACT]

theorem ProcessAscii_KeyVal_inv (s : OisDevice) (cmd : List Nat)
    (h : s.m_connectionState = .Handshaking → Blank s) :
    (ProcessAscii_KeyVal s cmd).2.m_connectionState = .Handshaking →
      Blank (ProcessAscii_KeyVal s cmd).2 := by
  have h1 := ExpectState_inv s (stateBit .Active) cmd 2 h
  unfold ProcessAscii_KeyVal
  simp only []
  split
  · exact h1
  · split <;> simp_all [Blank, updateAt_nil_iff]

theorem ProcessAscii_SYN_inv (s : OisDevice) (cmd payload : List Nat) :
    (ProcessAscii_SYN s cmd payload).2.m_connectionState = .Handshaking →
      Blank (ProcessAscii_SYN s cmd payload).2 := by
  unfold ProcessAscii_SYN
  simp only []
  split
  · split <;> simp [SendText]
  · intro _
    simp [Blank, ClearState]

theorem ProcessAscii_PID_inv (s : OisDevice) (cmd payload : List Nat)
    (h : s.m_connectionState = .Handshaking → Blank s) :
    (ProcessAscii_PID s cmd payload).2.m_connectionState = .Handshaking →
      Blank (ProcessAscii_PID s cmd payload).2 := by
  have h1 := ExpectState_inv s (stateBit .Synchronisation) cmd 2 h
  simpa [ProcessAscii_PID, Blank] using h1

theorem ExpectState_true_not_handshaking (s : OisDevice) (extra : Nat) (cmd : List Nat)
    (v : Nat) (hx : extra = 0 ∨ extra = stateBit .Active)
    (h : (s.ExpectState (stateBit .Synchronisation ||| extra) cmd v).1 = true) :
    (s.ExpectState (stateBit .Synchronisation ||| extra) cmd v).2 = s ∧
      s.m_connectionState ≠ .Handshaking := by
  obtain ⟨h1, h2⟩ := ExpectState_true s _ cmd v h
  refine ⟨h1, fun hs => h2 ?_⟩
  rw [hs]
  rcases hx with rfl | rfl <;> decide

theorem ProcessAscii_CMD_inv (s : OisDevice) (cmd payload : List Nat)
    (h : s.m_connectionState = .Handshaking → Blank s) :
    (ProcessAscii_CMD s cmd payload).2.m_connectionState = .Handshaking →
      Blank (ProcessAscii_CMD s cmd payload).2 := by
  have hx : (if s.m_protocolVersion > 1 then stateBit .Active else 0) = 0 ∨
      (if s.m_protocolVersion > 1 then stateBit .Active else 0) = stateBit .Active := by
    split <;> simp
  unfold ProcessAscii_CMD
  simp only []
  generalize (if s.m_protocolVersion > 1 then stateBit .Active else 0) = extra at hx ⊢
  have h1 := ExpectState_inv s (stateBit .Synchronisation ||| extra) cmd 1 h
  cases hr : (s.ExpectState (stateBit .Synchronisation ||| extra) cmd 1).1
  · simpa [hr] using h1
  · obtain ⟨e, hne⟩ := ExpectState_true_not_handshaking s _ cmd 1 hx hr
    simp only [hr, e]
    intro hc
    exact absurd hc hne

theorem ProcessAscii_Numeric_inv (s : OisDevice) (type : Nat) (cmd payload : List Nat)
    (h : s.m_connectionState = .Handshaking → Blank s) :
    (ProcessAscii_Numeric s type cmd payload).2.m_connectionState = .Handshaking →
      Blank (ProcessAscii_Numeric s type cmd payload).2 := by
  have hx : (if s.m_protocolVersion > 1 then stateBit .Active else 0) = 0 ∨
      (if s.m_protocolVersion > 1 then stateBit .Active else 0) = stateBit .Active := by
    split <;> simp
  unfold ProcessAscii_Numeric
  simp only []
  generalize (if s.m_protocolVersion > 1 then stateBit .Active else 0) = extra at hx ⊢
  generalize decide (type = NON ∨ type = NOF ∨ type = NOB) = output
  generalize (if output = true then 2 else 1) = v
  have h1 := ExpectState_inv s (stateBit .Synchronisation ||| extra) cmd v h
  cases hr : (s.ExpectState (stateBit .Synchronisation ||| extra) cmd v).1
  · simpa [hr] using h1
  · obtain ⟨e, hne⟩ := ExpectState_true_not_handshaking s _ cmd v hx hr
    simp only [hr, e]
    intro hc
    cases output <;> exact absurd hc hne

theorem ProcessAscii_TNI_inv (s : OisDevice) (cmd payload : List Nat) :
    (ProcessAscii_TNI s cmd payload).2.m_connectionState ≠ .Handshaking := by
  simp [ProcessAscii_TNI, ProcessAscii_ACT]

theorem ProcessAscii_EXC_inv (s : OisDevice) (cmd payload : List Nat)
    (h : s.m_connectionState = .Handshaking → Blank s) :
    (ProcessAscii_EXC s cmd payload).2.m_connectionState = .Handshaking →
      Blank (ProcessAscii_EXC s cmd payload).2 := by
  have h1 := ExpectState_inv s (stateBit .Active) cmd 1 h
  unfold ProcessAscii_EXC
  simp only []
  generalize (s.ExpectState (stateBit .Active) cmd 1).2 = s1 at h1 ⊢
  cases hf : FindChannel s1.m_events (atoi payload) with
  | none => simpa using h1
  | some i =>
    intro hc
    have hb := h1 hc
    have : s1.m_events = [] := hb.2.2.2.2.1
    rw [this] at hf
    simp [FindChannel] at hf

theorem ProcessAscii_END_inv (s : OisDevice)
    (h : s.m_connectionState = .Handshaking → Blank s) :
    (ProcessAscii_END s).2.m_connectionState = .Handshaking →
      Blank (ProcessAscii_END s).2 := by
  unfold ProcessAscii_END
  by_cases hs : s.m_connectionState = .Handshaking
  · simpa [hs, Blank] using h hs
  · simp [hs, Blank, ClearState]

theorem ProcessAscii_Switch_inv (s : OisDevice) (type : Nat) (cmd payload : List Nat)
    (h : s.m_connectionState = .Handshaking → Blank s) :
    (ProcessAscii_Switch s type cmd payload).2.m_connectionState = .Handshaking →
      Blank (ProcessAscii_Switch s type cmd payload).2 := by
  unfold ProcessAscii_Switch
  split
  · exact ProcessAscii_SYN_inv s cmd _
  split
  · exact ProcessAscii_PID_inv s cmd _ h
  split
  · exact ProcessAscii_CMD_inv s cmd _ h
  split
  · exact ProcessAscii_Numeric_inv s _ cmd _ h
  split
  · exact fun hc => absurd hc (ProcessAscii_TNI_inv s cmd _)
  split
  · exact fun hc => absurd hc (ProcessAscii_ACT_inv s cmd)
  split
  · exact ProcessAscii_EXC_inv s cmd _ h
  split
  · exact h
  split
  · exact ProcessAscii_END_inv s h
  · exact h

/-- Every command line keeps an endpoint in Handshaking blank. -/
theorem ProcessAscii_inv (s : OisDevice) (cmd : List Nat)
    (h : s.m_connectionState = .Handshaking → Blank s) :
    (s.ProcessAscii cmd).2.m_connectionState = .Handshaking →
      Blank (s.ProcessAscii cmd).2 := by
  unfold ProcessAscii
  by_cases h0 : cmd.getD 0 0 = 0
  · rw [if_pos h0]; exact h
  · rw [if_neg h0]
    by_cases h1 : isdigit (cmd.getD 0 0) = true
    · simp only [h1, if_true]
      exact ProcessAscii_KeyVal_inv s cmd h
    · simp only [h1, if_false]
      exact ProcessAscii_Switch_inv s _ cmd _ h

theorem ProcessBinary_PID_inv (s : OisDevice) (start : List Nat) (n : Nat)
    (h : s.m_connectionState = .Handshaking → Blank s) :
    (ProcessBinary_PID s start n).2.m_connectionState = .Handshaking →
      Blank (ProcessBinary_PID s start n).2 := by
  have h1 := ExpectState_inv s (stateBit .Synchronisation) (bytes "PID") 2 h
  simpa [ProcessBinary_PID, Blank] using h1

theorem ProcessBinary_CMD_inv (s : OisDevice) (start : List Nat) (n : Nat)
    (h : s.m_connectionState = .Handshaking → Blank s) :
    (ProcessBinary_CMD s start n).2.m_connectionState = .Handshaking →
      Blank (ProcessBinary_CMD s start n).2 := by
  unfold ProcessBinary_CMD
  simp only []
  have h1 := ExpectState_inv s (stateBit .Synchronisation ||| stateBit .Active) (bytes "CMD") 2 h
  cases hr : (s.ExpectState (stateBit .Synchronisation ||| stateBit .Active) (bytes "CMD") 2).1
  · simpa [hr] using h1
  · obtain ⟨e, hne⟩ := ExpectState_true_not_handshaking s _ _ 2 (Or.inr rfl) hr
    simp only [hr, e]
    intro hc
    exact absurd hc hne

theorem ProcessBinary_Declare_inv (s : OisDevice) (payload : Nat) (start : List Nat) (n : Nat)
    (h : s.m_connectionState = .Handshaking → Blank s) :
    (ProcessBinary_Declare s payload start n).2.m_connectionState = .Handshaking →
      Blank (ProcessBinary_Declare s payload start n).2 := by
  have hx : (if s.m_protocolVersion > 1 then stateBit .Active else 0) = 0 ∨
      (if s.m_protocolVersion > 1 then stateBit .Active else 0) = stateBit .Active := by
    split <;> simp
  unfold ProcessBinary_Declare
  simp only []
  generalize (if s.m_protocolVersion > 1 then stateBit .Active else 0) = extra at hx ⊢
  generalize decide (payload &&& CL_N_PAYLOAD_O ≠ 0) = output
  have h1 := ExpectState_inv s (stateBit .Synchronisation ||| extra) (bytes "NIO") 2 h
  cases hr : (s.ExpectState (stateBit .Synchronisation ||| extra) (bytes "NIO") 2).1
  · simpa [hr] using h1
  · obtain ⟨e, hne⟩ := ExpectState_true_not_handshaking s _ _ 2 hx hr
    simp only [hr, e]
    intro hc
    cases output <;> exact absurd hc hne

theorem ProcessBinary_ACT_inv (s : OisDevice) (n : Nat) :
    (ProcessBinary_ACT s n).2.m_connectionState ≠ .Handshaking := by
  simp [ProcessBinary_ACT]

theorem ProcessBinary_TNI_inv (s : OisDevice) (payload : Nat) (start : List Nat) (n : Nat)
    (h : s.m_connectionState = .Handshaking → Blank s) :
    (ProcessBinary_TNI s payload start n).2.m_connectionState = .Handshaking →
      Blank (ProcessBinary_TNI s payload start n).2 := by
  have h1 := ExpectState_inv s (stateBit .Synchronisation ||| stateBit .Active) (bytes "TNI") 2 h
  unfold ProcessBinary_TNI
  simp only []
  generalize (s.ExpectState (stateBit .Synchronisation ||| stateBit .Active)
    (bytes "TNI") 2).2 = s1 at h1 ⊢
  cases hf : FindChannel s1.m_numericInputs (readU16 start 1 : Int) with
  | none => simpa using h1
  | some i =>
    intro hc
    have hb := h1 hc
    have : s1.m_numericInputs = [] := hb.2.2.1
    rw [this] at hf
    simp [FindChannel] at hf

theorem ProcessBinary_EXC_inv (s : OisDevice) (payload command : Nat) (start : List Nat)
    (n : Nat) (h : s.m_connectionState = .Handshaking → Blank s) :
    (ProcessBinary_EXC s payload command start n).2.m_connectionState = .Handshaking →
      Blank (ProcessBinary_EXC s payload command start n).2 := by
  have h1 := ExpectState_inv s (stateBit .Active) (bytes "EXC") 2 h
  unfold ProcessBinary_EXC
  simp only []
  generalize (s.ExpectState (stateBit .Active) (bytes "EXC") 2).2 = s1 at h1 ⊢
  generalize (if command = CL_EXC_0 then toU16 ((payload >>> CL_PAYLOAD_SHIFT : Nat) : Int)
    else if command = CL_EXC_1 then
      toU16 ((readU8 start 1 ||| (toU16 ((payload >>> CL_PAYLOAD_SHIFT : Nat) : Int) <<< 8) : Nat) : Int)
    else readU16 start 1) = channel
  cases hf : FindChannel s1.m_events (channel : Int) with
  | none => simpa using h1
  | some i =>
    intro hc
    have hb := h1 hc
    have : s1.m_events = [] := hb.2.2.2.2.1
    rw [this] at hf
    simp [FindChannel] at hf

theorem ProcessBinary_VAL_inv (s : OisDevice) (payload command : Nat) (start : List Nat)
    (n : Nat) (h : s.m_connectionState = .Handshaking → Blank s) :
    (ProcessBinary_VAL s payload command start n).2.m_connectionState = .Handshaking →
      Blank (ProcessBinary_VAL s payload command start n).2 := by
  have h1 := ExpectState_inv s (stateBit .Active) (bytes "VAL") 2 h
  unfold ProcessBinary_VAL
  simp only []
  split
  · exact h1
  · split <;> simp_all [Blank, updateAt_nil_iff]

theorem ProcessBinary_END_inv (s : OisDevice) (n : Nat)
    (h : s.m_connectionState = .Handshaking → Blank s) :
    (ProcessBinary_END s n).2.m_connectionState = .Handshaking →
      Blank (ProcessBinary_END s n).2 := by
  unfold ProcessBinary_END
  by_cases hs : s.m_connectionState = .Handshaking
  · simpa [hs, Blank] using h hs
  · simp [hs, Blank, ClearState]

theorem ProcessBinary_Switch_inv (s : OisDevice) (payload command : Nat) (start : List Nat)
    (n : Nat) (h : s.m_connectionState = .Handshaking → Blank s) :
    (ProcessBinary_Switch s payload command start n).2.m_connectionState = .Handshaking →
      Blank (ProcessBinary_Switch s payload command start n).2 := by
  unfold ProcessBinary_Switch
  split
  · exact ProcessBinary_PID_inv s start n h
  split
  · exact ProcessBinary_CMD_inv s start n h
  split
  · exact ProcessBinary_Declare_inv s payload start n h
  split
  · exact fun hc => absurd hc (ProcessBinary_ACT_inv s n)
  split
  · exact ProcessBinary_TNI_inv s payload start n h
  split
  · exact h
  split
  · exact ProcessBinary_EXC_inv s payload command start n h
  split
  · exact ProcessBinary_VAL_inv s payload command start n h
  split
  · exact ProcessBinary_END_inv s n h
  · exact h

/-- Every binary frame keeps an endpoint in Handshaking blank. -/
theorem ProcessBinary_inv (s : OisDevice) (charSigned : Bool) (start : List Nat)
    (h : s.m_connectionState = .Handshaking → Blank s) :
    (s.ProcessBinary charSigned start).2.m_connectionState = .Handshaking →
      Blank (s.ProcessBinary charSigned start).2 := by
  unfold ProcessBinary
  by_cases h0 : start = []
  · rw [if_pos h0]; exact h
  · rw [if_neg h0]
    simp only []
    split
    · exact h
    split
    · exact h
    split
    · exact h
    · exact ProcessBinary_Switch_inv s _ _ start _ h

theorem SetInput_inv (s : OisDevice) (input : Nat) (value : Value)
    (h : s.m_connectionState = .Handshaking → Blank s) :
    (s.SetInput input value).2.m_connectionState = .Handshaking →
      Blank (s.SetInput input value).2 := by
  unfold SetInput SetValueAndEnqueue
  intro hc
  have hb := h (by simpa using hc)
  have hi : s.m_numericInputs = [] := hb.2.2.1
  simpa [hi, Blank] using hb

theorem PopEvents_inv (s : OisDevice)
    (h : s.m_connectionState = .Handshaking → Blank s) :
    s.PopEvents.2.2.m_connectionState = .Handshaking → Blank s.PopEvents.2.2 := by
  unfold PopEvents
  split
  · exact h
  · intro hc
    have hb := h (by simpa using hc)
    exact ⟨hb.1, hb.2.1, hb.2.2.1, hb.2.2.2.1, hb.2.2.2.2.1, rfl⟩

/-- An endpoint in Handshaking is blank in every reachable state. -/
theorem Reachable_blank (s : OisDevice) (hr : Reachable s) :
    s.m_connectionState = .Handshaking → Blank s := by
  induction hr with
  | init name gameVersion gameName gameNameObject => intro _; simp [init, Blank, ClearState]
  | ascii s cmd _ ih => exact ProcessAscii_inv s cmd ih
  | binary s cs start _ ih => exact ProcessBinary_inv s cs start ih
  | clear s _ _ => intro _; exact Blank_ClearState s
  | transport s ops buffer _ ih => intro hc; simpa [Blank] using ih (by simpa using hc)
  | setInput s input value _ ih => exact SetInput_inv s input value ih
  | popEvents s _ ih => exact PopEvents_inv s ih

theorem FindChannel_first {α : Type} [HasChannel α] (pre : List α) (v : α) (post : List α)
    (c : Int) (hpre : ∀ w ∈ pre, (HasChannel.channel w : Int) ≠ c)
    (hv : (HasChannel.channel v : Int) = c) :
    FindChannel (pre ++ v :: post) c = some pre.length := by
  induction pre with
  | nil => simp [FindChannel, hv]
  | cons w ws ih =>
    have hw := hpre w (List.mem_cons_self _ _)
    have ih := ih (fun x hx => hpre x (List.mem_cons_of_mem _ hx))
    simp [FindChannel, hw, ih]

theorem FindChannel_none {α : Type} [HasChannel α] (l : List α) (c : Int)
    (h : ∀ w ∈ l, (HasChannel.channel w : Int) ≠ c) : FindChannel l c = none := by
  induction l with
  | nil => rfl
  | cons w ws ih =>
    have hw := h w (List.mem_cons_self _ _)
    have ih := ih (fun x hx => h x (List.mem_cons_of_mem _ hx))
    simp [FindChannel, hw, ih]

theorem FindChannel_isSome {α : Type} [HasChannel α] (l : List α) (c : Int)
    (h : ∃ w ∈ l, (HasChannel.channel w : Int) = c) : ∃ i, FindChannel l c = some i := by
  induction l with
  | nil => simp at h
  | cons w ws ih =>
    by_cases hw : (HasChannel.channel w : Int) = c
    · exact ⟨0, by simp [FindChannel, hw]⟩
    · obtain ⟨x, hx, hxc⟩ := h
      rcases List.mem_cons.1 hx with rfl | hx
      · exact absurd hxc hw
      · obtain ⟨i, hi⟩ := ih ⟨x, hx, hxc⟩
        exact ⟨i + 1, by simp [FindChannel, hw, hi]⟩

theorem updateAt_length_append {α : Type} (pre : List α) (v : α) (post : List α)
    (f : α → α) : updateAt (pre ++ v :: post) pre.length f = pre ++ f v :: post := by
  induction pre with
  | nil => rfl
  | cons w ws ih => simp [updateAt, ih]

theorem toU16_of_le (c : Nat) (h : c ≤ 65535) : toU16 (c : Int) = c := by
  unfold toU16
  omega

theorem ProcessAscii_digit_line (s : OisDevice) (d : Nat) (ds : List Nat)
    (hd : 48 ≤ d ∧ d ≤ 57) :
    s.ProcessAscii (d :: ds) = ProcessAscii_KeyVal s (d :: ds) := by
  have h0 : d ≠ 0 := by omega
  have h1 : isdigit d = true := by simp [isdigit]; omega
  unfold ProcessAscii
  simp [h0, h1]

theorem ProcessAscii_CMD_line (s : OisDevice) (rest : List Nat) :
    s.ProcessAscii (67 :: 77 :: 68 :: 61 :: rest) =
      ProcessAscii_CMD s (67 :: 77 :: 68 :: 61 :: rest) rest := by
  unfold ProcessAscii
  simp only [List.getD_cons_zero, List.getD_cons_succ, OIS_FOURCC_cons4]
  simp [isdigit, ProcessAscii_Switch]
  simp [OIS_FOURCC, SYN, CMD, PID]

theorem ProcessAscii_EXC_line (s : OisDevice) (rest : List Nat) :
    s.ProcessAscii (69 :: 88 :: 67 :: 61 :: rest) =
      ProcessAscii_EXC s (69 :: 88 :: 67 :: 61 :: rest) rest := by
  unfold ProcessAscii
  simp only [List.getD_cons_zero, List.getD_cons_succ, OIS_FOURCC_cons4]
  simp [isdigit, ProcessAscii_Switch]
  simp [OIS_FOURCC, SYN, CMD, PID, NIN, NIF, NIB, NON, NOF, NOB, TNI, ACT, EXC]

theorem ProcessAscii_ACT_line (s : OisDevice) :
    s.ProcessAscii [65, 67, 84] = ProcessAscii_ACT s [65, 67, 84] := by
  unfold ProcessAscii
  simp only [List.getD_cons_zero, List.getD_cons_succ]
  simp [isdigit, ProcessAscii_Switch]
  simp [OIS_FOURCC, SYN, CMD, PID, NIN, NIF, NIB, NON, NOF, NOB, TNI, ACT]

theorem ProcessAscii_END_line (s : OisDevice) :
    s.ProcessAscii [69, 78, 68] = ProcessAscii_END s := by
  unfold ProcessAscii
  simp only [List.getD_cons_zero, List.getD_cons_succ]
  simp [isdigit, ProcessAscii_Switch]
  simp [OIS_FOURCC, SYN, CMD, PID, NIN, NIF, NIB, NON, NOF, NOB, TNI, ACT, EXC, DBG, END]

theorem ProcessAscii_Numeric_line (s : OisDevice) (output : Bool) (t : NumericType)
    (rest : List Nat) :
    s.ProcessAscii (78 :: directionLetter output :: typeLetter t :: 61 :: rest) =
      ProcessAscii_Numeric s (OIS_FOURCC [78, directionLetter output, typeLetter t, 61])
        (78 :: directionLetter output :: typeLetter t :: 61 :: rest) rest := by
  unfold ProcessAscii
  simp only [List.getD_cons_zero, List.getD_cons_succ, OIS_FOURCC_cons4]
  cases output <;> cases t <;>
    simp [isdigit, ProcessAscii_Switch, directionLetter, typeLetter] <;>
    simp [OIS_FOURCC, SYN, CMD, PID, NIN, NIF, NIB, NON, NOF, NOB]

theorem numeric_code_output (output : Bool) (t : NumericType) :
    decide (OIS_FOURCC [78, directionLetter output, typeLetter t, 61] = NON ∨
      OIS_FOURCC [78, directionLetter output, typeLetter t, 61] = NOF ∨
      OIS_FOURCC [78, directionLetter output, typeLetter t, 61] = NOB) = output := by
  cases output <;> cases t <;> decide

theorem numeric_code_type (output : Bool) (t : NumericType) :
    (if OIS_FOURCC [78, directionLetter output, typeLetter t, 61] = NON ∨
        OIS_FOURCC [78, directionLetter output, typeLetter t, 61] = NIN then NumericType.Number
      else if OIS_FOURCC [78, directionLetter output, typeLetter t, 61] = NOF ∨
        OIS_FOURCC [78, directionLetter output, typeLetter t, 61] = NIF then NumericType.Fraction
      else NumericType.Boolean) = t := by
  cases output <;> cases t <;> decide

theorem atoi_decimal_nil (n : Nat) : atoi (decimal n) = (n : Int) := by
  simpa using atoi_decimal n [] (by simp)

/-- C5. Numeric declaration: in Synchronisation the line `N<d><t>=<name>,<channel>`
(d one of I, O; t one of B, N, F; a name without comma; a decimal channel of at
most 65535) appends exactly one entry with that name and channel, active, of the
type of t and of value numeric zero, at the end of the inputs (d = I) or of the
outputs (d = O); everything else in the endpoint is unchanged. -/
theorem C5_numeric_declaration (s : OisDevice) (output : Bool) (t : NumericType)
    (name : List Nat) (channel : Nat)
    (hs : s.m_connectionState = .Synchronisation)
    (hname : ∀ c ∈ name, c ≠ 44 ∧ c ≠ 0)
    (hch : channel ≤ 65535) :
    s.ProcessAscii (numericLine output t name channel) =
      (true,
        if output then
          { s with m_numericOutputs := s.m_numericOutputs ++
              [{ name := name, channel := channel, active := true, type := t,
                 value := .number 0 }] }
        else
          { s with m_numericInputs := s.m_numericInputs ++
              [{ name := name, channel := channel, active := true, type := t,
                 value := .number 0 }] }) := by
  unfold numericLine
  rw [ProcessAscii_Numeric_line]
  have hx : (1 <<< s.m_connectionState.toNat) &&&
      (stateBit .Synchronisation |||
        (if s.m_protocolVersion > 1 then stateBit .Active else 0)) ≠ 0 := by
    rw [hs]
    split <;> decide
  have hz : ZeroDelimiter (name ++ 44 :: decimal channel) 44 = (name, decimal channel) :=
    ZeroDelimiter_append name _ 44 (fun c hc => ⟨(hname c hc).2, (hname c hc).1⟩) (by decide)
  unfold ProcessAscii_Numeric
  simp only [numeric_code_output, numeric_code_type, ExpectState_ok s _ _ _ hx, hz,
    atoi_decimal_nil, toU16_of_le channel hch]
  cases output <;> simp

/-- C6. Event declaration: the line `CMD=<name>,<channel>` appends the event at the
end of the events list in Synchronisation, and in Active when the protocol
version is at least 2, and changes nothing else; in Active under version 1 the
line is refused and the endpoint is unchanged. -/
theorem C6_event_declaration (s : OisDevice) (name : List Nat) (channel : Nat)
    (hname : ∀ c ∈ name, c ≠ 44 ∧ c ≠ 0)
    (hch : channel ≤ 65535) :
    ((s.m_connectionState = .Synchronisation ∨
        (s.m_connectionState = .Active ∧ s.m_protocolVersion ≥ 2)) →
      s.ProcessAscii (bytes "CMD=" ++ name ++ 44 :: decimal channel) =
        (true, { s with m_events := s.m_events ++ [{ channel := channel, name := name }] })) ∧
    ((s.m_connectionState = .Active ∧ s.m_protocolVersion = 1) →
      s.ProcessAscii (bytes "CMD=" ++ name ++ 44 :: decimal channel) = (false, s)) := by
  have hb : bytes "CMD=" = [67, 77, 68, 61] := by decide
  have hz : ZeroDelimiter (name ++ 44 :: decimal channel) 44 = (name, decimal channel) :=
    ZeroDelimiter_append name _ 44 (fun c hc => ⟨(hname c hc).2, (hname c hc).1⟩) (by decide)
  rw [hb]
  simp only [List.cons_append, List.nil_append, ProcessAscii_CMD_line]
  constructor
  · intro h
    have hx : (1 <<< s.m_connectionState.toNat) &&&
        (stateBit .Synchronisation |||
          (if s.m_protocolVersion > 1 then stateBit .Active else 0)) ≠ 0 := by
      rcases h with h | ⟨h, hv⟩
      · rw [h]; split <;> decide
      · have : s.m_protocolVersion > 1 := hv
        rw [h, if_pos this]; decide
    unfold ProcessAscii_CMD
    simp [ExpectState_ok s _ _ _ hx, hz, atoi_decimal_nil, toU16_of_le channel hch]
  · rintro ⟨h, hv⟩
    have hx : (1 <<< s.m_connectionState.toNat) &&&
        (stateBit .Synchronisation |||
          (if s.m_protocolVersion > 1 then stateBit .Active else 0)) = 0 := by
      rw [h, hv]; decide
    have hne : s.m_connectionState ≠ .Handshaking := by rw [h]; decide
    unfold ProcessAscii_CMD
    simp [ExpectState_bad s _ _ _ hx hne]

theorem synLine_split_text (v : List Nat) (mode : Option (List Nat))
    (hv : ∀ c ∈ v, c ≠ 44 ∧ c ≠ 0) :
    synLine v mode = 83 :: 89 :: 78 :: 61 :: (synLine v mode).drop 4 ∧
    ZeroDelimiter ((synLine v mode).drop 4) 44 =
      (v, match mode with | none => [] | some m => m) := by
  have hd : ∀ c ∈ v, c ≠ 0 ∧ c ≠ 44 := fun c hc => ⟨(hv c hc).2, (hv c hc).1⟩
  cases mode with
  | none =>
    refine ⟨by simp [synLine, bytes_SYN], ?_⟩
    simpa [synLine, bytes_SYN] using ZeroDelimiter_none v 44 hd
  | some m =>
    refine ⟨by simp [synLine, bytes_SYN], ?_⟩
    simpa [synLine, bytes_SYN] using ZeroDelimiter_append v m 44 hd (by decide)

theorem mode_head (mode : Option (List Nat)) :
    decide ((match mode with | none => [] | some m => m).getD 0 0 = 66)
      = modeIsBinary mode := by
  cases mode with
  | none => simp [modeIsBinary]
  | some m => cases m <;> simp [modeIsBinary]

/-- C4. SYN rejection: from every state, a SYN line whose version text denotes a
number in the range of `int` (so that `atoi` returns it) and whose parsed
version is outside 1..2, or is 1 with a mode beginning with B, makes the host
write exactly `DEN` and end in Handshaking with binary off, protocol version 1,
and the three catalogs and the event buffer empty. -/
theorem C4_syn_rejected (s : OisDevice) (v : List Nat) (mode : Option (List Nat))
    (hv : ∀ c ∈ v, c ≠ 44 ∧ c ≠ 0)
    (_hint : -2147483648 ≤ atoi v ∧ atoi v ≤ 2147483647)
    (hrej : atoi v < 1 ∨ atoi v > 2 ∨ (atoi v = 1 ∧ modeIsBinary mode = true)) :
    (s.ProcessAscii (synLine v mode)).2.m_port = s.m_port ++ [PortOp.Write (bytes "DEN\n")] ∧
    (s.ProcessAscii (synLine v mode)).2.m_connectionState = .Handshaking ∧
    (s.ProcessAscii (synLine v mode)).2.m_binary = false ∧
    (s.ProcessAscii (synLine v mode)).2.m_protocolVersion = 1 ∧
    (s.ProcessAscii (synLine v mode)).2.m_numericInputs = [] ∧
    (s.ProcessAscii (synLine v mode)).2.m_numericOutputs = [] ∧
    (s.ProcessAscii (synLine v mode)).2.m_events = [] ∧
    (s.ProcessAscii (synLine v mode)).2.m_eventBuffer = [] := by
  obtain ⟨hline, hsplit⟩ := synLine_split_text v mode hv
  have hcond : ¬ ((!(decide (atoi v = 1) && modeIsBinary mode)) = true ∧ atoi v ≥ 1 ∧ atoi v ≤ 2) := by
    rintro ⟨h1, h2, h3⟩
    rcases hrej with h | h | ⟨h, hb⟩
    · omega
    · omega
    · simp [h, hb] at h1
  have hport : (if (!(s.ExpectState (stateBit .Handshaking)
        (83 :: 89 :: 78 :: 61 :: (synLine v mode).drop 4) 1).1) = true
      then (s.ExpectState (stateBit .Handshaking)
        (83 :: 89 :: 78 :: 61 :: (synLine v mode).drop 4) 1).2.ClearState
      else (s.ExpectState (stateBit .Handshaking)
        (83 :: 89 :: 78 :: 61 :: (synLine v mode).drop 4) 1).2).m_port = s.m_port := by
    by_cases hh : s.m_connectionState = .Handshaking
    · rw [ExpectState_ok s _ _ _ (by rw [hh]; decide)]; simp
    · rw [ExpectState_bad s _ _ _ (by
        cases hst : s.m_connectionState
        · exact absurd hst hh
        · decide
        · decide) hh]
      simp [ClearState]
  rw [hline, ProcessAscii_SYN_line]
  unfold ProcessAscii_SYN
  simp only [hsplit, mode_head, hcond, if_false]
  generalize (if (!(s.ExpectState _ _ _).1) = true then _ else _) = self1 at hport ⊢
  have hc : cstr (bytes "DEN\n") = bytes "DEN\n" := by decide
  simp [ClearState, SendText, hc, hport]

/-- An accepted SYN line in Handshaking: the host moves to Synchronisation with
the version of the line and with binary set exactly when the mode begins with
B, and writes exactly one reply, `ACK` for version 1 and the formatted
`ACK=%d,%s` for version 2, where `%s` is applied to the string object; nothing
else changes, so the catalogs, empty in every reachable Handshaking state, stay
empty. -/
theorem ProcessAscii_SYN_accepted (s : OisDevice) (v : Nat) (mode : Option (List Nat))
    (hs : s.m_connectionState = .Handshaking)
    (hv : v = 1 ∨ v = 2)
    (hmode : ¬ (v = 1 ∧ modeIsBinary mode = true)) :
    s.ProcessAscii (synLine (decimal v) mode) =
      (true, { s with
        m_connectionState := .Synchronisation
        m_protocolVersion := v
        m_binary := modeIsBinary mode
        m_port := s.m_port ++ [PortOp.Write
          (if v = 1 then bytes "ACK\n"
            else formatAck s.m_gameVersion s.m_gameNameObject)] }) ∧
    (Reachable s →
      (s.ProcessAscii (synLine (decimal v) mode)).2.m_numericInputs = [] ∧
      (s.ProcessAscii (synLine (decimal v) mode)).2.m_numericOutputs = [] ∧
      (s.ProcessAscii (synLine (decimal v) mode)).2.m_events = []) := by
  have hmain : s.ProcessAscii (synLine (decimal v) mode) =
      (true, { s with
        m_connectionState := .Synchronisation
        m_protocolVersion := v
        m_binary := modeIsBinary mode
        m_port := s.m_port ++ [PortOp.Write
          (if v = 1 then bytes "ACK\n"
            else formatAck s.m_gameVersion s.m_gameNameObject)] }) := by
    obtain ⟨hline, hsplit⟩ := synLine_split_text (decimal v) mode
      (fun c hc => ⟨(decimal_no_zero v c hc).2.1, (decimal_no_zero v c hc).1⟩)
    rw [hline, ProcessAscii_SYN_line]
    have hE : s.ExpectState (stateBit .Handshaking)
        (83 :: 89 :: 78 :: 61 :: (synLine (decimal v) mode).drop 4) 1 = (true, s) :=
      ExpectState_ok s _ _ _ (by rw [hs]; decide)
    simp only [ProcessAscii_SYN, hE, hsplit, atoi_decimal_nil, mode_head]
    rcases hv with rfl | rfl
    · have hb : modeIsBinary mode = false := by
        cases hm : modeIsBinary mode
        · rfl
        · exact absurd ⟨rfl, hm⟩ hmode
      have hc : cstr (bytes "ACK\n") = bytes "ACK\n" := by decide
      simp [hb, SendText, hc]
    · have hc := cstr_formatAck s.m_gameVersion s.m_gameNameObject
      simp [SendText, hc]
  refine ⟨hmain, fun hr => ?_⟩
  have hb := Reachable_blank s hr hs
  rw [hmain]
  exact ⟨hb.2.2.1, hb.2.2.2.1, hb.2.2.2.2.1⟩

theorem keyval_split (c : Nat) (r : Int) :
    ZeroDelimiter (decimal c ++ 61 :: fmt_d r) 61 = (decimal c, fmt_d r) :=
  ZeroDelimiter_append (decimal c) (fmt_d r) 61
    (fun x hx => ⟨(decimal_no_zero c x hx).1, (decimal_no_zero c x hx).2.2⟩) (by decide)

theorem atoi_fmt_d_nil (x : Int) : atoi (fmt_d x) = x := by
  simpa using atoi_fmt_d x [] (by simp)

/-- C9. Inbound value lines touch outputs only: in Active, the line `<c>=<r>` replaces
the value of the first output with channel c by `FromRawValue` of its type and
of r as a 16-bit word, and changes nothing else; when no output has channel c
the endpoint is unchanged, whatever the inputs are. -/
theorem C9_value_frames_touch_outputs_only (s : OisDevice) (c : Nat) (r : Int)
    (hs : s.m_connectionState = .Active)
    (_hc : c ≤ 65535)
    (_hr : -2147483648 ≤ r ∧ r ≤ 2147483647) :
    (∀ (pre : List NumericValue) (v : NumericValue) (post : List NumericValue),
      s.m_numericOutputs = pre ++ v :: post → (∀ w ∈ pre, w.channel ≠ c) → v.channel = c →
      s.ProcessAscii (decimal c ++ 61 :: fmt_d r) =
        (true, { s with m_numericOutputs :=
          pre ++ { v with value := FromRawValue v.type (toU16 r) } :: post })) ∧
    ((∀ w ∈ s.m_numericOutputs, w.channel ≠ c) →
      s.ProcessAscii (decimal c ++ 61 :: fmt_d r) = (true, s)) := by
  obtain ⟨d, ds, hd, hdig⟩ := head_decimal_append c (61 :: fmt_d r)
  have hx : (1 <<< s.m_connectionState.toNat) &&& stateBit .Active ≠ 0 := by
    rw [hs]; decide
  have hE := ExpectState_ok s (stateBit .Active) (decimal c ++ 61 :: fmt_d r) 2 hx
  have hstep : s.ProcessAscii (decimal c ++ 61 :: fmt_d r) =
      ProcessAscii_KeyVal s (decimal c ++ 61 :: fmt_d r) := by
    rw [hd]; exact ProcessAscii_digit_line s d ds hdig
  rw [hstep]
  unfold ProcessAscii_KeyVal
  simp only [hE, keyval_split, atoi_decimal_nil, atoi_fmt_d_nil]
  constructor
  · intro pre v post hout hpre hv
    have hf : FindChannel s.m_numericOutputs (c : Int) = some pre.length := by
      rw [hout]
      refine FindChannel_first pre v post c (fun w hw => ?_) ?_
      · have := hpre w hw
        show ((w.channel : Nat) : Int) ≠ c
        exact_mod_cast this
      · show ((v.channel : Nat) : Int) = c
        exact_mod_cast hv
    simp only [hf]
    simp [hout, updateAt_length_append]
  · intro hnone
    have hf : FindChannel s.m_numericOutputs (c : Int) = none := by
      refine FindChannel_none _ _ (fun w hw => ?_)
      have := hnone w hw
      show ((w.channel : Nat) : Int) ≠ c
      exact_mod_cast this
    simp [hf]

/-- C10. Event fire delivery: in Active, the line `EXC=<c>` appends c at the end of
the received-event buffer when c is the channel of a declared event, leaving
the rest of the endpoint unchanged; otherwise the endpoint is unchanged. -/
theorem C10_event_fire_delivery (s : OisDevice) (c : Nat)
    (hs : s.m_connectionState = .Active)
    (hc : c ≤ 65535) :
    ((∃ e ∈ s.m_events, e.channel = c) →
      s.ProcessAscii (bytes "EXC=" ++ decimal c) =
        (true, { s with m_eventBuffer := s.m_eventBuffer ++ [c] })) ∧
    ((∀ e ∈ s.m_events, e.channel ≠ c) →
      s.ProcessAscii (bytes "EXC=" ++ decimal c) = (true, s)) := by
  have hb : bytes "EXC=" = [69, 88, 67, 61] := by decide
  have hx : (1 <<< s.m_connectionState.toNat) &&& stateBit .Active ≠ 0 := by
    rw [hs]; decide
  rw [hb]
  simp only [List.cons_append, List.nil_append, ProcessAscii_EXC_line]
  unfold ProcessAscii_EXC
  simp only [ExpectState_ok s _ _ _ hx, atoi_decimal_nil, toU16_of_le c hc]
  constructor
  · rintro ⟨e, he, hec⟩
    obtain ⟨i, hi⟩ := FindChannel_isSome s.m_events (c : Int)
      ⟨e, he, by show ((e.channel : Nat) : Int) = c; exact_mod_cast hec⟩
    simp [hi]
  · intro hnone
    have hf : FindChannel s.m_events (c : Int) = none := by
      refine FindChannel_none _ _ (fun w hw => ?_)
      have := hnone w hw
      show ((w.channel : Nat) : Int) ≠ c
      exact_mod_cast this
    simp [hf]

theorem command_of_byte (charSigned : Bool) (b : Nat) :
    charToU32 charSigned b &&& CL_COMMAND_MASK = b % 16 := by
  have h := Nat.and_pow_two_sub_one_eq_mod (charToU32 charSigned b) 4
  have e : CL_COMMAND_MASK = 2 ^ 4 - 1 := by decide
  rw [e, h]
  unfold charToU32
  split <;> omega

/-- C8. Graceful teardown: from every reachable state, the line `END`, and a binary
frame whose first byte has the command code 0x07, leave the endpoint in
Handshaking with binary off, protocol version 1, empty catalogs and event
buffer, and add exactly one Disconnect to the calls on the transport. -/
theorem C8_graceful_teardown (s : OisDevice) (hr : Reachable s) :
    ((s.ProcessAscii (bytes "END")).2.m_connectionState = .Handshaking ∧
      Blank (s.ProcessAscii (bytes "END")).2 ∧
      (s.ProcessAscii (bytes "END")).2.m_port = s.m_port ++ [PortOp.Disconnect]) ∧
    (∀ (charSigned : Bool) (b : Nat) (rest : List Nat), b < 256 → b % 16 = 7 →
      (s.ProcessBinary charSigned (b :: rest)).1 = 1 ∧
      (s.ProcessBinary charSigned (b :: rest)).2.m_connectionState = .Handshaking ∧
      Blank (s.ProcessBinary charSigned (b :: rest)).2 ∧
      (s.ProcessBinary charSigned (b :: rest)).2.m_port = s.m_port ++ [PortOp.Disconnect]) := by
  have hblank := Reachable_blank s hr
  have hb : bytes "END" = [69, 78, 68] := by decide
  have hend : (ProcessAscii_END s).2.m_connectionState = .Handshaking ∧
      Blank (ProcessAscii_END s).2 ∧
      (ProcessAscii_END s).2.m_port = s.m_port ++ [PortOp.Disconnect] := by
    unfold ProcessAscii_END
    by_cases hs : s.m_connectionState = .Handshaking
    · have := hblank hs
      simp only [Blank] at this ⊢
      simp [hs, this]
    · simp [hs, Blank, ClearState]
  refine ⟨by rw [hb, ProcessAscii_END_line]; exact hend, ?_⟩
  intro charSigned b rest hb256 hb7
  have hcmd : charToU32 charSigned b &&& CL_COMMAND_MASK = 7 := by
    rw [command_of_byte, hb7]
  have hS : charToU32 charSigned b ≠ CL_SYN_ := by
    intro e
    have := command_of_byte charSigned b
    rw [e, hb7] at this
    revert this
    decide
  have h4 : charToU32 charSigned b ≠ CL_451_ := by
    intro e
    have := command_of_byte charSigned b
    rw [e, hb7] at this
    revert this
    decide
  have hstep : s.ProcessBinary charSigned (b :: rest) = ProcessBinary_END s 1 := by
    unfold ProcessBinary
    simp only [List.getD_cons_zero, hcmd]
    simp [binaryHeader, hS, h4, ProcessBinary_Switch, CL_ACT, CL_END, CL_PID, CL_CMD, CL_NIO,
      CL_TNI, CL_DBG, CL_EXC_0, CL_EXC_1, CL_EXC_2, CL_VAL_1, CL_VAL_2, CL_VAL_3, CL_VAL_4]
  rw [hstep]
  exact ⟨rfl, hend⟩

/-- C7. The line `ACT` received by a newly constructed host endpoint, which is in
Handshaking: the state check fails, the endpoint is reset and `END` is
written, and the state is then set to Active all the same, although no SYN was
accepted. -/
theorem C7_act_in_handshaking_activates (name : List Nat) (gameVersion : Nat)
    (gameName gameNameObject : List Nat) :
    (init name gameVersion gameName gameNameObject).m_connectionState = .Handshaking ∧
    ((init name gameVersion gameName gameNameObject).ProcessAscii
      (bytes "ACT")).2.m_connectionState = .Active ∧
    ((init name gameVersion gameName gameNameObject).ProcessAscii (bytes "ACT")).2.m_port
      = [PortOp.Write (bytes "END\n")] := by
  have hb : bytes "ACT" = [65, 67, 84] := by decide
  have hc : cstr (bytes "END\n") = bytes "END\n" := by decide
  rw [hb, ProcessAscii_ACT_line]
  have hE := ExpectState_reset (init name gameVersion gameName gameNameObject)
    (stateBit .Synchronisation) [65, 67, 84] 1
    (by
      show (1 <<< DeviceState.toNat .Handshaking) &&& stateBit .Synchronisation = 0
      decide) rfl
  refine ⟨rfl, ?_, ?_⟩
  · simp [ProcessAscii_ACT]
  · simp only [ProcessAscii_ACT, hE]
    simp [SendText, ClearState, init, hc]

/-! ## The claims at sample endpoints -/

/-- C3. SYN acceptance and the reply of version 2: in Handshaking an accepted SYN
line moves the host to Synchronisation with the version and the framing of the
line and writes exactly one reply, `ACK` for version 1.  For version 2 the
reply is built by `%s` from the string object `m_gameName` itself, not from its
characters: it is `ACK=<gameVersion>,` followed by the bytes found at the
object up to the first zero byte.  At the new endpoint for the game OisHub,
version 1, whose string object begins with a pointer, the line `SYN=2,B` is
answered with `ACK=1,` and six bytes of the pointer, not with `ACK=1,OisHub`;
the line `SYN=1` is answered with `ACK`. -/
theorem C3_ack_reply_reads_string_object :
    (∀ (s : OisDevice) (v : Nat) (mode : Option (List Nat)),
      s.m_connectionState = .Handshaking → v = 1 ∨ v = 2 →
      ¬ (v = 1 ∧ modeIsBinary mode = true) →
      s.ProcessAscii (synLine (decimal v) mode) =
        (true, { s with
          m_connectionState := .Synchronisation
          m_protocolVersion := v
          m_binary := modeIsBinary mode
          m_port := s.m_port ++ [PortOp.Write
            (if v = 1 then bytes "ACK\n"
              else bytes "ACK=" ++ fmt_d (toI32 s.m_gameVersion) ++ bytes "," ++
                cstr s.m_gameNameObject ++ bytes "\n")] })) ∧
    hubStart.m_connectionState = .Handshaking ∧
    hubStart.m_gameVersion = 1 ∧
    hubStart.m_gameName = bytes "OisHub" ∧
    hubStart.ProcessAscii (bytes "SYN=2,B") =
      (true, { hubStart with
        m_connectionState := .Synchronisation
        m_protocolVersion := 2
        m_binary := true
        m_port := [PortOp.Write
          (bytes "ACK=1," ++ [0x90, 0x1A, 0x2E, 0x4C, 0xFD, 0x7F] ++ bytes "\n")] }) ∧
    (hubStart.ProcessAscii (bytes "SYN=2,B")).2.m_port ≠
      [PortOp.Write (bytes "ACK=1,OisHub\n")] ∧
    (hubStart.ProcessAscii (bytes "SYN=1")).2.m_port = [PortOp.Write (bytes "ACK\n")] := by
  refine ⟨fun s v mode hs hv hmode =>
    (ProcessAscii_SYN_accepted s v mode hs hv hmode).1, by decide, by decide, by decide,
    ?_, by decide, by decide⟩
  exact (ProcessAscii_SYN_accepted hubStart 2 (some (bytes "B")) (by decide) (by decide)
    (by decide)).1

/-- C4 at an Active endpoint with a catalog and the line `SYN=3,B`. -/
theorem C4_syn_rejected_witness :
    atoi (bytes "3") = 3 ∧
    hubActive.m_events = [{ channel := 7, name := bytes "Fire" }] ∧
    (hubActive.ProcessAscii (bytes "SYN=3,B")).2.m_port
      = hubActive.m_port ++ [PortOp.Write (bytes "DEN\n")] ∧
    (hubActive.ProcessAscii (bytes "SYN=3,B")).2.m_connectionState = .Handshaking ∧
    (hubActive.ProcessAscii (bytes "SYN=3,B")).2.m_events = [] :=
  have h := C4_syn_rejected hubActive (bytes "3") (some (bytes "B")) (by decide)
    (by decide) (Or.inr (Or.inl (by decide)))
  ⟨by decide, by decide, h.1, h.2.1, h.2.2.2.2.2.2.1⟩

/-- C5 at the endpoint in Synchronisation and the line `NIB=Lamp,3`. -/
theorem C5_numeric_declaration_witness :
    hubSync.m_connectionState = .Synchronisation ∧
    hubSync.ProcessAscii (bytes "NIB=Lamp,3") =
      (true, { hubSync with
        m_numericInputs := hubSync.m_numericInputs ++
          [{ name := bytes "Lamp", channel := 3, active := true, type := .Boolean,
             value := .number 0 }] }) :=
  ⟨by decide,
    C5_numeric_declaration hubSync false .Boolean (bytes "Lamp") 3 (by decide) (by decide)
      (by decide)⟩

/-- C6 at the endpoint in Synchronisation and the line `CMD=Fire,7`. -/
theorem C6_event_declaration_witness :
    hubSync.m_connectionState = .Synchronisation ∧
    hubSync.ProcessAscii (bytes "CMD=Fire,7") =
      (true, { hubSync with
        m_events := hubSync.m_events ++ [{ channel := 7, name := bytes "Fire" }] }) :=
  ⟨by decide,
    (C6_event_declaration hubSync (bytes "Fire") 7 (by decide) (by decide)).1
      (Or.inl (by decide))⟩

/-- C8 at an Active endpoint with a catalog, reached by five lines. -/
theorem C8_graceful_teardown_witness :
    Reachable hubActive ∧
    hubActive.m_connectionState = .Active ∧
    (hubActive.ProcessAscii (bytes "END")).2.m_connectionState = .Handshaking ∧
    (hubActive.ProcessAscii (bytes "END")).2.m_events = [] ∧
    (hubActive.ProcessAscii (bytes "END")).2.m_port = hubActive.m_port ++ [PortOp.Disconnect] :=
  have hr : Reachable hubActive :=
    Reachable.ascii _ _ (Reachable.ascii _ _ (Reachable.ascii _ _ (Reachable.ascii _ _
      (Reachable.ascii _ _ (Reachable.init _ _ _ _)))))
  have h := (C8_graceful_teardown hubActive hr).1
  ⟨hr, by decide, h.1, h.2.1.2.2.2.2.1, h.2.2⟩

/-- C9 at an Active endpoint with the output Knob on channel 5 and the line `5=12`. -/
theorem C9_value_frames_touch_outputs_only_witness :
    hubActive.m_connectionState = .Active ∧
    hubActive.m_numericOutputs = [knob 0] ∧
    hubActive.ProcessAscii (bytes "5=12") =
      (true, { hubActive with m_numericOutputs := [knob 12] }) :=
  ⟨by decide, by decide,
    (C9_value_frames_touch_outputs_only hubActive 5 12 (by decide) (by decide) (by decide)).1
      [] (knob 0) [] (by decide) (by decide) (by decide)⟩

/-- C10 at an Active endpoint with the event Fire on channel 7 and the line `EXC=7`. -/
theorem C10_event_fire_delivery_witness :
    hubActive.m_connectionState = .Active ∧
    hubActive.ProcessAscii (bytes "EXC=7") =
      (true, { hubActive with m_eventBuffer := hubActive.m_eventBuffer ++ [7] }) :=
  ⟨by decide,
    (C10_event_fire_delivery hubActive 7 (by decide) (by decide)).1
      ⟨{ channel := 7, name := bytes "Fire" }, by decide, rfl⟩⟩

end OisDevice

/-! ## The binary value round trip and the raw conversion of Number -/

/-- C2. Raw conversion of Number: `FromRawValue` of `ToRawValue` of an integer n is
the clamped n taken modulo 65536, a number in 0..65535: the raw word is not
read back as a signed 16-bit integer, so -1 comes back as 65535. -/
theorem C2_number_raw_conversion_drops_sign :
    (∀ n : Int, FromRawValue .Number (ToRawValue .Number (.number n)) =
      .number (Clamp n (-32768) 32767 % 65536)) ∧
    FromRawValue .Number (ToRawValue .Number (.number (-1))) = .number 65535 ∧
    FromRawValue .Number (ToRawValue .Number (.number (-1))) ≠ .number (-1) := by
  refine ⟨fun n => ?_, by decide, by decide⟩
  have hc : -32768 ≤ Clamp n (-32768) 32767 ∧ Clamp n (-32768) 32767 ≤ 32767 := by
    unfold Clamp
    split
    · omega
    · split <;> omega
  simp only [ToRawValue, FromRawValue, Value.getNumber, toU16, toI16]
  congr 1
  omega

/-- C1. Binary value round trip of the value -1 on channel 5 and of the value 7 on
channel 40000, for both settings of the signedness of `char`.  The host
endpoint is in binary framing and Active with both outputs declared; the
frames are packed with the client parameters.  The first frame addresses
channel 5 but the value stored is 65535, not -1; the second frame consumes its
5 bytes and stores nothing: channel 40000 is not found.  The frame of -1 packed
with the server parameters and decoded by the device endpoint, put in Active
with the input declared, stores 65535 too. -/
theorem C1_binary_round_trip_of_negative_value (charSigned : Bool) :
    hubBinary.m_binary = true ∧
    hubBinary.m_connectionState = .Active ∧
    hubBinary.m_numericOutputs = [knob 0, far 0] ∧
    PackNumericValueCommand (knob (-1)) CL_PAYLOAD_SHIFT CL_VAL_1 CL_VAL_2 CL_VAL_3 CL_VAL_4
      = (4, [0x0A, 0xFF, 0xFF, 0x05]) ∧
    (hubBinary.ProcessBinary charSigned
      (PackNumericValueCommand (knob (-1)) CL_PAYLOAD_SHIFT CL_VAL_1 CL_VAL_2 CL_VAL_3
        CL_VAL_4).2).2.m_numericOutputs = [knob 65535, far 0] ∧
    PackNumericValueCommand (far 7) CL_PAYLOAD_SHIFT CL_VAL_1 CL_VAL_2 CL_VAL_3 CL_VAL_4
      = (5, [0x0B, 0x07, 0x00, 0x40, 0x9C]) ∧
    (hubBinary.ProcessBinary charSigned
      (PackNumericValueCommand (far 7) CL_PAYLOAD_SHIFT CL_VAL_1 CL_VAL_2 CL_VAL_3
        CL_VAL_4).2).1 = 5 ∧
    (hubBinary.ProcessBinary charSigned
      (PackNumericValueCommand (far 7) CL_PAYLOAD_SHIFT CL_VAL_1 CL_VAL_2 CL_VAL_3
        CL_VAL_4).2).2.m_numericOutputs = [knob 0, far 0] ∧
    PackNumericValueCommand (knob (-1)) SV_PAYLOAD_SHIFT SV_VAL_1 SV_VAL_2 SV_VAL_3 SV_VAL_4
      = (4, [0x03, 0xFF, 0xFF, 0x05]) ∧
    (panelActive.ProcessBinary charSigned
      (PackNumericValueCommand (knob (-1)) SV_PAYLOAD_SHIFT SV_VAL_1 SV_VAL_2 SV_VAL_3
        SV_VAL_4).2).2.m_numericInputs = [knob 65535] := by
  cases charSigned <;> decide

end Ois

/-! ## Declared events: every buffered channel has a catalog entry -/

namespace Ois

theorem toU16_lt (x : Int) : toU16 x < 65536 := by
  unfold toU16
  omega

theorem readU8_lt (l : List Nat) (i : Nat) : readU8 l i < 256 := by
  unfold readU8
  omega

theorem readU16_lt (l : List Nat) (i : Nat) : readU16 l i < 65536 := by
  have h1 := readU8_lt l i
  have h2 := readU8_lt l (i + 1)
  unfold readU16
  omega

namespace OisDevice

theorem FindChannel_some_mem {α : Type} [HasChannel α] (l : List α) (c : Int) (i : Nat)
    (h : FindChannel l c = some i) : ∃ w ∈ l, (HasChannel.channel w : Int) = c := by
  induction l generalizing i with
  | nil => simp [FindChannel] at h
  | cons w ws ih =>
    by_cases hw : (HasChannel.channel w : Int) = c
    · exact ⟨w, List.mem_cons_self _ _, hw⟩
    · simp only [FindChannel, hw, if_false, Option.map_eq_some'] at h
      obtain ⟨j, hj, _⟩ := h
      obtain ⟨x, hx, hxc⟩ := ih j hj
      exact ⟨x, List.mem_cons_of_mem _ hx, hxc⟩

theorem ExpectState_cases (s : OisDevice) (mask : Nat) (cmd : List Nat) (v : Nat) :
    (s.ExpectState mask cmd v).2 = s ∨
      (s.ExpectState mask cmd v).2 = (s.ClearState).SendText (bytes "END\n") := by
  unfold ExpectState
  simp only []
  split
  · split
    · exact Or.inr rfl
    · exact Or.inl rfl
  · exact Or.inl rfl

theorem EventsDeclared_ClearState (s : OisDevice) : EventsDeclared s.ClearState := by
  simp [EventsDeclared, ClearState]

theorem ExpectState_declared (s : OisDevice) (mask : Nat) (cmd : List Nat) (v : Nat)
    (h : EventsDeclared s) : EventsDeclared (s.ExpectState mask cmd v).2 := by
  rcases ExpectState_cases s mask cmd v with e | e <;> rw [e]
  · exact h
  · simp [EventsDeclared, ClearState, SendText]

theorem EventsDeclared_push_event (s : OisDevice) (e : Event) (he : e.channel < 65536)
    (h : EventsDeclared s) :
    EventsDeclared { s with m_events := s.m_events ++ [e] } := by
  refine ⟨fun x hx => ?_, fun c hc => ?_⟩
  · rcases List.mem_append.1 hx with hx | hx
    · exact h.1 x hx
    · simp at hx; subst hx; exact he
  · obtain ⟨x, hx, hxc⟩ := h.2 c hc
    exact ⟨x, List.mem_append_left _ hx, hxc⟩

theorem ProcessAscii_KeyVal_declared (s : OisDevice) (cmd : List Nat)
    (h : EventsDeclared s) : EventsDeclared (ProcessAscii_KeyVal s cmd).2 := by
  have h1 := ExpectState_declared s (stateBit .Active) cmd 2 h
  unfold ProcessAscii_KeyVal
  simp only []
  split
  · exact h1
  · split
    · exact h1
    · exact h1

theorem ProcessAscii_SYN_declared (s : OisDevice) (cmd payload : List Nat)
    (h : EventsDeclared s) : EventsDeclared (ProcessAscii_SYN s cmd payload).2 := by
  have h1 := ExpectState_declared s (stateBit .Handshaking) cmd 1 h
  have h2 : EventsDeclared (if (!(s.ExpectState (stateBit .Handshaking) cmd 1).1) = true
      then (s.ExpectState (stateBit .Handshaking) cmd 1).2.ClearState
      else (s.ExpectState (stateBit .Handshaking) cmd 1).2) := by
    split
    · exact EventsDeclared_ClearState _
    · exact h1
  unfold ProcessAscii_SYN
  simp only []
  generalize (if (!(s.ExpectState _ _ _).1) = true then _ else _) = s1 at h2 ⊢
  split
  · split
    · exact h2
    · exact h2
  · exact EventsDeclared_ClearState _

theorem ProcessAscii_PID_declared (s : OisDevice) (cmd payload : List Nat)
    (h : EventsDeclared s) : EventsDeclared (ProcessAscii_PID s cmd payload).2 :=
  ExpectState_declared s (stateBit .Synchronisation) cmd 2 h

theorem ProcessAscii_CMD_declared (s : OisDevice) (cmd payload : List Nat)
    (h : EventsDeclared s) : EventsDeclared (ProcessAscii_CMD s cmd payload).2 := by
  unfold ProcessAscii_CMD
  simp only []
  generalize (stateBit .Synchronisation |||
    (if s.m_protocolVersion > 1 then stateBit .Active else 0)) = mask
  have h1 := ExpectState_declared s mask cmd 1 h
  split
  · exact h1
  · exact EventsDeclared_push_event _ _ (toU16_lt _) h1

theorem ProcessAscii_Numeric_declared (s : OisDevice) (type : Nat) (cmd payload : List Nat)
    (h : EventsDeclared s) : EventsDeclared (ProcessAscii_Numeric s type cmd payload).2 := by
  unfold ProcessAscii_Numeric
  simp only []
  generalize (stateBit .Synchronisation |||
    (if s.m_protocolVersion > 1 then stateBit .Active else 0)) = mask
  generalize decide (type = NON ∨ type = NOF ∨ type = NOB) = output
  generalize (if output = true then 2 else 1) = v
  have h1 := ExpectState_declared s mask cmd v h
  split
  · exact h1
  · cases output <;> exact h1

theorem ProcessAscii_ACT_declared (s : OisDevice) (cmd : List Nat)
    (h : EventsDeclared s) : EventsDeclared (ProcessAscii_ACT s cmd).2 :=
  ExpectState_declared s (stateBit .Synchronisation) cmd 1 h

theorem ProcessAscii_TNI_declared (s : OisDevice) (cmd payload : List Nat)
    (h : EventsDeclared s) : EventsDeclared (ProcessAscii_TNI s cmd payload).2 := by
  have h1 := ExpectState_declared s (stateBit .Synchronisation ||| stateBit .Active) cmd 2 h
  unfold ProcessAscii_TNI
  simp only []
  apply ProcessAscii_ACT_declared
  split
  · exact h1
  · exact h1

theorem ProcessAscii_EXC_declared (s : OisDevice) (cmd payload : List Nat)
    (h : EventsDeclared s) : EventsDeclared (ProcessAscii_EXC s cmd payload).2 := by
  have h1 := ExpectState_declared s (stateBit .Active) cmd 1 h
  unfold ProcessAscii_EXC
  simp only []
  generalize (s.ExpectState (stateBit .Active) cmd 1).2 = s1 at h1 ⊢
  cases hf : FindChannel s1.m_events (atoi payload) with
  | none => exact h1
  | some i =>
    obtain ⟨e, he, hec⟩ := FindChannel_some_mem _ _ _ hf
    have hb := h1.1 e he
    have hch : toU16 (atoi payload) = e.channel := by
      rw [← hec]
      exact toU16_of_le e.channel (by omega)
    refine ⟨h1.1, fun c hc => ?_⟩
    rcases List.mem_append.1 hc with hc | hc
    · exact h1.2 c hc
    · simp at hc
      exact ⟨e, he, by rw [hc, hch]⟩

theorem ProcessAscii_END_declared (s : OisDevice)
    (h : EventsDeclared s) : EventsDeclared (ProcessAscii_END s).2 := by
  unfold ProcessAscii_END
  simp only []
  split
  · exact EventsDeclared_ClearState s
  · exact h

theorem ProcessAscii_Switch_declared (s : OisDevice) (type : Nat) (cmd payload : List Nat)
    (h : EventsDeclared s) : EventsDeclared (ProcessAscii_Switch s type cmd payload).2 := by
  unfold ProcessAscii_Switch
  split
  · exact ProcessAscii_SYN_declared s cmd _ h
  split
  · exact ProcessAscii_PID_declared s cmd _ h
  split
  · exact ProcessAscii_CMD_declared s cmd _ h
  split
  · exact ProcessAscii_Numeric_declared s _ cmd _ h
  split
  · exact ProcessAscii_TNI_declared s cmd _ h
  split
  · exact ProcessAscii_ACT_declared s cmd h
  split
  · exact ProcessAscii_EXC_declared s cmd _ h
  split
  · exact h
  split
  · exact ProcessAscii_END_declared s h
  · exact h

theorem ProcessAscii_declared (s : OisDevice) (cmd : List Nat)
    (h : EventsDeclared s) : EventsDeclared (s.ProcessAscii cmd).2 := by
  unfold ProcessAscii
  by_cases h0 : cmd.getD 0 0 = 0
  · rw [if_pos h0]; exact h
  · rw [if_neg h0]
    by_cases h1 : isdigit (cmd.getD 0 0) = true
    · simp only [h1, if_true]
      exact ProcessAscii_KeyVal_declared s cmd h
    · simp only [h1, if_false]
      exact ProcessAscii_Switch_declared s _ cmd _ h

theorem ProcessBinary_PID_declared (s : OisDevice) (start : List Nat) (n : Nat)
    (h : EventsDeclared s) : EventsDeclared (ProcessBinary_PID s start n).2 :=
  ExpectState_declared s (stateBit .Synchronisation) (bytes "PID") 2 h

theorem ProcessBinary_CMD_declared (s : OisDevice) (start : List Nat) (n : Nat)
    (h : EventsDeclared s) : EventsDeclared (ProcessBinary_CMD s start n).2 := by
  have h1 := ExpectState_declared s (stateBit .Synchronisation ||| stateBit .Active)
    (bytes "CMD") 2 h
  unfold ProcessBinary_CMD
  simp only []
  split
  · exact h1
  · exact EventsDeclared_push_event _ _ (readU16_lt _ _) h1

theorem ProcessBinary_Declare_declared (s : OisDevice) (payload : Nat) (start : List Nat)
    (n : Nat) (h : EventsDeclared s) :
    EventsDeclared (ProcessBinary_Declare s payload start n).2 := by
  unfold ProcessBinary_Declare
  simp only []
  generalize (stateBit .Synchronisation |||
    (if s.m_protocolVersion > 1 then stateBit .Active else 0)) = mask
  generalize decide (payload &&& CL_N_PAYLOAD_O ≠ 0) = output
  have h1 := ExpectState_declared s mask (bytes "NIO") 2 h
  split
  · exact h1
  · cases output <;> exact h1

theorem ProcessBinary_ACT_declared (s : OisDevice) (n : Nat)
    (h : EventsDeclared s) : EventsDeclared (ProcessBinary_ACT s n).2 :=
  ExpectState_declared s (stateBit .Synchronisation) (bytes "ACT") 2 h

theorem ProcessBinary_TNI_declared (s : OisDevice) (payload : Nat) (start : List Nat)
    (n : Nat) (h : EventsDeclared s) :
    EventsDeclared (ProcessBinary_TNI s payload start n).2 := by
  have h1 := ExpectState_declared s (stateBit .Synchronisation ||| stateBit .Active)
    (bytes "TNI") 2 h
  unfold ProcessBinary_TNI
  simp only []
  split
  · exact h1
  · exact h1

theorem ProcessBinary_EXC_declared (s : OisDevice) (payload command : Nat)
    (start : List Nat) (n : Nat) (h : EventsDeclared s) :
    EventsDeclared (ProcessBinary_EXC s payload command start n).2 := by
  have h1 := ExpectState_declared s (stateBit .Active) (bytes "EXC") 2 h
  unfold ProcessBinary_EXC
  simp only []
  generalize (s.ExpectState (stateBit .Active) (bytes "EXC") 2).2 = s1 at h1 ⊢
  generalize (if command = CL_EXC_0 then toU16 ((payload >>> CL_PAYLOAD_SHIFT : Nat) : Int)
    else if command = CL_EXC_1 then
      toU16 ((readU8 start 1 ||| (toU16 ((payload >>> CL_PAYLOAD_SHIFT : Nat) : Int) <<< 8) : Nat) : Int)
    else readU16 start 1) = channel
  cases hf : FindChannel s1.m_events (channel : Int) with
  | none => exact h1
  | some i =>
    obtain ⟨e, he, hec⟩ := FindChannel_some_mem _ _ _ hf
    have hch : e.channel = channel := by
      have : ((e.channel : Nat) : Int) = (channel : Int) := hec
      exact_mod_cast this
    refine ⟨h1.1, fun c hc => ?_⟩
    rcases List.mem_append.1 hc with hc | hc
    · exact h1.2 c hc
    · simp at hc
      exact ⟨e, he, by rw [hc, hch]⟩

theorem ProcessBinary_VAL_declared (s : OisDevice) (payload command : Nat)
    (start : List Nat) (n : Nat) (h : EventsDeclared s) :
    EventsDeclared (ProcessBinary_VAL s payload command start n).2 := by
  have h1 := ExpectState_declared s (stateBit .Active) (bytes "VAL") 2 h
  unfold ProcessBinary_VAL
  simp only []
  split
  · exact h1
  · split
    · exact h1
    · exact h1

theorem ProcessBinary_END_declared (s : OisDevice) (n : Nat)
    (h : EventsDeclared s) : EventsDeclared (ProcessBinary_END s n).2 := by
  unfold ProcessBinary_END
  simp only []
  split
  · exact EventsDeclared_ClearState s
  · exact h

theorem ProcessBinary_Switch_declared (s : OisDevice) (payload command : Nat)
    (start : List Nat) (n : Nat) (h : EventsDeclared s) :
    EventsDeclared (ProcessBinary_Switch s payload command start n).2 := by
  unfold ProcessBinary_Switch
  split
  · exact ProcessBinary_PID_declared s start n h
  split
  · exact ProcessBinary_CMD_declared s start n h
  split
  · exact ProcessBinary_Declare_declared s payload start n h
  split
  · exact ProcessBinary_ACT_declared s n h
  split
  · exact ProcessBinary_TNI_declared s payload start n h
  split
  · exact h
  split
  · exact ProcessBinary_EXC_declared s payload command start n h
  split
  · exact ProcessBinary_VAL_declared s payload command start n h
  split
  · exact ProcessBinary_END_declared s n h
  · exact h

theorem ProcessBinary_declared (s : OisDevice) (charSigned : Bool) (start : List Nat)
    (h : EventsDeclared s) : EventsDeclared (s.ProcessBinary charSigned start).2 := by
  unfold ProcessBinary
  by_cases h0 : start = []
  · rw [if_pos h0]; exact h
  · rw [if_neg h0]
    simp only []
    split
    · exact h
    split
    · exact h
    split
    · exact h
    · exact ProcessBinary_Switch_declared s _ _ start _ h

/-- In every reachable state the buffered event channels are declared. -/
theorem Reachable_declared (s : OisDevice) (hr : Reachable s) : EventsDeclared s := by
  induction hr with
  | init name gameVersion gameName gameNameObject => simp [init, EventsDeclared, ClearState]
  | ascii s cmd _ ih => exact ProcessAscii_declared s cmd ih
  | binary s cs start _ ih => exact ProcessBinary_declared s cs start ih
  | clear s _ _ => exact EventsDeclared_ClearState s
  | transport s ops buffer _ ih => exact ih
  | setInput s input value _ ih => exact ih
  | popEvents s _ ih =>
    unfold PopEvents
    split
    · exact ih
    · exact ⟨ih.1, by simp⟩

end OisDevice

end Ois

/-! ## Draining events and setting inputs -/

namespace Ois

namespace OisDevice

theorem FindChannel_find (events : List Event) (c : Nat) (d : Event) :
    (match FindChannel events (c : Int) with
      | some i => some (events.getD i d)
      | none => none) = events.find? (fun e => decide (e.channel = c)) := by
  induction events with
  | nil => simp [FindChannel]
  | cons e es ih =>
    by_cases he : e.channel = c
    · have : ((HasChannel.channel e : Nat) : Int) = (c : Int) := by
        show ((e.channel : Nat) : Int) = c
        exact_mod_cast he
      simp [FindChannel, this, he]
    · have : ¬ ((HasChannel.channel e : Nat) : Int) = (c : Int) := by
        show ¬ ((e.channel : Nat) : Int) = c
        exact_mod_cast he
      simp only [FindChannel, this, if_false, List.find?_cons, he, decide_False]
      rw [← ih]
      cases FindChannel es (c : Int) <;> simp

theorem PopEventsCalls_eq (events : List Event) (buffer : List Nat) :
    PopEventsCalls events buffer =
      buffer.filterMap (fun c => events.find? (fun e => decide (e.channel = c))) := by
  induction buffer with
  | nil => rfl
  | cons c cs ih =>
    have h := FindChannel_find events c { channel := 0, name := [] }
    unfold PopEventsCalls
    rw [List.filterMap_cons, ← h, ih]
    cases FindChannel events (c : Int) <;> simp

theorem declared_calls (events : List Event) (buffer : List Nat)
    (h : ∀ c ∈ buffer, ∃ e ∈ events, e.channel = c) :
    (buffer.filterMap (fun c => events.find? (fun e => decide (e.channel = c)))).map
      Event.channel = buffer := by
  induction buffer with
  | nil => rfl
  | cons c cs ih =>
    obtain ⟨e, he, hec⟩ := h c (List.mem_cons_self _ _)
    have ih := ih (fun x hx => h x (List.mem_cons_of_mem _ hx))
    cases hf : events.find? (fun e => decide (e.channel = c)) with
    | none =>
      have := List.find?_eq_none.1 hf e he
      simp [hec] at this
    | some w =>
      have hw := List.find?_some hf
      simp only [decide_eq_true_eq] at hw
      simp [List.filterMap_cons, hf, hw, ih]

/-- C11. PopEvents drains in FIFO order: the result is true exactly when the
received-event buffer was not empty; `fn` receives, for each buffered channel in
the order of the buffer, the first declared event with that channel; afterwards
the buffer is empty and nothing else has changed; and in every reachable state
each buffered channel has a declared event, so `fn` is called once for each
buffered channel, in order. -/
theorem C11_pop_events_fifo (s : OisDevice) :
    s.PopEvents.1 = decide (s.m_eventBuffer ≠ []) ∧
    s.PopEvents.2.1 = s.m_eventBuffer.filterMap
      (fun c => s.m_events.find? (fun e => decide (e.channel = c))) ∧
    s.PopEvents.2.2 = { s with m_eventBuffer := [] } ∧
    (Reachable s → s.PopEvents.2.1.map Event.channel = s.m_eventBuffer) := by
  have hcalls : s.PopEvents.2.1 = s.m_eventBuffer.filterMap
      (fun c => s.m_events.find? (fun e => decide (e.channel = c))) := by
    unfold PopEvents
    split
    · rename_i he
      have : s.m_eventBuffer = [] := by simpa using he
      simp [this]
    · exact PopEventsCalls_eq _ _
  refine ⟨?_, hcalls, ?_, fun hr => ?_⟩
  · unfold PopEvents
    split
    · rename_i he
      have : s.m_eventBuffer = [] := by simpa using he
      simp [this]
    · rename_i he
      have : s.m_eventBuffer ≠ [] := by simpa using he
      simp [this]
  · unfold PopEvents
    split
    · rename_i he
      have : s.m_eventBuffer = [] := by simpa using he
      cases s
      simp_all
    · rfl
  · rw [hcalls]
    exact declared_calls _ _ (Reachable_declared s hr).2

/-- C12. SetInput does not enqueue: for every endpoint, entry and value the queue
`m_queuedInputs` after `SetInput` is the queue before it, because
`SetValueAndEnqueue` receives the queue by value.  At the endpoint with the
Number input Dial, `SetInput` of the entry at index 0 with the value 9 returns
true and stores 9, the queue stays empty, and the next `Poll` writes nothing. -/
theorem C12_set_input_does_not_enqueue :
    (∀ (s : OisDevice) (input : Nat) (value : Value),
      (s.SetInput input value).2.m_queuedInputs = s.m_queuedInputs) ∧
    hubDial.m_numericInputs = [dial 0] ∧
    hubDial.m_queuedInputs = [] ∧
    (hubDial.SetInput 0 (.number 9)).1 = true ∧
    (hubDial.SetInput 0 (.number 9)).2.m_numericInputs = [dial 9] ∧
    (hubDial.SetInput 0 (.number 9)).2.m_queuedInputs = [] ∧
    ((hubDial.SetInput 0 (.number 9)).2.Poll false true []).m_port = hubDial.m_port := by
  refine ⟨fun s input value => rfl, ?_, ?_, ?_, ?_, ?_, ?_⟩ <;> decide

theorem SetValueAndEnqueue_ge (input : Nat) (value : Value) (values : List NumericValue)
    (queue : List Nat) (h : ¬ input < values.length) :
    SetValueAndEnqueue input value values queue = (false, values) := by
  unfold SetValueAndEnqueue
  cases values with
  | nil => rfl
  | cons a as =>
    have hge : input ≥ (a :: as).length := by omega
    simp only [List.isEmpty_cons, Bool.false_eq_true, if_false, hge, if_true]

theorem SetValueAndEnqueue_lt (input : Nat) (value : Value) (values : List NumericValue)
    (queue : List Nat) (h : input < values.length) :
    SetValueAndEnqueue input value values queue =
      if (values.getD input
          { name := [], channel := 0, active := false, type := .Number, value := .number 0 }
          ).value.getNumber ≠ value.getNumber then
        (true, updateAt values input (fun v => { v with value := value }))
      else (true, values) := by
  unfold SetValueAndEnqueue
  cases values with
  | nil => simp at h
  | cons a as =>
    have hge : ¬ (input ≥ (a :: as).length) := by omega
    simp only [List.isEmpty_cons, Bool.false_eq_true, if_false, hge]

theorem set_inputs_self (s : OisDevice) : { s with m_numericInputs := s.m_numericInputs } = s := by
  cases s
  rfl

/-- C13. SetInput membership result: the result is true exactly when the entry's
position is an index below the size of the inputs catalog; when the result is
false the endpoint is unchanged; when the entry is a member and the new value
equals the stored one the result is true and the endpoint is unchanged. -/
theorem C13_set_input_membership (s : OisDevice) (input : Nat) (value : Value) :
    ((s.SetInput input value).1 = true ↔ input < s.m_numericInputs.length) ∧
    ((s.SetInput input value).1 = false → (s.SetInput input value).2 = s) ∧
    (∀ v, s.m_numericInputs[input]? = some v → v.value = value →
      s.SetInput input value = (true, s)) := by
  unfold SetInput
  by_cases hi : input < s.m_numericInputs.length
  · rw [SetValueAndEnqueue_lt input value _ _ hi]
    refine ⟨?_, ?_, ?_⟩
    · constructor
      · intro _; exact hi
      · intro _; split <;> rfl
    · intro h
      split at h <;> simp at h
    · intro v hv hval
      have hget : s.m_numericInputs.getD input
          { name := [], channel := 0, active := false, type := .Number, value := .number 0 }
          = v := by
        rw [List.getD_eq_getElem?_getD, hv]
        rfl
      rw [hget, hval]
      simp [set_inputs_self]
  · rw [SetValueAndEnqueue_ge input value _ _ hi]
    refine ⟨?_, ?_, ?_⟩
    · simp [hi]
    · intro _; exact set_inputs_self s
    · intro v hv
      have := List.getElem?_eq_none (Nat.le_of_not_lt hi)
      rw [this] at hv
      simp at hv

end OisDevice

end Ois

/-! ## Width selection of the value frame -/

namespace Ois

theorem ToRawValue_lt (t : NumericType) (x : Value) : ToRawValue t x < 65536 := by
  cases t
  · simp only [ToRawValue]
    split <;> omega
  · exact toU16_lt _
  · exact toU16_lt _

/-- The raw word survives the conversions `int16_t data`, `uint16_t u`. -/
theorem raw_word (t : NumericType) (x : Value) :
    toU16 (toI16 (ToRawValue t x)) = ToRawValue t x := by
  have h := ToRawValue_lt t x
  unfold toU16 toI16
  omega

theorem mask8 (x : Nat) (h : x < 256) : 0xFF &&& x = x := by
  rw [Nat.and_comm]
  have := Nat.and_pow_two_sub_one_eq_mod x 8
  simp only [Nat.reducePow, Nat.add_one_sub_one] at this
  rw [this]
  omega

theorem or_shift_eq_add (code x S : Nat) (h : code < 2 ^ S) :
    code ||| (x <<< S) = 2 ^ S * x + code := by
  rw [Nat.or_comm, Nat.shiftLeft_eq, Nat.mul_comm]
  exact (Nat.mul_add_lt_is_or h x).symm

theorem mask8_or_shift (code x S : Nat) (h : code < 2 ^ S) (hS : S ≤ 8)
    (hx : x < 2 ^ (8 - S)) : 0xFF &&& (code ||| (x <<< S)) = code ||| (x <<< S) := by
  apply mask8
  rw [or_shift_eq_add code x S h]
  have h1 : 2 ^ S * 2 ^ (8 - S) = 256 := by
    rw [← Nat.pow_add]
    have : S + (8 - S) = 8 := by omega
    rw [this]
  have h2 : 2 ^ S * (x + 1) ≤ 2 ^ S * 2 ^ (8 - S) := Nat.mul_le_mul_left _ hx
  rw [Nat.mul_add, Nat.mul_one] at h2
  omega

theorem masked_code (code x S : Nat) (h : code < 2 ^ S) :
    (code ||| (x <<< S)) &&& (2 ^ S - 1) = code := by
  rw [Nat.and_pow_two_sub_one_eq_mod, or_shift_eq_add code x S h]
  rw [Nat.mul_add_mod]
  exact Nat.mod_eq_of_lt h

/-- C14. Smallest width selection: with S = PAYLOAD_SHIFT (3 or 4) and u the raw
16-bit word of the entry, `PackNumericValueCommand` returns 2 exactly when the
channel is below 256 and u below 2^(8-S); 3 exactly when the channel is below
256 and u is in 2^(8-S) .. 2^(16-S) - 1; 4 exactly when neither holds and the
channel is below 2^(16-S); 5 otherwise; so a width is never chosen when a
narrower one can hold the channel and u. -/
theorem C14_smallest_width (v : NumericValue) (S VAL_1 VAL_2 VAL_3 VAL_4 : Nat)
    (hS : S = 3 ∨ S = 4) :
    ((PackNumericValueCommand v S VAL_1 VAL_2 VAL_3 VAL_4).1 = 2 ↔
      v.channel < 256 ∧ ToRawValue v.type v.value < 2 ^ (8 - S)) ∧
    ((PackNumericValueCommand v S VAL_1 VAL_2 VAL_3 VAL_4).1 = 3 ↔
      v.channel < 256 ∧ 2 ^ (8 - S) ≤ ToRawValue v.type v.value ∧
        ToRawValue v.type v.value < 2 ^ (16 - S)) ∧
    ((PackNumericValueCommand v S VAL_1 VAL_2 VAL_3 VAL_4).1 = 4 ↔
      ¬ (v.channel < 256 ∧ ToRawValue v.type v.value < 2 ^ (8 - S)) ∧
      ¬ (v.channel < 256 ∧ 2 ^ (8 - S) ≤ ToRawValue v.type v.value ∧
        ToRawValue v.type v.value < 2 ^ (16 - S)) ∧
      v.channel < 2 ^ (16 - S)) ∧
    ((PackNumericValueCommand v S VAL_1 VAL_2 VAL_3 VAL_4).1 = 5 ↔
      ¬ (v.channel < 256 ∧ ToRawValue v.type v.value < 2 ^ (16 - S)) ∧
      ¬ v.channel < 2 ^ (16 - S)) ∧
    (v.channel < 256 ∧ ToRawValue v.type v.value < 2 ^ (16 - S) →
      (PackNumericValueCommand v S VAL_1 VAL_2 VAL_3 VAL_4).1 ≤ 3) ∧
    (v.channel < 2 ^ (16 - S) →
      (PackNumericValueCommand v S VAL_1 VAL_2 VAL_3 VAL_4).1 ≤ 4) := by
  have hu := raw_word v.type v.value
  rcases hS with rfl | rfl
  · have e1 : (1 <<< (8 - 3) : Nat) = 32 := by decide
    have e2 : (1 <<< (8 + (8 - 3)) : Nat) = 8192 := by decide
    simp only [PackNumericValueCommand, hu, e1, e2]
    norm_num
    split
    · omega
    · split
      · omega
      · split <;> omega
  · have e1 : (1 <<< (8 - 4) : Nat) = 16 := by decide
    have e2 : (1 <<< (8 + (8 - 4)) : Nat) = 4096 := by decide
    simp only [PackNumericValueCommand, hu, e1, e2]
    norm_num
    split
    · omega
    · split
      · omega
      · split <;> omega

/-- C14 at the shift 4 and the Number entry Knob of channel 5 with value 3. -/
theorem C14_smallest_width_witness :
    (4 = 3 ∨ 4 = 4) ∧
    (PackNumericValueCommand (knob 3) 4 CL_VAL_1 CL_VAL_2 CL_VAL_3 CL_VAL_4).1 = 2 ∧
    ((knob 3).channel < 256 ∧ ToRawValue (knob 3).type (knob 3).value < 2 ^ (8 - 4)) :=
  ⟨by decide, by decide,
    (C14_smallest_width (knob 3) 4 CL_VAL_1 CL_VAL_2 CL_VAL_3 CL_VAL_4 (by decide)).1.1
      (by decide)⟩

end Ois

/-! ## Layout of the value frame -/

namespace Ois

theorem mask8_lt (x : Nat) : 0xFF &&& x < 256 := by
  rw [Nat.and_comm]
  exact Nat.and_lt_two_pow x (by decide : 255 < 2 ^ 8)

theorem shiftRight8_lt (x n : Nat) (h : x < 256 * n) : x >>> 8 < n := by
  rw [Nat.shiftRight_eq_div_pow]
  have : (2 : Nat) ^ 8 = 256 := by decide
  rw [this]
  omega

/-- The layout of the frame for given parameters whose codes lie below 2^S. -/
theorem pack_layout (v : NumericValue) (S VAL_1 VAL_2 VAL_3 VAL_4 : Nat)
    (hS : S = 3 ∨ S = 4)
    (h1 : VAL_1 < 2 ^ S) (h2 : VAL_2 < 2 ^ S) (h3 : VAL_3 < 2 ^ S) (h4 : VAL_4 < 2 ^ S)
    (hc : v.channel < 65536) :
    ((PackNumericValueCommand v S VAL_1 VAL_2 VAL_3 VAL_4).1 = 2 ∧
      (PackNumericValueCommand v S VAL_1 VAL_2 VAL_3 VAL_4).2 =
        [VAL_1 ||| (ToRawValue v.type v.value <<< S), v.channel] ∧
      (VAL_1 ||| (ToRawValue v.type v.value <<< S)) &&& (2 ^ S - 1) = VAL_1) ∨
    ((PackNumericValueCommand v S VAL_1 VAL_2 VAL_3 VAL_4).1 = 3 ∧
      (PackNumericValueCommand v S VAL_1 VAL_2 VAL_3 VAL_4).2 =
        [VAL_2 ||| ((ToRawValue v.type v.value >>> 8) <<< S),
          ToRawValue v.type v.value &&& 0xFF, v.channel] ∧
      (VAL_2 ||| ((ToRawValue v.type v.value >>> 8) <<< S)) &&& (2 ^ S - 1) = VAL_2) ∨
    ((PackNumericValueCommand v S VAL_1 VAL_2 VAL_3 VAL_4).1 = 4 ∧
      (PackNumericValueCommand v S VAL_1 VAL_2 VAL_3 VAL_4).2 =
        [VAL_3 ||| ((v.channel >>> 8) <<< S), ToRawValue v.type v.value &&& 0xFF,
          ToRawValue v.type v.value >>> 8, v.channel &&& 0xFF] ∧
      (VAL_3 ||| ((v.channel >>> 8) <<< S)) &&& (2 ^ S - 1) = VAL_3) ∨
    ((PackNumericValueCommand v S VAL_1 VAL_2 VAL_3 VAL_4).1 = 5 ∧
      (PackNumericValueCommand v S VAL_1 VAL_2 VAL_3 VAL_4).2 =
        [VAL_4, ToRawValue v.type v.value &&& 0xFF, ToRawValue v.type v.value >>> 8,
          v.channel &&& 0xFF, v.channel >>> 8] ∧
      VAL_4 &&& (2 ^ S - 1) = VAL_4) := by
  have hu := raw_word v.type v.value
  have hlt := ToRawValue_lt v.type v.value
  have hS8 : S ≤ 8 := by omega
  have hp : (2 : Nat) ^ S ≤ 16 := by rcases hS with rfl | rfl <;> decide
  have hu8 : ToRawValue v.type v.value >>> 8 < 256 := shiftRight8_lt _ _ (by omega)
  have hc8 : v.channel >>> 8 < 256 := shiftRight8_lt _ _ (by omega)
  have e1 : (1 <<< (8 - S) : Nat) = 2 ^ (8 - S) := by rw [Nat.shiftLeft_eq, Nat.one_mul]
  have e2 : (1 <<< (8 + (8 - S)) : Nat) = 256 * 2 ^ (8 - S) := by
    rw [Nat.shiftLeft_eq, Nat.one_mul, Nat.pow_add]
  simp only [PackNumericValueCommand, hu, e1, e2]
  split
  · rename_i h
    refine Or.inl ⟨rfl, ?_, masked_code _ _ _ h1⟩
    rw [mask8_or_shift _ _ _ h1 hS8 h.2, mask8 v.channel (by omega)]
  · split
    · rename_i h
      refine Or.inr (Or.inl ⟨rfl, ?_, masked_code _ _ _ h2⟩)
      rw [mask8_or_shift _ _ _ h2 hS8 (shiftRight8_lt _ _ h.2), mask8 v.channel (by omega),
        Nat.and_comm 255]
    · split
      · rename_i h
        refine Or.inr (Or.inr (Or.inl ⟨rfl, ?_, masked_code _ _ _ h3⟩))
        rw [mask8_or_shift _ _ _ h3 hS8 (shiftRight8_lt _ _ h),
          mask8 (ToRawValue v.type v.value >>> 8) hu8,
          Nat.and_comm 255 (ToRawValue v.type v.value), Nat.and_comm 255 v.channel]
      · refine Or.inr (Or.inr (Or.inr ⟨rfl, ?_, ?_⟩))
        · rw [mask8 (ToRawValue v.type v.value >>> 8) hu8, mask8 (v.channel >>> 8) hc8,
            Nat.and_comm 255 (ToRawValue v.type v.value), Nat.and_comm 255 v.channel,
            Nat.mod_eq_of_lt (by omega)]
        · rw [Nat.and_pow_two_sub_one_eq_mod]
          exact Nat.mod_eq_of_lt h4

/-- C15. Bit-exact VAL layout: for a 16-bit channel c, the raw word u of the entry
and the client parameters (shift 4, codes 0x08..0x0B, mask 0x0F) or the server
parameters (shift 3, codes 1..4, mask 0x07), `PackNumericValueCommand` writes
`[VAL_1 | (u << S), c]` when it returns 2, `[VAL_2 | ((u >> 8) << S), u & 0xFF, c]`
when it returns 3, `[VAL_3 | ((c >> 8) << S), u & 0xFF, u >> 8, c & 0xFF]` when it
returns 4 and `[VAL_4, u & 0xFF, u >> 8, c & 0xFF, c >> 8]` when it returns 5; in each
case the first byte masked with the command mask is the chosen code. -/
theorem C15_val_layout (v : NumericValue) (S VAL_1 VAL_2 VAL_3 VAL_4 mask : Nat)
    (hp : (S = CL_PAYLOAD_SHIFT ∧ VAL_1 = CL_VAL_1 ∧ VAL_2 = CL_VAL_2 ∧ VAL_3 = CL_VAL_3 ∧
        VAL_4 = CL_VAL_4 ∧ mask = CL_COMMAND_MASK) ∨
      (S = SV_PAYLOAD_SHIFT ∧ VAL_1 = SV_VAL_1 ∧ VAL_2 = SV_VAL_2 ∧ VAL_3 = SV_VAL_3 ∧
        VAL_4 = SV_VAL_4 ∧ mask = SV_COMMAND_MASK))
    (hc : v.channel < 65536) :
    ((PackNumericValueCommand v S VAL_1 VAL_2 VAL_3 VAL_4).1 = 2 →
      (PackNumericValueCommand v S VAL_1 VAL_2 VAL_3 VAL_4).2 =
        [VAL_1 ||| (ToRawValue v.type v.value <<< S), v.channel] ∧
      (VAL_1 ||| (ToRawValue v.type v.value <<< S)) &&& mask = VAL_1) ∧
    ((PackNumericValueCommand v S VAL_1 VAL_2 VAL_3 VAL_4).1 = 3 →
      (PackNumericValueCommand v S VAL_1 VAL_2 VAL_3 VAL_4).2 =
        [VAL_2 ||| ((ToRawValue v.type v.value >>> 8) <<< S),
          ToRawValue v.type v.value &&& 0xFF, v.channel] ∧
      (VAL_2 ||| ((ToRawValue v.type v.value >>> 8) <<< S)) &&& mask = VAL_2) ∧
    ((PackNumericValueCommand v S VAL_1 VAL_2 VAL_3 VAL_4).1 = 4 →
      (PackNumericValueCommand v S VAL_1 VAL_2 VAL_3 VAL_4).2 =
        [VAL_3 ||| ((v.channel >>> 8) <<< S), ToRawValue v.type v.value &&& 0xFF,
          ToRawValue v.type v.value >>> 8, v.channel &&& 0xFF] ∧
      (VAL_3 ||| ((v.channel >>> 8) <<< S)) &&& mask = VAL_3) ∧
    ((PackNumericValueCommand v S VAL_1 VAL_2 VAL_3 VAL_4).1 = 5 →
      (PackNumericValueCommand v S VAL_1 VAL_2 VAL_3 VAL_4).2 =
        [VAL_4, ToRawValue v.type v.value &&& 0xFF, ToRawValue v.type v.value >>> 8,
          v.channel &&& 0xFF, v.channel >>> 8] ∧
      VAL_4 &&& mask = VAL_4) ∧
    ((PackNumericValueCommand v S VAL_1 VAL_2 VAL_3 VAL_4).1 = 2 ∨
      (PackNumericValueCommand v S VAL_1 VAL_2 VAL_3 VAL_4).1 = 3 ∨
      (PackNumericValueCommand v S VAL_1 VAL_2 VAL_3 VAL_4).1 = 4 ∨
      (PackNumericValueCommand v S VAL_1 VAL_2 VAL_3 VAL_4).1 = 5) := by
  have key : ∃ hS : S = 3 ∨ S = 4, mask = 2 ^ S - 1 ∧ VAL_1 < 2 ^ S ∧ VAL_2 < 2 ^ S ∧
      VAL_3 < 2 ^ S ∧ VAL_4 < 2 ^ S := by
    rcases hp with ⟨rfl, rfl, rfl, rfl, rfl, rfl⟩ | ⟨rfl, rfl, rfl, rfl, rfl, rfl⟩
    · exact ⟨Or.inr rfl, by decide, by decide, by decide, by decide, by decide⟩
    · exact ⟨Or.inl rfl, by decide, by decide, by decide, by decide, by decide⟩
  obtain ⟨hS, hm, h1, h2, h3, h4⟩ := key
  rw [hm]
  rcases pack_layout v S VAL_1 VAL_2 VAL_3 VAL_4 hS h1 h2 h3 h4 hc with
    ⟨hl, hb, hk⟩ | ⟨hl, hb, hk⟩ | ⟨hl, hb, hk⟩ | ⟨hl, hb, hk⟩
  · refine ⟨fun _ => ⟨hb, hk⟩, fun e => ?_, fun e => ?_, fun e => ?_, Or.inl hl⟩ <;>
      (rw [hl] at e; omega)
  · refine ⟨fun e => ?_, fun _ => ⟨hb, hk⟩, fun e => ?_, fun e => ?_, Or.inr (Or.inl hl)⟩ <;>
      (rw [hl] at e; omega)
  · refine ⟨fun e => ?_, fun e => ?_, fun _ => ⟨hb, hk⟩, fun e => ?_,
      Or.inr (Or.inr (Or.inl hl))⟩ <;> (rw [hl] at e; omega)
  · refine ⟨fun e => ?_, fun e => ?_, fun e => ?_, fun _ => ⟨hb, hk⟩,
      Or.inr (Or.inr (Or.inr hl))⟩ <;> (rw [hl] at e; omega)

/-- C15 at channel 5, Number 3 and the client parameters: the frame is 0x38, 0x05. -/
theorem C15_val_layout_witness :
    (knob 3).channel < 65536 ∧
    PackNumericValueCommand (knob 3) CL_PAYLOAD_SHIFT CL_VAL_1 CL_VAL_2 CL_VAL_3 CL_VAL_4
      = (2, [0x38, 0x05]) ∧
    (PackNumericValueCommand (knob 3) CL_PAYLOAD_SHIFT CL_VAL_1 CL_VAL_2 CL_VAL_3 CL_VAL_4).2 =
      [CL_VAL_1 ||| (ToRawValue (knob 3).type (knob 3).value <<< CL_PAYLOAD_SHIFT),
        (knob 3).channel] ∧
    (CL_VAL_1 ||| (ToRawValue (knob 3).type (knob 3).value <<< CL_PAYLOAD_SHIFT)) &&&
      CL_COMMAND_MASK = CL_VAL_1 :=
  ⟨by decide, by decide,
    (C15_val_layout (knob 3) CL_PAYLOAD_SHIFT CL_VAL_1 CL_VAL_2 CL_VAL_3 CL_VAL_4
      CL_COMMAND_MASK (Or.inl ⟨rfl, rfl, rfl, rfl, rfl, rfl⟩) (by decide)).1 (by decide)⟩

end Ois

/-! ## First byte of a binary frame -/

namespace Ois

/-- C16. Payload bits of the first byte: read as an unsigned `char` the first byte b
gives the payload bits b >> 4; read as a signed `char` a byte of 0x80 or more is
sign-extended and gives (b >> 4) + 0x0FFFFFF0.  The client VAL_1 frame 0x88, 0x05
(value 8 on channel 5) then stores 65528 instead of 8, and the VAL_2 frame
0x89, 0x34, 0x05 (value 0x834 = 2100) stores 63540. -/
theorem C16_payload_bits_sign_extended :
    (∀ b, b < 256 → charToU32 false b >>> CL_PAYLOAD_SHIFT = b >>> 4) ∧
    (∀ b, b < 256 → 128 ≤ b →
      charToU32 true b >>> CL_PAYLOAD_SHIFT = (b >>> 4) + 0x0FFFFFF0) ∧
    PackNumericValueCommand (knob 8) CL_PAYLOAD_SHIFT CL_VAL_1 CL_VAL_2 CL_VAL_3 CL_VAL_4
      = (2, [0x88, 0x05]) ∧
    hubBinary.m_numericOutputs = [knob 0, far 0] ∧
    (hubBinary.ProcessBinary false [0x88, 0x05]).2.m_numericOutputs = [knob 8, far 0] ∧
    (hubBinary.ProcessBinary true [0x88, 0x05]).2.m_numericOutputs = [knob 65528, far 0] ∧
    PackNumericValueCommand (knob 2100) CL_PAYLOAD_SHIFT CL_VAL_1 CL_VAL_2 CL_VAL_3 CL_VAL_4
      = (3, [0x89, 0x34, 0x05]) ∧
    (hubBinary.ProcessBinary false [0x89, 0x34, 0x05]).2.m_numericOutputs
      = [knob 2100, far 0] ∧
    (hubBinary.ProcessBinary true [0x89, 0x34, 0x05]).2.m_numericOutputs
      = [knob 63540, far 0] := by
  refine ⟨?_, ?_, by decide, by decide, by decide, by decide, by decide,
    by decide, by decide⟩
  · intro b hb
    have e : CL_PAYLOAD_SHIFT = 4 := rfl
    simp only [charToU32, e, Nat.shiftRight_eq_div_pow]
    have : b % 256 = b := Nat.mod_eq_of_lt hb
    simp [this]
  · intro b hb h128
    have e : CL_PAYLOAD_SHIFT = 4 := rfl
    have hm : b % 256 = b := Nat.mod_eq_of_lt hb
    simp only [charToU32, e, Nat.shiftRight_eq_div_pow, hm]
    simp [h128]
    omega

/-- C17. Binary EXC frames of the channels 8 and 2048, whose first bytes 0x8C and
0x8D are 0x80 or more: decoded with an unsigned `char` each frame is consumed
whole and its channel is appended to the received-event buffer; decoded with a
signed `char` each frame is consumed whole but the decoded channel is not the
emitted one, no declared event is found and nothing is delivered.  The EXC_2
frame of channel 40000 is decoded to 40000 either way. -/
theorem C17_exc_round_trip_sign_extended :
    hubEvents.m_binary = true ∧ hubEvents.m_connectionState = .Active ∧
    hubEvents.m_events.map Event.channel = [8, 2048, 40000] ∧
    hubEvents.m_eventBuffer = [] ∧
    OisHost.Poll_EventCommand 8 = (1, [0x8C]) ∧
    (hubEvents.ProcessBinary false [0x8C]).1 = 1 ∧
    (hubEvents.ProcessBinary false [0x8C]).2.m_eventBuffer = [8] ∧
    (hubEvents.ProcessBinary true [0x8C]).1 = 1 ∧
    (hubEvents.ProcessBinary true [0x8C]).2.m_eventBuffer = [] ∧
    OisHost.Poll_EventCommand 2048 = (2, [0x8D, 0x00]) ∧
    (hubEvents.ProcessBinary false [0x8D, 0x00]).1 = 2 ∧
    (hubEvents.ProcessBinary false [0x8D, 0x00]).2.m_eventBuffer = [2048] ∧
    (hubEvents.ProcessBinary true [0x8D, 0x00]).1 = 2 ∧
    (hubEvents.ProcessBinary true [0x8D, 0x00]).2.m_eventBuffer = [] ∧
    OisHost.Poll_EventCommand 40000 = (3, [0x0E, 0x40, 0x9C]) ∧
    (hubEvents.ProcessBinary true [0x0E, 0x40, 0x9C]).1 = 3 ∧
    (hubEvents.ProcessBinary true [0x0E, 0x40, 0x9C]).2.m_eventBuffer = [40000] := by
  refine ⟨?_, ?_, ?_, ?_, ?_⟩
  all_goals decide

end Ois

/-! ## Connection state under one command -/

namespace Ois

namespace OisDevice

/-- The connection state is Handshaking or not lower than that of `s`. -/
theorem forward_of_eq (s t : OisDevice) (h : t.m_connectionState = s.m_connectionState) :
    t.m_connectionState = .Handshaking ∨
      s.m_connectionState.toNat ≤ t.m_connectionState.toNat := by
  rw [h]
  exact Or.inr (Nat.le_refl _)

theorem forward_of_active (s t : OisDevice) (h : t.m_connectionState = .Active) :
    t.m_connectionState = .Handshaking ∨
      s.m_connectionState.toNat ≤ t.m_connectionState.toNat := by
  rw [h]
  right
  cases s.m_connectionState <;> decide

theorem ProcessAscii_KeyVal_state (s : OisDevice) (cmd : List Nat) :
    (ProcessAscii_KeyVal s cmd).2.m_connectionState = s.m_connectionState := by
  have h1 := ExpectState_state s (stateBit .Active) cmd 2
  unfold ProcessAscii_KeyVal
  simp only []
  split
  · exact h1
  · split
    · exact h1
    · exact h1

theorem ProcessAscii_PID_state (s : OisDevice) (cmd payload : List Nat) :
    (ProcessAscii_PID s cmd payload).2.m_connectionState = s.m_connectionState :=
  ExpectState_state s (stateBit .Synchronisation) cmd 2

theorem ProcessAscii_CMD_state (s : OisDevice) (cmd payload : List Nat) :
    (ProcessAscii_CMD s cmd payload).2.m_connectionState = s.m_connectionState := by
  unfold ProcessAscii_CMD
  simp only []
  generalize (stateBit .Synchronisation |||
    (if s.m_protocolVersion > 1 then stateBit .Active else 0)) = mask
  have h1 := ExpectState_state s mask cmd 1
  split
  · exact h1
  · exact h1

theorem ProcessAscii_Numeric_state (s : OisDevice) (type : Nat) (cmd payload : List Nat) :
    (ProcessAscii_Numeric s type cmd payload).2.m_connectionState = s.m_connectionState := by
  unfold ProcessAscii_Numeric
  simp only []
  generalize (stateBit .Synchronisation |||
    (if s.m_protocolVersion > 1 then stateBit .Active else 0)) = mask
  generalize decide (type = NON ∨ type = NOF ∨ type = NOB) = output
  generalize (if output = true then 2 else 1) = v
  have h1 := ExpectState_state s mask cmd v
  split
  · exact h1
  · cases output <;> exact h1

theorem ProcessAscii_EXC_state (s : OisDevice) (cmd payload : List Nat) :
    (ProcessAscii_EXC s cmd payload).2.m_connectionState = s.m_connectionState := by
  have h1 := ExpectState_state s (stateBit .Active) cmd 1
  unfold ProcessAscii_EXC
  simp only []
  split
  · exact h1
  · exact h1

theorem ProcessAscii_END_state (s : OisDevice) :
    (ProcessAscii_END s).2.m_connectionState = .Handshaking ∨
      s.m_connectionState.toNat ≤ (ProcessAscii_END s).2.m_connectionState.toNat := by
  unfold ProcessAscii_END
  by_cases hs : s.m_connectionState = .Handshaking
  · simp [hs]
  · simp [hs, ClearState]

/-- A SYN line received outside Handshaking acts on the reset endpoint. -/
theorem ProcessAscii_SYN_reset (s : OisDevice) (cmd payload : List Nat)
    (hs : s.m_connectionState ≠ .Handshaking) :
    ProcessAscii_SYN s cmd payload = ProcessAscii_SYN s.ClearState cmd payload := by
  have h1 : s.ExpectState (stateBit .Handshaking) cmd 1 = (false, s) :=
    ExpectState_bad s _ _ _ (by
      cases hst : s.m_connectionState
      · exact absurd hst hs
      · decide
      · decide) hs
  have h2 : s.ClearState.ExpectState (stateBit .Handshaking) cmd 1 = (true, s.ClearState) :=
    ExpectState_ok s.ClearState _ _ _ (by
      show (1 <<< DeviceState.toNat .Handshaking) &&& stateBit .Handshaking ≠ 0
      decide)
  unfold ProcessAscii_SYN
  rw [h1, h2]
  rfl

theorem ProcessAscii_SYN_state (s : OisDevice) (cmd payload : List Nat) :
    (ProcessAscii_SYN s cmd payload).2.m_connectionState = .Handshaking ∨
      (ProcessAscii_SYN s cmd payload).2.m_connectionState = .Synchronisation := by
  unfold ProcessAscii_SYN
  simp only []
  split
  · right
    split <;> rfl
  · left
    rfl

theorem ProcessAscii_Switch_forward (s : OisDevice) (type : Nat) (cmd payload : List Nat)
    (hsyn : type ≠ SYN) :
    (ProcessAscii_Switch s type cmd payload).2.m_connectionState = .Handshaking ∨
    s.m_connectionState.toNat ≤
      (ProcessAscii_Switch s type cmd payload).2.m_connectionState.toNat := by
  unfold ProcessAscii_Switch
  rw [if_neg hsyn]
  split
  · exact forward_of_eq s _ (ProcessAscii_PID_state s cmd _)
  split
  · exact forward_of_eq s _ (ProcessAscii_CMD_state s cmd _)
  split
  · exact forward_of_eq s _ (ProcessAscii_Numeric_state s _ cmd _)
  split
  · exact forward_of_active s _ rfl
  split
  · exact forward_of_active s _ rfl
  split
  · exact forward_of_eq s _ (ProcessAscii_EXC_state s cmd _)
  split
  · exact forward_of_eq s _ rfl
  split
  · exact ProcessAscii_END_state s
  · exact forward_of_eq s _ rfl

theorem ProcessAscii_Switch_state (s : OisDevice) (type : Nat) (cmd payload : List Nat) :
    (ProcessAscii_Switch s type cmd payload).2.m_connectionState = .Handshaking ∨
    s.m_connectionState.toNat ≤
      (ProcessAscii_Switch s type cmd payload).2.m_connectionState.toNat ∨
    ((ProcessAscii_Switch s type cmd payload).2.m_connectionState = .Synchronisation ∧
      type = SYN ∧
      ProcessAscii_Switch s type cmd payload =
        ProcessAscii_Switch s.ClearState type cmd payload) := by
  by_cases hsyn : type = SYN
  · have e1 : ProcessAscii_Switch s type cmd payload = ProcessAscii_SYN s cmd payload := by
      unfold ProcessAscii_Switch
      rw [if_pos hsyn]
    have e2 : ProcessAscii_Switch s.ClearState type cmd payload =
        ProcessAscii_SYN s.ClearState cmd payload := by
      unfold ProcessAscii_Switch
      rw [if_pos hsyn]
    rw [e1, e2]
    rcases ProcessAscii_SYN_state s cmd payload with h | h
    · exact Or.inl h
    · by_cases hs : s.m_connectionState = .Handshaking
      · right; left
        rw [h, hs]
        decide
      · exact Or.inr (Or.inr ⟨h, hsyn, ProcessAscii_SYN_reset s cmd payload hs⟩)
  · rcases ProcessAscii_Switch_forward s type cmd payload hsyn with h | h
    · exact Or.inl h
    · exact Or.inr (Or.inl h)

theorem ProcessAscii_state (s : OisDevice) (cmd : List Nat) :
    (s.ProcessAscii cmd).2.m_connectionState = .Handshaking ∨
    s.m_connectionState.toNat ≤ (s.ProcessAscii cmd).2.m_connectionState.toNat ∨
    ((s.ProcessAscii cmd).2.m_connectionState = .Synchronisation ∧
      OIS_FOURCC cmd = SYN ∧
      s.ProcessAscii cmd = s.ClearState.ProcessAscii cmd) := by
  by_cases h0 : cmd.getD 0 0 = 0
  · have e : s.ProcessAscii cmd = (false, s) := by
      unfold ProcessAscii
      rw [if_pos h0]
    rw [e]
    exact Or.inr (Or.inl (Nat.le_refl _))
  · by_cases h1 : isdigit (cmd.getD 0 0) = true
    · have e : s.ProcessAscii cmd = ProcessAscii_KeyVal s cmd := by
        unfold ProcessAscii
        rw [if_neg h0]
        simp only [h1, if_true]
      rw [e, ProcessAscii_KeyVal_state]
      exact Or.inr (Or.inl (Nat.le_refl _))
    · have e : ∀ t : OisDevice, t.ProcessAscii cmd = ProcessAscii_Switch t
          (if cmd.getD 1 0 ≠ 0 ∧ cmd.getD 2 0 ≠ 0 then OIS_FOURCC cmd else 0) cmd
          (cmd.drop 4) := by
        intro t
        unfold ProcessAscii
        rw [if_neg h0]
        simp only [h1, Bool.false_eq_true, if_false]
      rw [e s, e s.ClearState]
      rcases ProcessAscii_Switch_state s _ cmd (cmd.drop 4) with h | h | ⟨h, ht, he⟩
      · exact Or.inl h
      · exact Or.inr (Or.inl h)
      · refine Or.inr (Or.inr ⟨h, ?_, he⟩)
        by_cases hc : cmd.getD 1 0 ≠ 0 ∧ cmd.getD 2 0 ≠ 0
        · rw [if_pos hc] at ht
          exact ht
        · rw [if_neg hc] at ht
          exact absurd ht (by decide)

theorem ProcessBinary_PID_state (s : OisDevice) (start : List Nat) (n : Nat) :
    (ProcessBinary_PID s start n).2.m_connectionState = s.m_connectionState :=
  ExpectState_state s (stateBit .Synchronisation) (bytes "PID") 2

theorem ProcessBinary_CMD_state (s : OisDevice) (start : List Nat) (n : Nat) :
    (ProcessBinary_CMD s start n).2.m_connectionState = s.m_connectionState := by
  have h1 := ExpectState_state s (stateBit .Synchronisation ||| stateBit .Active)
    (bytes "CMD") 2
  unfold ProcessBinary_CMD
  simp only []
  split
  · exact h1
  · exact h1

theorem ProcessBinary_Declare_state (s : OisDevice) (payload : Nat) (start : List Nat)
    (n : Nat) :
    (ProcessBinary_Declare s payload start n).2.m_connectionState = s.m_connectionState := by
  unfold ProcessBinary_Declare
  simp only []
  generalize (stateBit .Synchronisation |||
    (if s.m_protocolVersion > 1 then stateBit .Active else 0)) = mask
  generalize decide (payload &&& CL_N_PAYLOAD_O ≠ 0) = output
  have h1 := ExpectState_state s mask (bytes "NIO") 2
  split
  · exact h1
  · cases output <;> exact h1

theorem ProcessBinary_TNI_state (s : OisDevice) (payload : Nat) (start : List Nat)
    (n : Nat) :
    (ProcessBinary_TNI s payload start n).2.m_connectionState = s.m_connectionState := by
  have h1 := ExpectState_state s (stateBit .Synchronisation ||| stateBit .Active)
    (bytes "TNI") 2
  unfold ProcessBinary_TNI
  simp only []
  split
  · exact h1
  · exact h1

theorem ProcessBinary_EXC_state (s : OisDevice) (payload command : Nat)
    (start : List Nat) (n : Nat) :
    (ProcessBinary_EXC s payload command start n).2.m_connectionState
      = s.m_connectionState := by
  have h1 := ExpectState_state s (stateBit .Active) (bytes "EXC") 2
  unfold ProcessBinary_EXC
  simp only []
  split
  · exact h1
  · exact h1

theorem ProcessBinary_VAL_state (s : OisDevice) (payload command : Nat)
    (start : List Nat) (n : Nat) :
    (ProcessBinary_VAL s payload command start n).2.m_connectionState
      = s.m_connectionState := by
  have h1 := ExpectState_state s (stateBit .Active) (bytes "VAL") 2
  unfold ProcessBinary_VAL
  simp only []
  split
  · exact h1
  · split
    · exact h1
    · exact h1

theorem ProcessBinary_Switch_state (s : OisDevice) (payload command : Nat)
    (start : List Nat) (n : Nat) :
    (ProcessBinary_Switch s payload command start n).2.m_connectionState = .Handshaking ∨
    s.m_connectionState.toNat ≤
      (ProcessBinary_Switch s payload command start n).2.m_connectionState.toNat := by
  unfold ProcessBinary_Switch
  split
  · exact forward_of_eq s _ (ProcessBinary_PID_state s start n)
  split
  · exact forward_of_eq s _ (ProcessBinary_CMD_state s start n)
  split
  · exact forward_of_eq s _ (ProcessBinary_Declare_state s payload start n)
  split
  · exact forward_of_active s _ rfl
  split
  · exact forward_of_eq s _ (ProcessBinary_TNI_state s payload start n)
  split
  · exact forward_of_eq s _ rfl
  split
  · exact forward_of_eq s _ (ProcessBinary_EXC_state s payload command start n)
  split
  · exact forward_of_eq s _ (ProcessBinary_VAL_state s payload command start n)
  split
  · exact ProcessAscii_END_state s
  · exact forward_of_eq s _ rfl

theorem ProcessBinary_state (s : OisDevice) (charSigned : Bool) (start : List Nat) :
    (s.ProcessBinary charSigned start).2.m_connectionState = .Handshaking ∨
    s.m_connectionState.toNat ≤
      (s.ProcessBinary charSigned start).2.m_connectionState.toNat := by
  unfold ProcessBinary
  by_cases h0 : start = []
  · rw [if_pos h0]; exact forward_of_eq s _ rfl
  · rw [if_neg h0]
    simp only []
    split
    · exact forward_of_eq s _ rfl
    split
    · exact forward_of_eq s _ rfl
    split
    · exact forward_of_eq s _ rfl
    · exact ProcessBinary_Switch_state s _ _ start _

/-- C18. Connection state under one inbound command: after `ProcessBinary` the
state is Handshaking or not lower than before; after `ProcessAscii` it is
Handshaking, or not lower than before, or Synchronisation reached by a SYN line
that was received outside Handshaking, in which case the endpoint was reset
first: the outcome is that of the same line processed by the reset endpoint. -/
theorem C18_state_forward_or_reset (s : OisDevice) (cmd : List Nat) (charSigned : Bool)
    (start : List Nat) :
    ((s.ProcessAscii cmd).2.m_connectionState = .Handshaking ∨
      s.m_connectionState.toNat ≤ (s.ProcessAscii cmd).2.m_connectionState.toNat ∨
      ((s.ProcessAscii cmd).2.m_connectionState = .Synchronisation ∧
        OIS_FOURCC cmd = SYN ∧
        s.ProcessAscii cmd = s.ClearState.ProcessAscii cmd)) ∧
    ((s.ProcessBinary charSigned start).2.m_connectionState = .Handshaking ∨
      s.m_connectionState.toNat ≤
        (s.ProcessBinary charSigned start).2.m_connectionState.toNat) :=
  ⟨ProcessAscii_state s cmd, ProcessBinary_state s charSigned start⟩

/-- C18 as stated fails: the line `SYN=1` received in Active leaves the endpoint
in Synchronisation, which is neither Handshaking nor at least Active. -/
theorem C18_counterexample :
    hubActive.m_connectionState = .Active ∧
    (hubActive.ProcessAscii (bytes "SYN=1")).2.m_connectionState = .Synchronisation ∧
    ¬ ((hubActive.ProcessAscii (bytes "SYN=1")).2.m_connectionState = .Handshaking ∨
      hubActive.m_connectionState.toNat ≤
        (hubActive.ProcessAscii (bytes "SYN=1")).2.m_connectionState.toNat) := by
  decide

end OisDevice

end Ois

/-! ## The command buffer -/

namespace Ois

namespace OisDevice

theorem asciiLoop_length (s : OisDevice) (line input : List Nat) :
    (asciiLoop s line input).2.length ≤ line.length + input.length := by
  induction input generalizing s line with
  | nil => simp [asciiLoop]
  | cons c cs ih =>
    unfold asciiLoop
    by_cases hc : c ≠ 10
    · rw [if_pos hc]
      have h := ih s (line ++ [c])
      simp only [List.length_append, List.length_cons, List.length_nil] at h ⊢
      omega
    · rw [if_neg hc]
      have h := ih (s.ProcessAscii line).2 []
      simp only [List.length_cons, List.length_nil] at h ⊢
      omega

theorem asciiLoop_no_newline (s : OisDevice) (line input : List Nat) (h : 10 ∉ input) :
    asciiLoop s line input = (s, line ++ input) := by
  induction input generalizing line with
  | nil => simp [asciiLoop]
  | cons c cs ih =>
    have hc : c ≠ 10 := fun e => h (e ▸ List.mem_cons_self _ _)
    have hcs : 10 ∉ cs := fun e => h (List.mem_cons_of_mem _ e)
    unfold asciiLoop
    rw [if_pos hc, ih _ hcs]
    simp

theorem asciiLoop_newline_length (s : OisDevice) (line input : List Nat) (h : 10 ∈ input) :
    (asciiLoop s line input).2.length < input.length := by
  induction input generalizing s line with
  | nil => simp at h
  | cons c cs ih =>
    unfold asciiLoop
    by_cases hc : c ≠ 10
    · rw [if_pos hc]
      have hcs : 10 ∈ cs := by
        rcases List.mem_cons.mp h with e | e
        · exact absurd e.symm hc
        · exact e
      have := ih s (line ++ [c]) hcs
      simp only [List.length_cons]
      omega
    · rw [if_neg hc]
      have := asciiLoop_length (s.ProcessAscii line).2 [] cs
      simp only [List.length_cons, List.length_nil] at this ⊢
      omega

theorem drop_length_lt (start : List Nat) (k : Int) (h0 : start ≠ [])
    (hk : ¬ k = 0) (hk2 : ¬ k < 0) : (start.drop k.toNat).length < start.length := by
  have h1 : 0 < start.length := List.length_pos.mpr h0
  have h2 : 0 < k.toNat := by omega
  rw [List.length_drop]
  omega

/-- Fuel adequacy of `binaryLoop`: any two amounts of fuel that are at least the
number of bytes give the same result. -/
theorem binaryLoop_fuel (charSigned : Bool) (f1 f2 : Nat) (s : OisDevice) (start : List Nat)
    (h1 : start.length ≤ f1) (h2 : start.length ≤ f2) :
    binaryLoop charSigned f1 s start = binaryLoop charSigned f2 s start := by
  induction f1 generalizing f2 s start with
  | zero =>
    have e : start = [] := List.length_eq_zero.mp (by omega)
    subst e
    cases f2 with
    | zero => rfl
    | succ f2 => simp [binaryLoop]
  | succ f1 ih =>
    cases f2 with
    | zero =>
      have e : start = [] := List.length_eq_zero.mp (by omega)
      subst e
      simp [binaryLoop]
    | succ f2 =>
      unfold binaryLoop
      by_cases h0 : start = []
      · rw [if_pos h0, if_pos h0]
      · rw [if_neg h0, if_neg h0]
        by_cases hz : (s.ProcessBinary charSigned start).1 = 0
        · rw [if_pos hz, if_pos hz]
        · rw [if_neg hz, if_neg hz]
          by_cases hn : (s.ProcessBinary charSigned start).1 < 0
          · rw [if_pos hn, if_pos hn]
          · rw [if_neg hn, if_neg hn]
            have := drop_length_lt start _ h0 hz hn
            exact ih f2 _ _ (by omega) (by omega)

theorem binaryLoop_length (charSigned : Bool) (f : Nat) (s : OisDevice) (start : List Nat) :
    (∀ rest, (binaryLoop charSigned f s start).2 = some rest → rest.length ≤ start.length) ∧
    ((binaryLoop charSigned f s start).2 = none →
      (binaryLoop charSigned f s start).1.m_commandBuffer = [] ∧
      (binaryLoop charSigned f s start).1.m_connectionState = .Handshaking) := by
  induction f generalizing s start with
  | zero =>
    constructor
    · intro rest h
      simp only [binaryLoop, Option.some.injEq] at h
      rw [← h]
    · intro h
      simp [binaryLoop] at h
  | succ f ih =>
    unfold binaryLoop
    by_cases h0 : start = []
    · rw [if_pos h0]
      constructor
      · intro rest h
        simp only [Option.some.injEq] at h
        rw [← h]
      · intro h
        simp at h
    · rw [if_neg h0]
      by_cases hz : (s.ProcessBinary charSigned start).1 = 0
      · rw [if_pos hz]
        constructor
        · intro rest h
          simp only [Option.some.injEq] at h
          rw [← h]
        · intro h
          simp at h
      · rw [if_neg hz]
        by_cases hn : (s.ProcessBinary charSigned start).1 < 0
        · rw [if_pos hn]
          constructor
          · intro rest h
            simp at h
          · intro _
            exact ⟨rfl, rfl⟩
        · rw [if_neg hn]
          have hd := drop_length_lt start _ h0 hz hn
          have := ih (s.ProcessBinary charSigned start).2
            (start.drop (s.ProcessBinary charSigned start).1.toNat)
          constructor
          · intro rest h
            have := this.1 rest h
            omega
          · exact this.2

theorem ProcessCommands_End_length (s : OisDevice) (buffer rest : List Nat) :
    (ProcessCommands_End s buffer rest).m_commandBuffer.length ≤ rest.length := by
  unfold ProcessCommands_End
  split
  · simp [ClearState]
  · exact Nat.le_refl _

theorem ProcessCommands_length (s : OisDevice) (charSigned : Bool) :
    (s.ProcessCommands charSigned).m_commandBuffer.length ≤ s.m_commandBuffer.length := by
  unfold ProcessCommands
  simp only []
  by_cases hb : s.m_binary = true
  · rw [if_pos hb]
    have h := binaryLoop_length charSigned s.m_commandBuffer.length s s.m_commandBuffer
    generalize binaryLoop charSigned s.m_commandBuffer.length s s.m_commandBuffer = r at h
    rcases r with ⟨s1, _ | rest⟩
    · simp only []
      rw [(h.2 rfl).1]
      exact Nat.zero_le _
    · simp only []
      exact Nat.le_trans (ProcessCommands_End_length _ _ _) (h.1 rest rfl)
  · rw [if_neg hb]
    have := asciiLoop_length s [] s.m_commandBuffer
    simp only [List.length_nil] at this
    exact Nat.le_trans (ProcessCommands_End_length _ _ _) (by omega)

theorem ProcessCommands_ascii_full (s : OisDevice) (charSigned : Bool)
    (hb : s.m_binary = false) (hlen : s.m_commandBuffer.length = 2 * OIS_MAX_COMMAND_LENGTH)
    (hno : 10 ∉ s.m_commandBuffer) :
    s.ProcessCommands charSigned = (s.SendText (bytes "END\n")).ClearState := by
  unfold ProcessCommands
  simp only []
  rw [if_neg (by rw [hb]; decide), asciiLoop_no_newline s [] _ hno]
  unfold ProcessCommands_End
  rw [if_pos]
  simp only [List.nil_append, true_and]
  omega

theorem ProcessCommands_ascii_line (s : OisDevice) (charSigned : Bool)
    (hb : s.m_binary = false) (hno : 10 ∈ s.m_commandBuffer) :
    s.ProcessCommands charSigned =
      { (asciiLoop s [] s.m_commandBuffer).1 with
        m_commandBuffer := (asciiLoop s [] s.m_commandBuffer).2 } := by
  unfold ProcessCommands
  simp only []
  rw [if_neg (by rw [hb]; decide)]
  unfold ProcessCommands_End
  rw [if_neg]
  have := asciiLoop_newline_length s [] _ hno
  omega

theorem ProcessCommands_binary_full (s : OisDevice) (charSigned : Bool)
    (hb : s.m_binary = true) (hlen : s.m_commandBuffer.length = 2 * OIS_MAX_COMMAND_LENGTH)
    (hz : (s.ProcessBinary charSigned s.m_commandBuffer).1 = 0) :
    s.ProcessCommands charSigned =
      ((s.ProcessBinary charSigned s.m_commandBuffer).2.SendText (bytes "END\n")).ClearState := by
  have h0 : s.m_commandBuffer ≠ [] := by
    intro e
    rw [e] at hlen
    exact absurd hlen (by decide)
  unfold ProcessCommands
  simp only []
  rw [if_pos hb, hlen]
  have e : 2 * OIS_MAX_COMMAND_LENGTH = 261 + 1 := by decide
  rw [e]
  unfold binaryLoop
  rw [if_neg h0, if_pos hz]
  simp only []
  unfold ProcessCommands_End
  rw [if_pos]
  refine ⟨rfl, ?_⟩
  rw [hlen]
  decide

theorem ProcessCommands_binary_rejected (s : OisDevice) (charSigned : Bool)
    (hb : s.m_binary = true) (h0 : s.m_commandBuffer ≠ [])
    (hn : (s.ProcessBinary charSigned s.m_commandBuffer).1 < 0) :
    s.ProcessCommands charSigned =
      (s.ProcessBinary charSigned s.m_commandBuffer).2.ClearState := by
  have hz : ¬ (s.ProcessBinary charSigned s.m_commandBuffer).1 = 0 := by omega
  obtain ⟨n, hn1⟩ : ∃ n, s.m_commandBuffer.length = n + 1 :=
    ⟨s.m_commandBuffer.length - 1, by
      have := List.length_pos.mpr h0
      omega⟩
  unfold ProcessCommands
  simp only []
  rw [if_pos hb, hn1]
  unfold binaryLoop
  rw [if_neg h0, if_neg hz, if_pos hn]

/-- C20, amended: a read that keeps within the size it was given leaves at most
262 buffered bytes; `ProcessCommands` never lengthens the buffer; and when it
finds 262 buffered bytes of which no command is consumed, it resets the
endpoint, after writing `END\n` when the framing is ASCII and the buffer holds
no line feed or the framing is binary and the decoder asks for more bytes, but
without writing anything when the framing is binary and the decoder rejects
the first frame. -/
theorem C20_buffer_bound_and_overflow (s : OisDevice) (charSigned : Bool) (data : List Nat)
    (hread : data.length ≤ 2 * OIS_MAX_COMMAND_LENGTH - s.m_commandBuffer.length)
    (hs : s.m_commandBuffer.length ≤ 2 * OIS_MAX_COMMAND_LENGTH) :
    (s.ReadCommands data).2.m_commandBuffer.length ≤ 2 * OIS_MAX_COMMAND_LENGTH ∧
    (s.ProcessCommands charSigned).m_commandBuffer.length ≤ s.m_commandBuffer.length ∧
    (s.m_commandBuffer.length = 2 * OIS_MAX_COMMAND_LENGTH →
      (s.m_binary = false → 10 ∉ s.m_commandBuffer →
        s.ProcessCommands charSigned = (s.SendText (bytes "END\n")).ClearState) ∧
      (s.m_binary = true → (s.ProcessBinary charSigned s.m_commandBuffer).1 = 0 →
        s.ProcessCommands charSigned =
          ((s.ProcessBinary charSigned s.m_commandBuffer).2.SendText
            (bytes "END\n")).ClearState) ∧
      (s.m_binary = true → (s.ProcessBinary charSigned s.m_commandBuffer).1 < 0 →
        s.ProcessCommands charSigned =
          (s.ProcessBinary charSigned s.m_commandBuffer).2.ClearState)) := by
  refine ⟨?_, ProcessCommands_length s charSigned, ?_⟩
  · unfold ReadCommands
    simp only []
    split
    · exact hs
    · simp only [List.length_append]
      omega
  · intro hlen
    refine ⟨fun hb hno => ProcessCommands_ascii_full s charSigned hb hlen hno,
      fun hb hz => ProcessCommands_binary_full s charSigned hb hlen hz,
      fun hb hn => ProcessCommands_binary_rejected s charSigned hb ?_ hn⟩
    intro e
    rw [e] at hlen
    exact absurd hlen (by decide)

set_option maxRecDepth 20000

/-- C20 as stated fails: the binary endpoint `hubBinary` reads 262 bytes that
begin with the text `SYN` and a zero byte; the decoder rejects them, no command
is consumed, and `ProcessCommands` resets the endpoint without writing
`END\n`: the transport trace is the one before the call. -/
theorem C20_counterexample :
    (hubBinary.ReadCommands stray).2.m_binary = true ∧
    (hubBinary.ReadCommands stray).2.m_commandBuffer.length = 2 * OIS_MAX_COMMAND_LENGTH ∧
    ((hubBinary.ReadCommands stray).2.ProcessBinary false stray).1 = -1 ∧
    ((hubBinary.ReadCommands stray).2.ProcessCommands false).m_connectionState
      = .Handshaking ∧
    ((hubBinary.ReadCommands stray).2.ProcessCommands false).m_port = hubBinary.m_port ∧
    PortOp.Write (bytes "END\n") ∉
      ((hubBinary.ReadCommands stray).2.ProcessCommands false).m_port := by
  decide

/-- C20 at the ASCII endpoint `hubStart` holding 262 bytes `A`: the read fits,
and `ProcessCommands` writes `END\n` and resets. -/
theorem C20_buffer_bound_and_overflow_witness :
    ((hubStart.ReadCommands (List.replicate 262 65)).2.ReadCommands []).2.m_commandBuffer.length
      ≤ 2 * OIS_MAX_COMMAND_LENGTH ∧
    ((hubStart.ReadCommands (List.replicate 262 65)).2.ProcessCommands false).m_commandBuffer.length
      ≤ (hubStart.ReadCommands (List.replicate 262 65)).2.m_commandBuffer.length ∧
    (hubStart.ReadCommands (List.replicate 262 65)).2.ProcessCommands false =
      ((hubStart.ReadCommands (List.replicate 262 65)).2.SendText (bytes "END\n")).ClearState :=
  have h := C20_buffer_bound_and_overflow (hubStart.ReadCommands (List.replicate 262 65)).2
    false [] (by decide) (by decide)
  ⟨h.1, h.2.1, (h.2.2 (by decide)).1 (by decide) (by decide)⟩

end OisDevice

end Ois

/-! ## Reads of an ASCII stream -/

namespace Ois

namespace OisDevice

theorem ExpectState_erase (s : OisDevice) (m : Nat) (c : List Nat) (v : Nat) :
    (eraseBuffer s).ExpectState m c v =
      ((s.ExpectState m c v).1, eraseBuffer (s.ExpectState m c v).2) := by
  unfold ExpectState
  simp only []
  have e : (eraseBuffer s).m_connectionState = s.m_connectionState := rfl
  rw [e]
  split
  · split
    · rfl
    · rfl
  · rfl

theorem ProcessAscii_KeyVal_erase (s : OisDevice) (cmd : List Nat) :
    ProcessAscii_KeyVal (eraseBuffer s) cmd =
      ((ProcessAscii_KeyVal s cmd).1, eraseBuffer (ProcessAscii_KeyVal s cmd).2) := by
  unfold ProcessAscii_KeyVal
  simp only []
  rw [ExpectState_erase]
  generalize s.ExpectState (stateBit .Active) cmd 2 = r
  rcases r with ⟨b, t⟩
  cases b
  · rfl
  · simp only [Bool.not_true, Bool.false_eq_true, if_false]
    have e : (eraseBuffer t).m_numericOutputs = t.m_numericOutputs := rfl
    rw [e]
    split
    · rfl
    · rfl

theorem ProcessAscii_SYN_erase (s : OisDevice) (cmd payload : List Nat) :
    ProcessAscii_SYN (eraseBuffer s) cmd payload =
      ((ProcessAscii_SYN s cmd payload).1, eraseBuffer (ProcessAscii_SYN s cmd payload).2) := by
  unfold ProcessAscii_SYN
  simp only []
  rw [ExpectState_erase]
  generalize s.ExpectState (stateBit .Handshaking) cmd 1 = r
  rcases r with ⟨b, t⟩
  generalize decide ((ZeroDelimiter payload 44).2.getD 0 0 = 66) = binary
  generalize atoi (ZeroDelimiter payload 44).1 = version
  cases b
  · simp only [Bool.not_false, if_true]
    split
    · split
      · rfl
      · rfl
    · rfl
  · simp only [Bool.not_true, Bool.false_eq_true, if_false]
    split
    · split
      · rfl
      · rfl
    · rfl

theorem ProcessAscii_PID_erase (s : OisDevice) (cmd payload : List Nat) :
    ProcessAscii_PID (eraseBuffer s) cmd payload =
      ((ProcessAscii_PID s cmd payload).1, eraseBuffer (ProcessAscii_PID s cmd payload).2) := by
  unfold ProcessAscii_PID
  simp only []
  rw [ExpectState_erase]
  rfl

theorem ProcessAscii_CMD_erase (s : OisDevice) (cmd payload : List Nat) :
    ProcessAscii_CMD (eraseBuffer s) cmd payload =
      ((ProcessAscii_CMD s cmd payload).1, eraseBuffer (ProcessAscii_CMD s cmd payload).2) := by
  unfold ProcessAscii_CMD
  simp only []
  have e : (eraseBuffer s).m_protocolVersion = s.m_protocolVersion := rfl
  rw [ExpectState_erase, e]
  generalize s.ExpectState (stateBit .Synchronisation |||
    (if s.m_protocolVersion > 1 then stateBit .Active else 0)) cmd 1 = r
  rcases r with ⟨b, t⟩
  cases b
  · rfl
  · rfl

theorem ProcessAscii_Numeric_erase (s : OisDevice) (type : Nat) (cmd payload : List Nat) :
    ProcessAscii_Numeric (eraseBuffer s) type cmd payload =
      ((ProcessAscii_Numeric s type cmd payload).1,
        eraseBuffer (ProcessAscii_Numeric s type cmd payload).2) := by
  unfold ProcessAscii_Numeric
  simp only []
  have e : (eraseBuffer s).m_protocolVersion = s.m_protocolVersion := rfl
  rw [ExpectState_erase, e]
  generalize decide (type = NON ∨ type = NOF ∨ type = NOB) = output
  generalize s.ExpectState (stateBit .Synchronisation |||
    (if s.m_protocolVersion > 1 then stateBit .Active else 0)) cmd
    (if output = true then 2 else 1) = r
  rcases r with ⟨b, t⟩
  cases b
  · rfl
  · cases output
    · rfl
    · rfl

theorem ProcessAscii_ACT_erase (s : OisDevice) (cmd : List Nat) :
    ProcessAscii_ACT (eraseBuffer s) cmd =
      ((ProcessAscii_ACT s cmd).1, eraseBuffer (ProcessAscii_ACT s cmd).2) := by
  unfold ProcessAscii_ACT
  simp only []
  rw [ExpectState_erase]
  rfl

theorem ProcessAscii_TNI_erase (s : OisDevice) (cmd payload : List Nat) :
    ProcessAscii_TNI (eraseBuffer s) cmd payload =
      ((ProcessAscii_TNI s cmd payload).1, eraseBuffer (ProcessAscii_TNI s cmd payload).2) := by
  unfold ProcessAscii_TNI
  simp only []
  rw [ExpectState_erase]
  generalize (s.ExpectState (stateBit .Synchronisation ||| stateBit .Active) cmd 2).2 = t
  have e : (eraseBuffer t).m_numericInputs = t.m_numericInputs := rfl
  simp only [e]
  generalize FindChannel t.m_numericInputs (atoi (ZeroDelimiter payload 44).1) = o
  cases o with
  | none => exact ProcessAscii_ACT_erase t cmd
  | some i =>
    exact ProcessAscii_ACT_erase
      { t with
        m_numericInputs := updateAt t.m_numericInputs i
          (fun v => { v with active := decide (atoi (ZeroDelimiter payload 44).2 ≠ 0) }) } cmd

theorem ProcessAscii_EXC_erase (s : OisDevice) (cmd payload : List Nat) :
    ProcessAscii_EXC (eraseBuffer s) cmd payload =
      ((ProcessAscii_EXC s cmd payload).1, eraseBuffer (ProcessAscii_EXC s cmd payload).2) := by
  unfold ProcessAscii_EXC
  simp only []
  rw [ExpectState_erase]
  generalize (s.ExpectState (stateBit .Active) cmd 1).2 = t
  have e : (eraseBuffer t).m_events = t.m_events := rfl
  simp only [e]
  split
  · rfl
  · rfl

theorem ProcessAscii_END_erase (s : OisDevice) :
    ProcessAscii_END (eraseBuffer s) =
      ((ProcessAscii_END s).1, eraseBuffer (ProcessAscii_END s).2) := by
  unfold ProcessAscii_END
  simp only []
  have e : (eraseBuffer s).m_connectionState = s.m_connectionState := rfl
  rw [e]
  split
  · rfl
  · rfl

theorem ProcessAscii_Switch_erase (s : OisDevice) (type : Nat) (cmd payload : List Nat) :
    ProcessAscii_Switch (eraseBuffer s) type cmd payload =
      ((ProcessAscii_Switch s type cmd payload).1,
        eraseBuffer (ProcessAscii_Switch s type cmd payload).2) := by
  unfold ProcessAscii_Switch
  split
  · exact ProcessAscii_SYN_erase s cmd payload
  split
  · exact ProcessAscii_PID_erase s cmd payload
  split
  · exact ProcessAscii_CMD_erase s cmd payload
  split
  · exact ProcessAscii_Numeric_erase s type cmd payload
  split
  · exact ProcessAscii_TNI_erase s cmd payload
  split
  · exact ProcessAscii_ACT_erase s cmd
  split
  · exact ProcessAscii_EXC_erase s cmd payload
  split
  · rfl
  split
  · exact ProcessAscii_END_erase s
  · rfl

theorem ProcessAscii_erase (s : OisDevice) (cmd : List Nat) :
    (eraseBuffer s).ProcessAscii cmd =
      ((s.ProcessAscii cmd).1, eraseBuffer (s.ProcessAscii cmd).2) := by
  unfold ProcessAscii
  by_cases h0 : cmd.getD 0 0 = 0
  · rw [if_pos h0, if_pos h0]
  · rw [if_neg h0, if_neg h0]
    simp only []
    by_cases h1 : isdigit (cmd.getD 0 0) = true
    · rw [if_pos h1, if_pos h1]
      exact ProcessAscii_KeyVal_erase s cmd
    · rw [if_neg h1, if_neg h1]
      exact ProcessAscii_Switch_erase s _ cmd _

/-- What a line does is the same on two endpoints that differ in the buffered
bytes only. -/
theorem ProcessAscii_congr (s t : OisDevice) (cmd : List Nat)
    (h : eraseBuffer s = eraseBuffer t) :
    (s.ProcessAscii cmd).1 = (t.ProcessAscii cmd).1 ∧
    eraseBuffer (s.ProcessAscii cmd).2 = eraseBuffer (t.ProcessAscii cmd).2 := by
  have hs := ProcessAscii_erase s cmd
  have ht := ProcessAscii_erase t cmd
  rw [h, ht] at hs
  exact ⟨(congrArg Prod.fst hs).symm, (congrArg Prod.snd hs).symm⟩

theorem eraseBuffer_binary (s t : OisDevice) (h : eraseBuffer s = eraseBuffer t) :
    s.m_binary = t.m_binary := by
  show (eraseBuffer s).m_binary = (eraseBuffer t).m_binary
  rw [h]

theorem asciiLoop_cons (s : OisDevice) (line : List Nat) (c : Nat) (cs : List Nat) :
    asciiLoop s line (c :: cs) =
      if c ≠ 10 then asciiLoop s (line ++ [c]) cs
      else asciiLoop (s.ProcessAscii line).2 [] cs := by
  rw [asciiLoop]

theorem StaysAscii_cons (s : OisDevice) (line : List Nat) (c : Nat) (cs : List Nat) :
    StaysAscii s line (c :: cs) =
      if c ≠ 10 then StaysAscii s (line ++ [c]) cs
      else (!(s.ProcessAscii line).2.m_binary && StaysAscii (s.ProcessAscii line).2 [] cs) := by
  rw [StaysAscii]

theorem asciiLoop_congr (s t : OisDevice) (line input : List Nat)
    (h : eraseBuffer s = eraseBuffer t) :
    (asciiLoop s line input).2 = (asciiLoop t line input).2 ∧
    eraseBuffer (asciiLoop s line input).1 = eraseBuffer (asciiLoop t line input).1 := by
  induction input generalizing s t line with
  | nil => exact ⟨rfl, h⟩
  | cons c cs ih =>
    unfold asciiLoop
    by_cases hc : c ≠ 10
    · rw [if_pos hc, if_pos hc]
      exact ih s t _ h
    · rw [if_neg hc, if_neg hc]
      exact ih _ _ _ (ProcessAscii_congr s t line h).2

theorem asciiLoop_append (s : OisDevice) (line X Y : List Nat) :
    asciiLoop s line (X ++ Y) = asciiLoop (asciiLoop s line X).1 (asciiLoop s line X).2 Y := by
  induction X generalizing s line with
  | nil => rfl
  | cons c cs ih =>
    rw [List.cons_append, asciiLoop_cons s line c (cs ++ Y), asciiLoop_cons s line c cs]
    by_cases hc : c ≠ 10
    · rw [if_pos hc, if_pos hc]
      exact ih s _
    · rw [if_neg hc, if_neg hc]
      exact ih _ _

theorem asciiLoop_rest (s : OisDevice) (line input : List Nat) (h : 10 ∉ line) :
    10 ∉ (asciiLoop s line input).2 := by
  induction input generalizing s line with
  | nil => exact h
  | cons c cs ih =>
    unfold asciiLoop
    by_cases hc : c ≠ 10
    · rw [if_pos hc]
      apply ih
      intro hm
      rcases List.mem_append.mp hm with e | e
      · exact h e
      · exact hc (List.mem_singleton.mp e).symm
    · rw [if_neg hc]
      exact ih _ _ (List.not_mem_nil _)

theorem asciiLoop_binary (s : OisDevice) (line input : List Nat)
    (hb : s.m_binary = false) (h : StaysAscii s line input = true) :
    (asciiLoop s line input).1.m_binary = false := by
  induction input generalizing s line with
  | nil => exact hb
  | cons c cs ih =>
    unfold StaysAscii at h
    unfold asciiLoop
    by_cases hc : c ≠ 10
    · rw [if_pos hc] at h ⊢
      exact ih s _ hb h
    · rw [if_neg hc] at h ⊢
      simp only [Bool.and_eq_true, Bool.not_eq_true'] at h
      exact ih _ _ h.1 h.2

theorem asciiLoop_buffered (s : OisDevice) (R Y : List Nat) (h : 10 ∉ R) :
    asciiLoop s [] (R ++ Y) = asciiLoop s R Y := by
  rw [asciiLoop_append, asciiLoop_no_newline s [] R h]
  rfl

theorem ProcessCommands_End_congr (a b : OisDevice) (B1 B2 r : List Nat)
    (h : eraseBuffer a = eraseBuffer b) (h1 : r.length ≤ B1.length)
    (h2 : B1.length ≤ B2.length) (h3 : B2.length ≤ 2 * OIS_MAX_COMMAND_LENGTH) :
    ProcessCommands_End a B1 r = ProcessCommands_End b B2 r := by
  have ea : ∀ x : OisDevice, (x.SendText (bytes "END\n")).ClearState =
      ((eraseBuffer x).SendText (bytes "END\n")).ClearState := fun _ => rfl
  have eb : ∀ x : OisDevice, { x with m_commandBuffer := r } =
      { eraseBuffer x with m_commandBuffer := r } := fun _ => rfl
  have e262 : OIS_MAX_COMMAND_LENGTH * 2 = 2 * OIS_MAX_COMMAND_LENGTH := by decide
  unfold ProcessCommands_End
  rw [e262]
  by_cases hc : r.length = B2.length ∧ B2.length = 2 * OIS_MAX_COMMAND_LENGTH
  · rw [if_pos hc, if_pos ⟨by omega, by omega⟩, ea a, ea b, h]
  · rw [if_neg hc, if_neg (fun hc1 => hc ⟨by omega, by omega⟩), eb a, eb b, h]

theorem ProcessCommands_ascii (s : OisDevice) (charSigned : Bool) (hb : s.m_binary = false) :
    s.ProcessCommands charSigned =
      ProcessCommands_End (asciiLoop s [] s.m_commandBuffer).1 s.m_commandBuffer
        (asciiLoop s [] s.m_commandBuffer).2 := by
  unfold ProcessCommands
  simp only []
  rw [if_neg (by rw [hb]; decide)]

theorem pollLoop_cons (charSigned : Bool) (s : OisDevice) (X : List Nat)
    (reads : List (List Nat)) (hX : X ≠ []) :
    pollLoop charSigned s (X :: reads) =
      pollLoop charSigned
        (ProcessCommands { s with m_commandBuffer := s.m_commandBuffer ++ X } charSigned)
        reads := by
  have hl : ¬ X.length = 0 := fun e => hX (List.length_eq_zero.mp e)
  have e : s.ReadCommands X =
      (true, { s with m_commandBuffer := s.m_commandBuffer ++ X }) := by
    unfold ReadCommands
    simp only []
    rw [if_neg hl]
  rw [pollLoop, e]
  simp only [Bool.not_true, Bool.false_eq_true, if_false]

theorem ProcessCommands_End_short (t : OisDevice) (B r : List Nat)
    (h : B.length < 2 * OIS_MAX_COMMAND_LENGTH) :
    ProcessCommands_End t B r = { t with m_commandBuffer := r } := by
  have e262 : OIS_MAX_COMMAND_LENGTH * 2 = 2 * OIS_MAX_COMMAND_LENGTH := by decide
  unfold ProcessCommands_End
  rw [e262, if_neg (fun hc => by omega)]

theorem pollLoop_single (charSigned : Bool) (s : OisDevice) (X : List Nat) (hX : X ≠ [])
    (hb : s.m_binary = false) (hR : 10 ∉ s.m_commandBuffer) :
    pollLoop charSigned s [X] =
      ProcessCommands_End
        (asciiLoop { s with m_commandBuffer := s.m_commandBuffer ++ X } s.m_commandBuffer X).1
        (s.m_commandBuffer ++ X)
        (asciiLoop { s with m_commandBuffer := s.m_commandBuffer ++ X } s.m_commandBuffer X).2 := by
  rw [pollLoop_cons charSigned s X [] hX, pollLoop,
    ProcessCommands_ascii { s with m_commandBuffer := s.m_commandBuffer ++ X } charSigned hb]
  show ProcessCommands_End
    (asciiLoop { s with m_commandBuffer := s.m_commandBuffer ++ X } []
      (s.m_commandBuffer ++ X)).1 (s.m_commandBuffer ++ X)
    (asciiLoop { s with m_commandBuffer := s.m_commandBuffer ++ X } []
      (s.m_commandBuffer ++ X)).2 = _
  rw [asciiLoop_buffered _ s.m_commandBuffer X hR]

end OisDevice

end Ois

/-! ## Binary frames and the buffered bytes -/

namespace Ois

namespace OisDevice

theorem ProcessBinary_PID_erase (s : OisDevice) (start : List Nat) (n : Nat) :
    ProcessBinary_PID (eraseBuffer s) start n =
      ((ProcessBinary_PID s start n).1, eraseBuffer (ProcessBinary_PID s start n).2) := by
  unfold ProcessBinary_PID
  simp only []
  rw [ExpectState_erase]
  rfl

theorem ProcessBinary_CMD_erase (s : OisDevice) (start : List Nat) (n : Nat) :
    ProcessBinary_CMD (eraseBuffer s) start n =
      ((ProcessBinary_CMD s start n).1, eraseBuffer (ProcessBinary_CMD s start n).2) := by
  unfold ProcessBinary_CMD
  simp only []
  rw [ExpectState_erase]
  generalize s.ExpectState (stateBit .Synchronisation ||| stateBit .Active) (bytes "CMD") 2 = r
  rcases r with ⟨b, t⟩
  cases b
  · rfl
  · rfl

theorem ProcessBinary_Declare_erase (s : OisDevice) (payload : Nat) (start : List Nat)
    (n : Nat) :
    ProcessBinary_Declare (eraseBuffer s) payload start n =
      ((ProcessBinary_Declare s payload start n).1,
        eraseBuffer (ProcessBinary_Declare s payload start n).2) := by
  unfold ProcessBinary_Declare
  simp only []
  have e : (eraseBuffer s).m_protocolVersion = s.m_protocolVersion := rfl
  rw [ExpectState_erase, e]
  generalize s.ExpectState (stateBit .Synchronisation |||
    (if s.m_protocolVersion > 1 then stateBit .Active else 0)) (bytes "NIO") 2 = r
  generalize decide (payload &&& CL_N_PAYLOAD_O ≠ 0) = output
  rcases r with ⟨b, t⟩
  cases b
  · rfl
  · cases output
    · rfl
    · rfl

theorem ProcessBinary_ACT_erase (s : OisDevice) (n : Nat) :
    ProcessBinary_ACT (eraseBuffer s) n =
      ((ProcessBinary_ACT s n).1, eraseBuffer (ProcessBinary_ACT s n).2) := by
  unfold ProcessBinary_ACT
  simp only []
  rw [ExpectState_erase]
  rfl

theorem ProcessBinary_TNI_erase (s : OisDevice) (payload : Nat) (start : List Nat)
    (n : Nat) :
    ProcessBinary_TNI (eraseBuffer s) payload start n =
      ((ProcessBinary_TNI s payload start n).1,
        eraseBuffer (ProcessBinary_TNI s payload start n).2) := by
  unfold ProcessBinary_TNI
  simp only []
  rw [ExpectState_erase]
  generalize (s.ExpectState (stateBit .Synchronisation ||| stateBit .Active)
    (bytes "TNI") 2).2 = t
  have e : (eraseBuffer t).m_numericInputs = t.m_numericInputs := rfl
  simp only [e]
  generalize FindChannel t.m_numericInputs (readU16 start 1) = o
  cases o with
  | none => rfl
  | some i => rfl

theorem ProcessBinary_EXC_erase (s : OisDevice) (payload command : Nat) (start : List Nat)
    (n : Nat) :
    ProcessBinary_EXC (eraseBuffer s) payload command start n =
      ((ProcessBinary_EXC s payload command start n).1,
        eraseBuffer (ProcessBinary_EXC s payload command start n).2) := by
  unfold ProcessBinary_EXC
  simp only []
  rw [ExpectState_erase]
  generalize (s.ExpectState (stateBit .Active) (bytes "EXC") 2).2 = t
  have e : (eraseBuffer t).m_events = t.m_events := rfl
  simp only [e]
  split
  · rfl
  · rfl

theorem ProcessBinary_VAL_erase (s : OisDevice) (payload command : Nat) (start : List Nat)
    (n : Nat) :
    ProcessBinary_VAL (eraseBuffer s) payload command start n =
      ((ProcessBinary_VAL s payload command start n).1,
        eraseBuffer (ProcessBinary_VAL s payload command start n).2) := by
  unfold ProcessBinary_VAL
  simp only []
  rw [ExpectState_erase]
  generalize s.ExpectState (stateBit .Active) (bytes "VAL") 2 = r
  rcases r with ⟨b, t⟩
  cases b
  · rfl
  · simp only [Bool.not_true, Bool.false_eq_true, if_false]
    have e : (eraseBuffer t).m_numericOutputs = t.m_numericOutputs := rfl
    rw [e]
    split
    · rfl
    · rfl

theorem ProcessBinary_END_erase (s : OisDevice) (n : Nat) :
    ProcessBinary_END (eraseBuffer s) n =
      ((ProcessBinary_END s n).1, eraseBuffer (ProcessBinary_END s n).2) := by
  unfold ProcessBinary_END
  simp only []
  have e : (eraseBuffer s).m_connectionState = s.m_connectionState := rfl
  rw [e]
  split
  · rfl
  · rfl

theorem ProcessBinary_Switch_erase (s : OisDevice) (payload command : Nat)
    (start : List Nat) (n : Nat) :
    ProcessBinary_Switch (eraseBuffer s) payload command start n =
      ((ProcessBinary_Switch s payload command start n).1,
        eraseBuffer (ProcessBinary_Switch s payload command start n).2) := by
  unfold ProcessBinary_Switch
  split
  · exact ProcessBinary_PID_erase s start n
  split
  · exact ProcessBinary_CMD_erase s start n
  split
  · exact ProcessBinary_Declare_erase s payload start n
  split
  · exact ProcessBinary_ACT_erase s n
  split
  · exact ProcessBinary_TNI_erase s payload start n
  split
  · rfl
  split
  · exact ProcessBinary_EXC_erase s payload command start n
  split
  · exact ProcessBinary_VAL_erase s payload command start n
  split
  · exact ProcessBinary_END_erase s n
  · rfl

theorem ProcessBinary_erase (s : OisDevice) (charSigned : Bool) (start : List Nat) :
    (eraseBuffer s).ProcessBinary charSigned start =
      ((s.ProcessBinary charSigned start).1,
        eraseBuffer (s.ProcessBinary charSigned start).2) := by
  unfold ProcessBinary
  by_cases h0 : start = []
  · rw [if_pos h0, if_pos h0]
  · rw [if_neg h0, if_neg h0]
    simp only []
    split
    · rfl
    split
    · rfl
    split
    · rfl
    · exact ProcessBinary_Switch_erase s _ _ start _

theorem ProcessBinary_congr (s t : OisDevice) (charSigned : Bool) (start : List Nat)
    (h : eraseBuffer s = eraseBuffer t) :
    (s.ProcessBinary charSigned start).1 = (t.ProcessBinary charSigned start).1 ∧
    eraseBuffer (s.ProcessBinary charSigned start).2 =
      eraseBuffer (t.ProcessBinary charSigned start).2 := by
  have hs := ProcessBinary_erase s charSigned start
  have ht := ProcessBinary_erase t charSigned start
  rw [h, ht] at hs
  exact ⟨(congrArg Prod.fst hs).symm, (congrArg Prod.snd hs).symm⟩

end OisDevice

end Ois

/-! ## Binary frames read from a prefix of the bytes -/

namespace Ois

theorem readU8_append (A X : List Nat) (i : Nat) (h : i < A.length) :
    readU8 (A ++ X) i = readU8 A i := by
  unfold readU8
  rw [List.getD_append _ _ _ _ h]

theorem readU16_append (A X : List Nat) (i : Nat) (h : i + 1 < A.length) :
    readU16 (A ++ X) i = readU16 A i := by
  unfold readU16
  rw [readU8_append A X i (by omega), readU8_append A X (i + 1) h]

theorem readU32_append (A X : List Nat) (i : Nat) (h : i + 3 < A.length) :
    readU32 (A ++ X) i = readU32 A i := by
  unfold readU32
  rw [readU16_append A X i (by omega), readU16_append A X (i + 2) (by omega)]

theorem cstr_append (A X : List Nat) (h : 0 ∈ A) : cstr (A ++ X) = cstr A := by
  induction A with
  | nil => simp at h
  | cons a as ih =>
    rw [List.cons_append]
    unfold cstr
    by_cases ha : a = 0
    · rw [if_pos ha, if_pos ha]
    · rw [if_neg ha, if_neg ha]
      rcases List.mem_cons.mp h with e | e
      · exact absurd e.symm ha
      · rw [ih e]

theorem CmdStrLengthLoop_found (A : List Nat) (t : Nat) :
    (CmdStrLengthLoop A t).2 = true ↔ t ∈ A := by
  induction A with
  | nil => simp [CmdStrLengthLoop]
  | cons a as ih =>
    unfold CmdStrLengthLoop
    by_cases ha : a = t
    · rw [if_pos ha]
      simp [ha]
    · rw [if_neg ha]
      simp only [ih, List.mem_cons]
      constructor
      · exact fun h => Or.inr h
      · intro h
        rcases h with e | e
        · exact absurd e.symm ha
        · exact e

theorem CmdStrLengthLoop_le (A : List Nat) (t : Nat) :
    (CmdStrLengthLoop A t).1 ≤ A.length := by
  induction A with
  | nil => simp [CmdStrLengthLoop]
  | cons a as ih =>
    unfold CmdStrLengthLoop
    by_cases ha : a = t
    · rw [if_pos ha]
      simp
    · rw [if_neg ha]
      simp only [List.length_cons]
      omega

theorem CmdStrLengthLoop_missing (A : List Nat) (t : Nat) (h : t ∉ A) :
    (CmdStrLengthLoop A t).1 = A.length := by
  induction A with
  | nil => simp [CmdStrLengthLoop]
  | cons a as ih =>
    have ha : ¬ a = t := fun e => h (e ▸ List.mem_cons_self _ _)
    have has : t ∉ as := fun e => h (List.mem_cons_of_mem _ e)
    unfold CmdStrLengthLoop
    rw [if_neg ha]
    simp only [List.length_cons, ih has]

theorem CmdStrLengthLoop_append (A X : List Nat) (t : Nat) (h : t ∈ A) :
    CmdStrLengthLoop (A ++ X) t = CmdStrLengthLoop A t := by
  induction A with
  | nil => simp at h
  | cons a as ih =>
    rw [List.cons_append]
    unfold CmdStrLengthLoop
    by_cases ha : a = t
    · rw [if_pos ha, if_pos ha]
    · rw [if_neg ha, if_neg ha]
      rcases List.mem_cons.mp h with e | e
      · exact absurd e.symm ha
      · rw [ih e]

theorem CmdStrLength_append (A X : List Nat) (t : Nat) (h : t ∈ A) :
    CmdStrLength (A ++ X) t = CmdStrLength A t := by
  unfold CmdStrLength
  rw [CmdStrLengthLoop_append A X t h]

theorem CmdStrLength_le (A : List Nat) (t : Nat) (h : t ∈ A) :
    CmdStrLength A t ≤ A.length := by
  unfold CmdStrLength
  rw [(CmdStrLengthLoop_found A t).mpr h]
  simp only [if_true, Nat.add_zero]
  exact CmdStrLengthLoop_le A t

theorem CmdStrLength_missing (A : List Nat) (t : Nat) (h : t ∉ A) :
    CmdStrLength A t = A.length + OIS_MAX_COMMAND_LENGTH * 2 := by
  have hf : (CmdStrLengthLoop A t).2 = false := by
    cases hb : (CmdStrLengthLoop A t).2
    · rfl
    · exact absurd ((CmdStrLengthLoop_found A t).mp hb) h
  unfold CmdStrLength
  rw [hf, CmdStrLengthLoop_missing A t h]
  simp

theorem CmdStrLength_pos (A : List Nat) (t : Nat) (h : A ≠ []) : 0 < CmdStrLength A t := by
  cases A with
  | nil => exact absurd rfl h
  | cons a as =>
    unfold CmdStrLength CmdStrLengthLoop
    by_cases ha : a = t
    · rw [if_pos ha]
      simp
    · rw [if_neg ha]
      simp only []
      omega

namespace OisDevice

theorem ProcessBinary_PID_prefix (s : OisDevice) (A X : List Nat) (n : Nat)
    (h9 : 9 ≤ A.length) (h0 : 0 ∈ A.drop 9) :
    ProcessBinary_PID s (A ++ X) n = ProcessBinary_PID s A n := by
  unfold ProcessBinary_PID
  simp only []
  rw [readU32_append A X 1 (by omega), readU32_append A X 5 (by omega),
    List.drop_append_of_le_length h9, cstr_append _ _ h0]

theorem ProcessBinary_CMD_prefix (s : OisDevice) (A X : List Nat) (n : Nat)
    (h3 : 3 ≤ A.length) (h0 : 0 ∈ A.drop 3) :
    ProcessBinary_CMD s (A ++ X) n = ProcessBinary_CMD s A n := by
  unfold ProcessBinary_CMD
  simp only []
  rw [readU16_append A X 1 (by omega), List.drop_append_of_le_length h3, cstr_append _ _ h0]

theorem ProcessBinary_Declare_prefix (s : OisDevice) (payload : Nat) (A X : List Nat)
    (n : Nat) (h3 : 3 ≤ A.length) (h0 : 0 ∈ A.drop 3) :
    ProcessBinary_Declare s payload (A ++ X) n = ProcessBinary_Declare s payload A n := by
  unfold ProcessBinary_Declare
  simp only []
  rw [readU16_append A X 1 (by omega), List.drop_append_of_le_length h3, cstr_append _ _ h0]

theorem ProcessBinary_TNI_prefix (s : OisDevice) (payload : Nat) (A X : List Nat)
    (n : Nat) (h3 : 3 ≤ A.length) :
    ProcessBinary_TNI s payload (A ++ X) n = ProcessBinary_TNI s payload A n := by
  unfold ProcessBinary_TNI
  simp only []
  rw [readU16_append A X 1 (by omega)]

theorem ProcessBinary_EXC_prefix (s : OisDevice) (payload command : Nat) (A X : List Nat)
    (n : Nat) (h1 : command = CL_EXC_1 → 2 ≤ A.length)
    (h2 : ¬ command = CL_EXC_0 → ¬ command = CL_EXC_1 → 3 ≤ A.length) :
    ProcessBinary_EXC s payload command (A ++ X) n =
      ProcessBinary_EXC s payload command A n := by
  unfold ProcessBinary_EXC
  simp only []
  by_cases e0 : command = CL_EXC_0
  · simp only [e0, if_true]
  · by_cases e1 : command = CL_EXC_1
    · have := h1 e1
      simp only [e0, e1, if_false, if_true]
      rw [readU8_append A X 1 (by omega)]
    · have := h2 e0 e1
      simp only [e0, e1, if_false]
      rw [readU16_append A X 1 (by omega)]

theorem ProcessBinary_VAL_prefix (s : OisDevice) (payload command : Nat) (A X : List Nat)
    (n : Nat) (h1 : command = CL_VAL_1 → 2 ≤ A.length)
    (h2 : command = CL_VAL_2 → 3 ≤ A.length)
    (h3 : command = CL_VAL_3 → 4 ≤ A.length)
    (h4 : ¬ command = CL_VAL_1 → ¬ command = CL_VAL_2 → ¬ command = CL_VAL_3 →
      5 ≤ A.length) :
    ProcessBinary_VAL s payload command (A ++ X) n =
      ProcessBinary_VAL s payload command A n := by
  unfold ProcessBinary_VAL
  simp only []
  by_cases e1 : command = CL_VAL_1
  · have := h1 e1
    simp only [if_pos e1]
    rw [readU8_append A X 1 (by omega)]
  · by_cases e2 : command = CL_VAL_2
    · have := h2 e2
      simp only [if_neg e1, if_pos e2]
      rw [readU8_append A X 1 (by omega), readU8_append A X 2 (by omega)]
    · by_cases e3 : command = CL_VAL_3
      · have := h3 e3
        simp only [if_neg e1, if_neg e2, if_pos e3]
        rw [readU16_append A X 1 (by omega), readU8_append A X 3 (by omega)]
      · have := h4 e1 e2 e3
        simp only [if_neg e1, if_neg e2, if_neg e3]
        rw [readU16_append A X 1 (by omega), readU16_append A X 3 (by omega)]

theorem ProcessBinary_Switch_prefix (s : OisDevice) (p c : Nat) (A X : List Nat) (n : Nat)
    (hPID : c = CL_PID → 9 ≤ A.length ∧ 0 ∈ A.drop 9)
    (hCMD : c = CL_CMD ∨ c = CL_NIO → 3 ≤ A.length ∧ 0 ∈ A.drop 3)
    (hTNI : c = CL_TNI → 3 ≤ A.length)
    (hE1 : c = CL_EXC_1 → 2 ≤ A.length) (hE2 : c = CL_EXC_2 → 3 ≤ A.length)
    (hV1 : c = CL_VAL_1 → 2 ≤ A.length) (hV2 : c = CL_VAL_2 → 3 ≤ A.length)
    (hV3 : c = CL_VAL_3 → 4 ≤ A.length) (hV4 : c = CL_VAL_4 → 5 ≤ A.length) :
    ProcessBinary_Switch s p c (A ++ X) n = ProcessBinary_Switch s p c A n := by
  unfold ProcessBinary_Switch
  split
  · rename_i h
    exact ProcessBinary_PID_prefix s A X n (hPID h).1 (hPID h).2
  split
  · rename_i h
    exact ProcessBinary_CMD_prefix s A X n (hCMD (Or.inl h)).1 (hCMD (Or.inl h)).2
  split
  · rename_i h
    exact ProcessBinary_Declare_prefix s p A X n (hCMD (Or.inr h)).1 (hCMD (Or.inr h)).2
  split
  · rfl
  split
  · rename_i h
    exact ProcessBinary_TNI_prefix s p A X n (hTNI h)
  split
  · rfl
  split
  · rename_i h
    apply ProcessBinary_EXC_prefix s p c A X n hE1
    intro e0 e1
    rcases h with h | h | h
    · exact absurd h e0
    · exact absurd h e1
    · exact hE2 h
  split
  · rename_i h
    apply ProcessBinary_VAL_prefix s p c A X n hV1 hV2 hV3
    intro e1 e2 e3
    rcases h with h | h | h | h
    · exact absurd h e1
    · exact absurd h e2
    · exact absurd h e3
    · exact hV4 h
  split
  · rfl
  · rfl

/-- The shape of `binaryHeader`: the fixed length `k`, the terminator and the
offset of the string do not depend on the bytes behind the first one. -/
theorem binaryHeader_form (p c : Nat) (hc : c = p &&& CL_COMMAND_MASK) :
    ∃ (k t : Nat) (off : Option Nat),
      (∀ start, binaryHeader p c start = (k, off.map (fun i => start.drop i), t)) ∧
      (off = none ∨ off = some k) ∧
      (off = none → 1 ≤ k ∧ ¬ p = CL_SYN_ ∧ ¬ p = CL_451_ ∧
        ¬ c = CL_PID ∧ ¬ c = CL_CMD ∧ ¬ c = CL_NIO ∧
        (c = CL_TNI → 3 ≤ k) ∧ (c = CL_EXC_1 → 2 ≤ k) ∧ (c = CL_EXC_2 → 3 ≤ k) ∧
        (c = CL_VAL_1 → 2 ≤ k) ∧ (c = CL_VAL_2 → 3 ≤ k) ∧ (c = CL_VAL_3 → 4 ≤ k) ∧
        (c = CL_VAL_4 → 5 ≤ k)) ∧
      (off = some k →
        (c = CL_PID → k = 9 ∧ t = 0) ∧ (c = CL_CMD ∨ c = CL_NIO → k = 3 ∧ t = 0) ∧
        ¬ c = CL_TNI ∧ ¬ c = CL_EXC_1 ∧ ¬ c = CL_EXC_2 ∧ ¬ c = CL_VAL_1 ∧
        ¬ c = CL_VAL_2 ∧ ¬ c = CL_VAL_3 ∧ ¬ c = CL_VAL_4 ∧
        (p = CL_SYN_ ∨ p = CL_451_ → t = 10)) := by
  by_cases h0 : p = CL_SYN_ ∨ p = CL_451_
  · have hc3 : c = 3 ∨ c = 4 := by
      rcases h0 with h | h
      · left; rw [hc, h]; decide
      · right; rw [hc, h]; decide
    refine ⟨0, 10, some 0, fun start => ?_, Or.inr rfl, fun h => by simp at h, fun _ => ?_⟩
    · unfold binaryHeader
      rw [if_pos h0]
      rfl
    · simp only [CL_PID, CL_CMD, CL_NIO, CL_TNI, CL_EXC_1, CL_EXC_2, CL_VAL_1, CL_VAL_2,
        CL_VAL_3, CL_VAL_4, CL_SYN_, CL_451_]
      repeat' apply And.intro
      all_goals intros
      all_goals (first | omega | simp)
  have hp : ¬ p = CL_SYN_ ∧ ¬ p = CL_451_ := ⟨fun e => h0 (Or.inl e), fun e => h0 (Or.inr e)⟩
  by_cases h1 : c = CL_ACT ∨ c = CL_END ∨ c = CL_EXC_0
  · refine ⟨1, 0, none, fun start => ?_, Or.inl rfl, fun _ => ?_, fun h => by simp at h⟩
    · unfold binaryHeader
      rw [if_neg h0, if_pos h1]
      rfl
    · refine ⟨Nat.le_refl _, hp.1, hp.2, ?_⟩
      simp only [CL_ACT, CL_END, CL_EXC_0] at h1
      simp only [CL_PID, CL_CMD, CL_NIO, CL_TNI, CL_EXC_1, CL_EXC_2, CL_VAL_1, CL_VAL_2,
        CL_VAL_3, CL_VAL_4]
      repeat' apply And.intro
      all_goals intros
      all_goals omega
  by_cases h2 : c = CL_CMD ∨ c = CL_NIO
  · refine ⟨1 + 2, 0, some (1 + 2), fun start => ?_, Or.inr rfl, fun h => by simp at h,
      fun _ => ?_⟩
    · unfold binaryHeader
      rw [if_neg h0, if_neg h1, if_pos h2]
      rfl
    · simp only [CL_CMD, CL_NIO] at h2
      simp only [CL_PID, CL_CMD, CL_NIO, CL_TNI, CL_EXC_1, CL_EXC_2, CL_VAL_1, CL_VAL_2,
        CL_VAL_3, CL_VAL_4, CL_SYN_, CL_451_] at hp ⊢
      repeat' apply And.intro
      all_goals intros
      all_goals (first | omega | simp)
  by_cases h3 : c = CL_DBG
  · refine ⟨1, 0, some 1, fun start => ?_, Or.inr rfl, fun h => by simp at h, fun _ => ?_⟩
    · unfold binaryHeader
      rw [if_neg h0, if_neg h1, if_neg h2, if_pos h3]
      rfl
    · simp only [CL_DBG] at h3
      simp only [CL_PID, CL_CMD, CL_NIO, CL_TNI, CL_EXC_1, CL_EXC_2, CL_VAL_1, CL_VAL_2,
        CL_VAL_3, CL_VAL_4, CL_SYN_, CL_451_] at hp ⊢
      repeat' apply And.intro
      all_goals intros
      all_goals omega
  by_cases h4 : c = CL_PID
  · refine ⟨1 + 8, 0, some (1 + 8), fun start => ?_, Or.inr rfl, fun h => by simp at h,
      fun _ => ?_⟩
    · unfold binaryHeader
      rw [if_neg h0, if_neg h1, if_neg h2, if_neg h3, if_pos h4]
      rfl
    · simp only [CL_PID] at h4
      simp only [CL_PID, CL_CMD, CL_NIO, CL_TNI, CL_EXC_1, CL_EXC_2, CL_VAL_1, CL_VAL_2,
        CL_VAL_3, CL_VAL_4, CL_SYN_, CL_451_] at hp ⊢
      repeat' apply And.intro
      all_goals intros
      all_goals (first | omega | simp)
  simp only [CL_ACT, CL_END, CL_EXC_0, CL_CMD, CL_NIO, CL_DBG, CL_PID] at h1 h2 h3 h4
  by_cases h5 : c = CL_EXC_1 ∨ c = CL_VAL_1
  · refine ⟨1 + 1, 0, none, fun start => ?_, Or.inl rfl, fun _ => ?_, fun h => by simp at h⟩
    · unfold binaryHeader
      simp only [CL_ACT, CL_END, CL_EXC_0, CL_CMD, CL_NIO, CL_DBG, CL_PID]
      rw [if_neg h0, if_neg h1, if_neg h2, if_neg h3, if_neg h4, if_pos h5]
      rfl
    · refine ⟨by omega, hp.1, hp.2, ?_⟩
      simp only [CL_EXC_1, CL_VAL_1] at h5
      simp only [CL_PID, CL_CMD, CL_NIO, CL_TNI, CL_EXC_1, CL_EXC_2, CL_VAL_1, CL_VAL_2,
        CL_VAL_3, CL_VAL_4]
      repeat' apply And.intro
      all_goals intros
      all_goals omega
  by_cases h6 : c = CL_TNI ∨ c = CL_EXC_2 ∨ c = CL_VAL_2
  · refine ⟨1 + 2, 0, none, fun start => ?_, Or.inl rfl, fun _ => ?_, fun h => by simp at h⟩
    · unfold binaryHeader
      simp only [CL_ACT, CL_END, CL_EXC_0, CL_CMD, CL_NIO, CL_DBG, CL_PID]
      rw [if_neg h0, if_neg h1, if_neg h2, if_neg h3, if_neg h4, if_neg h5, if_pos h6]
      rfl
    · refine ⟨by omega, hp.1, hp.2, ?_⟩
      simp only [CL_TNI, CL_EXC_2, CL_VAL_2] at h6
      simp only [CL_PID, CL_CMD, CL_NIO, CL_TNI, CL_EXC_1, CL_EXC_2, CL_VAL_1, CL_VAL_2,
        CL_VAL_3, CL_VAL_4]
      repeat' apply And.intro
      all_goals intros
      all_goals omega
  by_cases h7 : c = CL_VAL_3
  · refine ⟨1 + 3, 0, none, fun start => ?_, Or.inl rfl, fun _ => ?_, fun h => by simp at h⟩
    · unfold binaryHeader
      simp only [CL_ACT, CL_END, CL_EXC_0, CL_CMD, CL_NIO, CL_DBG, CL_PID]
      rw [if_neg h0, if_neg h1, if_neg h2, if_neg h3, if_neg h4, if_neg h5, if_neg h6,
        if_pos h7]
      rfl
    · refine ⟨by omega, hp.1, hp.2, ?_⟩
      simp only [CL_VAL_3] at h7
      simp only [CL_PID, CL_CMD, CL_NIO, CL_TNI, CL_EXC_1, CL_EXC_2, CL_VAL_1, CL_VAL_2,
        CL_VAL_3, CL_VAL_4]
      repeat' apply And.intro
      all_goals intros
      all_goals omega
  by_cases h8 : c = CL_VAL_4
  · refine ⟨1 + 4, 0, none, fun start => ?_, Or.inl rfl, fun _ => ?_, fun h => by simp at h⟩
    · unfold binaryHeader
      simp only [CL_ACT, CL_END, CL_EXC_0, CL_CMD, CL_NIO, CL_DBG, CL_PID]
      rw [if_neg h0, if_neg h1, if_neg h2, if_neg h3, if_neg h4, if_neg h5, if_neg h6,
        if_neg h7, if_pos h8]
      rfl
    · refine ⟨by omega, hp.1, hp.2, ?_⟩
      simp only [CL_VAL_4] at h8
      simp only [CL_PID, CL_CMD, CL_NIO, CL_TNI, CL_EXC_1, CL_EXC_2, CL_VAL_1, CL_VAL_2,
        CL_VAL_3, CL_VAL_4]
      repeat' apply And.intro
      all_goals intros
      all_goals omega
  · refine ⟨1, 0, none, fun start => ?_, Or.inl rfl, fun _ => ?_, fun h => by simp at h⟩
    · unfold binaryHeader
      simp only [CL_ACT, CL_END, CL_EXC_0, CL_CMD, CL_NIO, CL_DBG, CL_PID]
      rw [if_neg h0, if_neg h1, if_neg h2, if_neg h3, if_neg h4, if_neg h5, if_neg h6,
        if_neg h7, if_neg h8]
      rfl
    · refine ⟨by omega, hp.1, hp.2, ?_⟩
      simp only [CL_EXC_1, CL_VAL_1, CL_TNI, CL_EXC_2, CL_VAL_2, CL_VAL_3, CL_VAL_4]
        at h5 h6 h7 h8
      simp only [CL_PID, CL_CMD, CL_NIO, CL_TNI, CL_EXC_1, CL_EXC_2, CL_VAL_1, CL_VAL_2,
        CL_VAL_3, CL_VAL_4]
      repeat' apply And.intro
      all_goals intros
      all_goals omega

theorem cstr_append_no_zero (A X : List Nat) (h : 0 ∉ A) : cstr (A ++ X) = A ++ cstr X := by
  induction A with
  | nil => rfl
  | cons a as ih =>
    have ha : ¬ a = 0 := fun e => h (e ▸ List.mem_cons_self _ _)
    have has : 0 ∉ as := fun e => h (List.mem_cons_of_mem _ e)
    rw [List.cons_append, cstr, if_neg ha, ih has]
    rfl

/-- The comparison of the buffered text with a word without line feed gives the
same result on a prefix that holds a line feed. -/
theorem cstr_append_eq (A X w : List Nat) (hw : 10 ∉ w) (h10 : 10 ∈ A) :
    cstr (A ++ X) = w ↔ cstr A = w := by
  by_cases h0 : 0 ∈ A
  · rw [cstr_append A X h0]
  · have e1 : cstr A = A := by
      have := cstr_append_no_zero A [] h0
      simpa [cstr] using this
    rw [cstr_append_no_zero A X h0, e1]
    constructor
    · intro e
      exact absurd (e ▸ List.mem_append_left _ h10) hw
    · intro e
      exact absurd (e ▸ h10) hw

theorem ProcessBinary_nonempty (s : OisDevice) (charSigned : Bool) (start : List Nat)
    (h : start ≠ []) (p c : Nat) (hp : p = charToU32 charSigned (start.getD 0 0))
    (hc : c = p &&& CL_COMMAND_MASK) (k t : Nat) (off : Option Nat)
    (hdr : binaryHeader p c start = (k, off.map (fun i => start.drop i), t)) :
    s.ProcessBinary charSigned start =
      if off.map (fun i => start.drop i) = some [] then (0, s)
      else if start.length <
          (match off.map (fun i => start.drop i) with
            | some str => k + CmdStrLength str t
            | none => k) then (0, s)
      else if (p = CL_SYN_ ∧ cstr start = bytes "SYN") ∨
          (p = CL_451_ ∧ cstr start = bytes "451") then (-1, s)
      else ProcessBinary_Switch s p c start
          (match off.map (fun i => start.drop i) with
            | some str => k + CmdStrLength str t
            | none => k) := by
  unfold ProcessBinary
  rw [if_neg h]
  simp only []
  rw [← hp, ← hc, hdr]

/-- Reading a frame from a prefix of the bytes: either the prefix does not hold
the whole frame and the decoder asks for more without any effect, or the
decoder does on the prefix what it does on all the bytes. -/
theorem ProcessBinary_prefix (s : OisDevice) (charSigned : Bool) (A X : List Nat) :
    s.ProcessBinary charSigned A = (0, s) ∨
    s.ProcessBinary charSigned (A ++ X) = s.ProcessBinary charSigned A := by
  by_cases hA : A = []
  · left
    unfold ProcessBinary
    rw [if_pos hA]
  have hAX : A ++ X ≠ [] := fun e => hA (List.append_eq_nil.mp e).1
  have hg : (A ++ X).getD 0 0 = A.getD 0 0 :=
    List.getD_append _ _ _ _ (List.length_pos.mpr hA)
  obtain ⟨p, hp⟩ : ∃ p, p = charToU32 charSigned (A.getD 0 0) := ⟨_, rfl⟩
  obtain ⟨c, hc⟩ : ∃ c, c = p &&& CL_COMMAND_MASK := ⟨_, rfl⟩
  obtain ⟨k, t, off, hdr, hoff, hnone, hsome⟩ := binaryHeader_form p c hc
  have eA := ProcessBinary_nonempty s charSigned A hA p c hp hc k t off (hdr A)
  have eAX := ProcessBinary_nonempty s charSigned (A ++ X) hAX p c (by rw [hg]; exact hp) hc
    k t off (hdr _)
  rw [eA, eAX]
  clear eA eAX hp hc hdr
  rcases hoff with ho | ho
  · obtain ⟨_, hS, h4, hPID, hCMD, hNIO, hTNI, hE1, hE2, hV1, hV2, hV3, hV4⟩ := hnone ho
    subst ho
    simp only [Option.map_none', reduceCtorEq, if_false]
    by_cases hl : A.length < k
    · left
      rw [if_pos hl]
    · right
      have hl2 : ¬ (A ++ X).length < k := by
        rw [List.length_append]
        omega
      have hno : ∀ B : List Nat, ¬ ((p = CL_SYN_ ∧ cstr B = bytes "SYN") ∨
          (p = CL_451_ ∧ cstr B = bytes "451")) := by
        intro B h
        rcases h with h | h
        · exact hS h.1
        · exact h4 h.1
      rw [if_neg hl, if_neg hl2, if_neg (hno _), if_neg (hno _)]
      exact ProcessBinary_Switch_prefix s p c A X k (fun h => absurd h hPID)
        (fun h => by
          rcases h with h | h
          · exact absurd h hCMD
          · exact absurd h hNIO)
        (fun h => by have := hTNI h; omega) (fun h => by have := hE1 h; omega)
        (fun h => by have := hE2 h; omega) (fun h => by have := hV1 h; omega)
        (fun h => by have := hV2 h; omega) (fun h => by have := hV3 h; omega)
        (fun h => by have := hV4 h; omega)
  · obtain ⟨hPID, hCMD, hTNI, hE1, hE2, hV1, hV2, hV3, hV4, hterm⟩ := hsome ho
    subst ho
    simp only [Option.map_some', Option.some.injEq]
    by_cases hd : A.drop k = []
    · left
      rw [if_pos hd]
    have hk : k < A.length := by
      by_contra hcon
      exact hd (List.drop_eq_nil_of_le (by omega))
    have hdX : (A ++ X).drop k = A.drop k ++ X := List.drop_append_of_le_length (by omega)
    have hdX0 : ¬ (A ++ X).drop k = [] := by
      rw [hdX]
      exact fun e => hd (List.append_eq_nil.mp e).1
    have hlen : (A.drop k).length = A.length - k := List.length_drop _ _
    by_cases ht : t ∈ A.drop k
    · right
      have hm := CmdStrLength_le _ t ht
      have hl : ¬ A.length < k + CmdStrLength (A.drop k) t := by omega
      have hl2 : ¬ (A ++ X).length < k + CmdStrLength (A.drop k) t := by
        rw [List.length_append]
        omega
      have hcond : ((p = CL_SYN_ ∧ cstr (A ++ X) = bytes "SYN") ∨
          (p = CL_451_ ∧ cstr (A ++ X) = bytes "451")) ↔
          ((p = CL_SYN_ ∧ cstr A = bytes "SYN") ∨ (p = CL_451_ ∧ cstr A = bytes "451")) := by
        by_cases hS : p = CL_SYN_ ∨ p = CL_451_
        · have h10 : 10 ∈ A := by
            rw [← hterm hS]
            exact List.mem_of_mem_drop ht
          rw [cstr_append_eq A X (bytes "SYN") (by decide) h10,
            cstr_append_eq A X (bytes "451") (by decide) h10]
        · constructor
          · intro h
            rcases h with h | h
            · exact absurd (Or.inl h.1) hS
            · exact absurd (Or.inr h.1) hS
          · intro h
            rcases h with h | h
            · exact absurd (Or.inl h.1) hS
            · exact absurd (Or.inr h.1) hS
      rw [if_neg hd, if_neg hdX0, hdX, CmdStrLength_append _ _ _ ht, if_neg hl, if_neg hl2]
      simp only [hcond]
      split
      · rfl
      · apply ProcessBinary_Switch_prefix s p c A X _
        · intro h
          obtain ⟨e1, e2⟩ := hPID h
          subst e1 e2
          exact ⟨by omega, ht⟩
        · intro h
          obtain ⟨e1, e2⟩ := hCMD h
          subst e1 e2
          exact ⟨by omega, ht⟩
        · exact fun h => absurd h hTNI
        · exact fun h => absurd h hE1
        · exact fun h => absurd h hE2
        · exact fun h => absurd h hV1
        · exact fun h => absurd h hV2
        · exact fun h => absurd h hV3
        · exact fun h => absurd h hV4
    · left
      have hl : A.length < k + CmdStrLength (A.drop k) t := by
        rw [CmdStrLength_missing _ _ ht, hlen]
        have : 0 < OIS_MAX_COMMAND_LENGTH * 2 := by decide
        omega
      rw [if_neg hd, if_pos hl]

end OisDevice

end Ois

/-! ## Results of the binary decoder -/

namespace Ois

namespace OisDevice

theorem ProcessBinary_CMD_result (s : OisDevice) (start : List Nat) (n : Nat) :
    (ProcessBinary_CMD s start n).1 = n ∨
    ((ProcessBinary_CMD s start n).1 = 0 ∧
      ((ProcessBinary_CMD s start n).2 = s ∨ (ProcessBinary_CMD s start n).2.m_binary = false)) := by
  have h := ExpectState_cases s (stateBit .Synchronisation ||| stateBit .Active) (bytes "CMD") 2
  unfold ProcessBinary_CMD
  simp only []
  split
  · right
    refine ⟨rfl, ?_⟩
    rcases h with h | h
    · exact Or.inl h
    · right
      rw [h]
      rfl
  · exact Or.inl rfl

theorem ProcessBinary_Declare_result (s : OisDevice) (payload : Nat) (start : List Nat)
    (n : Nat) :
    (ProcessBinary_Declare s payload start n).1 = n ∨
    ((ProcessBinary_Declare s payload start n).1 = 0 ∧
      ((ProcessBinary_Declare s payload start n).2 = s ∨
        (ProcessBinary_Declare s payload start n).2.m_binary = false)) := by
  have h := ExpectState_cases s (stateBit .Synchronisation |||
    (if s.m_protocolVersion > 1 then stateBit .Active else 0)) (bytes "NIO") 2
  unfold ProcessBinary_Declare
  simp only []
  generalize decide (payload &&& CL_N_PAYLOAD_O ≠ 0) = output
  generalize s.ExpectState (stateBit .Synchronisation |||
    (if s.m_protocolVersion > 1 then stateBit .Active else 0)) (bytes "NIO") 2 = r at h ⊢
  rcases r with ⟨b, t⟩
  cases b
  · right
    refine ⟨rfl, ?_⟩
    rcases h with h | h
    · exact Or.inl h
    · right
      have h1 : t = s.ClearState.SendText (bytes "END\n") := h
      rw [h1]
      rfl
  · cases output
    · exact Or.inl rfl
    · exact Or.inl rfl

theorem ProcessBinary_VAL_result (s : OisDevice) (payload command : Nat)
    (start : List Nat) (n : Nat) :
    (ProcessBinary_VAL s payload command start n).1 = n ∨
    ((ProcessBinary_VAL s payload command start n).1 = 0 ∧
      ((ProcessBinary_VAL s payload command start n).2 = s ∨
        (ProcessBinary_VAL s payload command start n).2.m_binary = false)) := by
  have h := ExpectState_cases s (stateBit .Active) (bytes "VAL") 2
  unfold ProcessBinary_VAL
  simp only []
  split
  · right
    refine ⟨rfl, ?_⟩
    rcases h with h | h
    · exact Or.inl h
    · right
      rw [h]
      rfl
  · split
    · exact Or.inl rfl
    · exact Or.inl rfl

theorem ProcessBinary_Switch_result (s : OisDevice) (payload command : Nat)
    (start : List Nat) (n : Nat) :
    (ProcessBinary_Switch s payload command start n).1 = n ∨
    ((ProcessBinary_Switch s payload command start n).1 = 0 ∧
      ((ProcessBinary_Switch s payload command start n).2 = s ∨
        (ProcessBinary_Switch s payload command start n).2.m_binary = false)) := by
  unfold ProcessBinary_Switch
  split
  · exact Or.inl rfl
  split
  · exact ProcessBinary_CMD_result s start n
  split
  · exact ProcessBinary_Declare_result s payload start n
  split
  · exact Or.inl rfl
  split
  · left
    unfold ProcessBinary_TNI
    simp only []
    split
    · rfl
    · rfl
  split
  · exact Or.inl rfl
  split
  · left
    unfold ProcessBinary_EXC
    simp only []
    split
    · rfl
    · rfl
  split
  · exact ProcessBinary_VAL_result s payload command start n
  split
  · exact Or.inl rfl
  · exact Or.inl rfl

/-- The results of `ProcessBinary`: 0 with the endpoint unchanged or reset to
ASCII framing, a negative number, or a positive number of bytes that the
buffer holds. -/
theorem ProcessBinary_result (s : OisDevice) (charSigned : Bool) (A : List Nat) :
    ((s.ProcessBinary charSigned A).1 = 0 ∧
      ((s.ProcessBinary charSigned A).2 = s ∨
        (s.ProcessBinary charSigned A).2.m_binary = false)) ∨
    (s.ProcessBinary charSigned A).1 < 0 ∨
    (0 < (s.ProcessBinary charSigned A).1 ∧
      (s.ProcessBinary charSigned A).1 ≤ (A.length : Int)) := by
  by_cases hA : A = []
  · left
    unfold ProcessBinary
    rw [if_pos hA]
    exact ⟨rfl, Or.inl rfl⟩
  obtain ⟨p, hp⟩ : ∃ p, p = charToU32 charSigned (A.getD 0 0) := ⟨_, rfl⟩
  obtain ⟨c, hc⟩ : ∃ c, c = p &&& CL_COMMAND_MASK := ⟨_, rfl⟩
  obtain ⟨k, t, off, hdr, hoff, hnone, hsome⟩ := binaryHeader_form p c hc
  rw [ProcessBinary_nonempty s charSigned A hA p c hp hc k t off (hdr A)]
  clear hp hc hdr
  have key : ∀ n : Nat, 0 < n → n ≤ A.length →
      ((ProcessBinary_Switch s p c A n).1 = 0 ∧
        ((ProcessBinary_Switch s p c A n).2 = s ∨
          (ProcessBinary_Switch s p c A n).2.m_binary = false)) ∨
      (ProcessBinary_Switch s p c A n).1 < 0 ∨
      (0 < (ProcessBinary_Switch s p c A n).1 ∧
        (ProcessBinary_Switch s p c A n).1 ≤ (A.length : Int)) := by
    intro n h1 h2
    rcases ProcessBinary_Switch_result s p c A n with h | h
    · right; right
      rw [h]
      omega
    · exact Or.inl h
  split
  · exact Or.inl ⟨rfl, Or.inl rfl⟩
  split
  · exact Or.inl ⟨rfl, Or.inl rfl⟩
  split
  · right; left
    show (-1 : Int) < 0
    decide
  · rename_i h1 h2 h3
    rcases hoff with ho | ho
    · subst ho
      simp only [Option.map_none'] at h2 ⊢
      exact key k (hnone rfl).1 (Nat.le_of_not_lt h2)
    · subst ho
      simp only [Option.map_some', Option.some.injEq] at h1 h2 ⊢
      have hpos := CmdStrLength_pos (A.drop k) t h1
      exact key (k + CmdStrLength (A.drop k) t) (by omega) (Nat.le_of_not_lt h2)

end OisDevice

end Ois

/-! ## The binary loop over a prefix of the bytes -/

namespace Ois

namespace OisDevice

theorem binaryLoop_step (charSigned : Bool) (f : Nat) (s : OisDevice) (start : List Nat)
    (h0 : start ≠ []) (hf : start.length ≤ f) :
    binaryLoop charSigned f s start =
      if (s.ProcessBinary charSigned start).1 = 0 then
        ((s.ProcessBinary charSigned start).2, some start)
      else if (s.ProcessBinary charSigned start).1 < 0 then
        ((s.ProcessBinary charSigned start).2.ClearState, none)
      else
        binaryLoop charSigned f (s.ProcessBinary charSigned start).2
          (start.drop (s.ProcessBinary charSigned start).1.toNat) := by
  have hpos := List.length_pos.mpr h0
  cases f with
  | zero => omega
  | succ f =>
    rw [binaryLoop, if_neg h0]
    by_cases hz : (s.ProcessBinary charSigned start).1 = 0
    · rw [if_pos hz, if_pos hz]
    · rw [if_neg hz, if_neg hz]
      by_cases hn : (s.ProcessBinary charSigned start).1 < 0
      · rw [if_pos hn, if_pos hn]
      · rw [if_neg hn, if_neg hn]
        have := drop_length_lt start _ h0 hz hn
        exact binaryLoop_fuel charSigned f (f + 1) _ _ (by omega) (by omega)

theorem binaryLoop_nil (charSigned : Bool) (f : Nat) (s : OisDevice) :
    binaryLoop charSigned f s [] = (s, some []) := by
  cases f with
  | zero => rfl
  | succ f => simp [binaryLoop]

theorem binaryLoop_congr (charSigned : Bool) (f : Nat) (s t : OisDevice) (start : List Nat)
    (h : eraseBuffer s = eraseBuffer t) :
    (binaryLoop charSigned f s start).2 = (binaryLoop charSigned f t start).2 ∧
    eraseBuffer (binaryLoop charSigned f s start).1 =
      eraseBuffer (binaryLoop charSigned f t start).1 := by
  induction f generalizing s t start with
  | zero => exact ⟨rfl, h⟩
  | succ f ih =>
    have hc := ProcessBinary_congr s t charSigned start h
    rw [binaryLoop, binaryLoop]
    by_cases h0 : start = []
    · rw [if_pos h0, if_pos h0]
      exact ⟨rfl, h⟩
    · rw [if_neg h0, if_neg h0, ← hc.1]
      by_cases hz : (s.ProcessBinary charSigned start).1 = 0
      · rw [if_pos hz, if_pos hz]
        exact ⟨rfl, hc.2⟩
      · rw [if_neg hz, if_neg hz]
        by_cases hn : (s.ProcessBinary charSigned start).1 < 0
        · rw [if_pos hn, if_pos hn]
          refine ⟨rfl, ?_⟩
          show eraseBuffer (eraseBuffer (s.ProcessBinary charSigned start).2).ClearState =
            eraseBuffer (eraseBuffer (t.ProcessBinary charSigned start).2).ClearState
          rw [hc.2]
        · rw [if_neg hn, if_neg hn]
          exact ih _ _ _ hc.2

end OisDevice

end Ois

/-! ## Reads of a binary stream -/

namespace Ois

namespace OisDevice

theorem ProcessCommands_binary (s : OisDevice) (charSigned : Bool) (F : Nat)
    (hb : s.m_binary = true) (hF : s.m_commandBuffer.length ≤ F) :
    s.ProcessCommands charSigned =
      match binaryLoop charSigned F s s.m_commandBuffer with
      | (self1, none) => self1
      | (self1, some rest) => ProcessCommands_End self1 s.m_commandBuffer rest := by
  unfold ProcessCommands
  simp only []
  rw [if_pos hb, binaryLoop_fuel charSigned s.m_commandBuffer.length F s s.m_commandBuffer
    (Nat.le_refl _) hF]

theorem pollLoop_single_binary (charSigned : Bool) (s : OisDevice) (X : List Nat) (F : Nat)
    (hX : X ≠ []) (hb : s.m_binary = true) (hF : (s.m_commandBuffer ++ X).length ≤ F) :
    pollLoop charSigned s [X] =
      match binaryLoop charSigned F { s with m_commandBuffer := s.m_commandBuffer ++ X }
          (s.m_commandBuffer ++ X) with
      | (self1, none) => self1
      | (self1, some rest) => ProcessCommands_End self1 (s.m_commandBuffer ++ X) rest := by
  rw [pollLoop_cons charSigned s X [] hX, pollLoop,
    ProcessCommands_binary { s with m_commandBuffer := s.m_commandBuffer ++ X } charSigned F
      hb hF]

theorem eq_of_eraseBuffer (a b : OisDevice) (h : eraseBuffer a = eraseBuffer b)
    (ha : a.m_commandBuffer = []) (hb : b.m_commandBuffer = []) : a = b := by
  have e : ∀ x : OisDevice, x.m_commandBuffer = [] → eraseBuffer x = x := by
    intro x hx
    cases x
    simp only [eraseBuffer]
    simp only at hx
    rw [hx]
  rw [← e a ha, ← e b hb, h]

theorem finish_congr (x y : OisDevice × Option (List Nat)) (B1 B2 : List Nat) :
    x.2 = y.2 → eraseBuffer x.1 = eraseBuffer y.1 →
    (x.2 = none → x.1.m_commandBuffer = [] ∧ y.1.m_commandBuffer = []) →
    (∀ r, x.2 = some r → r.length ≤ B1.length) →
    B1.length ≤ B2.length → B2.length ≤ 2 * OIS_MAX_COMMAND_LENGTH →
    (match x with
      | (self1, none) => self1
      | (self1, some rest) => ProcessCommands_End self1 B1 rest) =
    (match y with
      | (self1, none) => self1
      | (self1, some rest) => ProcessCommands_End self1 B2 rest) := by
  intro h2 h1 hnone hsome hB h262
  rcases x with ⟨a, oa⟩
  rcases y with ⟨b, ob⟩
  simp only at h2 h1 hnone hsome
  subst h2
  cases oa with
  | none => exact eq_of_eraseBuffer a b h1 (hnone rfl).1 (hnone rfl).2
  | some r => exact ProcessCommands_End_congr a b B1 B2 r h1 (hsome r rfl) hB h262

end OisDevice

end Ois

/-! ## Saturation of the raw word -/

namespace Ois

/-- C29. Number saturates: for every integer n the raw word of a Number is the
16-bit two's-complement encoding of n clamped to -32768..32767; above 32767 it
is 0x7FFF, below -32768 it is 0x8000, and inside the range it is n modulo
65536. -/
theorem C29_number_saturates (n : Int) :
    ToRawValue .Number (.number n) = toU16 (max (-32768) (min 32767 n)) ∧
    (32767 < n → ToRawValue .Number (.number n) = 0x7FFF) ∧
    (n < -32768 → ToRawValue .Number (.number n) = 0x8000) ∧
    (-32768 ≤ n → n ≤ 32767 → ToRawValue .Number (.number n) = (n % 65536).toNat) := by
  have hc : Clamp n (-32768) 32767 = max (-32768) (min 32767 n) := by
    unfold Clamp
    split
    · omega
    · split <;> omega
  have hr : ToRawValue .Number (.number n) = toU16 (max (-32768) (min 32767 n)) := by
    simp only [ToRawValue, Value.getNumber, hc, toU16, toI16]
    congr 1
    omega
  refine ⟨hr, ?_, ?_, ?_⟩
  · intro h
    rw [hr]
    have e : max (-32768) (min 32767 n) = 32767 := by omega
    rw [e]
    decide
  · intro h
    rw [hr]
    have e : max (-32768) (min 32767 n) = -32768 := by omega
    rw [e]
    decide
  · intro h1 h2
    rw [hr]
    have e : max (-32768) (min 32767 n) = n := by omega
    rw [e]
    rfl

/-- C29 at 40000, -40000 and -1: the raw words are 0x7FFF, 0x8000 and 0xFFFF. -/
theorem C29_number_saturates_witness :
    ToRawValue .Number (.number 40000) = 0x7FFF ∧
    ToRawValue .Number (.number (-40000)) = 0x8000 ∧
    ToRawValue .Number (.number (-1)) = 0xFFFF :=
  ⟨(C29_number_saturates 40000).2.1 (by decide),
    (C29_number_saturates (-40000)).2.2.1 (by decide),
    (C29_number_saturates (-1)).2.2.2 (by decide) (by decide)⟩

end Ois

/-! ## Outcomes of the binary decoder -/

namespace Ois

namespace OisDevice

/-- The three outcomes of `ProcessBinary` on a non-empty buffer: it asks for more
bytes, it rejects the bytes, or it runs the second `switch` on a frame of `n`
bytes that the buffer holds. -/
theorem ProcessBinary_cases (s : OisDevice) (charSigned : Bool) (b : Nat) (rest : List Nat) :
    s.ProcessBinary charSigned (b :: rest) = (0, s) ∨
    (s.ProcessBinary charSigned (b :: rest) = (-1, s) ∧ (b % 16 = 3 ∨ b % 16 = 4)) ∨
    ∃ n : Nat, 0 < n ∧ n ≤ (b :: rest).length ∧
      s.ProcessBinary charSigned (b :: rest) =
        ProcessBinary_Switch s (charToU32 charSigned b) (b % 16) (b :: rest) n := by
  have hA : b :: rest ≠ [] := List.cons_ne_nil _ _
  obtain ⟨p, hp⟩ : ∃ p, p = charToU32 charSigned b := ⟨_, rfl⟩
  obtain ⟨c, hc⟩ : ∃ c, c = p &&& CL_COMMAND_MASK := ⟨_, rfl⟩
  have hc16 : c = b % 16 := by rw [hc, hp, command_of_byte]
  obtain ⟨k, t, off, hdr, hoff, hnone, hsome⟩ := binaryHeader_form p c hc
  rw [ProcessBinary_nonempty s charSigned (b :: rest) hA p c hp hc k t off (hdr _)]
  rw [← hp, ← hc16]
  clear hp hdr
  split
  · exact Or.inl rfl
  split
  · exact Or.inl rfl
  split
  · rename_i h3
    refine Or.inr (Or.inl ⟨rfl, ?_⟩)
    rw [hc]
    rcases h3 with h3 | h3
    · left
      rw [h3.1]
      decide
    · right
      rw [h3.1]
      decide
  · rename_i h1 h2 h3
    right; right
    rcases hoff with ho | ho
    · subst ho
      simp only [Option.map_none'] at h2 ⊢
      exact ⟨k, (hnone rfl).1, Nat.le_of_not_lt h2, rfl⟩
    · subst ho
      simp only [Option.map_some', Option.some.injEq] at h1 h2 ⊢
      have hpos := CmdStrLength_pos ((b :: rest).drop k) t h1
      exact ⟨k + CmdStrLength ((b :: rest).drop k) t, by omega, Nat.le_of_not_lt h2, rfl⟩

theorem ExpectState_not_handshaking (s : OisDevice) (mask : Nat) (cmd : List Nat) (v : Nat)
    (h : s.m_connectionState ≠ .Handshaking) : (s.ExpectState mask cmd v).2 = s := by
  unfold ExpectState
  simp only []
  split
  · rfl
  · rfl

theorem ExpectState_sync_active (s : OisDevice) (cmd : List Nat) (v : Nat)
    (h : s.m_connectionState = .Synchronisation) :
    s.ExpectState (stateBit .Active) cmd v = (false, s) := by
  unfold ExpectState
  simp only [h]
  have e : decide (0 = (1 <<< DeviceState.toNat .Synchronisation) &&& stateBit .Active)
      = true := by decide
  rw [e]
  simp

theorem ProcessBinary_Switch_val_sync (s : OisDevice) (p c : Nat) (start : List Nat)
    (n : Nat) (hs : s.m_connectionState = .Synchronisation) (h1 : 8 ≤ c) (h2 : c ≤ 11) :
    ProcessBinary_Switch s p c start n = (0, s) := by
  unfold ProcessBinary_Switch
  simp only [CL_PID, CL_CMD, CL_NIO, CL_ACT, CL_TNI, CL_DBG, CL_EXC_0, CL_EXC_1, CL_EXC_2,
    CL_VAL_1, CL_VAL_2, CL_VAL_3, CL_VAL_4]
  repeat rw [if_neg (by omega)]
  rw [if_pos (by omega)]
  unfold ProcessBinary_VAL
  simp only [ExpectState_sync_active s _ _ hs]
  rfl

end OisDevice

end Ois

/-! ## Value frames outside Active -/

namespace Ois

namespace OisDevice

/-- C28. A binary value frame in Synchronisation stalls the decoder: for every
first byte with a VAL code (low nibble 8..11) `ProcessBinary` returns 0 and
changes nothing, whether the frame is complete or not, because the case ends in
`return false` when the state check fails.  At the binary endpoint in
Synchronisation with the output Knob, the buffer holding the VAL_1 frame
0x38 0x05 and the ACT frame 0x03 is left as it is by `ProcessCommands`, and the
state stays Synchronisation; the ACT frame alone makes the endpoint Active. -/
theorem C28_value_frame_stalls_in_synchronisation :
    (∀ (s : OisDevice) (charSigned : Bool) (b : Nat) (rest : List Nat),
      s.m_connectionState = .Synchronisation → 8 ≤ b % 16 → b % 16 ≤ 11 →
      s.ProcessBinary charSigned (b :: rest) = (0, s)) ∧
    hubBinarySync.m_binary = true ∧
    hubBinarySync.m_connectionState = .Synchronisation ∧
    hubBinarySync.m_numericOutputs = [knob 0] ∧
    PackNumericValueCommand (knob 3) CL_PAYLOAD_SHIFT CL_VAL_1 CL_VAL_2 CL_VAL_3 CL_VAL_4
      = (2, [0x38, 0x05]) ∧
    hubBinarySync.ProcessBinary false [0x38, 0x05, 0x03] = (0, hubBinarySync) ∧
    hubBinarySync.ConnectAndPoll false true [[0x38, 0x05, 0x03]] =
      { hubBinarySync with m_commandBuffer := [0x38, 0x05, 0x03] } ∧
    (hubBinarySync.ConnectAndPoll false true [[0x03]]).m_connectionState = .Active ∧
    (hubBinarySync.ConnectAndPoll false true [[0x03]]).m_commandBuffer = [] := by
  refine ⟨?_, ?_, ?_, ?_, ?_, ?_, ?_, ?_, ?_⟩
  · intro s charSigned b rest hs h1 h2
    rcases ProcessBinary_cases s charSigned b rest with h | ⟨_, h⟩ | ⟨n, _, _, h⟩
    · exact h
    · omega
    · rw [h]
      exact ProcessBinary_Switch_val_sync s _ _ _ n hs h1 h2
  · decide
  · decide
  · decide
  · decide
  · rfl
  · rfl
  · decide
  · decide

end OisDevice

end Ois

/-! ## Unknown opcodes -/

namespace Ois

theorem server_command_of_byte (charSigned : Bool) (b : Nat) :
    charToU32 charSigned b &&& SV_COMMAND_MASK = b % 8 := by
  have h := Nat.and_pow_two_sub_one_eq_mod (charToU32 charSigned b) 3
  have e : SV_COMMAND_MASK = 2 ^ 3 - 1 := by decide
  rw [e, h]
  unfold charToU32
  split <;> omega

namespace OisHost

/-- A first byte whose code is none of the VAL codes 1..4 runs neither case of
the second `switch`: the masked code is below 8 and so never `SV_END_`. -/
theorem ProcessBinary_other (s : OisHost) (charSigned : Bool) (b : Nat) (rest : List Nat)
    (h : b % 8 = 0 ∨ 5 ≤ b % 8) :
    s.ProcessBinary charSigned (b :: rest) = (1, s) := by
  have h8 : b % 8 < 8 := Nat.mod_lt _ (by decide)
  unfold ProcessBinary
  rw [if_neg (List.cons_ne_nil _ _)]
  simp only [List.getD_cons_zero, server_command_of_byte]
  generalize charToU32 charSigned b = p
  unfold ProcessBinary_Switch
  simp only [SV_END_, SV_VAL_1, SV_VAL_2, SV_VAL_3, SV_VAL_4, List.length_cons]
  have e : (if b % 8 = 69 then 1
      else if b % 8 = 1 then 1 + 1
      else if b % 8 = 2 then 1 + 2
      else if b % 8 = 3 then 1 + 3
      else if b % 8 = 4 then 1 + 4
      else 1) = 1 := by
    repeat rw [if_neg (by omega)]
  rw [e, if_neg (by omega), if_neg (by omega), if_neg (by omega)]
  rfl

end OisHost

namespace OisDevice

theorem ProcessBinary_Switch_unknown (s : OisDevice) (p c : Nat) (start : List Nat) (n : Nat)
    (h : c = 0 ∨ c = 15) : ProcessBinary_Switch s p c start n = ((n : Int), s) := by
  unfold ProcessBinary_Switch
  simp only [CL_PID, CL_CMD, CL_NIO, CL_ACT, CL_TNI, CL_DBG, CL_EXC_0, CL_EXC_1, CL_EXC_2,
    CL_VAL_1, CL_VAL_2, CL_VAL_3, CL_VAL_4, CL_END]
  repeat rw [if_neg (by omega)]

theorem ProcessBinary_unknown (s : OisDevice) (charSigned : Bool) (b : Nat) (rest : List Nat)
    (h : b % 16 = 0 ∨ b % 16 = 15) :
    s.ProcessBinary charSigned (b :: rest) = (1, s) := by
  have hcmd := command_of_byte charSigned b
  have hS : ¬ (charToU32 charSigned b = CL_SYN_ ∨ charToU32 charSigned b = CL_451_) := by
    intro e
    rcases e with e | e
    · rw [e] at hcmd
      have e2 : CL_SYN_ &&& CL_COMMAND_MASK = 3 := by decide
      omega
    · rw [e] at hcmd
      have e2 : CL_451_ &&& CL_COMMAND_MASK = 4 := by decide
      omega
  have hdr : binaryHeader (charToU32 charSigned b) (b % 16) (b :: rest) = (1, none, 0) := by
    unfold binaryHeader
    simp only [CL_PID, CL_CMD, CL_NIO, CL_ACT, CL_TNI, CL_DBG, CL_EXC_0, CL_EXC_1, CL_EXC_2,
      CL_VAL_1, CL_VAL_2, CL_VAL_3, CL_VAL_4, CL_END]
    rw [if_neg hS]
    repeat rw [if_neg (by omega)]
  unfold ProcessBinary
  rw [if_neg (List.cons_ne_nil _ _)]
  simp only [List.getD_cons_zero, hcmd, hdr]
  rw [if_neg (by simp), if_neg (by simp), if_neg (fun e => by
    rcases e with e | e
    · exact hS (Or.inl e.1)
    · exact hS (Or.inr e.1))]
  exact ProcessBinary_Switch_unknown s _ _ _ 1 h

/-- C30. Unknown binary opcode: on the host side a first byte whose low nibble is
0x0 or 0xF makes `ProcessBinary` return 1 with the endpoint unchanged, and the
loop of `ProcessCommands` goes on with the bytes behind it; on the device side a
first byte whose low three bits are not in 1..4 makes `ProcessBinary` return 1
with the endpoint unchanged. -/
theorem C30_unknown_opcode_discards_one_byte (charSigned : Bool) (b : Nat) (rest : List Nat) :
    (b % 16 = 0 ∨ b % 16 = 15 →
      ∀ s : OisDevice, s.ProcessBinary charSigned (b :: rest) = (1, s) ∧
        ∀ fuel, binaryLoop charSigned (fuel + 1) s (b :: rest) =
          binaryLoop charSigned fuel s rest) ∧
    (¬ (1 ≤ b % 8 ∧ b % 8 ≤ 4) →
      ∀ s : OisHost, s.ProcessBinary charSigned (b :: rest) = (1, s)) := by
  constructor
  · intro h s
    have e := ProcessBinary_unknown s charSigned b rest h
    refine ⟨e, fun fuel => ?_⟩
    rw [binaryLoop, if_neg (List.cons_ne_nil _ _), e]
    simp
  · intro h s
    exact OisHost.ProcessBinary_other s charSigned b rest (by omega)

/-- C30 at the bytes 0xF0 (host side, signed `char`) and 0x45 (device side). -/
theorem C30_unknown_opcode_discards_one_byte_witness :
    hubBinary.ProcessBinary true [0xF0, 0x03] = (1, hubBinary) ∧
    binaryLoop true 2 hubBinary [0xF0, 0x03] = binaryLoop true 1 hubBinary [0x03] ∧
    panelActive.ProcessBinary false [0x45] = (1, panelActive) :=
  ⟨((C30_unknown_opcode_discards_one_byte true 0xF0 [0x03]).1 (by decide) hubBinary).1,
    ((C30_unknown_opcode_discards_one_byte true 0xF0 [0x03]).1 (by decide) hubBinary).2 1,
    (C30_unknown_opcode_discards_one_byte false 0x45 []).2 (by decide) panelActive⟩

end OisDevice

end Ois

/-! ## TNI and EXC lines -/

namespace Ois

namespace OisDevice

theorem ProcessAscii_TNI_line (s : OisDevice) (rest : List Nat) :
    s.ProcessAscii (84 :: 78 :: 73 :: 61 :: rest) =
      ProcessAscii_TNI s (84 :: 78 :: 73 :: 61 :: rest) rest := by
  unfold ProcessAscii
  simp only [List.getD_cons_zero, List.getD_cons_succ, OIS_FOURCC_cons4]
  simp [isdigit, ProcessAscii_Switch]
  simp [OIS_FOURCC, SYN, CMD, PID, NIN, NIF, NIB, NON, NOF, NOB, TNI]

/-- C24. The line `TNI=...` activates the endpoint: `case TNI` has no `break` and
runs into `case ACT`, so after every TNI line the connection state is Active.
At the endpoint in Synchronisation with the input Lamp on channel 3, the line
`TNI=3,0` clears the active flag of Lamp and leaves the endpoint Active. -/
theorem C24_tni_falls_through_to_act :
    (∀ (s : OisDevice) (rest : List Nat),
      (s.ProcessAscii (bytes "TNI=" ++ rest)).2.m_connectionState = .Active) ∧
    hubCatalog.m_connectionState = .Synchronisation ∧
    hubCatalog.m_numericInputs.map (fun v => (v.channel, v.active)) = [(3, true)] ∧
    (hubCatalog.ProcessAscii (bytes "TNI=3,0")).2.m_numericInputs.map
      (fun v => (v.channel, v.active)) = [(3, false)] ∧
    (hubCatalog.ProcessAscii (bytes "TNI=3,0")).2.m_connectionState = .Active := by
  refine ⟨?_, ?_⟩
  · intro s rest
    have hb : bytes "TNI=" = [84, 78, 73, 61] := by decide
    rw [hb]
    show (s.ProcessAscii (84 :: 78 :: 73 :: 61 :: rest)).2.m_connectionState = .Active
    rw [ProcessAscii_TNI_line]
    rfl
  · decide

/-- C27. An EXC command in Synchronisation is delivered: the result of the state
check is ignored, so for every endpoint in Synchronisation the line `EXC=<c>` of
a declared event appends the channel to the received-event buffer.  At the
endpoint in Synchronisation with the event Fire on channel 7, the line `EXC=7`
and the binary frame 0x7C both put 7 in the buffer, and `PopEvents` reports
Fire. -/
theorem C27_exc_in_synchronisation_is_delivered :
    (∀ (s : OisDevice) (rest : List Nat) (i : Nat),
      s.m_connectionState = .Synchronisation →
      FindChannel s.m_events (atoi rest) = some i →
      (s.ProcessAscii (bytes "EXC=" ++ rest)).2 =
        { s with m_eventBuffer := s.m_eventBuffer ++ [toU16 (atoi rest)] }) ∧
    hubCatalog.m_connectionState = .Synchronisation ∧
    hubCatalog.m_events.map Event.channel = [7] ∧
    hubCatalog.m_eventBuffer = [] ∧
    (hubCatalog.ProcessAscii (bytes "EXC=7")).2.m_eventBuffer = [7] ∧
    (hubCatalog.ProcessAscii (bytes "EXC=7")).2.PopEvents.1 = true ∧
    (hubCatalog.ProcessAscii (bytes "EXC=7")).2.PopEvents.2.1.map Event.channel = [7] ∧
    hubBinarySync.m_connectionState = .Synchronisation ∧
    hubBinarySync.m_events.map Event.channel = [7] ∧
    OisHost.Poll_EventCommand 7 = (1, [0x7C]) ∧
    (hubBinarySync.ProcessBinary false [0x7C]).1 = 1 ∧
    (hubBinarySync.ProcessBinary false [0x7C]).2.m_eventBuffer = [7] ∧
    (hubBinarySync.ProcessBinary false [0x7C]).2.PopEvents.2.1.map Event.channel = [7] := by
  refine ⟨?_, ?_⟩
  · intro s rest i hs hf
    have hb : bytes "EXC=" = [69, 88, 67, 61] := by decide
    rw [hb]
    show (s.ProcessAscii (69 :: 88 :: 67 :: 61 :: rest)).2 = _
    rw [ProcessAscii_EXC_line]
    unfold ProcessAscii_EXC
    simp only [ExpectState_sync_active s _ _ hs, hf]
  · decide

end OisDevice

end Ois

/-! ## An ASCII SYN line in binary framing -/

namespace Ois

namespace OisDevice

theorem ProcessBinary_Switch_act (s : OisDevice) (p : Nat) (start : List Nat) (n : Nat) :
    ProcessBinary_Switch s p 3 start n = ProcessBinary_ACT s n := by
  simp [ProcessBinary_Switch, CL_PID, CL_CMD, CL_NIO, CL_ACT]

/-- A buffer that starts with the text `SYN=` and holds a line feed is decoded in
binary framing as `case CL_ACT`: the comparison `strcmp(startString, "SYN")`
fails because the text goes on behind `SYN`, and the low nibble of 'S' is 3. -/
theorem ProcessBinary_syn_line (s : OisDevice) (charSigned : Bool) (rest : List Nat)
    (h10 : 10 ∈ rest) :
    s.ProcessBinary charSigned (83 :: 89 :: 78 :: 61 :: rest) =
      ProcessBinary_ACT s (CmdStrLength (83 :: 89 :: 78 :: 61 :: rest) 10) := by
  have hp : CL_SYN_ = charToU32 charSigned ((83 :: 89 :: 78 :: 61 :: rest).getD 0 0) := by
    show CL_SYN_ = charToU32 charSigned 83
    cases charSigned <;> decide
  have hc : 3 = CL_SYN_ &&& CL_COMMAND_MASK := by decide
  have hdr : binaryHeader CL_SYN_ 3 (83 :: 89 :: 78 :: 61 :: rest) =
      (0, (some 0).map (fun i => (83 :: 89 :: 78 :: 61 :: rest).drop i), 10) := by
    unfold binaryHeader
    rw [if_pos (Or.inl rfl)]
    rfl
  have hmem : 10 ∈ 83 :: 89 :: 78 :: 61 :: rest := by
    simp [h10]
  have hle := CmdStrLength_le _ 10 hmem
  rw [ProcessBinary_nonempty s charSigned _ (List.cons_ne_nil _ _) CL_SYN_ 3 hp hc 0 10
    (some 0) hdr]
  simp only [Option.map_some', List.drop_zero, Option.some.injEq]
  rw [if_neg (List.cons_ne_nil _ _), Nat.zero_add, if_neg (Nat.not_lt.mpr hle)]
  split
  · rename_i e
    exfalso
    rcases e with e | e
    · have e2 := e.2
      simp [cstr, bytes] at e2
    · exact absurd e.1 (by decide)
  · exact ProcessBinary_Switch_act s _ _ _

/-- C22. An ASCII SYN line in binary framing is not rejected: for every endpoint
outside Handshaking and every buffer that starts with `SYN=` and holds a line
feed, `ProcessBinary` returns the positive length of the line and sets the
connection state to Active, leaving the framing as it is.  At the binary
endpoint in Synchronisation the line `SYN=2,B` gives the result 8, the state
Active and binary framing still on, for a signed and an unsigned `char`. -/
theorem C22_syn_line_in_binary_runs_as_act :
    (∀ (s : OisDevice) (charSigned : Bool) (rest : List Nat),
      10 ∈ rest → s.m_connectionState ≠ .Handshaking →
      s.ProcessBinary charSigned (bytes "SYN=" ++ rest) =
        (((CmdStrLength (bytes "SYN=" ++ rest) 10 : Nat) : Int),
          { s with m_connectionState := .Active })) ∧
    hubBinarySync.m_binary = true ∧
    hubBinarySync.m_connectionState = .Synchronisation ∧
    (∀ charSigned : Bool,
      (hubBinarySync.ProcessBinary charSigned (bytes "SYN=2,B\n")).1 = 8 ∧
      (hubBinarySync.ProcessBinary charSigned (bytes "SYN=2,B\n")).2.m_connectionState
        = .Active ∧
      (hubBinarySync.ProcessBinary charSigned (bytes "SYN=2,B\n")).2.m_binary = true) ∧
    (hubBinarySync.ConnectAndPoll false true [bytes "SYN=2,B\n"]).m_connectionState
      = .Active ∧
    (hubBinarySync.ConnectAndPoll false true [bytes "SYN=2,B\n"]).m_binary = true ∧
    (hubBinarySync.ConnectAndPoll false true [bytes "SYN=2,B\n"]).m_commandBuffer = [] := by
  refine ⟨?_, ?_⟩
  · intro s charSigned rest h10 hs
    have hb : bytes "SYN=" = [83, 89, 78, 61] := by decide
    rw [hb]
    show s.ProcessBinary charSigned (83 :: 89 :: 78 :: 61 :: rest) = _
    rw [ProcessBinary_syn_line s charSigned rest h10]
    unfold ProcessBinary_ACT
    simp only [ExpectState_not_handshaking s _ _ _ hs]
    rfl
  · decide

end OisDevice

end Ois

/-! ## Partial frames -/

namespace Ois

namespace OisDevice

theorem frameLength_nonempty (charSigned : Bool) (start : List Nat) (h : start ≠ [])
    (p c : Nat) (hp : p = charToU32 charSigned (start.getD 0 0))
    (hc : c = p &&& CL_COMMAND_MASK) (k t : Nat) (off : Option Nat)
    (hdr : binaryHeader p c start = (k, off.map (fun i => start.drop i), t)) :
    frameLength charSigned start =
      match off.map (fun i => start.drop i) with
      | some [] => none
      | some str => some (k + CmdStrLength str t)
      | none => some k := by
  unfold frameLength
  rw [if_neg h]
  simp only []
  rw [← hp, ← hc, hdr]
  try rfl

/-- A strict prefix of a complete frame: the decoder asks for more bytes and
changes nothing. -/
theorem ProcessBinary_strict_prefix (s : OisDevice) (charSigned : Bool) (P X : List Nat)
    (hP : P ≠ []) (hX : X ≠ [])
    (hF : frameLength charSigned (P ++ X) = some (P ++ X).length) :
    s.ProcessBinary charSigned P = (0, s) := by
  have hPX : P ++ X ≠ [] := fun e => hP (List.append_eq_nil.mp e).1
  have hXpos : 0 < X.length := List.length_pos.mpr hX
  have hg : (P ++ X).getD 0 0 = P.getD 0 0 :=
    List.getD_append _ _ _ _ (List.length_pos.mpr hP)
  obtain ⟨p, hp⟩ : ∃ p, p = charToU32 charSigned (P.getD 0 0) := ⟨_, rfl⟩
  obtain ⟨c, hc⟩ : ∃ c, c = p &&& CL_COMMAND_MASK := ⟨_, rfl⟩
  obtain ⟨k, t, off, hdr, hoff, _, _⟩ := binaryHeader_form p c hc
  rw [frameLength_nonempty charSigned (P ++ X) hPX p c (by rw [hg]; exact hp) hc k t off
    (hdr _)] at hF
  rw [ProcessBinary_nonempty s charSigned P hP p c hp hc k t off (hdr P)]
  clear hp hc hdr
  rw [List.length_append] at hF
  rcases hoff with ho | ho
  · subst ho
    simp only [Option.map_none', Option.some.injEq] at hF
    simp only [Option.map_none', reduceCtorEq, if_false]
    rw [if_pos (by omega)]
  · subst ho
    simp only [Option.map_some', Option.some.injEq] at hF ⊢
    by_cases hd : P.drop k = []
    · rw [if_pos hd]
    · have hk : k < P.length := by
        by_contra hcon
        exact hd (List.drop_eq_nil_of_le (by omega))
      have hdX : (P ++ X).drop k = P.drop k ++ X := List.drop_append_of_le_length (by omega)
      have hlen : (P.drop k).length = P.length - k := List.length_drop _ _
      rw [hdX] at hF
      have hne : ∃ a as, P.drop k ++ X = a :: as := by
        cases hq : P.drop k ++ X with
        | nil => exact absurd (List.append_eq_nil.mp hq).1 hd
        | cons a as => exact ⟨a, as, rfl⟩
      obtain ⟨a, as, hq⟩ := hne
      rw [hq] at hF
      simp only [Option.some.injEq] at hF
      rw [← hq] at hF
      have ht : t ∉ P.drop k := by
        intro ht
        have h1 := CmdStrLength_append (P.drop k) X t ht
        have h2 := CmdStrLength_le (P.drop k) t ht
        omega
      have hl : P.length < k + CmdStrLength (P.drop k) t := by
        rw [CmdStrLength_missing _ _ ht, hlen]
        have : 0 < OIS_MAX_COMMAND_LENGTH * 2 := by decide
        omega
      rw [if_neg hd, if_pos hl]

/-- C21. Partial frames are preserved.  A complete frame is a buffer whose
length is the frame length that the decoder computes for it.  For every
non-empty strict prefix P of a complete frame, `ProcessBinary` applied to P
returns 0 and changes nothing, and `ProcessCommands` on a binary endpoint that
buffers P (the frame fitting the buffer of 262 bytes) leaves the endpoint as it
is, P buffered.  In ASCII framing `ProcessCommands` leaves an endpoint as it is
when its buffer holds no line feed and fewer than 262 bytes. -/
theorem C21_partial_frames_preserved (charSigned : Bool) (P X : List Nat)
    (hP : P ≠ []) (hX : X ≠ [])
    (hF : frameLength charSigned (P ++ X) = some (P ++ X).length) :
    (∀ s : OisDevice, s.ProcessBinary charSigned P = (0, s)) ∧
    (∀ s : OisDevice, s.m_binary = true → s.m_commandBuffer = P →
      (P ++ X).length ≤ 2 * OIS_MAX_COMMAND_LENGTH →
      s.ProcessCommands charSigned = s ∧
      (s.ProcessCommands charSigned).m_commandBuffer = P) ∧
    (∀ s : OisDevice, s.m_binary = false → 10 ∉ s.m_commandBuffer →
      s.m_commandBuffer.length < 2 * OIS_MAX_COMMAND_LENGTH →
      s.ProcessCommands charSigned = s) := by
  have h1 := fun s : OisDevice => ProcessBinary_strict_prefix s charSigned P X hP hX hF
  refine ⟨h1, ?_, ?_⟩
  · intro s hb hbuf hlen
    have hXpos : 0 < X.length := List.length_pos.mpr hX
    rw [List.length_append] at hlen
    have e : s.ProcessCommands charSigned = s := by
      rw [ProcessCommands_binary s charSigned s.m_commandBuffer.length hb (Nat.le_refl _),
        binaryLoop_step charSigned _ s s.m_commandBuffer (by rw [hbuf]; exact hP)
          (Nat.le_refl _), hbuf, h1 s, if_pos rfl]
      simp only []
      rw [ProcessCommands_End_short _ _ _ (by omega), ← hbuf]
    exact ⟨e, by rw [e, hbuf]⟩
  · intro s hb hno hlen
    rw [ProcessCommands_ascii s charSigned hb, asciiLoop_no_newline s [] _ hno]
    simp only [List.nil_append]
    rw [ProcessCommands_End_short _ _ _ hlen]

/-- C21 at the binary declaration of Knob on channel 5, cut after five bytes,
and at the ASCII text `NON=Kn`. -/
theorem C21_partial_frames_preserved_witness :
    frameLength false ([0x52, 0x05, 0x00, 75, 110] ++ [111, 98, 0]) = some 8 ∧
    hubBinarySync.ProcessBinary false [0x52, 0x05, 0x00, 75, 110] = (0, hubBinarySync) ∧
    ({ hubBinarySync with m_commandBuffer := [0x52, 0x05, 0x00, 75, 110] } :
      OisDevice).ProcessCommands false =
      { hubBinarySync with m_commandBuffer := [0x52, 0x05, 0x00, 75, 110] } ∧
    ({ hubSync with m_commandBuffer := bytes "NON=Kn" } : OisDevice).ProcessCommands false =
      { hubSync with m_commandBuffer := bytes "NON=Kn" } :=
  have h := C21_partial_frames_preserved false [0x52, 0x05, 0x00, 75, 110] [111, 98, 0]
    (by decide) (by decide) (by decide)
  ⟨by decide, h.1 hubBinarySync,
    (h.2.1 { hubBinarySync with m_commandBuffer := [0x52, 0x05, 0x00, 75, 110] }
      (by decide) rfl (by decide)).1,
    h.2.2 { hubSync with m_commandBuffer := bytes "NON=Kn" } (by decide) (by decide)
      (by decide)⟩

end OisDevice

end Ois

/-! ## Chunking of the inbound stream -/

namespace Ois

namespace OisDevice

theorem AsciiToEnd_cons (s : OisDevice) (line : List Nat) (c : Nat) (cs : List Nat) :
    AsciiToEnd s line (c :: cs) =
      if c ≠ 10 then AsciiToEnd s (line ++ [c]) cs
      else ((cs.isEmpty || !(s.ProcessAscii line).2.m_binary) &&
        AsciiToEnd (s.ProcessAscii line).2 [] cs) := by
  rw [AsciiToEnd]

theorem AsciiToEnd_congr (s t : OisDevice) (line input : List Nat)
    (h : eraseBuffer s = eraseBuffer t) :
    AsciiToEnd s line input = AsciiToEnd t line input := by
  induction input generalizing s t line with
  | nil => rfl
  | cons c cs ih =>
    rw [AsciiToEnd_cons, AsciiToEnd_cons]
    by_cases hc : c ≠ 10
    · rw [if_pos hc, if_pos hc]
      exact ih s t _ h
    · rw [if_neg hc, if_neg hc]
      have h2 := (ProcessAscii_congr s t line h).2
      rw [ih _ _ [] h2, eraseBuffer_binary _ _ h2]

/-- On bytes that keep ASCII framing to their end, every part with bytes behind
it keeps ASCII framing after each of its lines. -/
theorem AsciiToEnd_split (X Y : List Nat) (hY : Y ≠ []) : ∀ (s : OisDevice) (line : List Nat),
    AsciiToEnd s line (X ++ Y) = true →
    StaysAscii s line X = true ∧
      AsciiToEnd (asciiLoop s line X).1 (asciiLoop s line X).2 Y = true := by
  induction X with
  | nil =>
    intro s line h
    exact ⟨rfl, h⟩
  | cons c cs ih =>
    intro s line h
    rw [List.cons_append, AsciiToEnd_cons] at h
    rw [StaysAscii_cons, asciiLoop_cons]
    by_cases hc : c ≠ 10
    · rw [if_pos hc] at h ⊢
      rw [if_pos hc]
      exact ih s _ h
    · rw [if_neg hc] at h ⊢
      rw [if_neg hc]
      have hne : (cs ++ Y).isEmpty = false := by
        cases cs with
        | nil =>
          cases Y with
          | nil => exact absurd rfl hY
          | cons y ys => rfl
        | cons a as => rfl
      rw [hne, Bool.false_or, Bool.and_eq_true] at h
      have h2 := ih _ _ h.2
      rw [Bool.and_eq_true]
      exact ⟨⟨h.1, h2.1⟩, h2.2⟩

/-- Reads of an ASCII stream that keeps ASCII framing to its end: delivering the
chunks one by one ends in the same endpoint as delivering them joined in one
read. -/
theorem pollLoop_chunks_end (charSigned : Bool) (tl : List (List Nat)) :
    ∀ (c : List Nat) (s : OisDevice), s.m_binary = false → 10 ∉ s.m_commandBuffer →
      c ≠ [] → (∀ x ∈ tl, x ≠ []) →
      (s.m_commandBuffer ++ (c :: tl).flatten).length ≤ 2 * OIS_MAX_COMMAND_LENGTH →
      AsciiToEnd s s.m_commandBuffer (c :: tl).flatten = true →
      pollLoop charSigned s (c :: tl) = pollLoop charSigned s [(c :: tl).flatten] := by
  induction tl with
  | nil =>
    intro c s _ _ _ _ _ _
    simp only [List.flatten_cons, List.flatten_nil, List.append_nil]
  | cons c' tl ih =>
    intro c s hb hR hc htl hlen hst
    have hc' : c' ≠ [] := htl c' (List.mem_cons_self _ _)
    have htl' : ∀ x ∈ tl, x ≠ [] := fun x hx => htl x (List.mem_cons_of_mem _ hx)
    have ej : (c :: c' :: tl).flatten = c ++ (c' :: tl).flatten := List.flatten_cons
    obtain ⟨Y, hYdef⟩ : ∃ Y, Y = (c' :: tl).flatten := ⟨_, rfl⟩
    rw [ej, ← hYdef] at hlen hst ⊢
    have hY : Y ≠ [] := by
      rw [hYdef, List.flatten_cons]
      intro e
      exact hc' (List.append_eq_nil.mp e).1
    have hYpos : 0 < Y.length := List.length_pos.mpr hY
    simp only [List.length_append] at hlen
    -- the first read
    have h1 := asciiLoop_congr { s with m_commandBuffer := s.m_commandBuffer ++ c } s
      s.m_commandBuffer c rfl
    have hl1 := asciiLoop_length s s.m_commandBuffer c
    have hr1 := asciiLoop_rest s s.m_commandBuffer c hR
    have hst := AsciiToEnd_split c Y hY s s.m_commandBuffer hst
    have hb1 := asciiLoop_binary s s.m_commandBuffer c hb hst.1
    have e1 : pollLoop charSigned s (c :: c' :: tl) =
        pollLoop charSigned
          { (asciiLoop { s with m_commandBuffer := s.m_commandBuffer ++ c }
              s.m_commandBuffer c).1 with
            m_commandBuffer := (asciiLoop s s.m_commandBuffer c).2 } (c' :: tl) := by
      rw [pollLoop_cons charSigned s c (c' :: tl) hc,
        ProcessCommands_ascii { s with m_commandBuffer := s.m_commandBuffer ++ c } charSigned hb]
      show pollLoop charSigned (ProcessCommands_End
        (asciiLoop { s with m_commandBuffer := s.m_commandBuffer ++ c } []
          (s.m_commandBuffer ++ c)).1 (s.m_commandBuffer ++ c)
        (asciiLoop { s with m_commandBuffer := s.m_commandBuffer ++ c } []
          (s.m_commandBuffer ++ c)).2) (c' :: tl) = _
      rw [asciiLoop_buffered _ s.m_commandBuffer c hR, ProcessCommands_End_short _ _ _
        (by simp only [List.length_append]; omega), h1.1]
    generalize hu : ({ (asciiLoop { s with m_commandBuffer := s.m_commandBuffer ++ c }
        s.m_commandBuffer c).1 with
      m_commandBuffer := (asciiLoop s s.m_commandBuffer c).2 } : OisDevice) = u at e1
    have hue : eraseBuffer u = eraseBuffer (asciiLoop s s.m_commandBuffer c).1 := by
      rw [← hu, ← h1.2]
      rfl
    have hubuf : u.m_commandBuffer = (asciiLoop s s.m_commandBuffer c).2 := by
      rw [← hu]
    have hub : u.m_binary = false := by
      rw [eraseBuffer_binary _ _ hue]
      exact hb1
    have hust : AsciiToEnd u u.m_commandBuffer Y = true := by
      rw [hubuf, AsciiToEnd_congr _ _ _ _ hue]
      exact hst.2
    have hur : 10 ∉ u.m_commandBuffer := by
      rw [hubuf]
      exact hr1
    have hulen : (u.m_commandBuffer ++ Y).length ≤ 2 * OIS_MAX_COMMAND_LENGTH := by
      rw [hubuf, List.length_append]
      omega
    have ih1 := ih c' u hub hur hc' htl' (hYdef ▸ hulen) (hYdef ▸ hust)
    rw [← hYdef] at ih1
    rw [e1, ih1, pollLoop_single charSigned u Y hY hub hur,
      pollLoop_single charSigned s (c ++ Y) (by
        intro e
        exact hY (List.append_eq_nil.mp e).2) hb hR,
      asciiLoop_append]
    -- the two last reads
    have h3 := asciiLoop_congr
      { s with m_commandBuffer := s.m_commandBuffer ++ (c ++ Y) } s s.m_commandBuffer c rfl
    have h4 := asciiLoop_congr
      { u with m_commandBuffer := u.m_commandBuffer ++ Y }
      (asciiLoop { s with m_commandBuffer := s.m_commandBuffer ++ (c ++ Y) }
        s.m_commandBuffer c).1 u.m_commandBuffer Y (by
        rw [h3.2, ← hue]
        rfl)
    rw [h3.1, ← hubuf, ← h4.1]
    have hl2 := asciiLoop_length { u with m_commandBuffer := u.m_commandBuffer ++ Y }
      u.m_commandBuffer Y
    apply ProcessCommands_End_congr _ _ _ _ _ h4.2
    · simp only [List.length_append]
      omega
    · simp only [List.length_append]
      rw [hubuf]
      omega
    · simp only [List.length_append]
      omega

theorem BinaryToEnd_fuel (charSigned : Bool) (f1 f2 : Nat) (s : OisDevice) (start : List Nat)
    (h1 : start.length ≤ f1) (h2 : start.length ≤ f2) :
    BinaryToEnd charSigned f1 s start = BinaryToEnd charSigned f2 s start := by
  induction f1 generalizing f2 s start with
  | zero =>
    have e : start = [] := List.length_eq_zero.mp (by omega)
    subst e
    cases f2 with
    | zero => rfl
    | succ f2 => simp [BinaryToEnd]
  | succ f1 ih =>
    cases f2 with
    | zero =>
      have e : start = [] := List.length_eq_zero.mp (by omega)
      subst e
      simp [BinaryToEnd]
    | succ f2 =>
      unfold BinaryToEnd
      by_cases h0 : start = []
      · rw [if_pos h0, if_pos h0]
      · rw [if_neg h0, if_neg h0]
        by_cases hz : (s.ProcessBinary charSigned start).1 = 0
        · rw [if_pos hz, if_pos hz]
        · rw [if_neg hz, if_neg hz]
          by_cases hn : (s.ProcessBinary charSigned start).1 < 0
          · rw [if_pos hn, if_pos hn]
          · rw [if_neg hn, if_neg hn]
            have := drop_length_lt start _ h0 hz hn
            rw [ih f2 _ _ (by omega) (by omega)]

theorem BinaryToEnd_step (charSigned : Bool) (f : Nat) (s : OisDevice) (start : List Nat)
    (h0 : start ≠ []) (hf : start.length ≤ f) :
    BinaryToEnd charSigned f s start =
      if (s.ProcessBinary charSigned start).1 = 0 then
        ((s.ProcessBinary charSigned start).2.m_binary ||
          decide (frameLength charSigned start = some start.length))
      else if (s.ProcessBinary charSigned start).1 < 0 then
        decide (frameLength charSigned start = some start.length)
      else
        (((s.ProcessBinary charSigned start).2.m_binary ||
            decide (frameLength charSigned start = some start.length)) &&
          BinaryToEnd charSigned f (s.ProcessBinary charSigned start).2
            (start.drop (s.ProcessBinary charSigned start).1.toNat)) := by
  have hpos := List.length_pos.mpr h0
  cases f with
  | zero => omega
  | succ f =>
    rw [BinaryToEnd, if_neg h0]
    by_cases hz : (s.ProcessBinary charSigned start).1 = 0
    · rw [if_pos hz, if_pos hz]
    · rw [if_neg hz, if_neg hz]
      by_cases hn : (s.ProcessBinary charSigned start).1 < 0
      · rw [if_pos hn, if_pos hn]
      · rw [if_neg hn, if_neg hn]
        have := drop_length_lt start _ h0 hz hn
        rw [BinaryToEnd_fuel charSigned f (f + 1) _ _ (by omega) (by omega)]

theorem BinaryToEnd_congr (charSigned : Bool) (f : Nat) (s t : OisDevice) (start : List Nat)
    (h : eraseBuffer s = eraseBuffer t) :
    BinaryToEnd charSigned f s start = BinaryToEnd charSigned f t start := by
  induction f generalizing s t start with
  | zero => rfl
  | succ f ih =>
    have hc := ProcessBinary_congr s t charSigned start h
    rw [BinaryToEnd, BinaryToEnd]
    by_cases h0 : start = []
    · rw [if_pos h0, if_pos h0]
    · rw [if_neg h0, if_neg h0, ← hc.1, eraseBuffer_binary _ _ hc.2, ih _ _ _ hc.2]

/-- The loop over a part of the bytes with bytes behind it: on a stream that
keeps the endpoint in binary framing to its end, the frames consumed from the
part are the first frames consumed from the whole stream, and the endpoint is
still in binary framing after them. -/
theorem binaryLoop_append_end (charSigned : Bool) (F n : Nat) :
    ∀ (P : List Nat), P.length ≤ n → ∀ (s : OisDevice) (Z : List Nat), Z ≠ [] →
      (P ++ Z).length ≤ F → BinaryToEnd charSigned F s (P ++ Z) = true →
      s.m_binary = true →
      ∃ (t : OisDevice) (R : List Nat),
        binaryLoop charSigned F s P = (t, some R) ∧ R.length ≤ P.length ∧
        binaryLoop charSigned F s (P ++ Z) = binaryLoop charSigned F t (R ++ Z) ∧
        BinaryToEnd charSigned F t (R ++ Z) = true ∧ t.m_binary = true := by
  induction n with
  | zero =>
    intro P hP s Z _ _ hst hb
    have e : P = [] := List.length_eq_zero.mp (by omega)
    subst e
    exact ⟨s, [], binaryLoop_nil charSigned F s, Nat.le_refl _, rfl, hst, hb⟩
  | succ n ih =>
    intro P hP s Z hZ hF hst hb
    by_cases h0 : P = []
    · subst h0
      exact ⟨s, [], binaryLoop_nil charSigned F s, Nat.le_refl _, rfl, hst, hb⟩
    have hPZ : P ++ Z ≠ [] := fun e => h0 (List.append_eq_nil.mp e).1
    have hPF : P.length ≤ F := by
      rw [List.length_append] at hF
      omega
    have stepP := binaryLoop_step charSigned F s P h0 hPF
    have stepW := binaryLoop_step charSigned F s (P ++ Z) hPZ hF
    have stW := BinaryToEnd_step charSigned F s (P ++ Z) hPZ hF
    have stay : s.ProcessBinary charSigned P = (0, s) →
        ∃ (t : OisDevice) (R : List Nat),
          binaryLoop charSigned F s P = (t, some R) ∧ R.length ≤ P.length ∧
          binaryLoop charSigned F s (P ++ Z) = binaryLoop charSigned F t (R ++ Z) ∧
          BinaryToEnd charSigned F t (R ++ Z) = true ∧ t.m_binary = true := by
      intro hp
      refine ⟨s, P, ?_, Nat.le_refl _, rfl, hst, hb⟩
      rw [stepP, hp]
      simp
    -- a frame that ends with the last byte is not complete in the part
    have last : frameLength charSigned (P ++ Z) = some (P ++ Z).length →
        s.ProcessBinary charSigned P = (0, s) :=
      fun hF2 => ProcessBinary_strict_prefix s charSigned P Z h0 hZ hF2
    rcases ProcessBinary_prefix s charSigned P Z with hp | hp
    · exact stay hp
    · rw [hp] at stepW stW
      rcases ProcessBinary_result s charSigned P with ⟨hz, hs⟩ | hn | ⟨hpos, hle⟩
      · rw [if_pos hz] at stW
        rw [hst] at stW
        have hor := Eq.symm stW
        rw [Bool.or_eq_true] at hor
        rcases hor with hbin | hlast
        · rcases hs with hs | hs
          · apply stay
            exact Prod.ext hz hs
          · rw [hs] at hbin
            exact absurd hbin (by decide)
        · exact stay (last (of_decide_eq_true hlast))
      · rw [if_neg (by omega), if_pos hn] at stW
        rw [hst] at stW
        exact stay (last (of_decide_eq_true stW.symm))
      · have hz : ¬ (s.ProcessBinary charSigned P).1 = 0 := by omega
        have hn : ¬ (s.ProcessBinary charSigned P).1 < 0 := by omega
        rw [if_neg hz, if_neg hn] at stepP stepW stW
        have hk : (s.ProcessBinary charSigned P).1.toNat ≤ P.length := by omega
        have hd : (P ++ Z).drop (s.ProcessBinary charSigned P).1.toNat =
            P.drop (s.ProcessBinary charSigned P).1.toNat ++ Z :=
          List.drop_append_of_le_length hk
        rw [hd] at stepW stW
        rw [hst] at stW
        have hst2 := Eq.symm stW
        rw [Bool.and_eq_true, Bool.or_eq_true] at hst2
        have hbin : (s.ProcessBinary charSigned P).2.m_binary = true := by
          rcases hst2.1 with hbin | hlast
          · exact hbin
          · have e := last (of_decide_eq_true hlast)
            rw [e] at hz
            exact absurd rfl hz
        have hlt := drop_length_lt P _ h0 hz hn
        obtain ⟨t, R, e1, e2, e3, e4, e5⟩ := ih
          (P.drop (s.ProcessBinary charSigned P).1.toNat) (by omega)
          (s.ProcessBinary charSigned P).2 Z hZ (by
            rw [List.length_append] at hF ⊢
            omega) hst2.2 hbin
        exact ⟨t, R, by rw [stepP, e1], by omega, by rw [stepW, e3], e4, e5⟩

/-- Reads of a binary stream that keeps binary framing to its end: delivering
the chunks one by one ends in the same endpoint as delivering them joined in
one read. -/
theorem pollLoop_chunks_binary_end (charSigned : Bool) (tl : List (List Nat)) :
    ∀ (c : List Nat) (s : OisDevice), s.m_binary = true → c ≠ [] → (∀ x ∈ tl, x ≠ []) →
      (s.m_commandBuffer ++ (c :: tl).flatten).length ≤ 2 * OIS_MAX_COMMAND_LENGTH →
      BinaryToEnd charSigned (2 * OIS_MAX_COMMAND_LENGTH) s
        (s.m_commandBuffer ++ (c :: tl).flatten) = true →
      pollLoop charSigned s (c :: tl) = pollLoop charSigned s [(c :: tl).flatten] := by
  induction tl with
  | nil =>
    intro c s _ _ _ _ _
    simp only [List.flatten_cons, List.flatten_nil, List.append_nil]
  | cons c' tl ih =>
    intro c s hb hc htl hlen hst
    have hc' : c' ≠ [] := htl c' (List.mem_cons_self _ _)
    have htl' : ∀ x ∈ tl, x ≠ [] := fun x hx => htl x (List.mem_cons_of_mem _ hx)
    have ej : (c :: c' :: tl).flatten = c ++ (c' :: tl).flatten := List.flatten_cons
    obtain ⟨Y, hYdef⟩ : ∃ Y, Y = (c' :: tl).flatten := ⟨_, rfl⟩
    rw [ej, ← hYdef] at hlen hst ⊢
    have hY : Y ≠ [] := by
      rw [hYdef, List.flatten_cons]
      intro e
      exact hc' (List.append_eq_nil.mp e).1
    have hYpos : 0 < Y.length := List.length_pos.mpr hY
    rw [← List.append_assoc] at hlen hst
    obtain ⟨t, r1, e1, e2, e3, e4, e5⟩ := binaryLoop_append_end charSigned
      (2 * OIS_MAX_COMMAND_LENGTH) (s.m_commandBuffer ++ c).length (s.m_commandBuffer ++ c)
      (Nat.le_refl _) s Y hY hlen hst hb
    simp only [List.length_append] at hlen e2
    -- the first read
    have h1 := binaryLoop_congr charSigned (2 * OIS_MAX_COMMAND_LENGTH)
      { s with m_commandBuffer := s.m_commandBuffer ++ c } s (s.m_commandBuffer ++ c) rfl
    rw [e1] at h1
    have eu : pollLoop charSigned s (c :: c' :: tl) =
        pollLoop charSigned
          { (binaryLoop charSigned (2 * OIS_MAX_COMMAND_LENGTH)
              { s with m_commandBuffer := s.m_commandBuffer ++ c }
              (s.m_commandBuffer ++ c)).1 with m_commandBuffer := r1 } (c' :: tl) := by
      rw [pollLoop_cons charSigned s c (c' :: tl) hc,
        ProcessCommands_binary { s with m_commandBuffer := s.m_commandBuffer ++ c } charSigned
          (2 * OIS_MAX_COMMAND_LENGTH) hb (by
            show (s.m_commandBuffer ++ c).length ≤ _
            simp only [List.length_append]
            omega)]
      show pollLoop charSigned
        (match binaryLoop charSigned (2 * OIS_MAX_COMMAND_LENGTH)
            { s with m_commandBuffer := s.m_commandBuffer ++ c } (s.m_commandBuffer ++ c) with
          | (self1, none) => self1
          | (self1, some rest) => ProcessCommands_End self1 (s.m_commandBuffer ++ c) rest)
        (c' :: tl) = _
      generalize binaryLoop charSigned (2 * OIS_MAX_COMMAND_LENGTH)
        { s with m_commandBuffer := s.m_commandBuffer ++ c } (s.m_commandBuffer ++ c) = x
        at h1 ⊢
      rcases x with ⟨a, oa⟩
      simp only at h1
      rw [h1.1]
      simp only []
      rw [ProcessCommands_End_short _ _ _ (by simp only [List.length_append]; omega)]
    generalize hu : ({ (binaryLoop charSigned (2 * OIS_MAX_COMMAND_LENGTH)
        { s with m_commandBuffer := s.m_commandBuffer ++ c } (s.m_commandBuffer ++ c)).1 with
      m_commandBuffer := r1 } : OisDevice) = u at eu
    have hue : eraseBuffer u = eraseBuffer t := by
      rw [← hu, ← h1.2]
      rfl
    have hubuf : u.m_commandBuffer = r1 := by
      rw [← hu]
    have hub : u.m_binary = true := by
      rw [eraseBuffer_binary _ _ hue]
      exact e5
    have hust : BinaryToEnd charSigned (2 * OIS_MAX_COMMAND_LENGTH) u
        (u.m_commandBuffer ++ Y) = true := by
      rw [hubuf, BinaryToEnd_congr _ _ _ _ _ hue]
      exact e4
    have hulen : (u.m_commandBuffer ++ Y).length ≤ 2 * OIS_MAX_COMMAND_LENGTH := by
      rw [hubuf, List.length_append]
      omega
    have ih1 := ih c' u hub hc' htl' (hYdef ▸ hulen) (hYdef ▸ hust)
    rw [← hYdef] at ih1
    rw [eu, ih1,
      pollLoop_single_binary charSigned u Y (2 * OIS_MAX_COMMAND_LENGTH) hY hub hulen,
      pollLoop_single_binary charSigned s (c ++ Y) (2 * OIS_MAX_COMMAND_LENGTH) (by
        intro e
        exact hY (List.append_eq_nil.mp e).2) hb (by
        simp only [List.length_append]
        omega)]
    -- the two last reads
    have h3 := binaryLoop_congr charSigned (2 * OIS_MAX_COMMAND_LENGTH)
      { s with m_commandBuffer := s.m_commandBuffer ++ (c ++ Y) } s
      (s.m_commandBuffer ++ (c ++ Y)) rfl
    have h4 := binaryLoop_congr charSigned (2 * OIS_MAX_COMMAND_LENGTH)
      { u with m_commandBuffer := u.m_commandBuffer ++ Y } t (u.m_commandBuffer ++ Y) (by
        rw [← hue]
        rfl)
    have e3a : binaryLoop charSigned (2 * OIS_MAX_COMMAND_LENGTH) s
        (s.m_commandBuffer ++ (c ++ Y)) =
        binaryLoop charSigned (2 * OIS_MAX_COMMAND_LENGTH) t (u.m_commandBuffer ++ Y) := by
      rw [← List.append_assoc, e3, hubuf]
    rw [e3a] at h3
    have hl := binaryLoop_length charSigned (2 * OIS_MAX_COMMAND_LENGTH)
      { u with m_commandBuffer := u.m_commandBuffer ++ Y } (u.m_commandBuffer ++ Y)
    have hl3 := binaryLoop_length charSigned (2 * OIS_MAX_COMMAND_LENGTH)
      { s with m_commandBuffer := s.m_commandBuffer ++ (c ++ Y) }
      (s.m_commandBuffer ++ (c ++ Y))
    apply finish_congr
    · rw [h4.1, h3.1]
    · rw [h4.2, h3.2]
    · intro hn
      refine ⟨(hl.2 hn).1, (hl3.2 ?_).1⟩
      rw [h3.1, ← h4.1]
      exact hn
    · exact hl.1
    · simp only [List.length_append]
      rw [hubuf]
      omega
    · simp only [List.length_append]
      omega

/-- A read behind buffered bytes is a read of the bytes and the chunk by the
endpoint with an empty buffer. -/
theorem pollLoop_buffered (charSigned : Bool) (s : OisDevice) (c : List Nat)
    (tl : List (List Nat)) (hc : c ≠ []) :
    pollLoop charSigned s (c :: tl) =
      pollLoop charSigned { s with m_commandBuffer := [] } ((s.m_commandBuffer ++ c) :: tl) := by
  rw [pollLoop_cons charSigned s c tl hc,
    pollLoop_cons charSigned { s with m_commandBuffer := [] } (s.m_commandBuffer ++ c) tl
      (fun e => hc (List.append_eq_nil.mp e).2)]
  rfl

/-- C19, amended: the endpoint, whatever bytes its command buffer holds, receives
a stream that fits the buffer of 262 bytes together with them and on which it
keeps the framing it starts in up to the end: in ASCII framing a line that
changes the framing has no byte behind it; in binary framing a frame that
changes the framing, and a text that the decoder rejects, ends with the last
byte.  For every split of the stream in non-empty reads, `ConnectAndPoll` ends
in the same endpoint (catalogs, values, event buffer, connection state,
buffered bytes and transport trace) as when the stream comes in one read. -/
theorem C19_chunking_independence (charSigned : Bool) (s : OisDevice)
    (chunks : List (List Nat))
    (hne : ∀ x ∈ chunks, x ≠ [])
    (hlen : (s.m_commandBuffer ++ chunks.flatten).length ≤ 2 * OIS_MAX_COMMAND_LENGTH)
    (hst : (s.m_binary = false ∧
        AsciiToEnd s [] (s.m_commandBuffer ++ chunks.flatten) = true) ∨
      (s.m_binary = true ∧
        BinaryToEnd charSigned (s.m_commandBuffer ++ chunks.flatten).length s
          (s.m_commandBuffer ++ chunks.flatten) = true)) :
    s.ConnectAndPoll charSigned true chunks =
      s.ConnectAndPoll charSigned true [chunks.flatten] := by
  unfold ConnectAndPoll
  simp only [Bool.not_true, Bool.false_eq_true, if_false]
  cases chunks with
  | nil => rfl
  | cons c tl =>
    have hc : c ≠ [] := hne c (List.mem_cons_self _ _)
    have htl : ∀ x ∈ tl, x ≠ [] := fun x hx => hne x (List.mem_cons_of_mem _ hx)
    have hX : (c :: tl).flatten ≠ [] := by
      rw [List.flatten_cons]
      exact fun e => hc (List.append_eq_nil.mp e).1
    rcases hst with ⟨hb, hst⟩ | ⟨hb, hst⟩
    · have ej : ((s.m_commandBuffer ++ c) :: tl).flatten =
          s.m_commandBuffer ++ (c :: tl).flatten := by
        rw [List.flatten_cons, List.flatten_cons, List.append_assoc]
      rw [pollLoop_buffered charSigned s c tl hc,
        pollLoop_buffered charSigned s (c :: tl).flatten [] hX, ← ej]
      apply pollLoop_chunks_end charSigned tl (s.m_commandBuffer ++ c)
        { s with m_commandBuffer := [] } hb (List.not_mem_nil _)
        (fun e => hc (List.append_eq_nil.mp e).2) htl
      · rw [ej]
        exact hlen
      · rw [ej]
        show AsciiToEnd { s with m_commandBuffer := [] } [] _ = true
        rw [AsciiToEnd_congr { s with m_commandBuffer := [] } s _ _ rfl]
        exact hst
    · apply pollLoop_chunks_binary_end charSigned tl c s hb hc htl hlen
      rw [BinaryToEnd_fuel charSigned _ (s.m_commandBuffer ++ (c :: tl).flatten).length s _
        hlen (Nat.le_refl _)]
      exact hst

/-- C19, amended, at four streams split inside their lines and frames: the line
`SYN=2,B`, which switches to binary framing with its last byte; two ASCII lines
behind the buffered bytes `SY`; two binary value frames; and a binary value
frame followed by the END frame, which resets to ASCII framing with the last
byte. -/
theorem C19_chunking_independence_witness :
    (hubStart.ConnectAndPoll false true [bytes "SYN=", bytes "2,B\n"] =
        hubStart.ConnectAndPoll false true [[bytes "SYN=", bytes "2,B\n"].flatten] ∧
      (hubStart.ConnectAndPoll false true [bytes "SYN=", bytes "2,B\n"]).m_binary = true) ∧
    ({ hubStart with m_commandBuffer := bytes "SY" }.ConnectAndPoll false true
        [bytes "N=1\nNIN=Di", bytes "al,4\n"] =
      { hubStart with m_commandBuffer := bytes "SY" }.ConnectAndPoll false true
        [[bytes "N=1\nNIN=Di", bytes "al,4\n"].flatten] ∧
      ({ hubStart with m_commandBuffer := bytes "SY" }.ConnectAndPoll false true
        [bytes "N=1\nNIN=Di", bytes "al,4\n"]).m_numericInputs = [dial 0]) ∧
    hubBinary.ConnectAndPoll false true [[0x38], [0x05, 0x0B, 0x07], [0x00, 0x05, 0x00]] =
      hubBinary.ConnectAndPoll false true
        [[[0x38], [0x05, 0x0B, 0x07], [0x00, 0x05, 0x00]].flatten] ∧
    (hubBinary.ConnectAndPoll false true [[0x38], [0x05, 0x07]] =
        hubBinary.ConnectAndPoll false true [[[0x38], [0x05, 0x07]].flatten] ∧
      (hubBinary.ConnectAndPoll false true [[0x38], [0x05, 0x07]]).m_binary = false) :=
  ⟨⟨C19_chunking_independence false hubStart [bytes "SYN=", bytes "2,B\n"]
      (by decide) (by decide) (Or.inl ⟨by decide, by decide⟩), by decide⟩,
    ⟨C19_chunking_independence false { hubStart with m_commandBuffer := bytes "SY" }
      [bytes "N=1\nNIN=Di", bytes "al,4\n"]
      (by decide) (by decide) (Or.inl ⟨by decide, by decide⟩), by decide⟩,
    C19_chunking_independence false hubBinary
      [[0x38], [0x05, 0x0B, 0x07], [0x00, 0x05, 0x00]]
      (by decide) (by decide) (Or.inr ⟨by decide, by decide⟩),
    ⟨C19_chunking_independence false hubBinary [[0x38], [0x05, 0x07]]
      (by decide) (by decide) (Or.inr ⟨by decide, by decide⟩), by decide⟩⟩

/-- C19 as stated fails: the stream is the line `SYN=2,B` and the binary
declaration of the output Knob on channel 10.  Read in two chunks, the endpoint
declares the output; read at once, the bytes behind the line are scanned as
ASCII text in the same call, the line feed inside the declaration ends a line
that is dropped, and the output is never declared. -/
theorem C19_counterexample :
    (hubStart.ConnectAndPoll false true
      [bytes "SYN=2,B\n", declTen]).m_numericOutputs.map (fun v => v.channel) = [10] ∧
    (hubStart.ConnectAndPoll false true
      [bytes "SYN=2,B\n", declTen]).m_commandBuffer = [] ∧
    (hubStart.ConnectAndPoll false true
      [[bytes "SYN=2,B\n", declTen].flatten]).m_numericOutputs = [] ∧
    (hubStart.ConnectAndPoll false true
      [[bytes "SYN=2,B\n", declTen].flatten]).m_commandBuffer = [0] ++ bytes "Knob" ++ [0] := by
  decide

end OisDevice

end Ois

/-! ## The catalogs under one operation -/

namespace Ois

theorem map_updateAt {α β : Type} (key : α → β) (l : List α) (i : Nat) (f : α → α)
    (hf : ∀ v, key (f v) = key v) : (updateAt l i f).map key = l.map key := by
  induction l generalizing i with
  | nil => rfl
  | cons v vs ih =>
    cases i with
    | zero => simp [updateAt, hf]
    | succ i => simp [updateAt, ih]

namespace OisDevice

/-- The two outcomes of `ExpectState`: the endpoint is unchanged, or the check
failed in Handshaking and the endpoint was reset and `END` written. -/
theorem ExpectState_shape (s : OisDevice) (mask : Nat) (cmd : List Nat) (v : Nat) :
    ∃ (b : Bool) (t : OisDevice), s.ExpectState mask cmd v = (b, t) ∧
      (t = s ∨ (b = false ∧ t = s.ClearState.SendText (bytes "END\n"))) := by
  unfold ExpectState
  simp only []
  split
  · split
    · exact ⟨false, _, rfl, Or.inr ⟨rfl, rfl⟩⟩
    · exact ⟨false, _, rfl, Or.inl rfl⟩
  · exact ⟨true, _, rfl, Or.inl rfl⟩

theorem CatalogsKept_refl (s : OisDevice) : CatalogsKept s s :=
  ⟨Or.inl rfl, Or.inl rfl, Or.inl rfl⟩

theorem ProcessAscii_KeyVal_catalogs (s : OisDevice) (cmd : List Nat) :
    CatalogsKept s (ProcessAscii_KeyVal s cmd).2 ∨
    CatalogsCleared (ProcessAscii_KeyVal s cmd).2 := by
  obtain ⟨b, t, e, ht⟩ := ExpectState_shape s (stateBit .Active) cmd 2
  unfold ProcessAscii_KeyVal
  simp only [e]
  rcases ht with rfl | ⟨rfl, rfl⟩
  · left
    cases b
    · exact CatalogsKept_refl t
    · simp only [Bool.not_true, Bool.false_eq_true, if_false]
      split
      · exact ⟨Or.inl rfl, Or.inl (map_updateAt entryKey _ _ _ (by intro v; rfl)), Or.inl rfl⟩
      · exact CatalogsKept_refl t
  · right
    exact ⟨rfl, rfl, rfl⟩

theorem ProcessAscii_SYN_catalogs (s : OisDevice) (cmd payload : List Nat) :
    CatalogsKept s (ProcessAscii_SYN s cmd payload).2 ∨
    CatalogsCleared (ProcessAscii_SYN s cmd payload).2 := by
  obtain ⟨b, t, e, ht⟩ := ExpectState_shape s (stateBit .Handshaking) cmd 1
  unfold ProcessAscii_SYN
  simp only [e]
  generalize decide ((ZeroDelimiter payload 44).2.getD 0 0 = 66) = binary
  generalize atoi (ZeroDelimiter payload 44).1 = version
  cases b
  · right
    simp only [Bool.not_false, if_true]
    split
    · split
      · exact ⟨rfl, rfl, rfl⟩
      · exact ⟨rfl, rfl, rfl⟩
    · exact ⟨rfl, rfl, rfl⟩
  · rcases ht with rfl | ⟨hb, _⟩
    · simp only [Bool.not_true, Bool.false_eq_true, if_false]
      split
      · left
        split
        · exact CatalogsKept_refl t
        · exact CatalogsKept_refl t
      · right
        exact ⟨rfl, rfl, rfl⟩
    · exact absurd hb (by decide)

theorem ProcessAscii_PID_catalogs (s : OisDevice) (cmd payload : List Nat) :
    CatalogsKept s (ProcessAscii_PID s cmd payload).2 ∨
    CatalogsCleared (ProcessAscii_PID s cmd payload).2 := by
  obtain ⟨b, t, e, ht⟩ := ExpectState_shape s (stateBit .Synchronisation) cmd 2
  unfold ProcessAscii_PID
  simp only [e]
  rcases ht with rfl | ⟨rfl, rfl⟩
  · exact Or.inl (CatalogsKept_refl t)
  · exact Or.inr ⟨rfl, rfl, rfl⟩

theorem ProcessAscii_CMD_catalogs (s : OisDevice) (cmd payload : List Nat) :
    CatalogsKept s (ProcessAscii_CMD s cmd payload).2 ∨
    CatalogsCleared (ProcessAscii_CMD s cmd payload).2 := by
  obtain ⟨b, t, e, ht⟩ := ExpectState_shape s (stateBit .Synchronisation |||
    (if s.m_protocolVersion > 1 then stateBit .Active else 0)) cmd 1
  unfold ProcessAscii_CMD
  simp only [e]
  rcases ht with rfl | ⟨rfl, rfl⟩
  · left
    cases b
    · exact CatalogsKept_refl t
    · exact ⟨Or.inl rfl, Or.inl rfl, Or.inr ⟨_, rfl⟩⟩
  · exact Or.inr ⟨rfl, rfl, rfl⟩

theorem ProcessAscii_Numeric_catalogs (s : OisDevice) (type : Nat) (cmd payload : List Nat) :
    CatalogsKept s (ProcessAscii_Numeric s type cmd payload).2 ∨
    CatalogsCleared (ProcessAscii_Numeric s type cmd payload).2 := by
  unfold ProcessAscii_Numeric
  simp only []
  generalize decide (type = NON ∨ type = NOF ∨ type = NOB) = output
  obtain ⟨b, t, e, ht⟩ := ExpectState_shape s (stateBit .Synchronisation |||
    (if s.m_protocolVersion > 1 then stateBit .Active else 0)) cmd
    (if output = true then 2 else 1)
  simp only [e]
  rcases ht with rfl | ⟨rfl, rfl⟩
  · left
    cases b
    · exact CatalogsKept_refl t
    · cases output
      · exact ⟨Or.inr ⟨_, rfl⟩, Or.inl rfl, Or.inl rfl⟩
      · exact ⟨Or.inl rfl, Or.inr ⟨_, rfl⟩, Or.inl rfl⟩
  · exact Or.inr ⟨rfl, rfl, rfl⟩

theorem ProcessAscii_ACT_catalogs (s : OisDevice) (cmd : List Nat) :
    CatalogsKept s (ProcessAscii_ACT s cmd).2 ∨ CatalogsCleared (ProcessAscii_ACT s cmd).2 := by
  obtain ⟨b, t, e, ht⟩ := ExpectState_shape s (stateBit .Synchronisation) cmd 1
  unfold ProcessAscii_ACT
  simp only [e]
  rcases ht with rfl | ⟨rfl, rfl⟩
  · exact Or.inl (CatalogsKept_refl t)
  · exact Or.inr ⟨rfl, rfl, rfl⟩

theorem ProcessAscii_ACT_lists (u : OisDevice) (cmd : List Nat) :
    ((ProcessAscii_ACT u cmd).2.m_numericInputs = u.m_numericInputs ∧
      (ProcessAscii_ACT u cmd).2.m_numericOutputs = u.m_numericOutputs ∧
      (ProcessAscii_ACT u cmd).2.m_events = u.m_events) ∨
    CatalogsCleared (ProcessAscii_ACT u cmd).2 := by
  obtain ⟨b, t, e, ht⟩ := ExpectState_shape u (stateBit .Synchronisation) cmd 1
  unfold ProcessAscii_ACT
  simp only [e]
  rcases ht with rfl | ⟨rfl, rfl⟩
  · exact Or.inl ⟨rfl, rfl, rfl⟩
  · exact Or.inr ⟨rfl, rfl, rfl⟩

theorem ProcessAscii_TNI_catalogs (s : OisDevice) (cmd payload : List Nat) :
    CatalogsKept s (ProcessAscii_TNI s cmd payload).2 ∨
    CatalogsCleared (ProcessAscii_TNI s cmd payload).2 := by
  obtain ⟨b, t, e, ht⟩ := ExpectState_shape s (stateBit .Synchronisation ||| stateBit .Active)
    cmd 2
  unfold ProcessAscii_TNI
  simp only [e]
  rcases ht with rfl | ⟨rfl, rfl⟩
  · generalize FindChannel t.m_numericInputs (atoi (ZeroDelimiter payload 44).1) = o
    cases o with
    | none => exact ProcessAscii_ACT_catalogs t cmd
    | some i =>
      simp only []
      rcases ProcessAscii_ACT_lists
        { t with
          m_numericInputs := updateAt t.m_numericInputs i
            (fun v => { v with active := decide (atoi (ZeroDelimiter payload 44).2 ≠ 0) }) }
        cmd with h | h
      · left
        refine ⟨Or.inl ?_, Or.inl ?_, Or.inl ?_⟩
        · rw [h.1]
          exact map_updateAt entryKey _ _ _ (by intro v; rfl)
        · rw [h.2.1]
        · rw [h.2.2]
      · exact Or.inr h
  · right
    have hf : FindChannel (s.ClearState.SendText (bytes "END\n")).m_numericInputs
        (atoi (ZeroDelimiter payload 44).1) = none := rfl
    simp only [hf]
    rcases ProcessAscii_ACT_lists (s.ClearState.SendText (bytes "END\n")) cmd with h | h
    · exact ⟨h.1, h.2.1, h.2.2⟩
    · exact h

theorem ProcessAscii_EXC_catalogs (s : OisDevice) (cmd payload : List Nat) :
    CatalogsKept s (ProcessAscii_EXC s cmd payload).2 ∨
    CatalogsCleared (ProcessAscii_EXC s cmd payload).2 := by
  obtain ⟨b, t, e, ht⟩ := ExpectState_shape s (stateBit .Active) cmd 1
  unfold ProcessAscii_EXC
  simp only [e]
  rcases ht with rfl | ⟨rfl, rfl⟩
  · left
    split
    · exact CatalogsKept_refl t
    · exact CatalogsKept_refl t
  · right
    split
    · exact ⟨rfl, rfl, rfl⟩
    · exact ⟨rfl, rfl, rfl⟩

theorem ProcessAscii_END_catalogs (s : OisDevice) :
    CatalogsKept s (ProcessAscii_END s).2 ∨ CatalogsCleared (ProcessAscii_END s).2 := by
  unfold ProcessAscii_END
  simp only []
  split
  · exact Or.inr ⟨rfl, rfl, rfl⟩
  · exact Or.inl (CatalogsKept_refl s)

theorem ProcessAscii_Switch_catalogs (s : OisDevice) (type : Nat) (cmd payload : List Nat) :
    CatalogsKept s (ProcessAscii_Switch s type cmd payload).2 ∨
    CatalogsCleared (ProcessAscii_Switch s type cmd payload).2 := by
  unfold ProcessAscii_Switch
  split
  · exact ProcessAscii_SYN_catalogs s cmd payload
  split
  · exact ProcessAscii_PID_catalogs s cmd payload
  split
  · exact ProcessAscii_CMD_catalogs s cmd payload
  split
  · exact ProcessAscii_Numeric_catalogs s type cmd payload
  split
  · exact ProcessAscii_TNI_catalogs s cmd payload
  split
  · exact ProcessAscii_ACT_catalogs s cmd
  split
  · exact ProcessAscii_EXC_catalogs s cmd payload
  split
  · exact Or.inl (CatalogsKept_refl s)
  split
  · exact ProcessAscii_END_catalogs s
  · exact Or.inl (CatalogsKept_refl s)

theorem ProcessAscii_catalogs (s : OisDevice) (cmd : List Nat) :
    CatalogsKept s (s.ProcessAscii cmd).2 ∨ CatalogsCleared (s.ProcessAscii cmd).2 := by
  unfold ProcessAscii
  by_cases h0 : cmd.getD 0 0 = 0
  · rw [if_pos h0]
    exact Or.inl (CatalogsKept_refl s)
  · rw [if_neg h0]
    simp only []
    by_cases h1 : isdigit (cmd.getD 0 0) = true
    · rw [if_pos h1]
      exact ProcessAscii_KeyVal_catalogs s cmd
    · rw [if_neg h1]
      exact ProcessAscii_Switch_catalogs s _ cmd _

theorem ProcessBinary_PID_catalogs (s : OisDevice) (start : List Nat) (n : Nat) :
    CatalogsKept s (ProcessBinary_PID s start n).2 ∨
    CatalogsCleared (ProcessBinary_PID s start n).2 := by
  obtain ⟨b, t, e, ht⟩ := ExpectState_shape s (stateBit .Synchronisation) (bytes "PID") 2
  unfold ProcessBinary_PID
  simp only [e]
  rcases ht with rfl | ⟨rfl, rfl⟩
  · exact Or.inl (CatalogsKept_refl t)
  · exact Or.inr ⟨rfl, rfl, rfl⟩

theorem ProcessBinary_CMD_catalogs (s : OisDevice) (start : List Nat) (n : Nat) :
    CatalogsKept s (ProcessBinary_CMD s start n).2 ∨
    CatalogsCleared (ProcessBinary_CMD s start n).2 := by
  obtain ⟨b, t, e, ht⟩ := ExpectState_shape s (stateBit .Synchronisation ||| stateBit .Active)
    (bytes "CMD") 2
  unfold ProcessBinary_CMD
  simp only [e]
  rcases ht with rfl | ⟨rfl, rfl⟩
  · left
    cases b
    · exact CatalogsKept_refl t
    · exact ⟨Or.inl rfl, Or.inl rfl, Or.inr ⟨_, rfl⟩⟩
  · exact Or.inr ⟨rfl, rfl, rfl⟩

theorem ProcessBinary_Declare_catalogs (s : OisDevice) (payload : Nat) (start : List Nat)
    (n : Nat) :
    CatalogsKept s (ProcessBinary_Declare s payload start n).2 ∨
    CatalogsCleared (ProcessBinary_Declare s payload start n).2 := by
  obtain ⟨b, t, e, ht⟩ := ExpectState_shape s (stateBit .Synchronisation |||
    (if s.m_protocolVersion > 1 then stateBit .Active else 0)) (bytes "NIO") 2
  unfold ProcessBinary_Declare
  simp only [e]
  generalize decide (payload &&& CL_N_PAYLOAD_O ≠ 0) = output
  rcases ht with rfl | ⟨rfl, rfl⟩
  · left
    cases b
    · exact CatalogsKept_refl t
    · cases output
      · exact ⟨Or.inr ⟨_, rfl⟩, Or.inl rfl, Or.inl rfl⟩
      · exact ⟨Or.inl rfl, Or.inr ⟨_, rfl⟩, Or.inl rfl⟩
  · exact Or.inr ⟨rfl, rfl, rfl⟩

theorem ProcessBinary_ACT_catalogs (s : OisDevice) (n : Nat) :
    CatalogsKept s (ProcessBinary_ACT s n).2 ∨ CatalogsCleared (ProcessBinary_ACT s n).2 := by
  obtain ⟨b, t, e, ht⟩ := ExpectState_shape s (stateBit .Synchronisation) (bytes "ACT") 2
  unfold ProcessBinary_ACT
  simp only [e]
  rcases ht with rfl | ⟨rfl, rfl⟩
  · exact Or.inl (CatalogsKept_refl t)
  · exact Or.inr ⟨rfl, rfl, rfl⟩

theorem ProcessBinary_TNI_catalogs (s : OisDevice) (payload : Nat) (start : List Nat)
    (n : Nat) :
    CatalogsKept s (ProcessBinary_TNI s payload start n).2 ∨
    CatalogsCleared (ProcessBinary_TNI s payload start n).2 := by
  obtain ⟨b, t, e, ht⟩ := ExpectState_shape s (stateBit .Synchronisation ||| stateBit .Active)
    (bytes "TNI") 2
  unfold ProcessBinary_TNI
  simp only [e]
  rcases ht with rfl | ⟨rfl, rfl⟩
  · left
    split
    · exact ⟨Or.inl (map_updateAt entryKey _ _ _ (by intro v; rfl)), Or.inl rfl, Or.inl rfl⟩
    · exact CatalogsKept_refl t
  · right
    have hf : FindChannel (s.ClearState.SendText (bytes "END\n")).m_numericInputs
        ((readU16 start 1 : Nat) : Int) = none := rfl
    simp only [hf]
    exact ⟨rfl, rfl, rfl⟩

theorem ProcessBinary_EXC_catalogs (s : OisDevice) (payload command : Nat)
    (start : List Nat) (n : Nat) :
    CatalogsKept s (ProcessBinary_EXC s payload command start n).2 ∨
    CatalogsCleared (ProcessBinary_EXC s payload command start n).2 := by
  obtain ⟨b, t, e, ht⟩ := ExpectState_shape s (stateBit .Active) (bytes "EXC") 2
  unfold ProcessBinary_EXC
  simp only [e]
  rcases ht with rfl | ⟨rfl, rfl⟩
  · left
    split
    · exact CatalogsKept_refl t
    · exact CatalogsKept_refl t
  · right
    split
    · exact ⟨rfl, rfl, rfl⟩
    · exact ⟨rfl, rfl, rfl⟩

theorem ProcessBinary_VAL_catalogs (s : OisDevice) (payload command : Nat)
    (start : List Nat) (n : Nat) :
    CatalogsKept s (ProcessBinary_VAL s payload command start n).2 ∨
    CatalogsCleared (ProcessBinary_VAL s payload command start n).2 := by
  obtain ⟨b, t, e, ht⟩ := ExpectState_shape s (stateBit .Active) (bytes "VAL") 2
  unfold ProcessBinary_VAL
  simp only [e]
  rcases ht with rfl | ⟨rfl, rfl⟩
  · left
    cases b
    · exact CatalogsKept_refl t
    · simp only [Bool.not_true, Bool.false_eq_true, if_false]
      split
      · exact ⟨Or.inl rfl, Or.inl (map_updateAt entryKey _ _ _ (by intro v; rfl)), Or.inl rfl⟩
      · exact CatalogsKept_refl t
  · exact Or.inr ⟨rfl, rfl, rfl⟩

theorem ProcessBinary_END_catalogs (s : OisDevice) (n : Nat) :
    CatalogsKept s (ProcessBinary_END s n).2 ∨ CatalogsCleared (ProcessBinary_END s n).2 := by
  unfold ProcessBinary_END
  simp only []
  split
  · exact Or.inr ⟨rfl, rfl, rfl⟩
  · exact Or.inl (CatalogsKept_refl s)

theorem ProcessBinary_Switch_catalogs (s : OisDevice) (payload command : Nat)
    (start : List Nat) (n : Nat) :
    CatalogsKept s (ProcessBinary_Switch s payload command start n).2 ∨
    CatalogsCleared (ProcessBinary_Switch s payload command start n).2 := by
  unfold ProcessBinary_Switch
  split
  · exact ProcessBinary_PID_catalogs s start n
  split
  · exact ProcessBinary_CMD_catalogs s start n
  split
  · exact ProcessBinary_Declare_catalogs s payload start n
  split
  · exact ProcessBinary_ACT_catalogs s n
  split
  · exact ProcessBinary_TNI_catalogs s payload start n
  split
  · exact Or.inl (CatalogsKept_refl s)
  split
  · exact ProcessBinary_EXC_catalogs s payload command start n
  split
  · exact ProcessBinary_VAL_catalogs s payload command start n
  split
  · exact ProcessBinary_END_catalogs s n
  · exact Or.inl (CatalogsKept_refl s)

theorem ProcessBinary_catalogs (s : OisDevice) (charSigned : Bool) (start : List Nat) :
    CatalogsKept s (s.ProcessBinary charSigned start).2 ∨
    CatalogsCleared (s.ProcessBinary charSigned start).2 := by
  unfold ProcessBinary
  by_cases h0 : start = []
  · rw [if_pos h0]
    exact Or.inl (CatalogsKept_refl s)
  · rw [if_neg h0]
    simp only []
    split
    · exact Or.inl (CatalogsKept_refl s)
    split
    · exact Or.inl (CatalogsKept_refl s)
    split
    · exact Or.inl (CatalogsKept_refl s)
    · exact ProcessBinary_Switch_catalogs s _ _ start _

theorem SetInput_catalogs (s : OisDevice) (input : Nat) (value : Value) :
    CatalogsKept s (s.SetInput input value).2 := by
  unfold SetInput SetValueAndEnqueue
  simp only []
  split
  · exact CatalogsKept_refl s
  · split
    · exact CatalogsKept_refl s
    · split
      · exact ⟨Or.inl (map_updateAt entryKey _ _ _ (by intro v; rfl)), Or.inl rfl, Or.inl rfl⟩
      · exact CatalogsKept_refl s

theorem PopEvents_catalogs (s : OisDevice) : CatalogsKept s s.PopEvents.2.2 := by
  unfold PopEvents
  split
  · exact CatalogsKept_refl s
  · exact CatalogsKept_refl s

theorem Grows_prefix {α β : Type} (key : α → β) (l l' : List α) (h : Grows key l l') :
    l.map key <+: l'.map key := by
  rcases h with h | ⟨e, h⟩
  · rw [h]
  · rw [h, List.map_append]
    exact List.prefix_append _ _

theorem ProcessAscii_KeyVal_frame (s : OisDevice) (cmd : List Nat) :
    ((ProcessAscii_KeyVal s cmd).2.m_commandBuffer = s.m_commandBuffer ∧ CatalogsKept s (ProcessAscii_KeyVal s cmd).2) ∨
    ((ProcessAscii_KeyVal s cmd).2.m_commandBuffer = [] ∧ CatalogsCleared (ProcessAscii_KeyVal s cmd).2) := by
  obtain ⟨b, t, e, ht⟩ := ExpectState_shape s (stateBit .Active) cmd 2
  unfold ProcessAscii_KeyVal
  simp only [e]
  rcases ht with rfl | ⟨rfl, rfl⟩
  · left
    cases b
    · exact ⟨rfl, CatalogsKept_refl t⟩
    · simp only [Bool.not_true, Bool.false_eq_true, if_false]
      split
      · exact ⟨rfl, Or.inl rfl, Or.inl (map_updateAt entryKey _ _ _ (by intro v; rfl)), Or.inl rfl⟩
      · exact ⟨rfl, CatalogsKept_refl t⟩
  · right
    exact ⟨rfl, rfl, rfl, rfl⟩

theorem ProcessAscii_SYN_frame (s : OisDevice) (cmd payload : List Nat) :
    ((ProcessAscii_SYN s cmd payload).2.m_commandBuffer = s.m_commandBuffer ∧ CatalogsKept s (ProcessAscii_SYN s cmd payload).2) ∨
    ((ProcessAscii_SYN s cmd payload).2.m_commandBuffer = [] ∧ CatalogsCleared (ProcessAscii_SYN s cmd payload).2) := by
  obtain ⟨b, t, e, ht⟩ := ExpectState_shape s (stateBit .Handshaking) cmd 1
  unfold ProcessAscii_SYN
  simp only [e]
  generalize decide ((ZeroDelimiter payload 44).2.getD 0 0 = 66) = binary
  generalize atoi (ZeroDelimiter payload 44).1 = version
  cases b
  · right
    simp only [Bool.not_false, if_true]
    split
    · split
      · exact ⟨rfl, rfl, rfl, rfl⟩
      · exact ⟨rfl, rfl, rfl, rfl⟩
    · exact ⟨rfl, rfl, rfl, rfl⟩
  · rcases ht with rfl | ⟨hb, _⟩
    · simp only [Bool.not_true, Bool.false_eq_true, if_false]
      split
      · left
        split
        · exact ⟨rfl, CatalogsKept_refl t⟩
        · exact ⟨rfl, CatalogsKept_refl t⟩
      · right
        exact ⟨rfl, rfl, rfl, rfl⟩
    · exact absurd hb (by decide)

theorem ProcessAscii_PID_frame (s : OisDevice) (cmd payload : List Nat) :
    ((ProcessAscii_PID s cmd payload).2.m_commandBuffer = s.m_commandBuffer ∧ CatalogsKept s (ProcessAscii_PID s cmd payload).2) ∨
    ((ProcessAscii_PID s cmd payload).2.m_commandBuffer = [] ∧ CatalogsCleared (ProcessAscii_PID s cmd payload).2) := by
  obtain ⟨b, t, e, ht⟩ := ExpectState_shape s (stateBit .Synchronisation) cmd 2
  unfold ProcessAscii_PID
  simp only [e]
  rcases ht with rfl | ⟨rfl, rfl⟩
  · exact Or.inl (⟨rfl, CatalogsKept_refl t⟩)
  · exact Or.inr ⟨rfl, rfl, rfl, rfl⟩

theorem ProcessAscii_CMD_frame (s : OisDevice) (cmd payload : List Nat) :
    ((ProcessAscii_CMD s cmd payload).2.m_commandBuffer = s.m_commandBuffer ∧ CatalogsKept s (ProcessAscii_CMD s cmd payload).2) ∨
    ((ProcessAscii_CMD s cmd payload).2.m_commandBuffer = [] ∧ CatalogsCleared (ProcessAscii_CMD s cmd payload).2) := by
  obtain ⟨b, t, e, ht⟩ := ExpectState_shape s (stateBit .Synchronisation |||
    (if s.m_protocolVersion > 1 then stateBit .Active else 0)) cmd 1
  unfold ProcessAscii_CMD
  simp only [e]
  rcases ht with rfl | ⟨rfl, rfl⟩
  · left
    cases b
    · exact ⟨rfl, CatalogsKept_refl t⟩
    · exact ⟨rfl, Or.inl rfl, Or.inl rfl, Or.inr ⟨_, rfl⟩⟩
  · exact Or.inr ⟨rfl, rfl, rfl, rfl⟩

theorem ProcessAscii_Numeric_frame (s : OisDevice) (type : Nat) (cmd payload : List Nat) :
    ((ProcessAscii_Numeric s type cmd payload).2.m_commandBuffer = s.m_commandBuffer ∧ CatalogsKept s (ProcessAscii_Numeric s type cmd payload).2) ∨
    ((ProcessAscii_Numeric s type cmd payload).2.m_commandBuffer = [] ∧ CatalogsCleared (ProcessAscii_Numeric s type cmd payload).2) := by
  unfold ProcessAscii_Numeric
  simp only []
  generalize decide (type = NON ∨ type = NOF ∨ type = NOB) = output
  obtain ⟨b, t, e, ht⟩ := ExpectState_shape s (stateBit .Synchronisation |||
    (if s.m_protocolVersion > 1 then stateBit .Active else 0)) cmd
    (if output = true then 2 else 1)
  simp only [e]
  rcases ht with rfl | ⟨rfl, rfl⟩
  · left
    cases b
    · exact ⟨rfl, CatalogsKept_refl t⟩
    · cases output
      · exact ⟨rfl, Or.inr ⟨_, rfl⟩, Or.inl rfl, Or.inl rfl⟩
      · exact ⟨rfl, Or.inl rfl, Or.inr ⟨_, rfl⟩, Or.inl rfl⟩
  · exact Or.inr ⟨rfl, rfl, rfl, rfl⟩

theorem ProcessAscii_ACT_frame (s : OisDevice) (cmd : List Nat) :
    ((ProcessAscii_ACT s cmd).2.m_commandBuffer = s.m_commandBuffer ∧ CatalogsKept s (ProcessAscii_ACT s cmd).2) ∨
    ((ProcessAscii_ACT s cmd).2.m_commandBuffer = [] ∧ CatalogsCleared (ProcessAscii_ACT s cmd).2) := by
  obtain ⟨b, t, e, ht⟩ := ExpectState_shape s (stateBit .Synchronisation) cmd 1
  unfold ProcessAscii_ACT
  simp only [e]
  rcases ht with rfl | ⟨rfl, rfl⟩
  · exact Or.inl (⟨rfl, CatalogsKept_refl t⟩)
  · exact Or.inr ⟨rfl, rfl, rfl, rfl⟩

theorem ProcessAscii_ACT_frame_lists (u : OisDevice) (cmd : List Nat) :
    ((ProcessAscii_ACT u cmd).2.m_commandBuffer = u.m_commandBuffer ∧
      (ProcessAscii_ACT u cmd).2.m_numericInputs = u.m_numericInputs ∧
      (ProcessAscii_ACT u cmd).2.m_numericOutputs = u.m_numericOutputs ∧
      (ProcessAscii_ACT u cmd).2.m_events = u.m_events) ∨
    ((ProcessAscii_ACT u cmd).2.m_commandBuffer = [] ∧
      CatalogsCleared (ProcessAscii_ACT u cmd).2) := by
  obtain ⟨b, t, e, ht⟩ := ExpectState_shape u (stateBit .Synchronisation) cmd 1
  unfold ProcessAscii_ACT
  simp only [e]
  rcases ht with rfl | ⟨rfl, rfl⟩
  · exact Or.inl ⟨rfl, rfl, rfl, rfl⟩
  · exact Or.inr ⟨rfl, rfl, rfl, rfl⟩

theorem ProcessAscii_TNI_frame (s : OisDevice) (cmd payload : List Nat) :
    ((ProcessAscii_TNI s cmd payload).2.m_commandBuffer = s.m_commandBuffer ∧
      CatalogsKept s (ProcessAscii_TNI s cmd payload).2) ∨
    ((ProcessAscii_TNI s cmd payload).2.m_commandBuffer = [] ∧
      CatalogsCleared (ProcessAscii_TNI s cmd payload).2) := by
  obtain ⟨b, t, e, ht⟩ := ExpectState_shape s (stateBit .Synchronisation ||| stateBit .Active)
    cmd 2
  unfold ProcessAscii_TNI
  simp only [e]
  rcases ht with rfl | ⟨rfl, rfl⟩
  · generalize FindChannel t.m_numericInputs (atoi (ZeroDelimiter payload 44).1) = o
    cases o with
    | none => exact ProcessAscii_ACT_frame t cmd
    | some i =>
      simp only []
      rcases ProcessAscii_ACT_frame_lists
        { t with
          m_numericInputs := updateAt t.m_numericInputs i
            (fun v => { v with active := decide (atoi (ZeroDelimiter payload 44).2 ≠ 0) }) }
        cmd with h | h
      · left
        refine ⟨h.1, Or.inl ?_, Or.inl ?_, Or.inl ?_⟩
        · rw [h.2.1]
          exact map_updateAt entryKey _ _ _ (by intro v; rfl)
        · rw [h.2.2.1]
        · rw [h.2.2.2]
      · exact Or.inr h
  · right
    have hf : FindChannel (s.ClearState.SendText (bytes "END\n")).m_numericInputs
        (atoi (ZeroDelimiter payload 44).1) = none := rfl
    simp only [hf]
    rcases ProcessAscii_ACT_frame_lists (s.ClearState.SendText (bytes "END\n")) cmd with h | h
    · exact ⟨h.1, h.2.1, h.2.2.1, h.2.2.2⟩
    · exact h

theorem ProcessAscii_EXC_frame (s : OisDevice) (cmd payload : List Nat) :
    ((ProcessAscii_EXC s cmd payload).2.m_commandBuffer = s.m_commandBuffer ∧ CatalogsKept s (ProcessAscii_EXC s cmd payload).2) ∨
    ((ProcessAscii_EXC s cmd payload).2.m_commandBuffer = [] ∧ CatalogsCleared (ProcessAscii_EXC s cmd payload).2) := by
  obtain ⟨b, t, e, ht⟩ := ExpectState_shape s (stateBit .Active) cmd 1
  unfold ProcessAscii_EXC
  simp only [e]
  rcases ht with rfl | ⟨rfl, rfl⟩
  · left
    split
    · exact ⟨rfl, CatalogsKept_refl t⟩
    · exact ⟨rfl, CatalogsKept_refl t⟩
  · right
    split
    · exact ⟨rfl, rfl, rfl, rfl⟩
    · exact ⟨rfl, rfl, rfl, rfl⟩

theorem ProcessAscii_END_frame (s : OisDevice) :
    ((ProcessAscii_END s).2.m_commandBuffer = s.m_commandBuffer ∧ CatalogsKept s (ProcessAscii_END s).2) ∨
    ((ProcessAscii_END s).2.m_commandBuffer = [] ∧ CatalogsCleared (ProcessAscii_END s).2) := by
  unfold ProcessAscii_END
  simp only []
  split
  · exact Or.inr ⟨rfl, rfl, rfl, rfl⟩
  · exact Or.inl (⟨rfl, CatalogsKept_refl s⟩)

theorem ProcessAscii_Switch_frame (s : OisDevice) (type : Nat) (cmd payload : List Nat) :
    ((ProcessAscii_Switch s type cmd payload).2.m_commandBuffer = s.m_commandBuffer ∧ CatalogsKept s (ProcessAscii_Switch s type cmd payload).2) ∨
    ((ProcessAscii_Switch s type cmd payload).2.m_commandBuffer = [] ∧ CatalogsCleared (ProcessAscii_Switch s type cmd payload).2) := by
  unfold ProcessAscii_Switch
  split
  · exact ProcessAscii_SYN_frame s cmd payload
  split
  · exact ProcessAscii_PID_frame s cmd payload
  split
  · exact ProcessAscii_CMD_frame s cmd payload
  split
  · exact ProcessAscii_Numeric_frame s type cmd payload
  split
  · exact ProcessAscii_TNI_frame s cmd payload
  split
  · exact ProcessAscii_ACT_frame s cmd
  split
  · exact ProcessAscii_EXC_frame s cmd payload
  split
  · exact Or.inl (⟨rfl, CatalogsKept_refl s⟩)
  split
  · exact ProcessAscii_END_frame s
  · exact Or.inl (⟨rfl, CatalogsKept_refl s⟩)

theorem ProcessAscii_frame (s : OisDevice) (cmd : List Nat) :
    ((s.ProcessAscii cmd).2.m_commandBuffer = s.m_commandBuffer ∧ CatalogsKept s (s.ProcessAscii cmd).2) ∨
    ((s.ProcessAscii cmd).2.m_commandBuffer = [] ∧ CatalogsCleared (s.ProcessAscii cmd).2) := by
  unfold ProcessAscii
  by_cases h0 : cmd.getD 0 0 = 0
  · rw [if_pos h0]
    exact Or.inl (⟨rfl, CatalogsKept_refl s⟩)
  · rw [if_neg h0]
    simp only []
    by_cases h1 : isdigit (cmd.getD 0 0) = true
    · rw [if_pos h1]
      exact ProcessAscii_KeyVal_frame s cmd
    · rw [if_neg h1]
      exact ProcessAscii_Switch_frame s _ cmd _

theorem ProcessBinary_PID_frame (s : OisDevice) (start : List Nat) (n : Nat) :
    ((ProcessBinary_PID s start n).2.m_commandBuffer = s.m_commandBuffer ∧ CatalogsKept s (ProcessBinary_PID s start n).2) ∨
    ((ProcessBinary_PID s start n).2.m_commandBuffer = [] ∧ CatalogsCleared (ProcessBinary_PID s start n).2) := by
  obtain ⟨b, t, e, ht⟩ := ExpectState_shape s (stateBit .Synchronisation) (bytes "PID") 2
  unfold ProcessBinary_PID
  simp only [e]
  rcases ht with rfl | ⟨rfl, rfl⟩
  · exact Or.inl (⟨rfl, CatalogsKept_refl t⟩)
  · exact Or.inr ⟨rfl, rfl, rfl, rfl⟩

theorem ProcessBinary_CMD_frame (s : OisDevice) (start : List Nat) (n : Nat) :
    ((ProcessBinary_CMD s start n).2.m_commandBuffer = s.m_commandBuffer ∧ CatalogsKept s (ProcessBinary_CMD s start n).2) ∨
    ((ProcessBinary_CMD s start n).2.m_commandBuffer = [] ∧ CatalogsCleared (ProcessBinary_CMD s start n).2) := by
  obtain ⟨b, t, e, ht⟩ := ExpectState_shape s (stateBit .Synchronisation ||| stateBit .Active)
    (bytes "CMD") 2
  unfold ProcessBinary_CMD
  simp only [e]
  rcases ht with rfl | ⟨rfl, rfl⟩
  · left
    cases b
    · exact ⟨rfl, CatalogsKept_refl t⟩
    · exact ⟨rfl, Or.inl rfl, Or.inl rfl, Or.inr ⟨_, rfl⟩⟩
  · exact Or.inr ⟨rfl, rfl, rfl, rfl⟩

theorem ProcessBinary_Declare_frame (s : OisDevice) (payload : Nat) (start : List Nat)
    (n : Nat) :
    ((ProcessBinary_Declare s payload start n).2.m_commandBuffer = s.m_commandBuffer ∧ CatalogsKept s (ProcessBinary_Declare s payload start n).2) ∨
    ((ProcessBinary_Declare s payload start n).2.m_commandBuffer = [] ∧ CatalogsCleared (ProcessBinary_Declare s payload start n).2) := by
  obtain ⟨b, t, e, ht⟩ := ExpectState_shape s (stateBit .Synchronisation |||
    (if s.m_protocolVersion > 1 then stateBit .Active else 0)) (bytes "NIO") 2
  unfold ProcessBinary_Declare
  simp only [e]
  generalize decide (payload &&& CL_N_PAYLOAD_O ≠ 0) = output
  rcases ht with rfl | ⟨rfl, rfl⟩
  · left
    cases b
    · exact ⟨rfl, CatalogsKept_refl t⟩
    · cases output
      · exact ⟨rfl, Or.inr ⟨_, rfl⟩, Or.inl rfl, Or.inl rfl⟩
      · exact ⟨rfl, Or.inl rfl, Or.inr ⟨_, rfl⟩, Or.inl rfl⟩
  · exact Or.inr ⟨rfl, rfl, rfl, rfl⟩

theorem ProcessBinary_ACT_frame (s : OisDevice) (n : Nat) :
    ((ProcessBinary_ACT s n).2.m_commandBuffer = s.m_commandBuffer ∧ CatalogsKept s (ProcessBinary_ACT s n).2) ∨
    ((ProcessBinary_ACT s n).2.m_commandBuffer = [] ∧ CatalogsCleared (ProcessBinary_ACT s n).2) := by
  obtain ⟨b, t, e, ht⟩ := ExpectState_shape s (stateBit .Synchronisation) (bytes "ACT") 2
  unfold ProcessBinary_ACT
  simp only [e]
  rcases ht with rfl | ⟨rfl, rfl⟩
  · exact Or.inl (⟨rfl, CatalogsKept_refl t⟩)
  · exact Or.inr ⟨rfl, rfl, rfl, rfl⟩

theorem ProcessBinary_TNI_frame (s : OisDevice) (payload : Nat) (start : List Nat)
    (n : Nat) :
    ((ProcessBinary_TNI s payload start n).2.m_commandBuffer = s.m_commandBuffer ∧ CatalogsKept s (ProcessBinary_TNI s payload start n).2) ∨
    ((ProcessBinary_TNI s payload start n).2.m_commandBuffer = [] ∧ CatalogsCleared (ProcessBinary_TNI s payload start n).2) := by
  obtain ⟨b, t, e, ht⟩ := ExpectState_shape s (stateBit .Synchronisation ||| stateBit .Active)
    (bytes "TNI") 2
  unfold ProcessBinary_TNI
  simp only [e]
  rcases ht with rfl | ⟨rfl, rfl⟩
  · left
    split
    · exact ⟨rfl, Or.inl (map_updateAt entryKey _ _ _ (by intro v; rfl)), Or.inl rfl, Or.inl rfl⟩
    · exact ⟨rfl, CatalogsKept_refl t⟩
  · right
    have hf : FindChannel (s.ClearState.SendText (bytes "END\n")).m_numericInputs
        ((readU16 start 1 : Nat) : Int) = none := rfl
    simp only [hf]
    exact ⟨rfl, rfl, rfl, rfl⟩

theorem ProcessBinary_EXC_frame (s : OisDevice) (payload command : Nat)
    (start : List Nat) (n : Nat) :
    ((ProcessBinary_EXC s payload command start n).2.m_commandBuffer = s.m_commandBuffer ∧ CatalogsKept s (ProcessBinary_EXC s payload command start n).2) ∨
    ((ProcessBinary_EXC s payload command start n).2.m_commandBuffer = [] ∧ CatalogsCleared (ProcessBinary_EXC s payload command start n).2) := by
  obtain ⟨b, t, e, ht⟩ := ExpectState_shape s (stateBit .Active) (bytes "EXC") 2
  unfold ProcessBinary_EXC
  simp only [e]
  rcases ht with rfl | ⟨rfl, rfl⟩
  · left
    split
    · exact ⟨rfl, CatalogsKept_refl t⟩
    · exact ⟨rfl, CatalogsKept_refl t⟩
  · right
    split
    · exact ⟨rfl, rfl, rfl, rfl⟩
    · exact ⟨rfl, rfl, rfl, rfl⟩

theorem ProcessBinary_VAL_frame (s : OisDevice) (payload command : Nat)
    (start : List Nat) (n : Nat) :
    ((ProcessBinary_VAL s payload command start n).2.m_commandBuffer = s.m_commandBuffer ∧ CatalogsKept s (ProcessBinary_VAL s payload command start n).2) ∨
    ((ProcessBinary_VAL s payload command start n).2.m_commandBuffer = [] ∧ CatalogsCleared (ProcessBinary_VAL s payload command start n).2) := by
  obtain ⟨b, t, e, ht⟩ := ExpectState_shape s (stateBit .Active) (bytes "VAL") 2
  unfold ProcessBinary_VAL
  simp only [e]
  rcases ht with rfl | ⟨rfl, rfl⟩
  · left
    cases b
    · exact ⟨rfl, CatalogsKept_refl t⟩
    · simp only [Bool.not_true, Bool.false_eq_true, if_false]
      split
      · exact ⟨rfl, Or.inl rfl, Or.inl (map_updateAt entryKey _ _ _ (by intro v; rfl)), Or.inl rfl⟩
      · exact ⟨rfl, CatalogsKept_refl t⟩
  · exact Or.inr ⟨rfl, rfl, rfl, rfl⟩

theorem ProcessBinary_END_frame (s : OisDevice) (n : Nat) :
    ((ProcessBinary_END s n).2.m_commandBuffer = s.m_commandBuffer ∧ CatalogsKept s (ProcessBinary_END s n).2) ∨
    ((ProcessBinary_END s n).2.m_commandBuffer = [] ∧ CatalogsCleared (ProcessBinary_END s n).2) := by
  unfold ProcessBinary_END
  simp only []
  split
  · exact Or.inr ⟨rfl, rfl, rfl, rfl⟩
  · exact Or.inl (⟨rfl, CatalogsKept_refl s⟩)

theorem ProcessBinary_Switch_frame (s : OisDevice) (payload command : Nat)
    (start : List Nat) (n : Nat) :
    ((ProcessBinary_Switch s payload command start n).2.m_commandBuffer = s.m_commandBuffer ∧ CatalogsKept s (ProcessBinary_Switch s payload command start n).2) ∨
    ((ProcessBinary_Switch s payload command start n).2.m_commandBuffer = [] ∧ CatalogsCleared (ProcessBinary_Switch s payload command start n).2) := by
  unfold ProcessBinary_Switch
  split
  · exact ProcessBinary_PID_frame s start n
  split
  · exact ProcessBinary_CMD_frame s start n
  split
  · exact ProcessBinary_Declare_frame s payload start n
  split
  · exact ProcessBinary_ACT_frame s n
  split
  · exact ProcessBinary_TNI_frame s payload start n
  split
  · exact Or.inl (⟨rfl, CatalogsKept_refl s⟩)
  split
  · exact ProcessBinary_EXC_frame s payload command start n
  split
  · exact ProcessBinary_VAL_frame s payload command start n
  split
  · exact ProcessBinary_END_frame s n
  · exact Or.inl (⟨rfl, CatalogsKept_refl s⟩)

theorem ProcessBinary_frame (s : OisDevice) (charSigned : Bool) (start : List Nat) :
    ((s.ProcessBinary charSigned start).2.m_commandBuffer = s.m_commandBuffer ∧ CatalogsKept s (s.ProcessBinary charSigned start).2) ∨
    ((s.ProcessBinary charSigned start).2.m_commandBuffer = [] ∧ CatalogsCleared (s.ProcessBinary charSigned start).2) := by
  unfold ProcessBinary
  by_cases h0 : start = []
  · rw [if_pos h0]
    exact Or.inl (⟨rfl, CatalogsKept_refl s⟩)
  · rw [if_neg h0]
    simp only []
    split
    · exact Or.inl (⟨rfl, CatalogsKept_refl s⟩)
    split
    · exact Or.inl (⟨rfl, CatalogsKept_refl s⟩)
    split
    · exact Or.inl (⟨rfl, CatalogsKept_refl s⟩)
    · exact ProcessBinary_Switch_frame s _ _ start _

theorem CatalogsKept_congr (s t s' t' : OisDevice) (h1 : eraseBuffer s = eraseBuffer t)
    (h2 : eraseBuffer s' = eraseBuffer t') (h : CatalogsKept s s') : CatalogsKept t t' := by
  have a1 : (eraseBuffer s).m_numericInputs = (eraseBuffer t).m_numericInputs := by rw [h1]
  have a2 : (eraseBuffer s).m_numericOutputs = (eraseBuffer t).m_numericOutputs := by rw [h1]
  have a3 : (eraseBuffer s).m_events = (eraseBuffer t).m_events := by rw [h1]
  have b1 : (eraseBuffer s').m_numericInputs = (eraseBuffer t').m_numericInputs := by rw [h2]
  have b2 : (eraseBuffer s').m_numericOutputs = (eraseBuffer t').m_numericOutputs := by rw [h2]
  have b3 : (eraseBuffer s').m_events = (eraseBuffer t').m_events := by rw [h2]
  unfold CatalogsKept at h ⊢
  change Grows entryKey (eraseBuffer t).m_numericInputs (eraseBuffer t').m_numericInputs ∧
    Grows entryKey (eraseBuffer t).m_numericOutputs (eraseBuffer t').m_numericOutputs ∧
    Grows (fun e : Event => e) (eraseBuffer t).m_events (eraseBuffer t').m_events
  rw [← a1, ← a2, ← a3, ← b1, ← b2, ← b3]
  exact h

theorem CatalogsCleared_congr (s' t' : OisDevice) (h2 : eraseBuffer s' = eraseBuffer t')
    (h : CatalogsCleared s') : CatalogsCleared t' := by
  have b1 : (eraseBuffer s').m_numericInputs = (eraseBuffer t').m_numericInputs := by rw [h2]
  have b2 : (eraseBuffer s').m_numericOutputs = (eraseBuffer t').m_numericOutputs := by rw [h2]
  have b3 : (eraseBuffer s').m_events = (eraseBuffer t').m_events := by rw [h2]
  unfold CatalogsCleared at h ⊢
  change (eraseBuffer t').m_numericInputs = [] ∧ (eraseBuffer t').m_numericOutputs = [] ∧
    (eraseBuffer t').m_events = []
  rw [← b1, ← b2, ← b3]
  exact h

/-- An operation on the host endpoint either does not reset it and keeps the
catalogs, or resets it, which empties them. -/
theorem Resets_cases (s : OisDevice) (f : OisDevice → OisDevice)
    (hop : (∃ cmd, f = fun t => (t.ProcessAscii cmd).2) ∨
      (∃ charSigned start, f = fun t => (t.ProcessBinary charSigned start).2) ∨
      (∃ input value, f = fun t => (t.SetInput input value).2) ∨
      f = fun t => t.PopEvents.2.2) :
    (Resets f s = false ∧ CatalogsKept s (f s)) ∨
    (Resets f s = true ∧ CatalogsCleared (f s)) := by
  have hm : eraseBuffer { s with m_commandBuffer := [0] } = eraseBuffer s := rfl
  have key : ∀ (x y : OisDevice), eraseBuffer x = eraseBuffer y →
      ((x.m_commandBuffer = [0] ∧ CatalogsKept { s with m_commandBuffer := [0] } x) ∨
        (x.m_commandBuffer = [] ∧ CatalogsCleared x)) →
      (decide (x.m_commandBuffer = []) = false ∧ CatalogsKept s y) ∨
      (decide (x.m_commandBuffer = []) = true ∧ CatalogsCleared y) := by
    intro x y hxy h
    rcases h with ⟨hb, hk⟩ | ⟨hb, hc⟩
    · left
      refine ⟨?_, CatalogsKept_congr _ _ _ _ hm hxy hk⟩
      rw [hb]
      decide
    · right
      refine ⟨?_, CatalogsCleared_congr _ _ hxy hc⟩
      rw [hb]
      decide
  unfold Resets
  rcases hop with ⟨cmd, rfl⟩ | ⟨charSigned, start, rfl⟩ | ⟨input, value, rfl⟩ | rfl
  · exact key _ _ (ProcessAscii_congr _ _ cmd hm).2
      (ProcessAscii_frame { s with m_commandBuffer := [0] } cmd)
  · exact key _ _ (ProcessBinary_congr _ _ charSigned start hm).2
      (ProcessBinary_frame { s with m_commandBuffer := [0] } charSigned start)
  · left
    refine ⟨?_, SetInput_catalogs s input value⟩
    show decide (([0] : List Nat) = []) = false
    decide
  · left
    refine ⟨?_, PopEvents_catalogs s⟩
    have e : ({ s with m_commandBuffer := [0] } : OisDevice).PopEvents.2.2.m_commandBuffer
        = [0] := by
      unfold PopEvents
      split <;> rfl
    simp only [e]
    decide

/-- C25. Declared entries are immutable and order-preserving: an inbound ASCII
or binary command, `SetInput` or `PopEvents` that does not reset the endpoint
keeps the three catalogs: every entry keeps its name, channel and type in
place, each list is as long as before or one entry longer, and so each list
before the operation is a prefix of the list after it with respect to name,
channel and type (the events as they are). -/
theorem C25_catalogs_append_only (s : OisDevice) (f : OisDevice → OisDevice)
    (hop : (∃ cmd, f = fun t => (t.ProcessAscii cmd).2) ∨
      (∃ charSigned start, f = fun t => (t.ProcessBinary charSigned start).2) ∨
      (∃ input value, f = fun t => (t.SetInput input value).2) ∨
      f = fun t => t.PopEvents.2.2)
    (hnr : Resets f s = false) :
    CatalogsKept s (f s) ∧
    s.m_numericInputs.map entryKey <+: (f s).m_numericInputs.map entryKey ∧
    s.m_numericOutputs.map entryKey <+: (f s).m_numericOutputs.map entryKey ∧
    s.m_events <+: (f s).m_events := by
  have h : CatalogsKept s (f s) := by
    rcases Resets_cases s f hop with h | h
    · exact h.2
    · rw [hnr] at h
      exact absurd h.1 (by decide)
  refine ⟨h, Grows_prefix _ _ _ h.1, Grows_prefix _ _ _ h.2.1, ?_⟩
  have := Grows_prefix _ _ _ h.2.2
  simpa using this

/-- C25 at the endpoint in Synchronisation with three declared entries: the line
`NIN=Dial,4` does not reset it and appends the input Dial behind the input
Lamp, and the line `TNI=3,0` does not reset it and changes only the active flag
of Lamp; the line `END` resets it. -/
theorem C25_catalogs_append_only_witness :
    Resets (fun t => (t.ProcessAscii (bytes "NIN=Dial,4")).2) hubCatalog = false ∧
    hubCatalog.m_numericInputs.map entryKey = [(bytes "Lamp", 3, .Boolean)] ∧
    (hubCatalog.ProcessAscii (bytes "NIN=Dial,4")).2.m_numericInputs.map entryKey =
      [(bytes "Lamp", 3, .Boolean), (bytes "Dial", 4, .Number)] ∧
    Resets (fun t => (t.ProcessAscii (bytes "END")).2) hubCatalog = true ∧
    (CatalogsKept hubCatalog (hubCatalog.ProcessAscii (bytes "NIN=Dial,4")).2 ∧
      hubCatalog.m_numericInputs.map entryKey <+:
        (hubCatalog.ProcessAscii (bytes "NIN=Dial,4")).2.m_numericInputs.map entryKey ∧
      hubCatalog.m_numericOutputs.map entryKey <+:
        (hubCatalog.ProcessAscii (bytes "NIN=Dial,4")).2.m_numericOutputs.map entryKey ∧
      hubCatalog.m_events <+: (hubCatalog.ProcessAscii (bytes "NIN=Dial,4")).2.m_events) :=
  ⟨by decide, by decide, by decide, by decide,
    C25_catalogs_append_only hubCatalog (fun t => (t.ProcessAscii (bytes "NIN=Dial,4")).2)
      (Or.inl ⟨bytes "NIN=Dial,4", rfl⟩) (by decide)⟩

theorem channel_of_key (l : List NumericValue) :
    l.map NumericValue.channel = (l.map entryKey).map (fun k => k.2.1) := by
  rw [List.map_map]
  rfl

theorem Nodup_grows (l l' : List NumericValue) (hu : (l.map NumericValue.channel).Nodup)
    (h : Grows entryKey l l')
    (hf : ∀ e, l' = l ++ [e] → e.channel ∉ l.map NumericValue.channel) :
    (l'.map NumericValue.channel).Nodup := by
  rcases h with h | ⟨e, h⟩
  · rw [channel_of_key, h, ← channel_of_key]
    exact hu
  · have hn := hf e h
    rw [h, List.map_append, List.nodup_append]
    refine ⟨hu, List.nodup_singleton _, ?_⟩
    intro a ha hb
    rw [List.map_singleton, List.mem_singleton] at hb
    exact hn (hb ▸ ha)

theorem UniqueChannels_step (s s' : OisDevice) (hu : UniqueChannels s)
    (h : CatalogsKept s s' ∨ CatalogsCleared s') (hf : FreshStep s s') :
    UniqueChannels s' := by
  rcases h with h | h
  · exact ⟨Nodup_grows _ _ hu.1 h.1 hf.1, Nodup_grows _ _ hu.2 h.2.1 hf.2⟩
  · unfold UniqueChannels
    rw [h.1, h.2.1]
    exact ⟨List.nodup_nil, List.nodup_nil⟩

theorem FreshStep_of_nil (s s' : OisDevice) (hi : s.m_numericInputs = [])
    (ho : s.m_numericOutputs = []) : FreshStep s s' := by
  unfold FreshStep
  rw [hi, ho]
  exact ⟨fun _ _ => List.not_mem_nil _, fun _ _ => List.not_mem_nil _⟩

/-- C26, amended: in every state of the host endpoint reachable from the initial
state by inbound commands of which none declares a numeric entry on a channel
that its list already holds, no two inputs share a channel and no two outputs
share a channel. -/
theorem C26_unique_channels_of_fresh_declarations (s : OisDevice) (h : ReachableFresh s) :
    UniqueChannels s := by
  induction h with
  | init name gameVersion gameName gameNameObject =>
    exact ⟨List.nodup_nil, List.nodup_nil⟩
  | ascii s cmd _ hf ih => exact UniqueChannels_step _ _ ih (ProcessAscii_catalogs s cmd) hf
  | binary s charSigned start _ hf ih =>
    exact UniqueChannels_step _ _ ih (ProcessBinary_catalogs s charSigned start) hf

/-- The declaration `NIN=Left,5` after `NIN=Dial,4` is on a channel that the
inputs list does not hold yet. -/
theorem FreshStep_second_input :
    FreshStep (hubSync.ProcessAscii (bytes "NIN=Dial,4")).2
      ((hubSync.ProcessAscii (bytes "NIN=Dial,4")).2.ProcessAscii (bytes "NIN=Left,5")).2 := by
  have h1 : (hubSync.ProcessAscii (bytes "NIN=Dial,4")).2.m_numericInputs.map
      NumericValue.channel = [4] := by decide
  have h2 : ((hubSync.ProcessAscii (bytes "NIN=Dial,4")).2.ProcessAscii
      (bytes "NIN=Left,5")).2.m_numericInputs =
      (hubSync.ProcessAscii (bytes "NIN=Dial,4")).2.m_numericInputs ++
        [{ name := bytes "Left", channel := 5, active := true, type := .Number,
           value := .number 0 }] := by decide
  have h3 : ((hubSync.ProcessAscii (bytes "NIN=Dial,4")).2.ProcessAscii
      (bytes "NIN=Left,5")).2.m_numericOutputs = [] := by decide
  constructor
  · intro e he
    rw [h2] at he
    have e1 := List.append_cancel_left he
    simp only [List.cons.injEq, and_true] at e1
    rw [← e1, h1]
    decide
  · intro e he
    rw [h3] at he
    exact absurd he.symm (by simp)

/-- C26 at the endpoint after the lines `SYN=1`, `NIN=Dial,4` and `NIN=Left,5`:
the second declaration is on a channel that the list does not hold, and the two
inputs have the channels 4 and 5. -/
theorem C26_unique_channels_of_fresh_declarations_witness :
    ((hubSync.ProcessAscii (bytes "NIN=Dial,4")).2.ProcessAscii
      (bytes "NIN=Left,5")).2.m_numericInputs.map (fun v => (v.name, v.channel)) =
      [(bytes "Dial", 4), (bytes "Left", 5)] ∧
    UniqueChannels ((hubSync.ProcessAscii (bytes "NIN=Dial,4")).2.ProcessAscii
      (bytes "NIN=Left,5")).2 :=
  ⟨by decide,
    C26_unique_channels_of_fresh_declarations _
      (ReachableFresh.ascii _ _
        (ReachableFresh.ascii hubSync _
          (ReachableFresh.ascii hubStart _ (ReachableFresh.init _ _ _ _)
            (FreshStep_of_nil _ _ rfl rfl))
          (FreshStep_of_nil _ _ rfl rfl))
        FreshStep_second_input)⟩

/-- C26 as stated fails: after the lines `SYN=1`, `NIN=Left,4` and `NIN=Right,4`
the inputs list of the reachable endpoint holds two entries on channel 4. -/
theorem C26_counterexample :
    Reachable ((hubSync.ProcessAscii (bytes "NIN=Left,4")).2.ProcessAscii
      (bytes "NIN=Right,4")).2 ∧
    ((hubSync.ProcessAscii (bytes "NIN=Left,4")).2.ProcessAscii
      (bytes "NIN=Right,4")).2.m_numericInputs.map (fun v => (v.name, v.channel)) =
      [(bytes "Left", 4), (bytes "Right", 4)] ∧
    ¬ UniqueChannels ((hubSync.ProcessAscii (bytes "NIN=Left,4")).2.ProcessAscii
      (bytes "NIN=Right,4")).2 := by
  refine ⟨?_, ?_, ?_⟩
  · exact Reachable.ascii _ _ (Reachable.ascii _ _
      (Reachable.ascii _ _ (Reachable.init _ _ _ _)))
  · decide
  · unfold UniqueChannels
    decide

end OisDevice

end Ois

/-! ## The state check ExpectState -/

namespace Ois

end Ois

/-! ## Value frames and the decoders' frame length -/

namespace Ois

namespace OisDevice

theorem ProcessBinary_Switch_val_active (s : OisDevice) (p c : Nat) (start : List Nat)
    (n : Nat) (hs : s.m_connectionState = .Active) (h1 : 8 ≤ c) (h2 : c ≤ 11) :
    (ProcessBinary_Switch s p c start n).1 = (n : Int) := by
  unfold ProcessBinary_Switch
  simp only [CL_PID, CL_CMD, CL_NIO, CL_ACT, CL_TNI, CL_DBG, CL_EXC_0, CL_EXC_1, CL_EXC_2,
    CL_VAL_1, CL_VAL_2, CL_VAL_3, CL_VAL_4]
  repeat rw [if_neg (by omega)]
  rw [if_pos (by omega)]
  unfold ProcessBinary_VAL
  rw [ExpectState_ok s _ _ _ (by rw [hs]; decide)]
  simp only [Bool.not_true, Bool.false_eq_true, if_false]
  split <;> rfl

/-- In Active a value frame of the length its code announces is consumed whole. -/
theorem ProcessBinary_val_active (s : OisDevice) (charSigned : Bool) (b : Nat)
    (rest : List Nat) (hs : s.m_connectionState = .Active) (h1 : 8 ≤ b % 16)
    (h2 : b % 16 ≤ 11) (hl : (b :: rest).length = b % 16 - 6) :
    (s.ProcessBinary charSigned (b :: rest)).1 = ((b :: rest).length : Int) := by
  have hcmd := command_of_byte charSigned b
  have hS : ¬ (charToU32 charSigned b = CL_SYN_ ∨ charToU32 charSigned b = CL_451_) := by
    intro e
    rcases e with e | e
    · rw [e] at hcmd
      have e2 : CL_SYN_ &&& CL_COMMAND_MASK = 3 := by decide
      omega
    · rw [e] at hcmd
      have e2 : CL_451_ &&& CL_COMMAND_MASK = 4 := by decide
      omega
  have hdr : binaryHeader (charToU32 charSigned b) (b % 16) (b :: rest) =
      (b % 16 - 6, none, 0) := by
    unfold binaryHeader
    rw [if_neg hS]
    obtain e | e | e | e : b % 16 = 8 ∨ b % 16 = 9 ∨ b % 16 = 10 ∨ b % 16 = 11 := by omega
    all_goals rw [e]
    all_goals rfl
  unfold ProcessBinary
  rw [if_neg (List.cons_ne_nil _ _)]
  simp only [List.getD_cons_zero, hcmd, hdr]
  rw [if_neg (by simp), if_neg (by omega), if_neg (fun e => by
    rcases e with e | e
    · exact hS (Or.inl e.1)
    · exact hS (Or.inr e.1))]
  rw [ProcessBinary_Switch_val_active s _ _ _ _ hs h1 h2, hl]

end OisDevice

namespace OisHost

/-- In Active a value frame of the length its code announces is consumed whole. -/
theorem ProcessBinary_val_active_device (s : OisHost) (charSigned : Bool) (b : Nat)
    (rest : List Nat) (hs : s.m_connectionState = .Active) (h1 : 1 ≤ b % 8)
    (h2 : b % 8 ≤ 4) (hl : (b :: rest).length = b % 8 + 1) :
    (s.ProcessBinary charSigned (b :: rest)).1 = ((b :: rest).length : Int) := by
  have hx : (1 <<< s.m_connectionState.toNat) &&& stateBit .Active ≠ 0 := by
    rw [hs]; decide
  have hE : s.ExpectState (stateBit .Active) (bytes "VAL") 2 = (true, s) := by
    have h' : ¬ (0 = (1 <<< s.m_connectionState.toNat) &&& stateBit .Active) :=
      fun e => hx e.symm
    simp [ExpectState, h']
  unfold ProcessBinary
  rw [if_neg (List.cons_ne_nil _ _)]
  simp only [List.getD_cons_zero, server_command_of_byte]
  generalize charToU32 charSigned b = p
  unfold ProcessBinary_Switch
  simp only [SV_END_, SV_VAL_1, SV_VAL_2, SV_VAL_3, SV_VAL_4]
  have e : (if b % 8 = 69 then 1
      else if b % 8 = 1 then 1 + 1
      else if b % 8 = 2 then 1 + 2
      else if b % 8 = 3 then 1 + 3
      else if b % 8 = 4 then 1 + 4
      else 1) = (b :: rest).length := by
    rw [hl]
    split
    · omega
    repeat' split
    all_goals omega
  rw [e, if_neg (by omega), if_pos (by omega), hE]
  simp only [Bool.not_true, Bool.false_eq_true, if_false]
  split <;> rfl

end OisHost

theorem code_of_masked (b code S : Nat) (h : b &&& (2 ^ S - 1) = code) : b % 2 ^ S = code := by
  rw [← Nat.and_pow_two_sub_one_eq_mod]
  exact h

/-- C32. Encoder and decoder agree on the frame length: for every entry with a
16-bit channel, whatever its raw value and type, the frame of length L that
`PackNumericValueCommand` produces with the client parameters makes the host-side
`ProcessBinary`, in the Active state and given exactly those L bytes, return L,
and the frame produced with the server parameters makes the device-side
`ProcessBinary`, in the Active state, return L; in both cases L bytes are
written. -/
theorem C32_frame_length_agreement (v : NumericValue) (charSigned : Bool)
    (hc : v.channel < 65536) :
    (∀ s : OisDevice, s.m_connectionState = .Active →
      (s.ProcessBinary charSigned
        (PackNumericValueCommand v CL_PAYLOAD_SHIFT CL_VAL_1 CL_VAL_2 CL_VAL_3 CL_VAL_4).2).1 =
      ((PackNumericValueCommand v CL_PAYLOAD_SHIFT CL_VAL_1 CL_VAL_2 CL_VAL_3 CL_VAL_4).1 : Int)) ∧
    (∀ s : OisHost, s.m_connectionState = .Active →
      (s.ProcessBinary charSigned
        (PackNumericValueCommand v SV_PAYLOAD_SHIFT SV_VAL_1 SV_VAL_2 SV_VAL_3 SV_VAL_4).2).1 =
      ((PackNumericValueCommand v SV_PAYLOAD_SHIFT SV_VAL_1 SV_VAL_2 SV_VAL_3 SV_VAL_4).1 : Int)) ∧
    (PackNumericValueCommand v CL_PAYLOAD_SHIFT CL_VAL_1 CL_VAL_2 CL_VAL_3 CL_VAL_4).2.length =
      (PackNumericValueCommand v CL_PAYLOAD_SHIFT CL_VAL_1 CL_VAL_2 CL_VAL_3 CL_VAL_4).1 ∧
    (PackNumericValueCommand v SV_PAYLOAD_SHIFT SV_VAL_1 SV_VAL_2 SV_VAL_3 SV_VAL_4).2.length =
      (PackNumericValueCommand v SV_PAYLOAD_SHIFT SV_VAL_1 SV_VAL_2 SV_VAL_3 SV_VAL_4).1 := by
  have hcl := pack_layout v CL_PAYLOAD_SHIFT CL_VAL_1 CL_VAL_2 CL_VAL_3 CL_VAL_4
    (Or.inr rfl) (by decide) (by decide) (by decide) (by decide) hc
  have hsv := pack_layout v SV_PAYLOAD_SHIFT SV_VAL_1 SV_VAL_2 SV_VAL_3 SV_VAL_4
    (Or.inl rfl) (by decide) (by decide) (by decide) (by decide) hc
  refine ⟨fun s hs => ?_, fun s hs => ?_, ?_, ?_⟩
  · rcases hcl with ⟨hl, hb, hk⟩ | ⟨hl, hb, hk⟩ | ⟨hl, hb, hk⟩ | ⟨hl, hb, hk⟩
    all_goals
      have hm : _ % 16 = _ := code_of_masked _ _ 4 hk
      have v1 : CL_VAL_1 = 8 := rfl
      have v2 : CL_VAL_2 = 9 := rfl
      have v3 : CL_VAL_3 = 10 := rfl
      have v4 : CL_VAL_4 = 11 := rfl
      rw [hb, hl]
      rw [OisDevice.ProcessBinary_val_active s charSigned _ _ hs (by omega) (by omega)
        (by simp only [List.length_cons, List.length_nil]; omega)]
      rfl
  · rcases hsv with ⟨hl, hb, hk⟩ | ⟨hl, hb, hk⟩ | ⟨hl, hb, hk⟩ | ⟨hl, hb, hk⟩
    all_goals
      have hm : _ % 8 = _ := code_of_masked _ _ 3 hk
      have v1 : SV_VAL_1 = 1 := rfl
      have v2 : SV_VAL_2 = 2 := rfl
      have v3 : SV_VAL_3 = 3 := rfl
      have v4 : SV_VAL_4 = 4 := rfl
      rw [hb, hl]
      rw [OisHost.ProcessBinary_val_active_device s charSigned _ _ hs (by omega) (by omega)
        (by simp only [List.length_cons, List.length_nil]; omega)]
      rfl
  · rcases hcl with ⟨hl, hb, _⟩ | ⟨hl, hb, _⟩ | ⟨hl, hb, _⟩ | ⟨hl, hb, _⟩ <;>
      rw [hb, hl] <;> rfl
  · rcases hsv with ⟨hl, hb, _⟩ | ⟨hl, hb, _⟩ | ⟨hl, hb, _⟩ | ⟨hl, hb, _⟩ <;>
      rw [hb, hl] <;> rfl

/-- C32 at the entry Knob = 3 on channel 5: the client frame 0x38 0x05 at the
Active host endpoint and the server frame 0x19 0x05 at an Active device endpoint
are both consumed as 2 bytes. -/
theorem C32_frame_length_agreement_witness :
    (knob 3).channel < 65536 ∧
    hubBinary.m_connectionState = .Active ∧
    panelActive.m_connectionState = .Active ∧
    PackNumericValueCommand (knob 3) CL_PAYLOAD_SHIFT CL_VAL_1 CL_VAL_2 CL_VAL_3 CL_VAL_4 =
      (2, [0x38, 0x05]) ∧
    PackNumericValueCommand (knob 3) SV_PAYLOAD_SHIFT SV_VAL_1 SV_VAL_2 SV_VAL_3 SV_VAL_4 =
      (2, [0x19, 0x05]) ∧
    (hubBinary.ProcessBinary false
      (PackNumericValueCommand (knob 3) CL_PAYLOAD_SHIFT CL_VAL_1 CL_VAL_2 CL_VAL_3 CL_VAL_4).2).1 =
      ((PackNumericValueCommand (knob 3) CL_PAYLOAD_SHIFT CL_VAL_1 CL_VAL_2 CL_VAL_3
        CL_VAL_4).1 : Int) ∧
    (panelActive.ProcessBinary false
      (PackNumericValueCommand (knob 3) SV_PAYLOAD_SHIFT SV_VAL_1 SV_VAL_2 SV_VAL_3 SV_VAL_4).2).1 =
      ((PackNumericValueCommand (knob 3) SV_PAYLOAD_SHIFT SV_VAL_1 SV_VAL_2 SV_VAL_3
        SV_VAL_4).1 : Int) :=
  ⟨by decide, by decide, by decide, by decide, by decide,
    (C32_frame_length_agreement (knob 3) false (by decide)).1 hubBinary (by decide),
    (C32_frame_length_agreement (knob 3) false (by decide)).2.1 panelActive (by decide)⟩

end Ois

/-! ## The device endpoint stays in Handshaking -/

namespace Ois

namespace OisHost

theorem reset_idle (s : OisHost)
    (h : s.m_connectionState = .Handshaking ∧ s.m_binary = false) :
    (if s.m_connectionState ≠ .Handshaking then s.ClearState else s).m_connectionState =
        .Handshaking ∧
      (if s.m_connectionState ≠ .Handshaking then s.ClearState else s).m_binary = false := by
  split
  · exact ⟨rfl, rfl⟩
  · exact h

/-- In Handshaking the check for the Active state fails, resets the endpoint and
writes the line END. -/
theorem ExpectState_active_idle (s : OisHost) (cmd : List Nat) (v : Nat)
    (h : s.m_connectionState = .Handshaking) :
    s.ExpectState (stateBit .Active) cmd v =
      (false, (s.ClearState).SendText (bytes "END\n")) := by
  unfold ExpectState
  simp only [h]
  rfl

/-- A line that starts with a digit, received in Handshaking. -/
theorem ProcessAscii_keyval_idle (s : OisHost) (cmd : List Nat)
    (hd : isdigit (cmd.getD 0 0) = true) (h : s.m_connectionState = .Handshaking) :
    s.ProcessAscii cmd = (false, (s.ClearState).SendText (bytes "END\n")) := by
  have h0 : ¬ cmd.getD 0 0 = 0 := by
    intro e
    rw [e] at hd
    exact absurd hd (by decide)
  unfold ProcessAscii
  simp only []
  rw [if_neg h0, if_pos hd, ExpectState_active_idle s cmd 2 h]
  rfl

theorem ProcessAscii_idle (s : OisHost) (cmd : List Nat)
    (h : s.m_connectionState = .Handshaking ∧ s.m_binary = false) :
    (s.ProcessAscii cmd).2.m_connectionState = .Handshaking ∧
      (s.ProcessAscii cmd).2.m_binary = false := by
  by_cases hd : isdigit (cmd.getD 0 0) = true
  · rw [ProcessAscii_keyval_idle s cmd hd h.1]
    exact ⟨rfl, rfl⟩
  · unfold ProcessAscii
    simp only []
    by_cases h0 : cmd.getD 0 0 = 0
    · rw [if_pos h0]
      exact h
    · rw [if_neg h0, if_neg hd]
      generalize (if cmd.getD 1 0 ≠ 0 ∧ cmd.getD 2 0 ≠ 0 then OIS_FOURCC cmd else 0) = type
      by_cases ht : type = END
      · rw [if_pos ht]
        exact reset_idle s h
      · rw [if_neg ht]
        exact h

theorem ProcessBinary_idle (s : OisHost) (charSigned : Bool) (start : List Nat)
    (h : s.m_connectionState = .Handshaking ∧ s.m_binary = false) :
    (s.ProcessBinary charSigned start).2.m_connectionState = .Handshaking ∧
      (s.ProcessBinary charSigned start).2.m_binary = false := by
  unfold ProcessBinary
  by_cases h0 : start = []
  · rw [if_pos h0]
    exact h
  rw [if_neg h0]
  simp only []
  generalize charToU32 charSigned (start.getD 0 0) = p
  generalize p &&& SV_COMMAND_MASK = c
  unfold ProcessBinary_Switch
  simp only []
  generalize (if c = SV_END_ then 1
      else if c = SV_VAL_1 then 1 + 1
      else if c = SV_VAL_2 then 1 + 2
      else if c = SV_VAL_3 then 1 + 3
      else if c = SV_VAL_4 then 1 + 4
      else 1) = n
  by_cases hl : start.length < n
  · rw [if_pos hl]
    exact h
  rw [if_neg hl]
  by_cases hv : c = SV_VAL_1 ∨ c = SV_VAL_2 ∨ c = SV_VAL_3 ∨ c = SV_VAL_4
  · rw [if_pos hv, ExpectState_active_idle s _ 2 h.1]
    exact ⟨rfl, rfl⟩
  rw [if_neg hv]
  by_cases he : c = SV_END_
  · rw [if_pos he]
    exact reset_idle s h
  · rw [if_neg he]
    exact h

theorem asciiLoop_idle (rest : List Nat) : ∀ (s : OisHost) (line : List Nat),
    (s.m_connectionState = .Handshaking ∧ s.m_binary = false) →
    ((asciiLoop s line rest).1.m_connectionState = .Handshaking ∧
      (asciiLoop s line rest).1.m_binary = false) := by
  induction rest with
  | nil => intro s line h; exact h
  | cons c cs ih =>
    intro s line h
    unfold asciiLoop
    split
    · exact ih s _ h
    · exact ih _ _ (ProcessAscii_idle s line h)

theorem binaryLoop_idle (charSigned : Bool) (fuel : Nat) : ∀ (s : OisHost) (start : List Nat),
    (s.m_connectionState = .Handshaking ∧ s.m_binary = false) →
    ((binaryLoop charSigned fuel s start).1.m_connectionState = .Handshaking ∧
      (binaryLoop charSigned fuel s start).1.m_binary = false) := by
  induction fuel with
  | zero => intro s start h; exact h
  | succ fuel ih =>
    intro s start h
    have hp := ProcessBinary_idle s charSigned start h
    unfold binaryLoop
    split
    · exact h
    split
    · exact hp
    split
    · exact ⟨rfl, rfl⟩
    · exact ih _ _ hp

theorem ProcessCommands_End_idle (s : OisHost) (buffer rest : List Nat)
    (h : s.m_connectionState = .Handshaking ∧ s.m_binary = false) :
    (ProcessCommands_End s buffer rest).m_connectionState = .Handshaking ∧
      (ProcessCommands_End s buffer rest).m_binary = false := by
  unfold ProcessCommands_End
  split
  · exact ⟨rfl, rfl⟩
  · exact h

theorem ProcessCommands_idle (s : OisHost) (charSigned : Bool)
    (h : s.m_connectionState = .Handshaking ∧ s.m_binary = false) :
    (s.ProcessCommands charSigned).m_connectionState = .Handshaking ∧
      (s.ProcessCommands charSigned).m_binary = false := by
  unfold ProcessCommands
  simp only [h.2, Bool.false_eq_true, if_false]
  exact ProcessCommands_End_idle _ _ _ (asciiLoop_idle _ s [] h)

theorem pollLoop_idle (charSigned : Bool) (reads : List (List Nat)) : ∀ s : OisHost,
    (s.m_connectionState = .Handshaking ∧ s.m_binary = false) →
    ((pollLoop charSigned s reads).m_connectionState = .Handshaking ∧
      (pollLoop charSigned s reads).m_binary = false) := by
  induction reads with
  | nil => intro s h; exact h
  | cons data reads ih =>
    intro s h
    have hr : (s.ReadCommands data).2.m_connectionState = .Handshaking ∧
        (s.ReadCommands data).2.m_binary = false := by
      unfold ReadCommands
      simp only []
      split
      · exact h
      · exact h
    unfold pollLoop
    split
    · exact hr
    · exact ih _ (ProcessCommands_idle _ charSigned hr)

theorem ConnectAndPoll_idle (s : OisHost) (charSigned connected : Bool)
    (reads : List (List Nat))
    (h : s.m_connectionState = .Handshaking ∧ s.m_binary = false) :
    (s.ConnectAndPoll charSigned connected reads).m_connectionState = .Handshaking ∧
      (s.ConnectAndPoll charSigned connected reads).m_binary = false := by
  unfold ConnectAndPoll
  by_cases hc : (!connected) = true
  · rw [if_pos hc]
    exact reset_idle s h
  · rw [if_neg hc]
    exact pollLoop_idle charSigned reads s h

theorem SendValue_idle (s : OisHost) (v : NumericValue) (S V1 V2 V3 V4 : Nat) :
    (s.SendValue v S V1 V2 V3 V4).m_connectionState = s.m_connectionState ∧
      (s.SendValue v S V1 V2 V3 V4).m_binary = s.m_binary := by
  unfold SendValue
  split
  · exact ⟨rfl, rfl⟩
  · exact ⟨rfl, rfl⟩

theorem Poll_Event_idle (s : OisHost) (index : Nat) :
    (s.Poll_Event index).m_connectionState = s.m_connectionState ∧
      (s.Poll_Event index).m_binary = s.m_binary := by
  unfold Poll_Event
  split
  · split
    · exact ⟨rfl, rfl⟩
    · exact ⟨rfl, rfl⟩
  · exact ⟨rfl, rfl⟩

theorem foldl_idle (f : OisHost → Nat → OisHost)
    (hf : ∀ s i, (f s i).m_connectionState = s.m_connectionState ∧
      (f s i).m_binary = s.m_binary) (l : List Nat) : ∀ s : OisHost,
    (l.foldl f s).m_connectionState = s.m_connectionState ∧
      (l.foldl f s).m_binary = s.m_binary := by
  induction l with
  | nil => intro s; exact ⟨rfl, rfl⟩
  | cons i l ih =>
    intro s
    rw [List.foldl_cons]
    exact ⟨(ih _).1.trans (hf s i).1, (ih _).2.trans (hf s i).2⟩

theorem Poll_idle (s : OisHost) (charSigned connected : Bool) (reads : List (List Nat))
    (h : s.m_connectionState = .Handshaking ∧ s.m_binary = false) :
    (s.Poll charSigned connected reads).m_connectionState = .Handshaking ∧
      (s.Poll charSigned connected reads).m_binary = false := by
  have h1 := ConnectAndPoll_idle s charSigned connected reads h
  unfold Poll
  simp only []
  have h2 := foldl_idle
    (fun s index =>
      match s.m_numericOutputs[index]? with
      | some v => s.SendValue v CL_PAYLOAD_SHIFT CL_VAL_1 CL_VAL_2 CL_VAL_3 CL_VAL_4
      | none => s)
    (fun s i => by
      simp only []
      split
      · exact SendValue_idle s _ _ _ _ _ _
      · exact ⟨rfl, rfl⟩)
    (s.ConnectAndPoll charSigned connected reads).m_queuedOutputs
    (s.ConnectAndPoll charSigned connected reads)
  have h3 := foldl_idle Poll_Event Poll_Event_idle
  constructor
  · show OisHost.m_connectionState (List.foldl Poll_Event _ _) = _
    rw [(h3 _ _).1]
    exact h2.1.trans h1.1
  · show OisHost.m_binary (List.foldl Poll_Event _ _) = _
    rw [(h3 _ _).2]
    exact h2.2.trans h1.2

/-- Every reachable device endpoint is in Handshaking with ASCII framing. -/
theorem Reachable_idle (s : OisHost) (hr : Reachable s) :
    s.m_connectionState = .Handshaking ∧ s.m_binary = false := by
  induction hr with
  | init name pid vid => exact ⟨rfl, rfl⟩
  | ascii s cmd _ ih => exact ProcessAscii_idle s cmd ih
  | binary s cs start _ ih => exact ProcessBinary_idle s cs start ih
  | setOutput s output value _ ih => exact ih
  | poll s cs connected reads _ ih => exact Poll_idle s cs connected reads ih
  | queued s events _ ih => exact ih

/-- C33. The device-side endpoint never leaves Handshaking: in every state that
the parsers, `SetOutput` and `Poll` produce from a newly constructed `OisHost`,
the connection state is Handshaking and binary is false, so `Connecting()` and
`Connected()` are false; and every inbound line that starts with a digit fails
the check for the Active state: the result is false, every input keeps its
value, and the endpoint is reset and writes the line END. -/
theorem C33_device_side_stays_in_handshaking (s : OisHost) (hr : Reachable s) :
    s.m_connectionState = .Handshaking ∧ s.m_binary = false ∧
    s.Connecting = false ∧ s.Connected = false ∧
    (∀ cmd : List Nat, isdigit (cmd.getD 0 0) = true →
      (s.ProcessAscii cmd).1 = false ∧
      (s.ProcessAscii cmd).2.m_numericInputs = s.m_numericInputs ∧
      (s.ProcessAscii cmd).2.m_port = s.m_port ++ [PortOp.Write (bytes "END\n")] ∧
      s.ProcessAscii cmd = (false, (s.ClearState).SendText (bytes "END\n"))) := by
  have h := Reachable_idle s hr
  refine ⟨h.1, h.2, ?_, ?_, ?_⟩
  · unfold Connecting
    rw [h.1]
    rfl
  · unfold Connected
    rw [h.1]
    rfl
  · intro cmd hd
    have e := ProcessAscii_keyval_idle s cmd hd h.1
    rw [e]
    exact ⟨rfl, rfl, rfl, rfl⟩

/-- C33 at the endpoint that has polled the line `5=3`: it is in Handshaking, has
written the line END, and answers the next line `5=4` in the same way. -/
theorem C33_device_side_stays_in_handshaking_witness :
    Reachable (panelStart.Poll false true [bytes "5=3\n"]) ∧
    (panelStart.Poll false true [bytes "5=3\n"]).m_connectionState = .Handshaking ∧
    (panelStart.Poll false true [bytes "5=3\n"]).m_binary = false ∧
    (panelStart.Poll false true [bytes "5=3\n"]).m_port = [PortOp.Write (bytes "END\n")] ∧
    ((panelStart.Poll false true [bytes "5=3\n"]).ProcessAscii (bytes "5=4")).1 = false ∧
    ((panelStart.Poll false true [bytes "5=3\n"]).ProcessAscii (bytes "5=4")).2.m_port =
      (panelStart.Poll false true [bytes "5=3\n"]).m_port ++ [PortOp.Write (bytes "END\n")] :=
  have hr : Reachable (panelStart.Poll false true [bytes "5=3\n"]) :=
    Reachable.poll _ _ _ _ (Reachable.init _ _ _)
  have h := C33_device_side_stays_in_handshaking _ hr
  ⟨hr, h.1, h.2.1, by decide, (h.2.2.2.2 (bytes "5=4") (by decide)).1,
    (h.2.2.2.2 (bytes "5=4") (by decide)).2.2.1⟩

end OisHost

end Ois

/-! ## The byte E on the device side -/

namespace Ois

namespace OisHost

end OisHost

end Ois

/-! ## Handshaking and the event buffer of the host endpoint -/

namespace Ois

namespace OisDevice

/-- C34. Handshaking means a blank endpoint: in every state of the host endpoint
reachable from a newly constructed one by inbound ASCII lines, binary frames,
`SetInput` and `PopEvents` (and by resets and transport activity), if the
connection state is Handshaking then the inputs, outputs and events catalogs
and the received-event buffer are empty, binary is false and the protocol
version is 1. -/
theorem C34_handshaking_is_blank (s : OisDevice) (hr : Reachable s)
    (hs : s.m_connectionState = .Handshaking) :
    s.m_numericInputs = [] ∧ s.m_numericOutputs = [] ∧ s.m_events = [] ∧
    s.m_eventBuffer = [] ∧ s.m_binary = false ∧ s.m_protocolVersion = 1 := by
  have h := Reachable_blank s hr hs
  exact ⟨h.2.2.1, h.2.2.2.1, h.2.2.2.2.1, h.2.2.2.2.2, h.1, h.2.1⟩

/-- C34 at the endpoint that held a catalog of three entries and then received
the line `END`: it is back in Handshaking with everything cleared. -/
theorem C34_handshaking_is_blank_witness :
    Reachable (hubCatalog.ProcessAscii (bytes "END")).2 ∧
    hubCatalog.m_events = [{ channel := 7, name := bytes "Fire" }] ∧
    (hubCatalog.ProcessAscii (bytes "END")).2.m_connectionState = .Handshaking ∧
    ((hubCatalog.ProcessAscii (bytes "END")).2.m_numericInputs = [] ∧
      (hubCatalog.ProcessAscii (bytes "END")).2.m_numericOutputs = [] ∧
      (hubCatalog.ProcessAscii (bytes "END")).2.m_events = [] ∧
      (hubCatalog.ProcessAscii (bytes "END")).2.m_eventBuffer = [] ∧
      (hubCatalog.ProcessAscii (bytes "END")).2.m_binary = false ∧
      (hubCatalog.ProcessAscii (bytes "END")).2.m_protocolVersion = 1) :=
  have hr : Reachable (hubCatalog.ProcessAscii (bytes "END")).2 :=
    Reachable.ascii _ _ (Reachable.ascii _ _ (Reachable.ascii _ _ (Reachable.ascii _ _
      (Reachable.ascii _ _ (Reachable.init _ _ _ _)))))
  ⟨hr, by decide, by decide, C34_handshaking_is_blank _ hr (by decide)⟩

/-- C35. Buffered events are always declared: in every reachable state of the
host endpoint every channel in the received-event buffer is the channel of an
entry of the events catalog, `FindChannel` succeeds for each of them, and so
`PopEvents` calls `fn` once for each buffered entry, in order. -/
theorem C35_buffered_events_declared (s : OisDevice) (hr : Reachable s) :
    (∀ c ∈ s.m_eventBuffer, ∃ e ∈ s.m_events, e.channel = c) ∧
    (∀ c ∈ s.m_eventBuffer, ∃ i, FindChannel s.m_events (c : Int) = some i) ∧
    (PopEventsCalls s.m_events s.m_eventBuffer).map Event.channel = s.m_eventBuffer ∧
    s.PopEvents.2.1.length = s.m_eventBuffer.length := by
  have hd := (Reachable_declared s hr).2
  have hcalls : (PopEventsCalls s.m_events s.m_eventBuffer).map Event.channel =
      s.m_eventBuffer := by
    rw [PopEventsCalls_eq]
    exact declared_calls _ _ hd
  refine ⟨hd, fun c hc => ?_, hcalls, ?_⟩
  · obtain ⟨e, he, hec⟩ := hd c hc
    refine FindChannel_isSome _ _ ⟨e, he, ?_⟩
    show ((e.channel : Nat) : Int) = (c : Int)
    rw [hec]
  · unfold PopEvents
    split
    · rename_i he
      have : s.m_eventBuffer = [] := by simpa using he
      rw [this]
      rfl
    · show (PopEventsCalls s.m_events s.m_eventBuffer).length = _
      rw [← List.length_map (PopEventsCalls s.m_events s.m_eventBuffer) Event.channel, hcalls]

/-- C35 at the Active endpoint that has received the line `EXC=7`: the buffer
holds the channel 7 of the declared event Fire, and `PopEvents` reports it. -/
theorem C35_buffered_events_declared_witness :
    Reachable (hubActive.ProcessAscii (bytes "EXC=7")).2 ∧
    (hubActive.ProcessAscii (bytes "EXC=7")).2.m_eventBuffer = [7] ∧
    (hubActive.ProcessAscii (bytes "EXC=7")).2.PopEvents.2.1 =
      [{ channel := 7, name := bytes "Fire" }] ∧
    (hubActive.ProcessAscii (bytes "EXC=7")).2.PopEvents.2.1.length =
      (hubActive.ProcessAscii (bytes "EXC=7")).2.m_eventBuffer.length :=
  have hr : Reachable (hubActive.ProcessAscii (bytes "EXC=7")).2 :=
    Reachable.ascii _ _ (Reachable.ascii _ _ (Reachable.ascii _ _ (Reachable.ascii _ _
      (Reachable.ascii _ _ (Reachable.ascii _ _ (Reachable.init _ _ _ _))))))
  ⟨hr, by decide, by decide, (C35_buffered_events_declared _ hr).2.2.2⟩

end OisDevice

end Ois

/-! ## Progress of the binary loop -/

namespace Ois

namespace OisBase

theorem binaryCalls_le {σ : Type} (pb : σ → List Nat → Int × σ) (fuel : Nat) :
    ∀ (s : σ) (start : List Nat), binaryCalls pb fuel s start ≤ start.length := by
  induction fuel with
  | zero => intro s start; exact Nat.zero_le _
  | succ fuel ih =>
    intro s start
    unfold binaryCalls
    by_cases h0 : start = []
    · rw [if_pos h0]
      exact Nat.zero_le _
    have hpos : 0 < start.length := List.length_pos.mpr h0
    rw [if_neg h0]
    by_cases hz : (pb s start).1 = 0
    · rw [if_pos hz]
      exact hpos
    rw [if_neg hz]
    by_cases hn : (pb s start).1 < 0
    · rw [if_pos hn]
      exact hpos
    rw [if_neg hn]
    have h1 := OisDevice.drop_length_lt start _ h0 hz hn
    have h2 := ih (pb s start).2 (start.drop (pb s start).1.toNat)
    omega

theorem binaryOffset_le {σ : Type} (pb : σ → List Nat → Int × σ)
    (hb : ∀ s start, (pb s start).1 ≤ (start.length : Int)) (fuel : Nat) :
    ∀ (s : σ) (start : List Nat), binaryOffset pb fuel s start ≤ start.length := by
  induction fuel with
  | zero => intro s start; exact Nat.zero_le _
  | succ fuel ih =>
    intro s start
    unfold binaryOffset
    by_cases h0 : start = []
    · rw [if_pos h0]
      exact Nat.zero_le _
    rw [if_neg h0]
    by_cases hz : (pb s start).1 = 0
    · rw [if_pos hz]
      exact Nat.zero_le _
    rw [if_neg hz]
    by_cases hn : (pb s start).1 < 0
    · rw [if_pos hn]
      exact Nat.zero_le _
    rw [if_neg hn]
    have h1 := hb s start
    have h2 := ih (pb s start).2 (start.drop (pb s start).1.toNat)
    rw [List.length_drop] at h2
    omega

end OisBase

namespace OisDevice

/-- The bytes left by `binaryLoop` are the bytes behind the offset reached. -/
theorem binaryLoop_offset (charSigned : Bool) (fuel : Nat) :
    ∀ (s : OisDevice) (start rest : List Nat),
    (binaryLoop charSigned fuel s start).2 = some rest →
    rest = start.drop
      (OisBase.binaryOffset (fun t b => t.ProcessBinary charSigned b) fuel s start) := by
  induction fuel with
  | zero =>
    intro s start rest h
    simp only [binaryLoop, Option.some.injEq] at h
    rw [← h]
    rfl
  | succ fuel ih =>
    intro s start rest
    unfold binaryLoop OisBase.binaryOffset
    by_cases h0 : start = []
    · rw [if_pos h0, if_pos h0]
      intro h
      simp only [Option.some.injEq] at h
      rw [← h]
      rfl
    rw [if_neg h0, if_neg h0]
    by_cases hz : (s.ProcessBinary charSigned start).1 = 0
    · rw [if_pos hz, if_pos hz]
      intro h
      simp only [Option.some.injEq] at h
      rw [← h]
      rfl
    rw [if_neg hz, if_neg hz]
    by_cases hn : (s.ProcessBinary charSigned start).1 < 0
    · rw [if_pos hn, if_pos hn]
      intro h
      exact absurd h (by simp)
    rw [if_neg hn, if_neg hn]
    intro h
    rw [ih _ _ _ h, List.drop_drop, Nat.add_comm]

/-- The result of the host-side decoder: -1, 0, or a positive number of bytes
that the buffer holds. -/
theorem ProcessBinary_bounds (s : OisDevice) (charSigned : Bool) (start : List Nat) :
    (s.ProcessBinary charSigned start).1 = -1 ∨ (s.ProcessBinary charSigned start).1 = 0 ∨
    (1 ≤ (s.ProcessBinary charSigned start).1 ∧
      (s.ProcessBinary charSigned start).1 ≤ (start.length : Int)) := by
  cases start with
  | nil =>
    right; left
    unfold ProcessBinary
    rw [if_pos rfl]
  | cons b rest =>
    rcases ProcessBinary_cases s charSigned b rest with h | ⟨h, _⟩ | ⟨n, h1, h2, h⟩
    · right; left
      rw [h]
    · left
      rw [h]
    · rw [h]
      rcases ProcessBinary_Switch_result s (charToU32 charSigned b) (b % 16) (b :: rest) n
        with e | e
      · right; right
        rw [e]
        omega
      · right; left
        exact e.1

end OisDevice

namespace OisHost

/-- The result of the device-side decoder: 0, or a positive number of bytes that
the buffer holds. -/
theorem ProcessBinary_bounds_device (s : OisHost) (charSigned : Bool) (start : List Nat) :
    (s.ProcessBinary charSigned start).1 = 0 ∨
    (1 ≤ (s.ProcessBinary charSigned start).1 ∧
      (s.ProcessBinary charSigned start).1 ≤ (start.length : Int)) := by
  unfold ProcessBinary
  by_cases h0 : start = []
  · rw [if_pos h0]
    exact Or.inl rfl
  rw [if_neg h0]
  simp only []
  generalize charToU32 charSigned (start.getD 0 0) = p
  generalize p &&& SV_COMMAND_MASK = c
  unfold ProcessBinary_Switch
  simp only []
  obtain ⟨n, hn⟩ : ∃ n, n = (if c = SV_END_ then 1
      else if c = SV_VAL_1 then 1 + 1
      else if c = SV_VAL_2 then 1 + 2
      else if c = SV_VAL_3 then 1 + 3
      else if c = SV_VAL_4 then 1 + 4
      else 1) := ⟨_, rfl⟩
  have hpos : 1 ≤ n := by
    rw [hn]
    repeat' split
    all_goals omega
  rw [← hn]
  by_cases hl : start.length < n
  · rw [if_pos hl]
    exact Or.inl rfl
  rw [if_neg hl]
  have hgood : (1 : Int) ≤ (n : Int) ∧ (n : Int) ≤ (start.length : Int) := by omega
  by_cases hv : c = SV_VAL_1 ∨ c = SV_VAL_2 ∨ c = SV_VAL_3 ∨ c = SV_VAL_4
  · rw [if_pos hv]
    split
    · exact Or.inl rfl
    · split
      · exact Or.inr hgood
      · exact Or.inr hgood
  rw [if_neg hv]
  by_cases he : c = SV_END_
  · rw [if_pos he]
    exact Or.inr hgood
  · rw [if_neg he]
    exact Or.inr hgood

theorem binaryLoop_fuel_device (charSigned : Bool) (f1 f2 : Nat) (s : OisHost) (start : List Nat)
    (h1 : start.length ≤ f1) (h2 : start.length ≤ f2) :
    binaryLoop charSigned f1 s start = binaryLoop charSigned f2 s start := by
  induction f1 generalizing f2 s start with
  | zero =>
    have e : start = [] := List.length_eq_zero.mp (by omega)
    subst e
    cases f2 with
    | zero => rfl
    | succ f2 => simp [binaryLoop]
  | succ f1 ih =>
    cases f2 with
    | zero =>
      have e : start = [] := List.length_eq_zero.mp (by omega)
      subst e
      simp [binaryLoop]
    | succ f2 =>
      unfold binaryLoop
      by_cases h0 : start = []
      · rw [if_pos h0, if_pos h0]
      rw [if_neg h0, if_neg h0]
      by_cases hz : (s.ProcessBinary charSigned start).1 = 0
      · rw [if_pos hz, if_pos hz]
      rw [if_neg hz, if_neg hz]
      by_cases hn : (s.ProcessBinary charSigned start).1 < 0
      · rw [if_pos hn, if_pos hn]
      rw [if_neg hn, if_neg hn]
      have := OisDevice.drop_length_lt start _ h0 hz hn
      exact ih f2 _ _ (by omega) (by omega)

/-- The bytes left by `binaryLoop` are the bytes behind the offset reached. -/
theorem binaryLoop_offset_device (charSigned : Bool) (fuel : Nat) :
    ∀ (s : OisHost) (start rest : List Nat),
    (binaryLoop charSigned fuel s start).2 = some rest →
    rest = start.drop
      (OisBase.binaryOffset (fun t b => t.ProcessBinary charSigned b) fuel s start) := by
  induction fuel with
  | zero =>
    intro s start rest h
    simp only [binaryLoop, Option.some.injEq] at h
    rw [← h]
    rfl
  | succ fuel ih =>
    intro s start rest
    unfold binaryLoop OisBase.binaryOffset
    by_cases h0 : start = []
    · rw [if_pos h0, if_pos h0]
      intro h
      simp only [Option.some.injEq] at h
      rw [← h]
      rfl
    rw [if_neg h0, if_neg h0]
    by_cases hz : (s.ProcessBinary charSigned start).1 = 0
    · rw [if_pos hz, if_pos hz]
      intro h
      simp only [Option.some.injEq] at h
      rw [← h]
      rfl
    rw [if_neg hz, if_neg hz]
    by_cases hn : (s.ProcessBinary charSigned start).1 < 0
    · rw [if_pos hn, if_pos hn]
      intro h
      exact absurd h (by simp)
    rw [if_neg hn, if_neg hn]
    intro h
    rw [ih _ _ _ h, List.drop_drop, Nat.add_comm]

end OisHost

end Ois

namespace Ois

/-- C36. The binary parse loop makes progress and stays in bounds: for every
endpoint state and every buffer of n bytes, the result of the host-side
`ProcessBinary` is -1, 0 or between 1 and n, and the result of the device-side
`ProcessBinary` is 0 or between 1 and n; so the loop of `ProcessCommands` makes at
most n iterations however many it is allowed, running it for n iterations gives
the result of every longer run, the pointer `start` never passes `end` (the
offset reached is at most n), and the bytes kept are those behind that offset. -/
theorem C36_binary_loop_progress :
    (∀ (s : OisDevice) (charSigned : Bool) (start : List Nat),
      ((s.ProcessBinary charSigned start).1 = -1 ∨ (s.ProcessBinary charSigned start).1 = 0 ∨
        (1 ≤ (s.ProcessBinary charSigned start).1 ∧
          (s.ProcessBinary charSigned start).1 ≤ (start.length : Int))) ∧
      (∀ fuel, OisBase.binaryCalls (fun t b => t.ProcessBinary charSigned b) fuel s start ≤
        start.length) ∧
      (∀ fuel, start.length ≤ fuel →
        OisDevice.binaryLoop charSigned fuel s start =
          OisDevice.binaryLoop charSigned start.length s start) ∧
      (∀ fuel, OisBase.binaryOffset (fun t b => t.ProcessBinary charSigned b) fuel s start ≤
        start.length) ∧
      (∀ fuel rest, (OisDevice.binaryLoop charSigned fuel s start).2 = some rest →
        rest = start.drop
          (OisBase.binaryOffset (fun t b => t.ProcessBinary charSigned b) fuel s start))) ∧
    (∀ (s : OisHost) (charSigned : Bool) (start : List Nat),
      ((s.ProcessBinary charSigned start).1 = 0 ∨
        (1 ≤ (s.ProcessBinary charSigned start).1 ∧
          (s.ProcessBinary charSigned start).1 ≤ (start.length : Int))) ∧
      (∀ fuel, OisBase.binaryCalls (fun t b => t.ProcessBinary charSigned b) fuel s start ≤
        start.length) ∧
      (∀ fuel, start.length ≤ fuel →
        OisHost.binaryLoop charSigned fuel s start =
          OisHost.binaryLoop charSigned start.length s start) ∧
      (∀ fuel, OisBase.binaryOffset (fun t b => t.ProcessBinary charSigned b) fuel s start ≤
        start.length) ∧
      (∀ fuel rest, (OisHost.binaryLoop charSigned fuel s start).2 = some rest →
        rest = start.drop
          (OisBase.binaryOffset (fun t b => t.ProcessBinary charSigned b) fuel s start))) ∧
    OisBase.binaryCalls (fun t b => OisDevice.ProcessBinary t false b) 9 hubBinary
      [0xF0, 0x38, 0x05] = 2 ∧
    OisBase.binaryOffset (fun t b => OisDevice.ProcessBinary t false b) 9 hubBinary
      [0xF0, 0x38, 0x05] = 3 ∧
    OisBase.binaryCalls (fun t b => OisHost.ProcessBinary t false b) 9 panelStart
      [0x45, 0x19, 0x05] = 2 ∧
    OisBase.binaryOffset (fun t b => OisHost.ProcessBinary t false b) 9 panelStart
      [0x45, 0x19, 0x05] = 1 := by
  refine ⟨fun s charSigned start => ⟨OisDevice.ProcessBinary_bounds s charSigned start,
      fun fuel => OisBase.binaryCalls_le _ fuel s start,
      fun fuel hf => OisDevice.binaryLoop_fuel charSigned _ _ s start hf (Nat.le_refl _),
      fun fuel => OisBase.binaryOffset_le _ ?_ fuel s start,
      fun fuel rest => OisDevice.binaryLoop_offset charSigned fuel s start rest⟩,
    fun s charSigned start => ⟨OisHost.ProcessBinary_bounds_device s charSigned start,
      fun fuel => OisBase.binaryCalls_le _ fuel s start,
      fun fuel hf => OisHost.binaryLoop_fuel_device charSigned _ _ s start hf (Nat.le_refl _),
      fun fuel => OisBase.binaryOffset_le _ ?_ fuel s start,
      fun fuel rest => OisHost.binaryLoop_offset_device charSigned fuel s start rest⟩,
    ?_, ?_, ?_, ?_⟩
  · intro t b
    rcases OisDevice.ProcessBinary_bounds t charSigned b with h | h | h
    · show (t.ProcessBinary charSigned b).1 ≤ _
      omega
    · show (t.ProcessBinary charSigned b).1 ≤ _
      omega
    · exact h.2
  · intro t b
    rcases OisHost.ProcessBinary_bounds_device t charSigned b with h | h
    · show (t.ProcessBinary charSigned b).1 ≤ _
      omega
    · exact h.2
  all_goals decide

end Ois
